import Mathlib

/-!
# Tile traversal of the VTS browser: a shallow embedding

The definitions below embed the traversal code of the browser library.  Two generations of the
code are present in the sources and are kept apart by namespaces:

* `Vts.Renderer`  : `vts-browser-lib/renderer.cpp` (queue driven `traverse`, `checkMetaNode`);
* `Vts.Traversal` : `vts-libbrowser/rendererTraversal.cpp` (`travMode*`, `travDetermine*`);
* `Vts` itself    : what both share, and `vts-libbrowser/mapDraws.cpp`.

Doubles are embedded as exact rationals.
-/

namespace Vts

/-! ## Shared data model -/

/-- Tri-valued readiness, `vts::Validity`. -/
inductive Validity where
  | Indeterminate
  | Invalid
  | Valid
  deriving DecidableEq, Repr

/-- Three dimensional vector of doubles, `vec3`. -/
structure Vec3 where
  x : ℚ
  y : ℚ
  z : ℚ
  deriving DecidableEq

/-- Four dimensional vector of doubles, `vec4`. -/
structure Vec4 where
  x : ℚ
  y : ℚ
  z : ℚ
  w : ℚ
  deriving DecidableEq

/-- Component access `v(i)` of a `vec3`. -/
def Vec3.get (v : Vec3) (i : Nat) : ℚ :=
  if i = 0 then v.x else if i = 1 then v.y else v.z

/-- Component access `p[i]` of a `vec4`. -/
def Vec4.get (p : Vec4) (i : Nat) : ℚ :=
  if i = 0 then p.x else if i = 1 then p.y else if i = 2 then p.z else p.w

/-- The helper `vec4to3(p)`: the first three components. -/
def vec4to3 (p : Vec4) : Vec3 := ⟨p.x, p.y, p.z⟩

/-- Scalar product `dot(a, b)` of two `vec3`. -/
def dot (a b : Vec3) : ℚ := a.x * b.x + a.y * b.y + a.z * b.z

/-- Difference `a - b` of two `vec3`. -/
def Vec3.sub (a b : Vec3) : Vec3 := ⟨a.x - b.x, a.y - b.y, a.z - b.z⟩

/-- The helper `lowerUpperCombine(i)`: bit `k` of `i` as the `k`-th component. -/
def lowerUpperCombine (i : Nat) : Vec3 :=
  ⟨((i >>> 0) % 2 : Nat), ((i >>> 1) % 2 : Nat), ((i >>> 2) % 2 : Nat)⟩

/-- A two element array `vec3 aabbPhys[2]`, indexed by `0` (lower) and `1` (upper). -/
structure Aabb where
  lo : Vec3
  hi : Vec3
  deriving DecidableEq

/-- Indexing `aabbPhys[b]` with a boolean index, as in `aabbPhys[!!(p[0] > 0)]`. -/
def Aabb.index (a : Aabb) (b : Bool) : Vec3 := if b then a.hi else a.lo

/-- The member `vec3 aabbPhys[2]` of a node: the box of all points, whose corners are
`(-inf, -inf, -inf)` and `(+inf, +inf, +inf)`, or a box with finite corners. -/
inductive NodeBox where
  | universe
  | finite (box : Aabb)
  deriving DecidableEq

/-- Modelled from the spec: the box the constructors of `TraverseNode` (rendererTraversal.cpp)
and of `TraverseNode::MetaInfo` (renderer.cpp), which are outside these sources, give a new
node.  "For every live `TraverseNode`, `aabbPhys[0] ≤ c ≤ aabbPhys[1]` component-wise for all
`c ∈ cornersPhys`": it is the box of all points, the one that holds whatever the corners
become while the box is not written. -/
def NodeBox.init : NodeBox := NodeBox.universe

namespace Renderer

/-- One round of the loop of `MapImpl::visibilityTest`: the p-vertex of plane `p` is not
behind the plane (the loop body does not `return false`). -/
def planeAccepts (p : Vec4) (aabbPhys : Aabb) : Bool :=
  let pv : Vec3 :=
    ⟨(aabbPhys.index (decide (p.get 0 > 0))).get 0,
     (aabbPhys.index (decide (p.get 1 > 0))).get 1,
     (aabbPhys.index (decide (p.get 2 > 0))).get 2⟩
  let d := dot (vec4to3 p) pv
  !(decide (d < -(p.get 3)))

/-- The function `MapImpl::visibilityTest` (renderer.cpp): the loop over the six frustum
planes returns `false` at the first plane whose p-vertex lies behind it. -/
def visibilityTest (frustumPlanes : Fin 6 → Vec4) (aabbPhys : Aabb) : Bool :=
  (List.finRange 6).all (fun i => planeAccepts (frustumPlanes i) aabbPhys)

/-- The function `MapImpl::visibilityTest` on the box of a node.  On the box of all points no
plane rejects: each product `p[k] * pv[k]` is `+inf`, or NaN for `p[k] = 0`, so `d` is `+inf`
or NaN and `d < -p[3]` is false. -/
def boxVisible (frustumPlanes : Fin 6 → Vec4) : NodeBox → Bool
  | NodeBox.universe => true
  | NodeBox.finite aabbPhys => visibilityTest frustumPlanes aabbPhys

end Renderer

/-! ## Geometry of the box test -/

/-- Signed distance `n.c + d` of the point `c` to the plane `p = (n, d)`. -/
def signedDistance (p : Vec4) (c : Vec3) : ℚ := dot (vec4to3 p) c + p.w

/-- Corner `i` (of eight) of the box: component `k` is the upper bound when bit `k` of `i`
is set, as `lowerUpperCombine(i).cwiseProduct(hi - lo) + lo`. -/
def Aabb.corner (a : Aabb) (i : Nat) : Vec3 :=
  ⟨(lowerUpperCombine i).x * (a.hi.x - a.lo.x) + a.lo.x,
   (lowerUpperCombine i).y * (a.hi.y - a.lo.y) + a.lo.y,
   (lowerUpperCombine i).z * (a.hi.z - a.lo.z) + a.lo.z⟩

/-- The point `q` lies in the box, component-wise. -/
def Aabb.Contains (a : Aabb) (q : Vec3) : Prop :=
  a.lo.x ≤ q.x ∧ q.x ≤ a.hi.x ∧ a.lo.y ≤ q.y ∧ q.y ≤ a.hi.y ∧ a.lo.z ≤ q.z ∧ q.z ≤ a.hi.z

/-- The point `q` lies in the box of a node: `aabbPhys[0] <= q <= aabbPhys[1]`
component-wise. -/
def NodeBox.Contains : NodeBox → Vec3 → Prop
  | NodeBox.universe, _ => True
  | NodeBox.finite a, q => a.Contains q

/-- The box is well formed: `aabbPhys[0] <= aabbPhys[1]` component-wise. -/
def Aabb.Ordered (a : Aabb) : Prop :=
  a.lo.x ≤ a.hi.x ∧ a.lo.y ≤ a.hi.y ∧ a.lo.z ≤ a.hi.z

/-- Index (of eight) of the p-vertex of plane `p`: bit `k` is set when `p[k] > 0`. -/
def pVertexIndex (p : Vec4) : Nat :=
  (if p.x > 0 then 1 else 0) + (if p.y > 0 then 2 else 0) + (if p.z > 0 then 4 else 0)

/-- The p-vertex the code assembles for plane `p`. -/
def pVertex (p : Vec4) (a : Aabb) : Vec3 :=
  ⟨if p.x > 0 then a.hi.x else a.lo.x, if p.y > 0 then a.hi.y else a.lo.y,
   if p.z > 0 then a.hi.z else a.lo.z⟩

/-- Unit cube `[0,1]^3`, a sample box. -/
def sampleBox : Aabb := ⟨⟨0, 0, 0⟩, ⟨1, 1, 1⟩⟩

/-- Six sample planes `x >= -1`, all equal. -/
def samplePlanes : Fin 6 → Vec4 := fun _ => ⟨1, 0, 0, 1⟩

/-! ## Tiles, resources and bound layers -/

/-- Tile identifier `TileId(lod, x, y)`; `lod` is 8 bits wide and `x`, `y` 32 bits in the code. -/
structure TileId where
  lod : Nat
  x : Nat
  y : Nat
  deriving DecidableEq, Repr

/-- Priority of a node or resource: a double, with `⊤` for `+infinity`. -/
abbrev Priority := WithTop ℚ

/-- Identifier of an attribution, `vtslibs::registry::CreditId`. -/
abbrev CreditId := Nat

/-- The part of `NodeInfo` (a vts-libs type) that the traversal reads. -/
structure NodeInfo where
  nodeId : TileId
  srs : String
  extentsLl : ℚ × ℚ
  extentsUr : ℚ × ℚ
  distanceFromRoot : Nat
  deriving DecidableEq

/-- Life cycle of a resource, `Resource::State`.  The enumeration is declared outside these
sources: six states are the case labels of `testAndThrow`, and `errorFatal` is the seventh of
the set "Initializing, Downloading, Downloaded, Finalizing, Ready, ErrorRetry, ErrorFatal". -/
inductive ResourceState where
  | initializing
  | downloading
  | downloaded
  | finalizing
  | ready
  | errorRetry
  | errorFatal
  deriving DecidableEq, Repr

/-- A handle to a cached resource (`std::shared_ptr<Resource>`), with the state the render
thread reads through it. -/
structure Resource where
  name : String
  state : ResourceState
  deriving DecidableEq, Repr

/-- Modelled from the spec: `Resource::operator bool`, declared outside these sources; a
resource is usable exactly in state `ready` ("Valid iff state == Ready"). -/
def Resource.toBool (r : Resource) : Bool := decide (r.state = ResourceState.ready)

/-- Modelled from the spec: `getResourceValidity`, defined outside these sources: "Valid iff
state == Ready; Invalid iff ErrorFatal; otherwise Indeterminate". -/
def getResourceValidity (r : Resource) : Validity :=
  match r.state with
  | ResourceState.ready => Validity.Valid
  | ResourceState.errorFatal => Validity.Invalid
  | _ => Validity.Indeterminate

/-- Bound layer parameters of one submesh, `BoundParamInfo`: the fields the traversal reads
after `prepare`. -/
structure BoundParamInfo where
  id : String
  alpha : Option ℚ
  watertight : Bool
  transparent : Bool
  credits : List CreditId
  textureColor : Option Resource
  textureMask : Option Resource
  deriving DecidableEq

/-- The method `BoundParamInfo::prepare` is defined outside these sources; it is a parameter:
for the node, submesh and priority it yields the validity and the updated layer. -/
abbrev Prepare := NodeInfo → Nat → Priority → BoundParamInfo → Validity × BoundParamInfo

/-- The first loop of `reorderBoundLayers` ("prepare all layers"): an `Invalid` layer is
erased, an `Indeterminate` one clears `determined` and is kept, a `Valid` one is kept. -/
def prepareAllLayers (prep : BoundParamInfo → Validity × BoundParamInfo) :
    List BoundParamInfo → Bool → Bool × List BoundParamInfo
  | [], determined => (determined, [])
  | b :: rest, determined =>
    match prep b with
    | (Validity.Invalid, _) => prepareAllLayers prep rest determined
    | (Validity.Indeterminate, b') =>
      let r := prepareAllLayers prep rest false
      (r.1, b' :: r.2)
    | (Validity.Valid, b') =>
      let r := prepareAllLayers prep rest determined
      (r.1, b' :: r.2)

/-- The second part of `reorderBoundLayers` ("skip overlapping layers"): reverse, advance `it`
while the layer is not watertight or is transparent, erase everything after `it` when one was
found, reverse again. -/
def skipOverlappingLayers (boundList : List BoundParamInfo) : List BoundParamInfo :=
  let r := boundList.reverse
  let it := (r.takeWhile (fun b => !b.watertight || b.transparent)).length
  let r' := if it ≠ r.length then r.take (it + 1) else r
  r'.reverse

/-- The function `MapImpl::reorderBoundLayers`; the list is passed by reference and comes back
as second component. -/
def reorderBoundLayers (prepare : Prepare) (nodeInfo : NodeInfo) (subMeshIndex : Nat)
    (boundList : List BoundParamInfo) (priority : Priority) :
    Validity × List BoundParamInfo :=
  let r := prepareAllLayers (prepare nodeInfo subMeshIndex priority) boundList true
  if !r.1 then (Validity.Indeterminate, r.2)
  else (Validity.Valid, skipOverlappingLayers r.2)

/-- A layer that hides what lies below it: watertight and not transparent. -/
def BoundParamInfo.opaqueWatertight (b : BoundParamInfo) : Bool :=
  b.watertight && !b.transparent

/-- The input list after `prepare`, with the `Invalid` layers removed. -/
def preparedLayers (prep : BoundParamInfo → Validity × BoundParamInfo)
    (boundList : List BoundParamInfo) : List BoundParamInfo :=
  ((boundList.map prep).filter (fun r => decide (r.1 ≠ Validity.Invalid))).map Prod.snd

/-- A sample tile and node. -/
def sampleNodeInfo : NodeInfo := ⟨⟨3, 5, 2⟩, "srs", (0, 0), (1, 1), 3⟩

/-- A sample `prepare` under which every layer is `Valid` and unchanged. -/
def samplePrepare : Prepare := fun _ _ _ b => (Validity.Valid, b)

/-- Sample stack, bottom first: opaque, transparent, opaque, masked. -/
def sampleLayers : List BoundParamInfo :=
  [⟨"a", none, true, false, [], none, none⟩, ⟨"b", none, true, true, [], none, none⟩,
   ⟨"c", none, true, false, [], none, none⟩, ⟨"d", none, false, false, [], none, none⟩]

/-! ## Draw tasks (mapDraws.cpp) -/

/-- A 4x4 matrix of doubles, `mat4`. -/
abbrev Mat4 := Matrix (Fin 4) (Fin 4) ℚ

/-- A 3x3 matrix, `mat3f`. -/
abbrev Mat3 := Matrix (Fin 3) (Fin 3) ℚ

/-- The record `RenderTask`: resources of one draw and its placement.  `meshAgg` and
`transparent` are the two members only renderer.cpp uses. -/
structure RenderTask where
  meshAgg : Option Resource
  mesh : Option Resource
  textureColor : Option Resource
  textureMask : Option Resource
  model : Mat4
  uvm : Mat3
  color : Vec4
  externalUv : Bool
  flatShading : Bool
  transparent : Bool
  deriving DecidableEq

/-- The constructor `RenderTask::RenderTask()`: identity matrices, white, no resources. -/
def RenderTask.new : RenderTask :=
  ⟨none, none, none, none, 1, 1, ⟨1, 1, 1, 1⟩, false, false, false⟩

/-- The method `RenderTask::ready`: every resource that is present converts to `true`. -/
def RenderTask.ready (r : RenderTask) : Bool :=
  if r.mesh.isSome && !(r.mesh.any Resource.toBool) then false
  else if r.textureColor.isSome && !(r.textureColor.any Resource.toBool) then false
  else if r.textureMask.isSome && !(r.textureMask.any Resource.toBool) then false
  else true

/-- The record `DrawTask` handed to the host renderer; the `userData` pointers are represented
by the resources they belong to. -/
structure DrawTask where
  mesh : Option Resource
  texColor : Option Resource
  texMask : Option Resource
  mv : Mat4
  uvm : Mat3
  color : Vec4
  uvClip : Vec4
  center : Vec3
  externalUv : Bool
  flatShading : Bool
  deriving DecidableEq

/-- The constructor `DrawTask::DrawTask(const RenderTask &r, const MapImpl *m)`; `none` stands
for a failure of `assert(r.ready())`.  Of the map it reads `renderer.viewRender` and
`options.debugFlatShading`. -/
def DrawTask.ofRenderTask (r : RenderTask) (viewRender : Mat4) (debugFlatShading : Bool) :
    Option DrawTask :=
  if !r.ready then none
  else some
    { mesh := r.mesh
      texColor := r.textureColor
      texMask := r.textureMask
      mv := viewRender * r.model
      uvm := r.uvm
      color := r.color
      uvClip := ⟨0, 0, 1, 1⟩
      center := ⟨r.model 0 3, r.model 1 3, r.model 2 3⟩
      externalUv := r.externalUv
      flatShading := r.flatShading || debugFlatShading }

/-- The bundle `MapDraws`: the three draw lists and the camera eye (`opaqueTasks` is the
member `opaque`, a reserved word here). -/
structure MapDraws where
  opaqueTasks : List DrawTask
  transparent : List DrawTask
  Infographic : List DrawTask
  eye : Vec3

/-- Insertion of `x` into a list ordered by the strict comparison `comp`. -/
def insertSorted {α : Type} (comp : α → α → Bool) (x : α) : List α → List α
  | [] => [x]
  | y :: ys => if comp x y then x :: y :: ys else y :: insertSorted comp x ys

/-- The library routine `std::sort(first, last, comp)`, embedded as insertion sort; the order
among elements equivalent under `comp`, which the library leaves open, is fixed by this. -/
def stdSort {α : Type} (comp : α → α → Bool) : List α → List α
  | [] => []
  | x :: xs => insertSorted comp x (stdSort comp xs)

/-- Squared distance `dot(v, v)` with `v = center - e` of a task to the eye `e`. -/
def DrawTask.eyeDistance2 (e : Vec3) (a : DrawTask) : ℚ :=
  dot (a.center.sub e) (a.center.sub e)

/-- The method `MapDraws::sortOpaqueFrontToBack`. -/
def MapDraws.sortOpaqueFrontToBack (d : MapDraws) : MapDraws :=
  let e := d.eye
  { d with opaqueTasks := stdSort (fun a b =>
      let va := a.center.sub e
      let vb := b.center.sub e
      decide (dot va va < dot vb vb)) d.opaqueTasks }

/-- A draw task with centre `(c, 0, 0)`. -/
def sampleDrawTask (c : ℚ) : DrawTask :=
  ⟨none, none, none, 1, 1, ⟨1, 1, 1, 1⟩, ⟨0, 0, 1, 1⟩, ⟨c, 0, 0⟩, false, false⟩

/-- Three opaque tasks at distances 100, 10 and 1000 from an eye at the origin. -/
def sampleDraws : MapDraws :=
  ⟨[sampleDrawTask 100, sampleDrawTask 10, sampleDrawTask 1000], [], [], ⟨0, 0, 0⟩⟩

/-! ## Meta-tiles and the meta-node resolver (renderer.cpp) -/

/-- Bit masks of `vtslibs::vts::MetaNode::Flag`.  The enumeration is declared in the vts-libs
headers, outside these sources, so the masks the code names are parameters. -/
structure MetaFlag where
  ulChild : Nat
  applyTexelSize : Nat
  applyDisplaySize : Nat

/-- What the code reads from a `vtslibs::vts::MetaNode` (declared in vts-libs): each accessor
it calls is a field. -/
structure MetaNode where
  flags : Nat
  childFlags : Nat
  geometry : Bool
  alien : Bool
  sourceReference : Nat
  credits : List CreditId
  internalTextureCount : Nat
  extentsLl : Vec3
  extentsUr : Vec3
  geomExtentsEmpty : Bool
  geomExtentsZMin : ℚ
  geomExtentsZMax : ℚ
  surrogateValid : Bool
  surrogate : ℚ
  texelSize : ℚ
  displaySize : ℚ
  deriving DecidableEq

/-- Modelled from the spec: `vtslibs::vts::parent`, declared outside these sources; "a child's
id is (lod+1, 2x+dx, 2y+dy)", so the parent halves both coordinates one level up. -/
def parent (t : TileId) : TileId := ⟨t.lod - 1, t.x >>> 1, t.y >>> 1⟩

/-- Modelled from the spec: `vtslibs::vts::children`, declared outside these sources; child
`i` is `(lod+1, 2x + (i mod 2), 2y + (i div 2))`. -/
def children (t : TileId) (i : Nat) : TileId := ⟨t.lod + 1, 2 * t.x + i % 2, 2 * t.y + i / 2⟩

/-- The function `MapImpl::roundId`, with `metaTileBinaryOrder` read from the reference frame;
the shifts are those of 32 bit unsigned integers. -/
def roundId (metaTileBinaryOrder : Nat) (nodeId : TileId) : TileId :=
  ⟨nodeId.lod,
   ((nodeId.x >>> metaTileBinaryOrder) <<< metaTileBinaryOrder) % 2 ^ 32,
   ((nodeId.y >>> metaTileBinaryOrder) <<< metaTileBinaryOrder) % 2 ^ 32⟩

/-- A surface of the map configuration: its names, URL templates and `alien` mark. -/
structure SurfaceInfo where
  name : List String
  urlMeta : TileId → String
  urlMesh : TileId → String
  urlIntTex : TileId → Nat → String
  urlGeodata : TileId → String
  alien : Bool

/-- A meta-tile resource: the resource state and the lookup `get(nodeId, std::nothrow)`, which
yields no node for a tile the meta-tile does not hold. -/
structure MetaTile where
  resource : Resource
  get : TileId → Option MetaNode

/-- One `getMetaTile(name)` followed by `updatePriority(priority)`: a request to the store. -/
structure MetaRequest where
  name : String
  priority : Priority
  deriving DecidableEq

namespace Renderer

/-- What `checkMetaNode` reads from the map: the store lookup `getMetaTile` (defined outside
these sources, a parameter) and `referenceFrame.metaBinaryOrder`. -/
structure MetaEnv where
  getMetaTile : String → MetaTile
  metaBinaryOrder : Nat

/-- The function `MapImpl::returnValidMetaNode`.  The out-parameter `node` comes back as second
component (assigned only when the meta-tile is `Valid`); the request is the third. -/
def returnValidMetaNode (E : MetaEnv) (surface : SurfaceInfo) (nodeId : TileId)
    (node : Option MetaNode) (priority : Priority) :
    Validity × Option MetaNode × List MetaRequest :=
  let name := surface.urlMeta (roundId E.metaBinaryOrder nodeId)
  let t := E.getMetaTile name
  let val := getResourceValidity t.resource
  (val, if val = Validity.Valid then t.get nodeId else node, [⟨name, priority⟩])

/-- The recursion of `MapImpl::checkMetaNode` on the tile `(lod, x, y)`.  The result is `none`
when `assert(pn)` fails, else the returned validity and the out-parameter `node`; the second
component lists the requests made, in order. -/
def checkMetaNodeAt (F : MetaFlag) (E : MetaEnv) (surface : SurfaceInfo) (priority : Priority) :
    (lod x y : Nat) → Option MetaNode → Option (Validity × Option MetaNode) × List MetaRequest
  | 0, x, y, node =>
    let r := returnValidMetaNode E surface ⟨0, x, y⟩ node priority
    (some (r.1, r.2.1), r.2.2)
  | lod + 1, x, y, node =>
    let nodeId : TileId := ⟨lod + 1, x, y⟩
    match checkMetaNodeAt F E surface priority lod (parent nodeId).x (parent nodeId).y none with
    | (none, log) => (none, log)
    | (some (Validity.Invalid, _), log) => (some (Validity.Invalid, node), log)
    | (some (Validity.Indeterminate, _), log) => (some (Validity.Indeterminate, node), log)
    | (some (Validity.Valid, none), log) => (none, log)
    | (some (Validity.Valid, some pn), log) =>
      let idx := (nodeId.x % 2) + (nodeId.y % 2) * 2
      if pn.flags &&& (F.ulChild <<< idx) ≠ 0 then
        let r := returnValidMetaNode E surface nodeId node priority
        (some (r.1, r.2.1), log ++ r.2.2)
      else (some (Validity.Invalid, node), log)

/-- The function `MapImpl::checkMetaNode`. -/
def checkMetaNode (F : MetaFlag) (E : MetaEnv) (surface : SurfaceInfo) (nodeId : TileId)
    (node : Option MetaNode) (priority : Priority) :
    Option (Validity × Option MetaNode) × List MetaRequest :=
  checkMetaNodeAt F E surface priority nodeId.lod nodeId.x nodeId.y node

end Renderer

/-- The ancestor of tile `t` at level `j` (for `j <= t.lod`); level `t.lod` is `t` itself. -/
def ancestor (t : TileId) (j : Nat) : TileId :=
  ⟨j, t.x / 2 ^ (t.lod - j), t.y / 2 ^ (t.lod - j)⟩

/-- The meta-tile that `returnValidMetaNode` consults for tile `a` of `surface`. -/
def Renderer.metaTileOf (E : Renderer.MetaEnv) (surface : SurfaceInfo) (a : TileId) : MetaTile :=
  E.getMetaTile (surface.urlMeta (roundId E.metaBinaryOrder a))

/-- The request `returnValidMetaNode` issues for tile `a`. -/
def Renderer.requestFor (E : Renderer.MetaEnv) (surface : SurfaceInfo) (priority : Priority)
    (a : TileId) : MetaRequest :=
  ⟨surface.urlMeta (roundId E.metaBinaryOrder a), priority⟩

/-- The meta-tile of `a` is `Valid` and its node at `a` has the child flag towards `b` set. -/
def Renderer.OpensChild (F : MetaFlag) (E : Renderer.MetaEnv) (surface : SurfaceInfo)
    (a b : TileId) : Prop :=
  getResourceValidity (Renderer.metaTileOf E surface a).resource = Validity.Valid ∧
  ∃ pn, (Renderer.metaTileOf E surface a).get a = some pn ∧
    pn.flags &&& (F.ulChild <<< ((b.x % 2) + (b.y % 2) * 2)) ≠ 0

/-- Sample flag masks: bits 4..7 for the children, bits 2 and 3 for the size criteria. -/
def sampleFlag : MetaFlag := ⟨0x10, 0x04, 0x08⟩

/-- A sample meta-node with geometry and all four children. -/
def sampleMetaNode : MetaNode :=
  ⟨0xf1, 0xf0, true, false, 0, [], 1, ⟨0, 0, 0⟩, ⟨1, 1, 1⟩, true, 0, 0, false, 0, 1, 1024⟩

/-- A sample surface whose meta URL spells out the tile. -/
def sampleSurface : SurfaceInfo :=
  ⟨["s"], fun t => "meta-" ++ toString t.lod ++ "-" ++ toString t.x ++ "-" ++ toString t.y,
   fun _ => "mesh", fun _ _ => "tex", fun _ => "geo", false⟩

/-- A sample store in which every meta-tile is ready and holds `sampleMetaNode` everywhere. -/
def sampleMetaEnv : Renderer.MetaEnv :=
  ⟨fun name => ⟨⟨name, ResourceState.ready⟩, fun _ => some sampleMetaNode⟩, 5⟩

/-! ## The traversal of renderer.cpp: data -/

namespace Renderer

/-- An entry of `mapConfig->surfaceStack`, `MapConfig::SurfaceStackItem`. -/
structure SurfaceStackItem where
  surface : SurfaceInfo
  alien : Bool
  color : Vec3

/-- The value of `trav->meta`: the meta-node it is built from and what the traversal adds. -/
structure MetaInfo where
  node : MetaNode
  surface : Option SurfaceStackItem
  credits : List CreditId
  cornersPhys : Fin 8 → Vec3
  aabbPhys : NodeBox
  surrogatePhys : Vec3

/-- A vertex of the traversal tree, `TraverseNode` as renderer.cpp uses it. -/
inductive TraverseNode where
  | mk (nodeInfo : NodeInfo) (meta : Option MetaInfo) (draws : List RenderTask)
      (childs : List TraverseNode) (priority : Priority) (lastAccessTime : Nat)

/-- Member `nodeInfo`. -/
def TraverseNode.nodeInfo : TraverseNode → NodeInfo
  | .mk ni _ _ _ _ _ => ni

/-- Member `meta`. -/
def TraverseNode.meta : TraverseNode → Option MetaInfo
  | .mk _ m _ _ _ _ => m

/-- Member `draws`. -/
def TraverseNode.draws : TraverseNode → List RenderTask
  | .mk _ _ d _ _ _ => d

/-- Member `childs`. -/
def TraverseNode.childs : TraverseNode → List TraverseNode
  | .mk _ _ _ c _ _ => c

/-- Member `priority`. -/
def TraverseNode.priority : TraverseNode → Priority
  | .mk _ _ _ _ p _ => p

/-- Member `lastAccessTime`. -/
def TraverseNode.lastAccessTime : TraverseNode → Nat
  | .mk _ _ _ _ _ t => t

/-- The options the traversal reads, `MapOptions`. -/
structure Options where
  maxTexelToPixelScale : ℚ
  maxNodeUpdatesPerTick : Nat
  debugRenderSurrogates : Bool
  debugRenderMeshBoxes : Bool
  debugRenderTileBoxes : Bool
  debugFlatShading : Bool
  debugDisableMeta5 : Bool

/-- A submesh of a mesh aggregate, `MeshPart`. -/
structure MeshPart where
  renderable : Resource
  normToPhys : Mat4
  internalUv : Bool
  externalUv : Bool
  textureLayer : Nat
  surfaceReference : Nat

/-- A mesh aggregate resource with its submeshes. -/
structure MeshAggregate where
  resource : Resource
  submeshes : List MeshPart

/-- What the traversal reads from the map and does not change during a frame.  The functions
are those defined outside these sources (store lookups, matrix helpers, coordinate
conversion, constructors), taken as parameters. -/
structure Env where
  options : Options
  meta : MetaEnv
  flag : MetaFlag
  surfaceStack : List SurfaceStackItem
  tilesetMapping : Option (List SurfaceStackItem)
  frustumPlanes : Fin 6 → Vec4
  viewRender : Mat4
  frameIndex : Nat
  physicalSrs : String
  divisionExtentsLl : Vec3
  divisionExtentsUr : Vec3
  initCornersPhys : Fin 8 → Vec3
  initSurrogatePhys : Vec3
  getMeshRenderable : String → Resource
  getMeshAggregate : String → MeshAggregate
  getTexture : String → Resource
  convert : Vec3 → String → String → Vec3
  translationMatrix : Vec3 → Mat4
  scaleMatrix : ℚ → Mat4
  lookAt : Vec3 → Vec3 → Mat4
  extentsSize : NodeInfo → ℚ
  nodeInfoChild : NodeInfo → TileId → NodeInfo
  texelLength : MetaInfo → Vec3 → ℚ
  viewBoundList : String → List BoundParamInfo
  textureLayerBound : Nat → BoundParamInfo
  prepare : Prepare
  uvMatrix : BoundParamInfo → Mat3
  urlExtTex : BoundParamInfo → String
  urlMask : BoundParamInfo → String
  creditsFind : CreditId → Option CreditId
  computeResourcePriority : TraverseNode → Priority
  nodeReady : TraverseNode → Bool

/-- What a frame changes: the draw list, credit hits, statistics, requests to the store, the
touched resources, the traversal queue, and the tiles `renderNode` ran on. -/
structure Frame where
  draws : List DrawTask
  creditHits : List (CreditId × Nat)
  meshesRenderedTotal : Nat
  metaNodesTraversedTotal : Nat
  currentNodeUpdates : Nat
  requests : List MetaRequest
  touched : List String
  rendered : List TileId

/-- The ways a run can stop: a failed `assert`, or an index beyond a vector. -/
inductive Failure where
  | assertMeta
  | assertVisible
  | assertReady
  | assertMetaNode
  | assertNode
  | assertSourceReference
  | assertNoMeta
  | assertDrawsEmpty
  | assertChildsEmpty
  | assertSurface
  | indexOutOfRange
  deriving DecidableEq, Repr

/-- One `draws.draws.emplace_back(&r, this)`: the `DrawTask` constructor runs on `r`. -/
def emplaceDraw (E : Env) (s : Frame) (r : RenderTask) : Except Failure Frame :=
  match DrawTask.ofRenderTask r E.viewRender E.options.debugFlatShading with
  | none => Except.error Failure.assertReady
  | some d => Except.ok { s with draws := s.draws ++ [d] }

/-- The "meshes" loop of `renderNode`. -/
def renderMeshes (E : Env) : List RenderTask → Frame → Except Failure Frame
  | [], s => Except.ok s
  | r :: rest, s =>
    if r.ready then
      match emplaceDraw E s r with
      | Except.error e => Except.error e
      | Except.ok s' => renderMeshes E rest s'
    else renderMeshes E rest s

/-- A request that sets the priority of a debug mesh to infinity. -/
def debugMesh (E : Env) (name : String) (s : Frame) : Resource × Frame :=
  (E.getMeshRenderable name, { s with requests := s.requests ++ [⟨name, ⊤⟩] })

/-- The "surrogate" block of `renderNode`. -/
def renderSurrogate (E : Env) (nodeInfo : NodeInfo) (m : MetaInfo) (s : Frame) :
    Except Failure Frame :=
  if E.options.debugRenderSurrogates then
    let dm := debugMesh E "data/meshes/sphere.obj" s
    let mesh := dm.1
    let s := dm.2
    let task : RenderTask :=
      { RenderTask.new with
        mesh := some mesh
        model := E.translationMatrix m.surrogatePhys
          * E.scaleMatrix (E.extentsSize nodeInfo * 3 / 100)
        color := match m.surface with
          | some sf => ⟨sf.color.x, sf.color.y, sf.color.z, RenderTask.new.color.w⟩
          | none => RenderTask.new.color }
    if task.ready then emplaceDraw E s task else Except.ok s
  else Except.ok s

/-- The loop of the "mesh box" block of `renderNode`. -/
def renderMeshBoxesLoop (E : Env) : List RenderTask → Frame → Except Failure Frame
  | [], s => Except.ok s
  | r :: rest, s =>
    if r.transparent then renderMeshBoxesLoop E rest s
    else
      let dm := debugMesh E "data/meshes/aabb.obj" s
      let mesh := dm.1
      let s := dm.2
      let task : RenderTask :=
        { r with mesh := some mesh, textureColor := none, textureMask := none,
                 color := ⟨0, 0, 1, 1⟩ }
      if task.ready then
        match emplaceDraw E s task with
        | Except.error e => Except.error e
        | Except.ok s' => renderMeshBoxesLoop E rest s'
      else renderMeshBoxesLoop E rest s

/-- The "mesh box" block of `renderNode`. -/
def renderMeshBoxes (E : Env) (draws : List RenderTask) (s : Frame) : Except Failure Frame :=
  if E.options.debugRenderMeshBoxes then renderMeshBoxesLoop E draws s else Except.ok s

/-- The index tables `cora` and `corb` of the twelve box edges. -/
def cora : List (Fin 8) := [0, 0, 1, 2, 4, 4, 5, 6, 0, 1, 2, 3]

/-- See `cora`. -/
def corb : List (Fin 8) := [1, 2, 3, 3, 5, 6, 7, 7, 4, 5, 6, 7]

/-- The loop over the twelve edges in the "tile box" block: `task.model` is set and the task
emplaced. -/
def renderTileBoxLoop (E : Env) (m : MetaInfo) (task : RenderTask) :
    List (Fin 8 × Fin 8) → Frame → Except Failure Frame
  | [], s => Except.ok s
  | (ia, ib) :: rest, s =>
    let a := m.cornersPhys ia
    let b := m.cornersPhys ib
    match emplaceDraw E s { task with model := E.lookAt a b } with
    | Except.error e => Except.error e
    | Except.ok s' => renderTileBoxLoop E m task rest s'

/-- The "tile box" block of `renderNode`. -/
def renderTileBox (E : Env) (m : MetaInfo) (s : Frame) : Except Failure Frame :=
  if E.options.debugRenderTileBoxes then
    let dm := debugMesh E "data/meshes/line.obj" s
    let mesh := dm.1
    let s := dm.2
    let task : RenderTask := { RenderTask.new with mesh := some mesh, color := ⟨1, 0, 0, 1⟩ }
    if task.ready then renderTileBoxLoop E m task (cora.zip corb) s else Except.ok s
  else Except.ok s

/-- The function `MapImpl::renderNode` (renderer.cpp).  The per-lod histogram of the
statistics block is left out; the total is kept. -/
def renderNode (E : Env) (trav : TraverseNode) (s : Frame) : Except Failure Frame :=
  match trav.meta with
  | none => Except.error Failure.assertMeta
  | some m =>
    if !boxVisible E.frustumPlanes m.aabbPhys then Except.error Failure.assertVisible
    else
      let s := { s with rendered := s.rendered ++ [trav.nodeInfo.nodeId] }
      match renderMeshes E trav.draws s with
      | Except.error e => Except.error e
      | Except.ok s =>
      match renderSurrogate E trav.nodeInfo m s with
      | Except.error e => Except.error e
      | Except.ok s =>
      match renderMeshBoxes E trav.draws s with
      | Except.error e => Except.error e
      | Except.ok s =>
      match renderTileBox E m s with
      | Except.error e => Except.error e
      | Except.ok s =>
        Except.ok { s with
          creditHits := s.creditHits
            ++ m.credits.map (fun c => (c, trav.nodeInfo.distanceFromRoot))
          meshesRenderedTotal := s.meshesRenderedTotal + 1 }

end Renderer

/-- The draw tasks `ds` are built, one by one, from the render tasks `rs`, each of them ready
when the `DrawTask` constructor ran. -/
def Renderer.BuiltFromReady (E : Renderer.Env) (rs : List RenderTask) (ds : List DrawTask) :
    Prop :=
  List.Forall₂ (fun r d => r.ready = true ∧
    DrawTask.ofRenderTask r E.viewRender E.options.debugFlatShading = some d) rs ds

/-- Frame `s'` extends the draw list of `s` by tasks built from ready render tasks, and records
no further call of `renderNode` and no further visit. -/
def Renderer.Emits (E : Renderer.Env) (s s' : Renderer.Frame) : Prop :=
  (∃ rs ds, s'.draws = s.draws ++ ds ∧ Renderer.BuiltFromReady E rs ds) ∧
    s'.rendered = s.rendered ∧ s'.metaNodesTraversedTotal = s.metaNodesTraversedTotal

/-- Every resource the task holds is in state `ready`. -/
def RenderTask.AllReady (r : RenderTask) : Prop :=
  (∀ m, r.mesh = some m → m.state = ResourceState.ready) ∧
  (∀ t, r.textureColor = some t → t.state = ResourceState.ready) ∧
  (∀ t, r.textureMask = some t → t.state = ResourceState.ready)

/-- A sample environment for renderer.cpp: one surface, all store lookups ready, debug
drawing of tile boxes on. -/
def sampleEnv : Renderer.Env where
  options := ⟨1, 10, false, false, true, false, false⟩
  meta := sampleMetaEnv
  flag := sampleFlag
  surfaceStack := [⟨sampleSurface, false, ⟨0, 0, 0⟩⟩]
  tilesetMapping := none
  frustumPlanes := samplePlanes
  viewRender := 1
  frameIndex := 7
  physicalSrs := "phys"
  divisionExtentsLl := ⟨0, 0, 0⟩
  divisionExtentsUr := ⟨1, 1, 1⟩
  initCornersPhys := fun _ => ⟨0, 0, 0⟩
  initSurrogatePhys := ⟨0, 0, 0⟩
  getMeshRenderable := fun n => ⟨n, ResourceState.ready⟩
  getMeshAggregate := fun n => ⟨⟨n, ResourceState.ready⟩, []⟩
  getTexture := fun n => ⟨n, ResourceState.ready⟩
  convert := fun v _ _ => v
  translationMatrix := fun _ => 1
  scaleMatrix := fun _ => 1
  lookAt := fun _ _ => 1
  extentsSize := fun _ => 1
  nodeInfoChild := fun ni t => { ni with nodeId := t, distanceFromRoot := ni.distanceFromRoot + 1 }
  texelLength := fun _ _ => 0
  viewBoundList := fun _ => []
  textureLayerBound := fun _ => ⟨"", none, true, false, [], none, none⟩
  prepare := samplePrepare
  uvMatrix := fun _ => 1
  urlExtTex := fun _ => "ext"
  urlMask := fun _ => "mask"
  creditsFind := fun c => some c
  computeResourcePriority := fun _ => 1
  nodeReady := fun _ => true

/-- An empty frame. -/
def sampleFrame : Renderer.Frame := ⟨[], [], 0, 0, 0, [], [], []⟩

/-- A sample resolved meta without surface. -/
def sampleMetaInfo : Renderer.MetaInfo :=
  ⟨sampleMetaNode, none, [], fun _ => ⟨0, 0, 0⟩, NodeBox.finite sampleBox, ⟨0, 0, 0⟩⟩

/-- A sample leaf with resolved meta, one ready draw and one whose texture still downloads. -/
def sampleLeaf : Renderer.TraverseNode :=
  .mk sampleNodeInfo (some sampleMetaInfo)
    [{ RenderTask.new with mesh := some ⟨"m", ResourceState.ready⟩ },
     { RenderTask.new with textureColor := some ⟨"t", ResourceState.downloading⟩ }] [] 1 0

/-! ## The traversal of renderer.cpp: meta, draws and `traverse` -/

/-- Component-wise minimum `min(a, b)` of two `vec3`. -/
def Vec3.min (a b : Vec3) : Vec3 := ⟨Min.min a.x b.x, Min.min a.y b.y, Min.min a.z b.z⟩

/-- Component-wise maximum `max(a, b)` of two `vec3`. -/
def Vec3.max (a b : Vec3) : Vec3 := ⟨Max.max a.x b.x, Max.max a.y b.y, Max.max a.z b.z⟩

/-- The expression `lowerUpperCombine(i).cwiseProduct(u - l) + l`. -/
def combineCorner (i : Nat) (l u : Vec3) : Vec3 :=
  ⟨(lowerUpperCombine i).x * (u.x - l.x) + l.x, (lowerUpperCombine i).y * (u.y - l.y) + l.y,
   (lowerUpperCombine i).z * (u.z - l.z) + l.z⟩

/-- The "aabb" loop: starting from `cornersPhys[0]` twice, fold `min` and `max` over the eight
corners. -/
def aabbOfCorners (cornersPhys : Fin 8 → Vec3) : Aabb :=
  (List.ofFn cornersPhys).foldl (fun a c => ⟨a.lo.min c, a.hi.max c⟩)
    ⟨cornersPhys 0, cornersPhys 0⟩

namespace Renderer

/-- Setter for the member `meta`. -/
def TraverseNode.setMeta (t : TraverseNode) (m : Option MetaInfo) : TraverseNode :=
  .mk t.nodeInfo m t.draws t.childs t.priority t.lastAccessTime

/-- Setter for the member `draws`. -/
def TraverseNode.setDraws (t : TraverseNode) (d : List RenderTask) : TraverseNode :=
  .mk t.nodeInfo t.meta d t.childs t.priority t.lastAccessTime

/-- Setter for the member `childs`. -/
def TraverseNode.setChilds (t : TraverseNode) (c : List TraverseNode) : TraverseNode :=
  .mk t.nodeInfo t.meta t.draws c t.priority t.lastAccessTime

/-- Setter for the member `priority`. -/
def TraverseNode.setPriority (t : TraverseNode) (p : Priority) : TraverseNode :=
  .mk t.nodeInfo t.meta t.draws t.childs p t.lastAccessTime

/-- Setter for the member `lastAccessTime`. -/
def TraverseNode.setLastAccessTime (t : TraverseNode) (n : Nat) : TraverseNode :=
  .mk t.nodeInfo t.meta t.draws t.childs t.priority n

/-- A freshly constructed `TraverseNode`: no meta, no draws, no children; the constructor is
outside these sources, its initial priority and access time are left at zero. -/
def TraverseNode.new (ni : NodeInfo) : TraverseNode := .mk ni none [] [] 0 0

/-- The function `touchResources(task)`: the names of the resources it touches. -/
def touchTask (task : RenderTask) : List String :=
  (task.meshAgg.map (fun r => r.name)).toList ++
  (task.textureColor.map (fun r => r.name)).toList ++
  (task.textureMask.map (fun r => r.name)).toList

/-- The function `touchResources(trav)`. -/
def touchResources (E : Env) (trav : TraverseNode) (s : Frame) : TraverseNode × Frame :=
  (trav.setLastAccessTime E.frameIndex,
   { s with touched := s.touched ++ (trav.draws.map touchTask).flatten })

/-- The function `MapImpl::coarsenessTest` on the node's meta (`assert(trav->meta)` is the
caller's duty).  The screen length of a texel at a corner involves a square root and is the
parameter `texelLength`; it already includes the factor `windowHeight`. -/
def coarsenessTest (E : Env) (m : MetaInfo) : Bool :=
  let applyTexelSize := decide (m.node.flags &&& E.flag.applyTexelSize ≠ 0)
  let applyDisplaySize := decide (m.node.flags &&& E.flag.applyDisplaySize ≠ 0)
  if !applyTexelSize && !applyDisplaySize then false
  else
    let result := true
    let result :=
      if applyTexelSize then
        (List.ofFn m.cornersPhys).foldl
          (fun res c => res && decide (E.texelLength m c < E.options.maxTexelToPixelScale))
          result
      else result
    let result := if applyDisplaySize then false else result
    result

/-- The running values of the loop "find topmost nonempty surface" of `travDetermineMeta`. -/
structure MetaSearch where
  topmost : Option SurfaceStackItem
  node : Option MetaNode
  childsAvailable : Nat → Bool
  determined : Bool
  requests : List MetaRequest

/-- The loop "find topmost nonempty surface" of `travDetermineMeta` (renderer.cpp). -/
def findTopmost (E : Env) (nodeId : TileId) (priority : Priority) :
    List SurfaceStackItem → MetaSearch → Except Failure MetaSearch
  | [], a => Except.ok a
  | it :: rest, a =>
    match checkMetaNode E.flag E.meta it.surface nodeId none priority with
    | (none, _) => Except.error Failure.assertMetaNode
    | (some (Validity.Indeterminate, _), log) =>
      findTopmost E nodeId priority rest
        { a with determined := false, requests := a.requests ++ log }
    | (some (Validity.Invalid, _), log) =>
      findTopmost E nodeId priority rest { a with requests := a.requests ++ log }
    | (some (Validity.Valid, none), _) => Except.error Failure.assertMetaNode
    | (some (Validity.Valid, some n), log) =>
      let a := { a with
        requests := a.requests ++ log
        childsAvailable := fun i =>
          a.childsAvailable i || decide (n.childFlags &&& (E.flag.ulChild <<< i) ≠ 0) }
      if a.topmost.isSome || n.alien != it.alien then findTopmost E nodeId priority rest a
      else if n.geometry then
        match E.tilesetMapping with
        | some stack =>
          if !(decide (n.sourceReference > 0) && decide (n.sourceReference ≤ stack.length)) then
            Except.error Failure.assertSourceReference
          else
            match stack[n.sourceReference]? with
            | none => Except.error Failure.indexOutOfRange
            | some tm =>
              findTopmost E nodeId priority rest { a with node := some n, topmost := some tm }
        | none =>
          findTopmost E nodeId priority rest { a with node := some n, topmost := some it }
      else
        findTopmost E nodeId priority rest
          { a with node := if a.node.isNone then some n else a.node }

/-- The "corners" step of `travDetermineMeta`. -/
def metaCorners (E : Env) (ni : NodeInfo) (node : MetaNode) (m : MetaInfo) : Fin 8 → Vec3 :=
  if !node.geomExtentsEmpty && !ni.srs.isEmpty && !E.options.debugDisableMeta5 then
    let el : Vec3 := ⟨ni.extentsLl.1, ni.extentsLl.2, node.geomExtentsZMin⟩
    let eu : Vec3 := ⟨ni.extentsUr.1, ni.extentsUr.2, node.geomExtentsZMax⟩
    fun i => E.convert (combineCorner i el eu) ni.srs E.physicalSrs
  else if node.extentsLl ≠ node.extentsUr then
    let fl := node.extentsLl
    let fu := node.extentsUr
    let el := E.divisionExtentsLl
    let eu := E.divisionExtentsUr
    fun i =>
      let f := combineCorner i fl fu
      ⟨f.x * (eu.x - el.x) + el.x, f.y * (eu.y - el.y) + el.y, f.z * (eu.z - el.z) + el.z⟩
  else m.cornersPhys

/-- The function `MapImpl::travDetermineMeta` (renderer.cpp): the returned flag, the node and
the frame afterwards. -/
def travDetermineMeta (E : Env) (trav : TraverseNode) (s : Frame) :
    Except Failure (Bool × TraverseNode × Frame) :=
  if trav.meta.isSome then Except.error Failure.assertNoMeta
  else if !trav.draws.isEmpty then Except.error Failure.assertDrawsEmpty
  else if !trav.childs.isEmpty then Except.error Failure.assertChildsEmpty
  else
    let s1 := { s with currentNodeUpdates := s.currentNodeUpdates + 1 }
    if s.currentNodeUpdates ≥ E.options.maxNodeUpdatesPerTick then Except.ok (false, trav, s1)
    else
      let nodeId := trav.nodeInfo.nodeId
      match findTopmost E nodeId trav.priority E.surfaceStack
          ⟨none, none, fun _ => false, true, []⟩ with
      | Except.error e => Except.error e
      | Except.ok a =>
        let s2 := { s1 with requests := s1.requests ++ a.requests }
        if !a.determined then Except.ok (false, trav, s2)
        else
          match a.node with
          | none => Except.error Failure.assertNode
          | some node =>
            let m0 : MetaInfo :=
              ⟨node, none, [], E.initCornersPhys, NodeBox.init, E.initSurrogatePhys⟩
            let m1 := { m0 with cornersPhys := metaCorners E trav.nodeInfo node m0 }
            let m2 :=
              if trav.nodeInfo.distanceFromRoot > 2 then
                { m1 with aabbPhys := NodeBox.finite (aabbOfCorners m1.cornersPhys) }
              else m1
            let m3 :=
              if node.surrogateValid then
                { m2 with surrogatePhys := (E.convert
                    ⟨(trav.nodeInfo.extentsUr.1 + trav.nodeInfo.extentsLl.1) * (1 / 2),
                     (trav.nodeInfo.extentsUr.2 + trav.nodeInfo.extentsLl.2) * (1 / 2),
                     node.surrogate⟩ trav.nodeInfo.srs E.physicalSrs) }
              else m2
            let m4 :=
              match a.topmost with
              | some tm => { m3 with surface := some tm, credits := m3.credits ++ node.credits }
              | none => m3
            let childs := (List.range 4).filterMap (fun i =>
              if a.childsAvailable i then
                some (TraverseNode.new (E.nodeInfoChild trav.nodeInfo (children nodeId i)))
              else none)
            Except.ok (true, (trav.setMeta (some m4)).setChilds (trav.childs ++ childs), s2)

end Renderer

namespace Renderer

/-- The running values of the submesh loop of `travDetermineDraws`. -/
structure DrawsAcc where
  determined : Bool
  newDraws : List RenderTask
  newCredits : List CreditId
  requests : List MetaRequest

/-- The draw task `travDetermineDraws` (renderer.cpp) makes for the bound layer `b`. -/
def boundLayerTask (E : Env) (meshAgg : MeshAggregate) (part : MeshPart) (b : BoundParamInfo) :
    RenderTask :=
  { RenderTask.new with
    meshAgg := some meshAgg.resource
    mesh := some part.renderable
    model := part.normToPhys
    uvm := E.uvMatrix b
    textureColor := some (E.getTexture (E.urlExtTex b))
    externalUv := true
    transparent := b.transparent
    color := ⟨RenderTask.new.color.x, RenderTask.new.color.y, RenderTask.new.color.z,
      match b.alpha with
      | some al => al
      | none => 1⟩
    textureMask := if !b.watertight then some (E.getTexture (E.urlMask b)) else none }

/-- The inner loop over the bound layers of one submesh: credits, task, `allTransparent`. -/
def boundLayersLoop (E : Env) (meshAgg : MeshAggregate) (part : MeshPart)
    (priority : Priority) : List BoundParamInfo → DrawsAcc → Bool → DrawsAcc × Bool
  | [], acc, allTransparent => (acc, allTransparent)
  | b :: rest, acc, allTransparent =>
    let acc := { acc with
      newCredits := acc.newCredits ++ b.credits.filterMap E.creditsFind
      requests := acc.requests ++ [⟨E.urlExtTex b, priority⟩]
        ++ (if !b.watertight then [⟨E.urlMask b, priority⟩] else [])
      newDraws := acc.newDraws ++ [boundLayerTask E meshAgg part b] }
    boundLayersLoop E meshAgg part priority rest acc (allTransparent && b.transparent)

/-- The "internal texture" block of the submesh loop (renderer.cpp): the task is inserted at
the front whatever the state of the texture. -/
def internalTextureStep (surface : SurfaceInfo) (nodeId : TileId) (meshAgg : MeshAggregate)
    (E : Env) (priority : Priority) (subMeshIndex : Nat) (part : MeshPart) (acc : DrawsAcc) :
    DrawsAcc :=
  if part.internalUv then
    let task : RenderTask :=
      { RenderTask.new with
        meshAgg := some meshAgg.resource
        mesh := some part.renderable
        model := part.normToPhys
        uvm := 1
        textureColor := some (E.getTexture (surface.urlIntTex nodeId subMeshIndex))
        externalUv := false }
    { acc with
      requests := acc.requests ++ [⟨surface.urlIntTex nodeId subMeshIndex, priority⟩]
      newDraws := task :: acc.newDraws }
  else acc

/-- The body of the submesh loop of `travDetermineDraws` (renderer.cpp). -/
def subMeshStep (E : Env) (ni : NodeInfo) (surface : SurfaceInfo) (meshAgg : MeshAggregate)
    (priority : Priority) (subMeshIndex : Nat) (part : MeshPart) (acc : DrawsAcc) : DrawsAcc :=
  if part.externalUv then
    let surfaceName :=
      if surface.name.length > 1 then surface.name.getD (part.surfaceReference - 1) ""
      else surface.name.getLastD ""
    let bls := E.viewBoundList surfaceName
    let bls := if part.textureLayer ≠ 0 then bls ++ [E.textureLayerBound part.textureLayer]
      else bls
    match reorderBoundLayers E.prepare ni subMeshIndex bls priority with
    | (Validity.Indeterminate, _) => { acc with determined := false }
    | (Validity.Invalid, _) => acc
    | (Validity.Valid, bls) =>
      let r := boundLayersLoop E meshAgg part priority bls acc true
      if !r.2 then r.1
      else internalTextureStep surface ni.nodeId meshAgg E priority subMeshIndex part r.1
  else internalTextureStep surface ni.nodeId meshAgg E priority subMeshIndex part acc

/-- The submesh loop of `travDetermineDraws`, from index `subMeshIndex` on. -/
def subMeshLoop (E : Env) (ni : NodeInfo) (surface : SurfaceInfo) (meshAgg : MeshAggregate)
    (priority : Priority) : Nat → List MeshPart → DrawsAcc → DrawsAcc
  | _, [], acc => acc
  | subMeshIndex, part :: rest, acc =>
    subMeshLoop E ni surface meshAgg priority (subMeshIndex + 1) rest
      (subMeshStep E ni surface meshAgg priority subMeshIndex part acc)

/-- The function `MapImpl::travDetermineDraws` (renderer.cpp). -/
def travDetermineDraws (E : Env) (trav : TraverseNode) (s : Frame) :
    Except Failure (Bool × TraverseNode × Frame) :=
  match trav.meta with
  | none => Except.error Failure.assertMeta
  | some m =>
    match m.surface with
    | none => Except.error Failure.assertSurface
    | some item =>
      if !trav.draws.isEmpty then Except.error Failure.assertDrawsEmpty
      else
        let s1 := { s with currentNodeUpdates := s.currentNodeUpdates + 1 }
        if s.currentNodeUpdates ≥ E.options.maxNodeUpdatesPerTick then
          Except.ok (false, trav, s1)
        else
          let nodeId := trav.nodeInfo.nodeId
          let meshAggName := item.surface.urlMesh nodeId
          let meshAgg := E.getMeshAggregate meshAggName
          let s2 := { s1 with requests := s1.requests ++ [⟨meshAggName, trav.priority⟩] }
          match getResourceValidity meshAgg.resource with
          | Validity.Invalid =>
            Except.ok (false, trav.setMeta (some { m with surface := none }), s2)
          | Validity.Indeterminate => Except.ok (false, trav, s2)
          | Validity.Valid =>
            let acc := subMeshLoop E trav.nodeInfo item.surface meshAgg trav.priority 0
              meshAgg.submeshes ⟨true, [], [], []⟩
            let s3 := { s2 with requests := s2.requests ++ acc.requests }
            if acc.determined then
              Except.ok (true,
                (trav.setDraws acc.newDraws).setMeta
                  (some { m with credits := m.credits ++ acc.newCredits }), s3)
            else Except.ok (false, trav, s3)

/-- The check of the children in `traverse`: `ok` stays true only when every child has meta
and, if it has a surface, non-empty ready draws. -/
def childsOk (E : Env) : List TraverseNode → Bool → Bool
  | [], ok => ok
  | t :: rest, ok =>
    match t.meta with
    | none => childsOk E rest false
    | some m =>
      if m.surface.isSome && (t.draws.isEmpty || !E.nodeReady t) then childsOk E rest false
      else childsOk E rest ok

/-- The function `MapImpl::traverse` (renderer.cpp).  The result is the node afterwards, the
frame, and the items put on `renderer.traverseQueue` (child and `loadOnly`). -/
def traverse (E : Env) (trav : TraverseNode) (loadOnly : Bool) (s : Frame) :
    Except Failure (TraverseNode × Frame × List (TraverseNode × Bool)) :=
  let s := { s with metaNodesTraversedTotal := s.metaNodesTraversedTotal + 1 }
  let tr := touchResources E trav s
  let trav := tr.1
  let s := tr.2
  let metaStep : Except Failure (Bool × TraverseNode × Frame) :=
    if trav.meta.isNone then travDetermineMeta E trav s else Except.ok (true, trav, s)
  match metaStep with
  | Except.error e => Except.error e
  | Except.ok (false, trav, s) => Except.ok (trav, s, [])
  | Except.ok (true, trav, s) =>
    match trav.meta with
    | none => Except.error Failure.assertMeta
    | some m =>
      let drawsStep : Except Failure (Bool × TraverseNode × Frame) :=
        if m.surface.isSome && trav.draws.isEmpty then travDetermineDraws E trav s
        else Except.ok (true, trav, s)
      match drawsStep with
      | Except.error e => Except.error e
      | Except.ok (_, trav, s) =>
        match trav.meta with
        | none => Except.error Failure.assertMeta
        | some m =>
          if !boxVisible E.frustumPlanes m.aabbPhys then Except.ok (trav, s, [])
          else if coarsenessTest E m then
            if !loadOnly then
              match renderNode E trav s with
              | Except.error e => Except.error e
              | Except.ok s => Except.ok (trav, s, [])
            else Except.ok (trav, s, [])
          else
            let notOk := !loadOnly && !childsOk E trav.childs true
            let afterCheck : Except Failure Frame :=
              if notOk then renderNode E trav s else Except.ok s
            match afterCheck with
            | Except.error e => Except.error e
            | Except.ok s =>
              let loadOnly := loadOnly || notOk
              if !trav.childs.isEmpty then
                let childs := trav.childs.map (fun t =>
                  t.setPriority (if t.meta.isSome then E.computeResourcePriority t
                    else trav.priority))
                Except.ok (trav.setChilds childs, s, childs.map (fun t => (t, loadOnly)))
              else if !loadOnly then
                match renderNode E trav s with
                | Except.error e => Except.error e
                | Except.ok s => Except.ok (trav, s, [])
              else Except.ok (trav, s, [])

end Renderer

/-! ## The traversal of rendererTraversal.cpp: data -/

namespace Traversal

/-- The oriented box cached on deep nodes, `TraverseNode::Obb`. -/
structure Obb where
  rotInv : Mat4
  points : Aabb

/-- The members of a `TraverseNode` (rendererTraversal.cpp) other than its children and the
`layer` and `parent` pointers.  `opaqueTasks` is the member `opaque`. -/
structure NodeData where
  nodeInfo : NodeInfo
  meta : Option MetaNode
  metaTiles : List (Option MetaTile)
  surface : Option SurfaceInfo
  cornersPhys : Fin 8 → Vec3
  aabbPhys : NodeBox
  obb : Option Obb
  surrogatePhys : Vec3
  surrogateNav : ℚ
  opaqueTasks : List RenderTask
  transparent : List RenderTask
  geodata : List RenderTask
  credits : List CreditId
  priority : Priority
  lastAccessTime : Nat
  hash : Nat
  touchResource : Option Resource

/-- A vertex of the traversal tree; the parent owns its children.  The `parent` pointer is
passed along by the traversal functions, the `layer` is part of the environment. -/
inductive TraverseNode where
  | mk (data : NodeData) (childs : List TraverseNode)

/-- The members of the node. -/
def TraverseNode.data : TraverseNode → NodeData
  | .mk d _ => d

/-- Member `childs`. -/
def TraverseNode.childs : TraverseNode → List TraverseNode
  | .mk _ c => c

/-- Modelled from the spec: `TraverseNode::rendersEmpty`, defined outside these sources; the
node's draws ("draws: opaque, transparent, infographic"; here `geodata`) are all empty. -/
def NodeData.rendersEmpty (d : NodeData) : Bool :=
  d.opaqueTasks.isEmpty && d.transparent.isEmpty && d.geodata.isEmpty

/-- Modelled from the spec: `TraverseNode::clearRenders`, defined outside these sources; it
drops the node's draws and the resource kept for touching. -/
def NodeData.clearRenders (d : NodeData) : NodeData :=
  { d with opaqueTasks := [], transparent := [], geodata := [], touchResource := none }

/-- The layer a tree belongs to, `TraverseLayer`: its surface stack, the optional tileset
stack, and whether it is a free layer of geodata (monolithic or tiled). -/
structure Layer where
  surfaces : List SurfaceInfo
  tilesetStack : Option (List SurfaceInfo)
  freeLayerMonolithicGeodata : Bool
  isGeodata : Bool
  freeLayerName : String
  boundList : SurfaceInfo → Nat → List BoundParamInfo

/-- A geodata resource with the tasks it renders. -/
structure GpuGeodata where
  resource : Resource
  renders : List RenderTask

/-- What the traversal reads from the map and does not change during a frame; the functions
are those defined outside these sources, taken as parameters. -/
structure Env where
  flag : MetaFlag
  layer : Layer
  metaBinaryOrder : Nat
  tickIndex : Nat
  focusPosPhys : Vec3
  fixedModeDistance : ℚ
  fixedModeLod : Nat
  divisionExtentsLl : Vec3
  divisionExtentsUr : Vec3
  getMetaTile : String → MetaTile
  getMeshAggregate : String → Renderer.MeshAggregate
  getTexture : String → Resource
  getGeodata : String → GpuGeodata
  geoStyleValidity : String → Validity
  geoFeaturesValidity : String → String → Priority → Validity
  convert : Vec3 → NodeInfo → Vec3
  convertNav : Vec3 → NodeInfo → Vec3
  aabbPointDist : Vec3 → NodeBox → ℚ
  obbOfCorners : (Fin 8 → Vec3) → Obb
  nodeInfoChild : NodeInfo → TileId → NodeInfo
  initCornersPhys : Fin 8 → Vec3
  initSurrogatePhys : Vec3
  initPriority : Priority
  hashOf : TileId → Nat
  textureLayerBound : Nat → BoundParamInfo
  prepare : Prepare
  uvMatrix : BoundParamInfo → Mat3
  creditsFind : CreditId → Option CreditId
  visibilityTest : NodeData → Bool
  coarsenessTest : NodeData → Bool
  touchDraws : NodeData → List String
  generateMonolithicGeodataTrav : NodeData → Bool × NodeData × List TraverseNode

/-- What a frame changes: requests to the store, touched resources, statistics, and the tiles
on which `renderNode` (defined outside these sources) was called, in order. -/
structure Frame where
  requests : List MetaRequest
  touched : List String
  currentNodeMetaUpdates : Nat
  currentNodeDrawsUpdates : Nat
  metaNodesTraversedTotal : Nat
  rendered : List TileId

/-- The ways a run can stop: a failed `assert`, a null pointer or missing meta-node, or an
index beyond a vector. -/
inductive Failure where
  | assertLayer
  | assertNoMeta
  | assertChildsEmpty
  | assertRendersEmpty
  | assertParentMeta
  | assertMeta
  | assertSurface
  | assertSourceReference
  | metaNodeMissing
  | indexOutOfRange
  deriving DecidableEq, Repr

/-- A freshly constructed `TraverseNode(layer, parent, nodeInfo)`.  The constructor is outside
these sources: a new node has no meta, no meta-tiles, no surface, no draws and (see the use)
no children; its box is `NodeBox.init`, the initial values of its other numeric members are
parameters. -/
def NodeData.new (E : Env) (ni : NodeInfo) : NodeData where
  nodeInfo := ni
  meta := none
  metaTiles := []
  surface := none
  cornersPhys := E.initCornersPhys
  aabbPhys := NodeBox.init
  obb := none
  surrogatePhys := E.initSurrogatePhys
  surrogateNav := 0
  opaqueTasks := []
  transparent := []
  geodata := []
  credits := []
  priority := E.initPriority
  lastAccessTime := 0
  hash := E.hashOf ni.nodeId
  touchResource := none

/-- The function `MapImpl::travDistance`: `aabbPointDist` is defined outside these sources. -/
def travDistance (E : Env) (d : NodeData) (pointPhys : Vec3) : ℚ :=
  E.aabbPointDist pointPhys d.aabbPhys

/-- The function `MapImpl::updateNodePriority`; `hash` and `tickIndex` are 32 bit unsigned,
and the narrowing `(float)` is taken as exact. -/
def updateNodePriority (E : Env) (parent : Option NodeData) (d : NodeData) : NodeData :=
  if d.meta.isSome then
    if ((d.hash + E.tickIndex) % 2 ^ 32) % 4 = 0 then
      { d with priority := ((1000000 / (travDistance E d E.focusPosPhys + 1) : ℚ) : WithTop ℚ) }
    else d
  else
    match parent with
    | some p => { d with priority := p.priority }
    | none => { d with priority := 0 }

/-- The first loop of `travDetermineMeta` ("find all metatiles") at stack index `i`, with the
surfaces from `i` on: the entry of `metaTiles`, whether it is determined, and the request. -/
def findMetaTile (E : Env) (parent : Option NodeData) (d : NodeData) (i : Nat)
    (surface : SurfaceInfo) : Except Failure (Option MetaTile × Bool × List MetaRequest) :=
  let nodeId := d.nodeInfo.nodeId
  let fetch : Except Failure (Option MetaTile × Bool × List MetaRequest) :=
    let name := surface.urlMeta (roundId E.metaBinaryOrder nodeId)
    let m := E.getMetaTile name
    let req : List MetaRequest := [⟨name, d.priority * 2⟩]
    match getResourceValidity m.resource with
    | Validity.Indeterminate => Except.ok (none, false, req)
    | Validity.Invalid => Except.ok (none, true, req)
    | Validity.Valid => Except.ok (some m, true, req)
  match parent with
  | some pd =>
    match pd.metaTiles[i]? with
    | none => Except.error Failure.indexOutOfRange
    | some none => Except.ok (none, true, [])
    | some (some p) =>
      let pid := Vts.parent nodeId
      let idx := (nodeId.x % 2) + (nodeId.y % 2) * 2
      match p.get pid with
      | none => Except.error Failure.metaNodeMissing
      | some node =>
        if node.flags &&& (E.flag.ulChild <<< idx) = 0 then Except.ok (none, true, [])
        else fetch
  | none => fetch

/-- The whole first loop of `travDetermineMeta`: the vector `metaTiles`, `determined`, and the
requests. -/
def findMetaTiles (E : Env) (parent : Option NodeData) (d : NodeData) :
    Nat → List SurfaceInfo → Except Failure (List (Option MetaTile) × Bool × List MetaRequest)
  | _, [] => Except.ok ([], true, [])
  | i, surface :: rest =>
    match findMetaTile E parent d i surface with
    | Except.error e => Except.error e
    | Except.ok (m, det, req) =>
      match findMetaTiles E parent d (i + 1) rest with
      | Except.error e => Except.error e
      | Except.ok (ms, det', req') => Except.ok (m :: ms, det && det', req ++ req')

/-- The running values of the loop "find topmost nonempty surface". -/
structure SurfaceSearch where
  topmost : Option SurfaceInfo
  node : Option MetaNode
  childsAvailable : Nat → Bool

/-- The loop "find topmost nonempty surface" of `travDetermineMeta` over the pairs of
`metaTiles[i]` and `surfaces[i]`. -/
def findTopmost (E : Env) (nodeId : TileId) :
    List (Option MetaTile × SurfaceInfo) → SurfaceSearch → Except Failure SurfaceSearch
  | [], a => Except.ok a
  | (none, _) :: rest, a => findTopmost E nodeId rest a
  | (some mt, surface) :: rest, a =>
    match mt.get nodeId with
    | none => Except.error Failure.metaNodeMissing
    | some n =>
      let a := { a with childsAvailable := fun i =>
        a.childsAvailable i || decide (n.childFlags &&& (E.flag.ulChild <<< i) ≠ 0) }
      if a.topmost.isSome || n.alien != surface.alien then findTopmost E nodeId rest a
      else if n.geometry then
        match E.layer.tilesetStack with
        | some stack =>
          if !(decide (n.sourceReference > 0) && decide (n.sourceReference ≤ stack.length)) then
            Except.error Failure.assertSourceReference
          else
            match stack[n.sourceReference]? with
            | none => Except.error Failure.indexOutOfRange
            | some tm => findTopmost E nodeId rest { a with node := some n, topmost := some tm }
        | none => findTopmost E nodeId rest { a with node := some n, topmost := some surface }
      else findTopmost E nodeId rest { a with node := if a.node.isNone then some n else a.node }

/-- The function `MapImpl::travDetermineMetaImpl`: corners, oriented box, aabb, surrogate. -/
def travDetermineMetaImpl (E : Env) (d : NodeData) : Except Failure NodeData :=
  match d.meta with
  | none => Except.error Failure.assertMeta
  | some meta =>
    let d1 : NodeData :=
      if !meta.geomExtentsEmpty && !d.nodeInfo.srs.isEmpty then
        let el : Vec3 := ⟨d.nodeInfo.extentsLl.1, d.nodeInfo.extentsLl.2, meta.geomExtentsZMin⟩
        let eu : Vec3 := ⟨d.nodeInfo.extentsUr.1, d.nodeInfo.extentsUr.2, meta.geomExtentsZMax⟩
        let corners : Fin 8 → Vec3 := fun i => E.convert (combineCorner i el eu) d.nodeInfo
        let d' := { d with cornersPhys := corners }
        if d.nodeInfo.distanceFromRoot > 4 then { d' with obb := some (E.obbOfCorners corners) }
        else d'
      else if meta.extentsLl ≠ meta.extentsUr then
        let fl := meta.extentsLl
        let fu := meta.extentsUr
        let el := E.divisionExtentsLl
        let eu := E.divisionExtentsUr
        { d with cornersPhys := fun i =>
            let f := combineCorner i fl fu
            ⟨f.x * (eu.x - el.x) + el.x, f.y * (eu.y - el.y) + el.y, f.z * (eu.z - el.z) + el.z⟩ }
      else d
    let d2 :=
      if d1.nodeInfo.distanceFromRoot > 2 then
        { d1 with aabbPhys := NodeBox.finite (aabbOfCorners d1.cornersPhys) }
      else d1
    let d3 :=
      if meta.surrogateValid then
        let sds : Vec3 :=
          ⟨(d2.nodeInfo.extentsUr.1 + d2.nodeInfo.extentsLl.1) * (1 / 2),
           (d2.nodeInfo.extentsUr.2 + d2.nodeInfo.extentsLl.2) * (1 / 2), meta.surrogate⟩
        { d2 with surrogatePhys := E.convert sds d2.nodeInfo
                  surrogateNav := (E.convertNav sds d2.nodeInfo).z }
      else d2
    Except.ok d3

/-- The function `MapImpl::travDetermineMeta` (rendererTraversal.cpp): the returned flag, the
node with its new children, and the frame.  `parent` is the node `trav->parent` points to. -/
def travDetermineMeta (E : Env) (parent : Option NodeData) (trav : TraverseNode) (s : Frame) :
    Except Failure (Bool × TraverseNode × Frame) :=
  let d := trav.data
  if d.meta.isSome then Except.error Failure.assertNoMeta
  else if !trav.childs.isEmpty then Except.error Failure.assertChildsEmpty
  else if !d.rendersEmpty then Except.error Failure.assertRendersEmpty
  else if (match parent with
      | some p => p.meta.isNone
      | none => false) then Except.error Failure.assertParentMeta
  else
    let s := { s with currentNodeMetaUpdates := s.currentNodeMetaUpdates + 1 }
    if E.layer.freeLayerMonolithicGeodata then
      let r := E.generateMonolithicGeodataTrav d
      Except.ok (r.1, TraverseNode.mk r.2.1 r.2.2, s)
    else
      let nodeId := d.nodeInfo.nodeId
      match findMetaTiles E parent d 0 E.layer.surfaces with
      | Except.error e => Except.error e
      | Except.ok (metaTiles, determined, req) =>
        let s := { s with requests := s.requests ++ req }
        if !determined then Except.ok (false, trav, s)
        else
          match findTopmost E nodeId (metaTiles.zip E.layer.surfaces)
              ⟨none, none, fun _ => false⟩ with
          | Except.error e => Except.error e
          | Except.ok a =>
            match a.node with
            | none => Except.ok (false, trav, s)
            | some node =>
              match travDetermineMetaImpl E { d with meta := some node, metaTiles := metaTiles }
              with
              | Except.error e => Except.error e
              | Except.ok d1 =>
                let d2 :=
                  match a.topmost with
                  | some tm => { d1 with surface := some tm, credits := d1.credits ++ node.credits }
                  | none => d1
                let childs := (List.range 4).filterMap (fun i =>
                  if a.childsAvailable i then
                    some (TraverseNode.mk
                      (NodeData.new E (E.nodeInfoChild d.nodeInfo (children nodeId i))) [])
                  else none)
                Except.ok (true,
                  TraverseNode.mk (updateNodePriority E parent d2) (trav.childs ++ childs), s)

end Traversal

/-- Entry `i` of the zipped list qualifies for `surface`: its meta-tile is present (it was
`Valid`), and the meta-node at the tile has geometry and the `alien` mark of the surface. -/
def Traversal.QualifiesAt (nodeId : TileId) (l : List (Option MetaTile × SurfaceInfo)) (i : Nat)
    (surface : SurfaceInfo) : Prop :=
  ∃ mt n, l[i]? = some (some mt, surface) ∧ mt.get nodeId = some n ∧ n.geometry = true ∧
    n.alien = surface.alien

/-- Stack index `i` qualifies for the tile: `metaTiles[i]` is present (the meta-tile of surface
`i` was `Valid`), its meta-node at the tile has geometry, and `alien()` equals
`surfaces[i].alien`. -/
def Traversal.Qualifies (nodeId : TileId) (metaTiles : List (Option MetaTile))
    (surfaces : List SurfaceInfo) (i : Nat) (surface : SurfaceInfo) : Prop :=
  ∃ mt n, metaTiles[i]? = some (some mt) ∧ surfaces[i]? = some surface ∧
    mt.get nodeId = some n ∧ n.geometry = true ∧ n.alien = surface.alien

/-- The flag a traversal step returned (`false` when the run stopped). -/
def Traversal.succeeded (r : Except Traversal.Failure
    (Bool × Traversal.TraverseNode × Traversal.Frame)) : Bool :=
  match r with
  | Except.ok (b, _, _) => b
  | Except.error _ => false

/-- The node and frame after a traversal step (the given ones when the run stopped). -/
def Traversal.outcome (r : Except Traversal.Failure
    (Bool × Traversal.TraverseNode × Traversal.Frame)) (t0 : Traversal.TraverseNode)
    (s0 : Traversal.Frame) : Traversal.TraverseNode × Traversal.Frame :=
  match r with
  | Except.ok (_, t, s) => (t, s)
  | Except.error _ => (t0, s0)

/-- A sample environment for rendererTraversal.cpp: one surface without tileset mapping, every
resource of the store ready, every mesh aggregate with one internal-UV submesh. -/
def sampleTEnv : Traversal.Env where
  flag := sampleFlag
  layer := ⟨[sampleSurface], none, false, false, "", fun _ _ => []⟩
  metaBinaryOrder := 5
  tickIndex := 7
  focusPosPhys := ⟨0, 0, 0⟩
  fixedModeDistance := 100
  fixedModeLod := 2
  divisionExtentsLl := ⟨0, 0, 0⟩
  divisionExtentsUr := ⟨1, 1, 1⟩
  getMetaTile := sampleMetaEnv.getMetaTile
  getMeshAggregate := fun n => ⟨⟨n, ResourceState.ready⟩,
    [⟨⟨"mesh0", ResourceState.ready⟩, 1, true, false, 0, 1⟩]⟩
  getTexture := fun n => ⟨n, ResourceState.ready⟩
  getGeodata := fun n => ⟨⟨n, ResourceState.ready⟩, []⟩
  geoStyleValidity := fun _ => Validity.Valid
  geoFeaturesValidity := fun _ _ _ => Validity.Valid
  convert := fun v _ => v
  convertNav := fun v _ => v
  aabbPointDist := fun _ _ => 0
  obbOfCorners := fun _ => ⟨1, sampleBox⟩
  nodeInfoChild := fun ni t => { ni with nodeId := t, distanceFromRoot := ni.distanceFromRoot + 1 }
  initCornersPhys := fun _ => ⟨0, 0, 0⟩
  initSurrogatePhys := ⟨0, 0, 0⟩
  initPriority := 0
  hashOf := fun t => t.x + t.y
  textureLayerBound := fun _ => ⟨"", none, true, false, [], none, none⟩
  prepare := samplePrepare
  uvMatrix := fun _ => 1
  creditsFind := fun c => some c
  visibilityTest := fun _ => true
  coarsenessTest := fun _ => false
  touchDraws := fun _ => []
  generateMonolithicGeodataTrav := fun d => (false, d, [])

/-- A fresh root node. -/
def sampleRoot : Traversal.TraverseNode :=
  .mk (Traversal.NodeData.new sampleTEnv ⟨⟨0, 0, 0⟩, "srs", (0, 0), (1, 1), 0⟩) []

/-- An empty frame. -/
def sampleTFrame : Traversal.Frame := ⟨[], [], 0, 0, 0, []⟩

/-- The root and the frame after `travDetermineMeta` on the fresh sample root. -/
def sampleMetaOut : Traversal.TraverseNode × Traversal.Frame :=
  Traversal.outcome (Traversal.travDetermineMeta sampleTEnv none sampleRoot sampleTFrame)
    sampleRoot sampleTFrame

/-! ## The traversal of rendererTraversal.cpp: draws -/

namespace Traversal

/-- Setter for the members other than `childs`. -/
def TraverseNode.setData (t : TraverseNode) (d : NodeData) : TraverseNode := .mk d t.childs

/-- The running values of the submesh loop of `travDetermineDrawsSurface`. -/
structure DrawsAcc where
  determined : Bool
  newOpaque : List RenderTask
  newTransparent : List RenderTask
  newCredits : List CreditId
  requests : List MetaRequest
  touched : List String

/-- The function `MapImpl::travInternalTexture`: the texture, with the touch and the priority
update it makes recorded in the accumulator's logs. -/
def travInternalTexture (E : Env) (d : NodeData) (surface : SurfaceInfo) (subMeshIndex : Nat) :
    Resource × List String × List MetaRequest :=
  let name := surface.urlIntTex d.nodeInfo.nodeId subMeshIndex
  (E.getTexture name, [name], [⟨name, d.priority⟩])

/-- The draw task `travDetermineDrawsSurface` makes for the bound layer `b`. -/
def boundLayerTask (E : Env) (part : Renderer.MeshPart) (b : BoundParamInfo) : RenderTask :=
  { RenderTask.new with
    textureColor := b.textureColor
    textureMask := b.textureMask
    color := ⟨RenderTask.new.color.x, RenderTask.new.color.y, RenderTask.new.color.z,
      match b.alpha with
      | some al => al
      | none => 1⟩
    mesh := some part.renderable
    model := part.normToPhys
    uvm := E.uvMatrix b
    externalUv := true }

/-- The inner loop over the bound layers of one submesh: credits, task (transparent when the
layer is transparent or masked, else opaque), `allTransparent`. -/
def boundLayersLoop (E : Env) (part : Renderer.MeshPart) :
    List BoundParamInfo → DrawsAcc → Bool → DrawsAcc × Bool
  | [], acc, allTransparent => (acc, allTransparent)
  | b :: rest, acc, allTransparent =>
    let task := boundLayerTask E part b
    let acc := { acc with newCredits := acc.newCredits ++ b.credits.filterMap E.creditsFind }
    let acc :=
      if b.transparent || task.textureMask.isSome then
        { acc with newTransparent := acc.newTransparent ++ [task] }
      else { acc with newOpaque := acc.newOpaque ++ [task] }
    boundLayersLoop E part rest acc (allTransparent && b.transparent)

/-- The "internal texture" block of the submesh loop. -/
def internalTextureStep (E : Env) (d : NodeData) (surface : SurfaceInfo) (subMeshIndex : Nat)
    (part : Renderer.MeshPart) (acc : DrawsAcc) : DrawsAcc :=
  if part.internalUv then
    let t := travInternalTexture E d surface subMeshIndex
    let acc := { acc with touched := acc.touched ++ t.2.1, requests := acc.requests ++ t.2.2 }
    match getResourceValidity t.1 with
    | Validity.Indeterminate => { acc with determined := false }
    | Validity.Invalid => acc
    | Validity.Valid =>
      let task : RenderTask :=
        { RenderTask.new with
          textureColor := some t.1
          mesh := some part.renderable
          model := part.normToPhys
          uvm := 1
          externalUv := false }
      { acc with newOpaque := task :: acc.newOpaque }
  else acc

/-- The bound layer list of a submesh: `layer->boundList(surface, surfaceReference)` with the
submesh's own `textureLayer` appended when it has one. -/
def subMeshBoundList (E : Env) (surface : SurfaceInfo) (part : Renderer.MeshPart) :
    List BoundParamInfo :=
  let bls := E.layer.boundList surface part.surfaceReference
  if part.textureLayer ≠ 0 then bls ++ [E.textureLayerBound part.textureLayer] else bls

/-- The body of the submesh loop of `travDetermineDrawsSurface`. -/
def subMeshStep (E : Env) (d : NodeData) (surface : SurfaceInfo) (subMeshIndex : Nat)
    (part : Renderer.MeshPart) (acc : DrawsAcc) : DrawsAcc :=
  if part.externalUv then
    match reorderBoundLayers E.prepare d.nodeInfo subMeshIndex (subMeshBoundList E surface part)
        d.priority with
    | (Validity.Indeterminate, _) => { acc with determined := false }
    | (Validity.Invalid, _) => acc
    | (Validity.Valid, bls) =>
      let r := boundLayersLoop E part bls acc true
      if !r.2 then r.1 else internalTextureStep E d surface subMeshIndex part r.1
  else internalTextureStep E d surface subMeshIndex part acc

/-- The submesh loop of `travDetermineDrawsSurface`, from index `subMeshIndex` on. -/
def subMeshLoop (E : Env) (d : NodeData) (surface : SurfaceInfo) :
    Nat → List Renderer.MeshPart → DrawsAcc → DrawsAcc
  | _, [], acc => acc
  | subMeshIndex, part :: rest, acc =>
    subMeshLoop E d surface (subMeshIndex + 1) rest (subMeshStep E d surface subMeshIndex part acc)

/-- The function `MapImpl::travDetermineDrawsSurface`. -/
def travDetermineDrawsSurface (E : Env) (trav : TraverseNode) (s : Frame) :
    Except Failure (Bool × TraverseNode × Frame) :=
  let d := trav.data
  match d.meta, d.surface with
  | none, _ => Except.error Failure.assertMeta
  | some _, none => Except.error Failure.assertSurface
  | some meta, some surface =>
    let nodeId := d.nodeInfo.nodeId
    let prefetch : List (Resource × List String × List MetaRequest) :=
      if meta.geometry then
        (List.range meta.internalTextureCount).map (travInternalTexture E d surface)
      else []
    let s := { s with
      touched := s.touched ++ (prefetch.map
        (fun (t : Resource × List String × List MetaRequest) => t.2.1)).flatten
      requests := s.requests ++ (prefetch.map
        (fun (t : Resource × List String × List MetaRequest) => t.2.2)).flatten }
    let meshAggName := surface.urlMesh nodeId
    let meshAgg := E.getMeshAggregate meshAggName
    let s := { s with requests := s.requests ++ [⟨meshAggName, d.priority⟩] }
    match getResourceValidity meshAgg.resource with
    | Validity.Invalid => Except.ok (false, trav.setData { d with surface := none }, s)
    | Validity.Indeterminate => Except.ok (false, trav, s)
    | Validity.Valid =>
      let acc := subMeshLoop E d surface 0 meshAgg.submeshes ⟨true, [], [], [], [], []⟩
      let s := { s with touched := s.touched ++ acc.touched
                        requests := s.requests ++ acc.requests }
      if acc.determined then
        if !d.rendersEmpty then Except.error Failure.assertRendersEmpty
        else
          let d1 := { d with opaqueTasks := acc.newOpaque, transparent := acc.newTransparent,
                             credits := d.credits ++ acc.newCredits }
          let d2 :=
            if d1.rendersEmpty then { d1 with surface := none }
            else { d1 with touchResource := some meshAgg.resource }
          Except.ok (true, trav.setData d2, s)
      else Except.ok (false, trav, s)

/-- The function `MapImpl::travDetermineDrawsGeodata`; the style and feature lookups and the
geodata resource are those of the environment. -/
def travDetermineDrawsGeodata (E : Env) (trav : TraverseNode) (s : Frame) :
    Except Failure (Bool × TraverseNode × Frame) :=
  let d := trav.data
  match d.surface with
  | none => Except.error Failure.assertSurface
  | some surface =>
    let geoName := surface.urlGeodata d.nodeInfo.nodeId
    let style := E.geoStyleValidity E.layer.freeLayerName
    let features := E.geoFeaturesValidity E.layer.freeLayerName geoName d.priority
    if style = Validity.Invalid || features = Validity.Invalid then
      Except.ok (false, trav.setData { d with surface := none }, s)
    else if style = Validity.Indeterminate || features = Validity.Indeterminate then
      Except.ok (false, trav, s)
    else
      let geo := E.getGeodata (geoName ++ "#$!gpu")
      let s := { s with requests := s.requests ++ [⟨geoName ++ "#$!gpu", d.priority⟩] }
      match getResourceValidity geo.resource with
      | Validity.Invalid => Except.ok (false, trav.setData { d with surface := none }, s)
      | Validity.Indeterminate => Except.ok (false, trav, s)
      | Validity.Valid =>
        if !d.rendersEmpty then Except.error Failure.assertRendersEmpty
        else
          let d1 := { d with geodata := d.geodata ++ geo.renders }
          let d2 :=
            if d1.rendersEmpty then { d1 with surface := none }
            else { d1 with touchResource := some geo.resource }
          Except.ok (true, trav.setData d2, s)

/-- The function `MapImpl::travDetermineDraws`. -/
def travDetermineDraws (E : Env) (parent : Option NodeData) (trav : TraverseNode) (s : Frame) :
    Except Failure (Bool × TraverseNode × Frame) :=
  if trav.data.meta.isNone then Except.error Failure.assertMeta
  else if trav.data.surface.isNone then Except.error Failure.assertSurface
  else if !trav.data.rendersEmpty then Except.error Failure.assertRendersEmpty
  else
    let s := { s with currentNodeDrawsUpdates := s.currentNodeDrawsUpdates + 1 }
    let trav := trav.setData (updateNodePriority E parent trav.data)
    if E.layer.isGeodata then travDetermineDrawsGeodata E trav s
    else travDetermineDrawsSurface E trav s

end Traversal

/-- The claim's condition on submesh `i`, read literally: its bound-layer resolution is
`Indeterminate`, or its internal texture is. -/
def Traversal.SubmeshIndeterminate (E : Traversal.Env) (d : Traversal.NodeData)
    (surface : SurfaceInfo) (i : Nat) (part : Renderer.MeshPart) : Prop :=
  (part.externalUv = true ∧
    (reorderBoundLayers E.prepare d.nodeInfo i (Traversal.subMeshBoundList E surface part)
      d.priority).1 = Validity.Indeterminate) ∨
  (part.internalUv = true ∧
    getResourceValidity (E.getTexture (surface.urlIntTex d.nodeInfo.nodeId i))
      = Validity.Indeterminate)

/-- Submesh `i` blocks the commit: its bound-layer resolution is `Indeterminate`, or the loop
reaches its internal texture (internal UV, and either no external UV or bound layers that
resolved `Valid` and are all transparent) and that texture is `Indeterminate`. -/
def Traversal.SubmeshBlocks (E : Traversal.Env) (d : Traversal.NodeData)
    (surface : SurfaceInfo) (i : Nat) (part : Renderer.MeshPart) : Prop :=
  (part.externalUv = true ∧
    (reorderBoundLayers E.prepare d.nodeInfo i (Traversal.subMeshBoundList E surface part)
      d.priority).1 = Validity.Indeterminate) ∨
  (part.internalUv = true ∧
    (part.externalUv = false ∨
      ((reorderBoundLayers E.prepare d.nodeInfo i (Traversal.subMeshBoundList E surface part)
          d.priority).1 = Validity.Valid ∧
        ∀ b ∈ (reorderBoundLayers E.prepare d.nodeInfo i
          (Traversal.subMeshBoundList E surface part) d.priority).2, b.transparent = true)) ∧
    getResourceValidity (E.getTexture (surface.urlIntTex d.nodeInfo.nodeId i))
      = Validity.Indeterminate)

/-- A submesh with both external and internal UV. -/
def samplePartBoth : Renderer.MeshPart := ⟨⟨"mesh0", ResourceState.ready⟩, 1, true, true, 0, 1⟩

/-- An environment in which every texture of the store still downloads, the single submesh
has both UV sets, and its bound list is one opaque watertight layer with a ready texture. -/
def sampleTEnvDownloading : Traversal.Env :=
  { sampleTEnv with
    getTexture := fun n => ⟨n, ResourceState.downloading⟩
    getMeshAggregate := fun n => ⟨⟨n, ResourceState.ready⟩, [samplePartBoth]⟩
    layer := { sampleTEnv.layer with
      boundList := fun _ _ =>
        [⟨"bl", none, true, false, [], some ⟨"ext", ResourceState.ready⟩, none⟩] } }

/-- A root with resolved meta and the sample surface, without draws. -/
def sampleResolvedRoot : Traversal.TraverseNode :=
  .mk { Traversal.NodeData.new sampleTEnv ⟨⟨0, 0, 0⟩, "srs", (0, 0), (1, 1), 0⟩ with
        meta := some sampleMetaNode, surface := some sampleSurface } []

/-- The sample environment with every texture of the store still downloading; the single
submesh has internal UV only. -/
def sampleTEnvInternal : Traversal.Env :=
  { sampleTEnv with getTexture := fun n => ⟨n, ResourceState.downloading⟩ }

/-! ## The traversal of rendererTraversal.cpp: the modes -/

namespace Traversal

/-- A call of `renderNode(trav)` (defined outside these sources): recorded in the frame. -/
def renderNode (trav : TraverseNode) (s : Frame) : Frame :=
  { s with rendered := s.rendered ++ [trav.data.nodeInfo.nodeId] }

/-- A call of `touchDraws(trav)` (defined outside these sources): the touches it makes. -/
def touchDraws (E : Env) (d : NodeData) (s : Frame) : Frame :=
  { s with touched := s.touched ++ E.touchDraws d }

/-- The members after the first steps of `travInit`: access time and priority updated. -/
def initData (E : Env) (parent : Option NodeData) (d : NodeData) : NodeData :=
  updateNodePriority E parent { d with lastAccessTime := E.tickIndex }

/-- The function `MapImpl::travInit`. -/
def travInit (E : Env) (parent : Option NodeData) (trav : TraverseNode) (s : Frame) :
    Except Failure (Bool × TraverseNode × Frame) :=
  let s := { s with metaNodesTraversedTotal := s.metaNodesTraversedTotal + 1 }
  let trav := trav.setData (initData E parent trav.data)
  if trav.data.meta.isNone then travDetermineMeta E parent trav s
  else Except.ok (true, trav, s)

/-- The step `if (trav->surface && trav->rendersEmpty()) travDetermineDraws(trav);`, whose
returned flag the callers drop. -/
def ensureDraws (E : Env) (parent : Option NodeData) (trav : TraverseNode) (s : Frame) :
    Except Failure (TraverseNode × Frame) :=
  if trav.data.surface.isSome && trav.data.rendersEmpty then
    match travDetermineDraws E parent trav s with
    | Except.error e => Except.error e
    | Except.ok (_, trav, s) => Except.ok (trav, s)
  else Except.ok (trav, s)

/-- A loop `for (auto &t : trav->childs) f(t)` over the children, in order.  A step yields
`none` when the recursion budget of the embedding is used up, else its outcome. -/
def forChilds (f : TraverseNode → Frame → Option (Except Failure (TraverseNode × Frame))) :
    List TraverseNode → Frame → Option (Except Failure (List TraverseNode × Frame))
  | [], s => some (Except.ok ([], s))
  | t :: rest, s =>
    match f t s with
    | none => none
    | some (Except.error e) => some (Except.error e)
    | some (Except.ok (t', s')) =>
      match forChilds f rest s' with
      | none => none
      | some (Except.error e) => some (Except.error e)
      | some (Except.ok (rest', s'')) => some (Except.ok (t' :: rest', s''))

/-- The loop of `travModeHierarchical` that computes `ok`: it is cleared by a child without
meta and by a child with a surface and no draws. -/
def childsOk : List TraverseNode → Bool → Bool
  | [], ok => ok
  | t :: rest, ok =>
    if t.data.meta.isNone then childsOk rest false
    else if t.data.surface.isSome && t.data.rendersEmpty then childsOk rest false
    else childsOk rest ok

/-- The function `MapImpl::travModeHierarchical`.  The first argument bounds the depth of the
recursion; the result is `none` when it is used up. -/
def travModeHierarchical (E : Env) :
    Nat → Option NodeData → TraverseNode → Bool → Frame →
      Option (Except Failure (TraverseNode × Frame))
  | 0, _, _, _, _ => none
  | fuel + 1, parent, trav, loadOnly, s =>
    match travInit E parent trav s with
    | Except.error e => some (Except.error e)
    | Except.ok (false, trav, s) => some (Except.ok (trav, s))
    | Except.ok (true, trav, s) =>
      match ensureDraws E parent trav (touchDraws E trav.data s) with
      | Except.error e => some (Except.error e)
      | Except.ok (trav, s) =>
        if loadOnly then some (Except.ok (trav, s))
        else if !E.visibilityTest trav.data then some (Except.ok (trav, s))
        else if E.coarsenessTest trav.data || trav.childs.isEmpty then
          some (Except.ok (trav, if !trav.data.rendersEmpty then renderNode trav s else s))
        else
          let ok := childsOk trav.childs true
          match forChilds (fun t s => travModeHierarchical E fuel (some trav.data) t (!ok) s)
              trav.childs s with
          | none => none
          | some (Except.error e) => some (Except.error e)
          | some (Except.ok (childs, s)) =>
            let trav := TraverseNode.mk trav.data childs
            some (Except.ok
              (trav, if !ok && !trav.data.rendersEmpty then renderNode trav s else s))

/-- The function `MapImpl::travModeFlat`.  The first argument bounds the depth of the
recursion; the result is `none` when it is used up. -/
def travModeFlat (E : Env) :
    Nat → Option NodeData → TraverseNode → Frame →
      Option (Except Failure (TraverseNode × Frame))
  | 0, _, _, _ => none
  | fuel + 1, parent, trav, s =>
    match travInit E parent trav s with
    | Except.error e => some (Except.error e)
    | Except.ok (false, trav, s) => some (Except.ok (trav, s))
    | Except.ok (true, trav, s) =>
      if !E.visibilityTest trav.data then
        some (Except.ok (trav.setData trav.data.clearRenders, s))
      else if E.coarsenessTest trav.data || trav.childs.isEmpty then
        match ensureDraws E parent trav (touchDraws E trav.data s) with
        | Except.error e => some (Except.error e)
        | Except.ok (trav, s) =>
          some (Except.ok (trav, if !trav.data.rendersEmpty then renderNode trav s else s))
      else
        match forChilds (fun t s => travModeFlat E fuel (some trav.data) t s) trav.childs s with
        | none => none
        | some (Except.error e) => some (Except.error e)
        | some (Except.ok (childs, s)) =>
          some (Except.ok (TraverseNode.mk trav.data.clearRenders childs, s))

end Traversal

/-- Step `(trav, s) -> (trav', s')` of the traversal of one node that calls no `renderNode`,
visits no further node, and leaves the children, the tile and the meta of the node alone. -/
def Traversal.Quiet (trav trav' : Traversal.TraverseNode) (s s' : Traversal.Frame) : Prop :=
  s'.rendered = s.rendered ∧ s'.metaNodesTraversedTotal = s.metaNodesTraversedTotal ∧
  trav'.childs = trav.childs ∧ trav'.data.nodeInfo = trav.data.nodeInfo ∧
  trav'.data.meta = trav.data.meta

/-- The tiles on which `renderNode` was called in a finished run of a traversal mode. -/
def Traversal.renderedOf
    (r : Option (Except Traversal.Failure (Traversal.TraverseNode × Traversal.Frame))) :
    Option (List TileId) :=
  match r with
  | some (Except.ok (_, s)) => some s.rendered
  | _ => none

/-- A resolved leaf without surface and without draws. -/
def sampleBareLeaf : Traversal.TraverseNode :=
  .mk { Traversal.NodeData.new sampleTEnv ⟨⟨0, 0, 0⟩, "srs", (0, 0), (1, 1), 0⟩ with
        meta := some sampleMetaNode } []

/-- A resolved root with its meta-tile and one draw task, whose single child has no meta
yet. -/
def sampleParentNode : Traversal.TraverseNode :=
  .mk { sampleBareLeaf.data with
        opaqueTasks := [RenderTask.new]
        metaTiles := [some (sampleTEnv.getMetaTile "meta-0-0-0")] }
    [.mk (Traversal.NodeData.new sampleTEnv ⟨⟨1, 0, 0⟩, "srs", (0, 0), (1, 1), 1⟩) []]

/-- Entry `i` of the surface stack qualifies for the tile (renderer.cpp): `checkMetaNode`
resolves it to `Valid` with a meta-node that has geometry and the `alien` mark of the entry. -/
def Renderer.QualifiesAt (E : Renderer.Env) (nodeId : TileId) (priority : Priority)
    (l : List Renderer.SurfaceStackItem) (i : Nat) (item : Renderer.SurfaceStackItem) : Prop :=
  ∃ n log, l[i]? = some item ∧
    Renderer.checkMetaNode E.flag E.meta item.surface nodeId none priority
      = (some (Validity.Valid, some n), log) ∧
    n.geometry = true ∧ n.alien = item.alien

/-- A fresh root of the tree of renderer.cpp. -/
def sampleOldRoot : Renderer.TraverseNode :=
  Renderer.TraverseNode.new ⟨⟨0, 0, 0⟩, "srs", (0, 0), (1, 1), 0⟩

/-- Whether a step of renderer.cpp returned true. -/
def Renderer.succeeded (r : Except Renderer.Failure
    (Bool × Renderer.TraverseNode × Renderer.Frame)) : Bool :=
  match r with
  | Except.ok (b, _, _) => b
  | Except.error _ => false

/-- The node and frame after a step of renderer.cpp (the given ones when the run stopped). -/
def Renderer.outcome (r : Except Renderer.Failure
    (Bool × Renderer.TraverseNode × Renderer.Frame)) (t0 : Renderer.TraverseNode)
    (s0 : Renderer.Frame) : Renderer.TraverseNode × Renderer.Frame :=
  match r with
  | Except.ok (_, t, s) => (t, s)
  | Except.error _ => (t0, s0)

/-- The fresh root of renderer.cpp and the frame after `travDetermineMeta`. -/
def sampleOldMetaOut : Renderer.TraverseNode × Renderer.Frame :=
  Renderer.outcome (Renderer.travDetermineMeta sampleEnv sampleOldRoot sampleFrame)
    sampleOldRoot sampleFrame

/-! ## Fixed mode -/

namespace Traversal

/-- The function `MapImpl::travModeFixed`.  The first argument bounds the depth of the
recursion; the result is `none` when it is used up. -/
def travModeFixed (E : Env) :
    Nat → Option NodeData → TraverseNode → Frame →
      Option (Except Failure (TraverseNode × Frame))
  | 0, _, _, _ => none
  | fuel + 1, parent, trav, s =>
    match travInit E parent trav s with
    | Except.error e => some (Except.error e)
    | Except.ok (false, trav, s) => some (Except.ok (trav, s))
    | Except.ok (true, trav, s) =>
      if travDistance E trav.data E.focusPosPhys > E.fixedModeDistance then
        some (Except.ok (trav.setData trav.data.clearRenders, s))
      else if decide (trav.data.nodeInfo.nodeId.lod ≥ E.fixedModeLod) || trav.childs.isEmpty then
        match ensureDraws E parent trav (touchDraws E trav.data s) with
        | Except.error e => some (Except.error e)
        | Except.ok (trav, s) =>
          some (Except.ok (trav, if !trav.data.rendersEmpty then renderNode trav s else s))
      else
        match forChilds (fun t s => travModeFixed E fuel (some trav.data) t s) trav.childs s with
        | none => none
        | some (Except.error e) => some (Except.error e)
        | some (Except.ok (childs, s)) =>
          some (Except.ok (TraverseNode.mk trav.data.clearRenders childs, s))

end Traversal

/-- Node `n` is `t` itself or lies in the subtree below `t`. -/
inductive Traversal.InTree : Traversal.TraverseNode → Traversal.TraverseNode → Prop
  | self (t : Traversal.TraverseNode) : Traversal.InTree t t
  | child (n c t : Traversal.TraverseNode) (hc : c ∈ t.childs) (hn : Traversal.InTree n c) :
      Traversal.InTree n t

/-- What holds of a node on which `travModeFixed` calls `renderNode`: it is at or beyond the
fixed lod or has no children, its box is within the fixed distance of the focus, and it has
draws. -/
def Traversal.FixedRendered (E : Traversal.Env) (n : Traversal.TraverseNode) : Prop :=
  (E.fixedModeLod ≤ n.data.nodeInfo.nodeId.lod ∨ n.childs = []) ∧
  Traversal.travDistance E n.data E.focusPosPhys ≤ E.fixedModeDistance ∧
  n.data.rendersEmpty = false

/-- In the tree `t` every child lies one lod below its parent. -/
def Traversal.LodStep (t : Traversal.TraverseNode) : Prop :=
  ∀ n, Traversal.InTree n t → ∀ c ∈ n.childs,
    c.data.nodeInfo.nodeId.lod = n.data.nodeInfo.nodeId.lod + 1

/-- A resolved leaf at lod 0 with one draw task. -/
def sampleDrawnLeaf : Traversal.TraverseNode :=
  .mk { sampleBareLeaf.data with opaqueTasks := [RenderTask.new] } []

/-- Whether a run of a traversal mode came to its end without a failed assertion. -/
def Traversal.finished
    (r : Option (Except Traversal.Failure (Traversal.TraverseNode × Traversal.Frame))) : Bool :=
  match r with
  | some (Except.ok _) => true
  | _ => false

/-- The tree and frame a run of a traversal mode ends with (the given ones otherwise). -/
def Traversal.result
    (r : Option (Except Traversal.Failure (Traversal.TraverseNode × Traversal.Frame)))
    (t0 : Traversal.TraverseNode) (s0 : Traversal.Frame) :
    Traversal.TraverseNode × Traversal.Frame :=
  match r with
  | some (Except.ok x) => x
  | _ => (t0, s0)

/-- The sample environment with the fixed lod 1. -/
def sampleTEnvFixed : Traversal.Env := { sampleTEnv with fixedModeLod := 1 }

/-- The tree and frame after one frame of `travModeFixed` from the fresh root, fixed lod 1. -/
def sampleFixedOut : Traversal.TraverseNode × Traversal.Frame :=
  Traversal.result (Traversal.travModeFixed sampleTEnvFixed 2 none sampleRoot sampleTFrame)
    sampleRoot sampleTFrame

/-! ## Children of a resolved node -/

/-- A sample meta-node with geometry and no child flag set. -/
def sampleChildlessNode : MetaNode := { sampleMetaNode with flags := 0x01, childFlags := 0 }

/-- A sample surface with the fixed meta URL "top". -/
def sampleSurfaceTop : SurfaceInfo :=
  ⟨["top"], fun _ => "top", fun _ => "mesh", fun _ _ => "tex", fun _ => "geo", false⟩

/-- A sample surface with the fixed meta URL "low". -/
def sampleSurfaceLow : SurfaceInfo :=
  ⟨["low"], fun _ => "low", fun _ => "mesh", fun _ _ => "tex", fun _ => "geo", false⟩

/-- A sample store of two meta-tiles, both ready: "top" holds the childless node everywhere,
every other one the sample node with all four child flags. -/
def sampleStoreTwo : String → MetaTile := fun name =>
  if name = "top" then ⟨⟨name, ResourceState.ready⟩, fun _ => some sampleChildlessNode⟩
  else ⟨⟨name, ResourceState.ready⟩, fun _ => some sampleMetaNode⟩

/-- The sample environment of rendererTraversal.cpp with the stack of the two surfaces "top"
and "low". -/
def sampleTEnvTwo : Traversal.Env :=
  { sampleTEnv with
    layer := { sampleTEnv.layer with surfaces := [sampleSurfaceTop, sampleSurfaceLow] }
    getMetaTile := sampleStoreTwo }

/-- The sample environment of renderer.cpp with the stack of the two surfaces "top" and
"low". -/
def sampleEnvTwo : Renderer.Env :=
  { sampleEnv with
    surfaceStack := [⟨sampleSurfaceTop, false, ⟨0, 0, 0⟩⟩, ⟨sampleSurfaceLow, false, ⟨0, 0, 0⟩⟩]
    meta := ⟨sampleStoreTwo, 5⟩ }

/-- The root and the frame after `travDetermineMeta` with the two-surface stack. -/
def sampleMetaOutTwo : Traversal.TraverseNode × Traversal.Frame :=
  Traversal.outcome (Traversal.travDetermineMeta sampleTEnvTwo none sampleRoot sampleTFrame)
    sampleRoot sampleTFrame

/-- The root of renderer.cpp and the frame after `travDetermineMeta` with the two-surface
stack. -/
def sampleOldMetaOutTwo : Renderer.TraverseNode × Renderer.Frame :=
  Renderer.outcome (Renderer.travDetermineMeta sampleEnvTwo sampleOldRoot sampleFrame)
    sampleOldRoot sampleFrame

/-- The sample environment of rendererTraversal.cpp with division extents `[0, 2]^3`. -/
def sampleTEnvWide : Traversal.Env := { sampleTEnv with divisionExtentsUr := ⟨2, 2, 2⟩ }

/-- The fresh root (depth 0) and the frame after `travDetermineMeta` with the wide division
extents. -/
def sampleMetaOutWide : Traversal.TraverseNode × Traversal.Frame :=
  Traversal.outcome (Traversal.travDetermineMeta sampleTEnvWide none sampleRoot sampleTFrame)
    sampleRoot sampleTFrame

/-- The members of a node at depth 3 with the sample meta-node stored. -/
def sampleDeepData : Traversal.NodeData :=
  { Traversal.NodeData.new sampleTEnvWide sampleNodeInfo with meta := some sampleMetaNode }

/-- The members of the node at depth 3 after `travDetermineMetaImpl`. -/
def sampleDeepOut : Traversal.NodeData :=
  match Traversal.travDetermineMetaImpl sampleTEnvWide sampleDeepData with
  | Except.ok d => d
  | Except.error _ => sampleDeepData


/-! ## The clearing pass -/

namespace Traversal

/-- Modelled from the spec: `TraverseNode::clearAll`, defined outside these sources: "drop its
`meta`, `draws`, and `children`".  This is the effect on the members; the children are dropped
by `TraverseNode.clearAll`. -/
def NodeData.clearAll (d : NodeData) : NodeData := { d.clearRenders with meta := none }

/-- Modelled from the spec: `TraverseNode::clearAll` on a node of the tree: the members are
cleared and the children list is emptied. -/
def TraverseNode.clearAll (t : TraverseNode) : TraverseNode := .mk t.data.clearAll []

mutual
/-- The function `MapImpl::traverseClearing` (rendererTraversal.cpp), with `renderer.tickIndex`
as first argument; the sum `lastAccessTime + 5` is taken without wrap-around. -/
def traverseClearing (tickIndex : Nat) : TraverseNode → TraverseNode
  | .mk d childs =>
    if d.lastAccessTime + 5 < tickIndex then TraverseNode.clearAll (.mk d childs)
    else .mk d (traverseClearingChilds tickIndex childs)
/-- The loop `for (auto &it : trav->childs) traverseClearing(it.get())`. -/
def traverseClearingChilds (tickIndex : Nat) : List TraverseNode → List TraverseNode
  | [] => []
  | t :: rest => traverseClearing tickIndex t :: traverseClearingChilds tickIndex rest
end

/-- The node reached from `t` by the child indices of the path, if there is one. -/
def nodeAt : TraverseNode → List Nat → Option TraverseNode
  | t, [] => some t
  | t, i :: p =>
    match t.childs[i]? with
    | none => none
    | some c => nodeAt c p

/-- The node was last accessed more than five ticks before `tickIndex`. -/
def stale (tickIndex : Nat) (t : TraverseNode) : Bool :=
  decide (t.data.lastAccessTime + 5 < tickIndex)

/-- Every node passed on the way from `t` along the path, the end of the path excluded, is
not stale. -/
def freshAbove (tickIndex : Nat) : TraverseNode → List Nat → Bool
  | _, [] => true
  | t, i :: p =>
    !stale tickIndex t &&
      match t.childs[i]? with
      | none => true
      | some c => freshAbove tickIndex c p

end Traversal

namespace Renderer

/-- Modelled from the spec: `TraverseNode::clear` of renderer.cpp, defined outside these
sources: "drop its `meta`, `draws`, and `children`". -/
def TraverseNode.clear (t : TraverseNode) : TraverseNode :=
  .mk t.nodeInfo none [] [] t.priority t.lastAccessTime

/-- The guard at the head of `traverseClearing` (renderer.cpp): a node at lod 3 is passed over
unless `(id.y * 8 + id.x) % 64` equals `frameIndex % 64`; the sum is that of 32 bit unsigned
integers. -/
def skipped (frameIndex : Nat) (t : TraverseNode) : Bool :=
  t.nodeInfo.nodeId.lod == 3 &&
    ((t.nodeInfo.nodeId.y * 8 + t.nodeInfo.nodeId.x) % 2 ^ 32) % 64 != frameIndex % 64

mutual
/-- The function `MapImpl::traverseClearing` (renderer.cpp), with `statistics.frameIndex` as
first argument; the sum `lastAccessTime + 5` is taken without wrap-around. -/
def traverseClearing (frameIndex : Nat) : TraverseNode → TraverseNode
  | .mk ni m draws childs prio time =>
    if skipped frameIndex (.mk ni m draws childs prio time) then .mk ni m draws childs prio time
    else if time + 5 < frameIndex then TraverseNode.clear (.mk ni m draws childs prio time)
    else .mk ni m draws (traverseClearingChilds frameIndex childs) prio time
/-- The loop `for (auto &&it : trav->childs) traverseClearing(it)`. -/
def traverseClearingChilds (frameIndex : Nat) : List TraverseNode → List TraverseNode
  | [] => []
  | t :: rest => traverseClearing frameIndex t :: traverseClearingChilds frameIndex rest
end

/-- The node reached from `t` by the child indices of the path, if there is one. -/
def nodeAt : TraverseNode → List Nat → Option TraverseNode
  | t, [] => some t
  | t, i :: p =>
    match t.childs[i]? with
    | none => none
    | some c => nodeAt c p

/-- The node was last accessed more than five frames before `frameIndex`. -/
def stale (frameIndex : Nat) (t : TraverseNode) : Bool :=
  decide (t.lastAccessTime + 5 < frameIndex)

/-- Every node on the way from `t` along the path, its end included, is not stale. -/
def freshAlong (frameIndex : Nat) : TraverseNode → List Nat → Bool
  | t, [] => !stale frameIndex t
  | t, i :: p =>
    !stale frameIndex t &&
      match t.childs[i]? with
      | none => true
      | some c => freshAlong frameIndex c p

end Renderer

/-- Node `n` is `t` itself or lies in the subtree below `t` (renderer.cpp). -/
inductive Renderer.InTree : Renderer.TraverseNode → Renderer.TraverseNode → Prop
  | self (t : Renderer.TraverseNode) : Renderer.InTree t t
  | child (n c t : Renderer.TraverseNode) (hc : c ∈ t.childs) (hn : Renderer.InTree n c) :
      Renderer.InTree n t

/-- A sample tree of renderer.cpp: a chain from the root down to the tile `(3, 1, 0)`; the
upper three nodes were accessed in frame 100, the node at lod 3 in frame 0, and it holds meta
and a draw task. -/
def sampleOldChain : Renderer.TraverseNode :=
  .mk ⟨⟨0, 0, 0⟩, "srs", (0, 0), (1, 1), 0⟩ (some sampleMetaInfo) []
    [.mk ⟨⟨1, 0, 0⟩, "srs", (0, 0), (1, 1), 1⟩ (some sampleMetaInfo) []
      [.mk ⟨⟨2, 0, 0⟩, "srs", (0, 0), (1, 1), 2⟩ (some sampleMetaInfo) []
        [.mk ⟨⟨3, 1, 0⟩, "srs", (0, 0), (1, 1), 3⟩ (some sampleMetaInfo) [RenderTask.new] []
          1 0] 1 100] 1 100] 1 100

/-- A sample tree of rendererTraversal.cpp: a root accessed in tick 100 with two children, the
first accessed in tick 100, the second, which has a child of its own, in tick 0. -/
def sampleClearTree : Traversal.TraverseNode :=
  .mk { sampleBareLeaf.data with lastAccessTime := 100 }
    [.mk { sampleBareLeaf.data with lastAccessTime := 100, opaqueTasks := [RenderTask.new] } [],
     .mk { sampleBareLeaf.data with lastAccessTime := 0, opaqueTasks := [RenderTask.new] }
       [sampleBareLeaf]]


/-! ## Balanced mode -/

namespace Traversal

/-- The head of `travModeBalanced`: with `renderOnly` the access time is set and the flag tells
whether the node has meta, else it is the call of `travInit`. -/
def balancedInit (E : Env) (parent : Option NodeData) (trav : TraverseNode) (renderOnly : Bool)
    (s : Frame) : Except Failure (Bool × TraverseNode × Frame) :=
  if renderOnly then
    let trav := trav.setData { trav.data with lastAccessTime := E.tickIndex }
    Except.ok (trav.data.meta.isSome, trav, s)
  else travInit E parent trav s

/-- The step `if (!renderOnly && (coarsenessTest(trav) || trav->childs.empty()))` of
`travModeBalanced`, which determines the draws and sets `renderOnly`; the flag of the result
is `renderOnly` afterwards. -/
def balancedDraws (E : Env) (parent : Option NodeData) (trav : TraverseNode) (renderOnly : Bool)
    (s : Frame) : Except Failure (Bool × TraverseNode × Frame) :=
  if !renderOnly && (E.coarsenessTest trav.data || trav.childs.isEmpty) then
    match ensureDraws E parent trav (touchDraws E trav.data s) with
    | Except.error e => Except.error e
    | Except.ok (trav, s) => Except.ok (true, trav, s)
  else Except.ok (renderOnly, trav, s)

/-- The function `MapImpl::travModeBalanced`.  The first argument bounds the depth of the
recursion; the result is `none` when it is used up.  `renderNodeCoarserRecursive` is defined
outside these sources: it is taken as a function of the members of the ancestors (nearest
first) and the node that changes the frame only.  The list of ancestors stands for the chain
of `parent` pointers. -/
def travModeBalanced (E : Env)
    (renderNodeCoarserRecursive : List NodeData → TraverseNode → Frame → Frame) :
    Nat → List NodeData → TraverseNode → Bool → Frame →
      Option (Except Failure (TraverseNode × Frame))
  | 0, _, _, _, _ => none
  | fuel + 1, ancestors, trav, renderOnly, s =>
    match balancedInit E ancestors.head? trav renderOnly s with
    | Except.error e => some (Except.error e)
    | Except.ok (false, trav, s) =>
      some (Except.ok (trav, renderNodeCoarserRecursive ancestors trav s))
    | Except.ok (true, trav, s) =>
      if !E.visibilityTest trav.data then
        some (Except.ok (trav.setData trav.data.clearRenders, s))
      else
        match balancedDraws E ancestors.head? trav renderOnly s with
        | Except.error e => some (Except.error e)
        | Except.ok (renderOnly, trav, s) =>
          if renderOnly && !trav.data.rendersEmpty then
            some (Except.ok (trav, renderNode trav s))
          else if trav.childs.isEmpty then
            some (Except.ok (trav.setData trav.data.clearRenders,
              renderNodeCoarserRecursive ancestors trav s))
          else
            match forChilds (fun t s => travModeBalanced E renderNodeCoarserRecursive fuel
                (trav.data :: ancestors) t renderOnly s) trav.childs s with
            | none => none
            | some (Except.error e) => some (Except.error e)
            | some (Except.ok (childs, s)) =>
              some (Except.ok (TraverseNode.mk trav.data.clearRenders childs, s))

end Traversal

/-- The sample environment in which every node passes the coarseness test. -/
def sampleTEnvCoarse : Traversal.Env := { sampleTEnv with coarsenessTest := fun _ => true }

/-- The tree and frame after one frame of `travModeBalanced` from the fresh root, with a
`renderNodeCoarserRecursive` that renders nothing. -/
def sampleBalancedOut : Traversal.TraverseNode × Traversal.Frame :=
  Traversal.result
    (Traversal.travModeBalanced sampleTEnvCoarse (fun _ _ s => s) 1 [] sampleRoot false
      sampleTFrame) sampleRoot sampleTFrame

/-! ## The tree invariant -/

/-- In the tree `t` every node without meta has no children. -/
def Traversal.NoOrphans (t : Traversal.TraverseNode) : Prop :=
  ∀ n, Traversal.InTree n t → n.data.meta = none → n.childs = []

/-- In the tree `t` every node below the root whose meta is set has a parent whose meta is
set. -/
def Traversal.ParentMeta (t : Traversal.TraverseNode) : Prop :=
  ∀ n, Traversal.InTree n t → ∀ c ∈ n.childs, c.data.meta.isSome = true →
    n.data.meta.isSome = true

/-- The condition of `assert(!trav->parent || trav->parent->meta)`. -/
def Traversal.ParentResolved (parent : Option Traversal.NodeData) : Prop :=
  ∀ p, parent = some p → p.meta.isSome = true

/-- The trees that the traversal and the clearing pass can produce: a fresh root, then any
number of frames of a traversal mode started at the root (with any environment of a tiled
layer, and in balanced mode any `renderNodeCoarserRecursive`) and of clearing passes. -/
inductive Traversal.Reachable : Traversal.TraverseNode → Prop
  | root (E : Traversal.Env) (ni : NodeInfo) :
      Traversal.Reachable (.mk (Traversal.NodeData.new E ni) [])
  | hierarchical (E : Traversal.Env) (fuel : Nat) (t t' : Traversal.TraverseNode)
      (s s' : Traversal.Frame) (hmono : E.layer.freeLayerMonolithicGeodata = false)
      (ht : Traversal.Reachable t)
      (h : Traversal.travModeHierarchical E fuel none t false s = some (Except.ok (t', s'))) :
      Traversal.Reachable t'
  | flat (E : Traversal.Env) (fuel : Nat) (t t' : Traversal.TraverseNode)
      (s s' : Traversal.Frame) (hmono : E.layer.freeLayerMonolithicGeodata = false)
      (ht : Traversal.Reachable t)
      (h : Traversal.travModeFlat E fuel none t s = some (Except.ok (t', s'))) :
      Traversal.Reachable t'
  | fixed (E : Traversal.Env) (fuel : Nat) (t t' : Traversal.TraverseNode)
      (s s' : Traversal.Frame) (hmono : E.layer.freeLayerMonolithicGeodata = false)
      (ht : Traversal.Reachable t)
      (h : Traversal.travModeFixed E fuel none t s = some (Except.ok (t', s'))) :
      Traversal.Reachable t'
  | balanced (E : Traversal.Env)
      (rn : List Traversal.NodeData → Traversal.TraverseNode → Traversal.Frame →
        Traversal.Frame)
      (fuel : Nat) (t t' : Traversal.TraverseNode)
      (s s' : Traversal.Frame) (hmono : E.layer.freeLayerMonolithicGeodata = false)
      (ht : Traversal.Reachable t)
      (h : Traversal.travModeBalanced E rn fuel [] t false s = some (Except.ok (t', s'))) :
      Traversal.Reachable t'
  | clearing (tickIndex : Nat) (t : Traversal.TraverseNode) (ht : Traversal.Reachable t) :
      Traversal.Reachable (Traversal.traverseClearing tickIndex t)

/-- The condition on the box of one node, in terms of its members: while the depth is at most 2
the box is the one the node was constructed with, and once the meta is determined the box
contains the eight corners. -/
def Traversal.BoxOk (d : Traversal.NodeData) : Prop :=
  (d.nodeInfo.distanceFromRoot ≤ 2 → d.aabbPhys = NodeBox.init) ∧
  (d.meta.isSome = true → ∀ i, d.aabbPhys.Contains (d.cornersPhys i))

/-- Every node of the tree satisfies `BoxOk`. -/
def Traversal.AllBoxOk (t : Traversal.TraverseNode) : Prop :=
  ∀ n, Traversal.InTree n t → Traversal.BoxOk n.data

/-- The members `d'` have the tile, the box, the corners and the meta of `d`. -/
def Traversal.SameBox (d d' : Traversal.NodeData) : Prop :=
  d'.nodeInfo = d.nodeInfo ∧ d'.aabbPhys = d.aabbPhys ∧ d'.cornersPhys = d.cornersPhys ∧
  d'.meta = d.meta

/-- A fresh root of the tree of rendererTraversal.cpp whose priority is `+infinity`. -/
def sampleTopRoot : Traversal.TraverseNode :=
  .mk { sampleRoot.data with priority := ⊤ } []

/-- The root with priority `+infinity` and the frame after `travInit`. -/
def sampleTopRootInit : Traversal.TraverseNode × Traversal.Frame :=
  Traversal.outcome (Traversal.travInit sampleTEnv none sampleTopRoot sampleTFrame)
    sampleTopRoot sampleTFrame

/-! ## Map configuration life cycle (renderer.cpp) -/

/-- The exception `MapConfigException` with its message. -/
structure MapConfigException where
  message : String
  deriving DecidableEq, Repr

/-- The helper `testAndThrow` of renderer.cpp: `LOGTHROW(err4, MapConfigException) << message`
is the error of the result. -/
def testAndThrow (state : ResourceState) (message : String) : Except MapConfigException Bool :=
  match state with
  | ResourceState.errorRetry => Except.ok false
  | ResourceState.downloaded => Except.ok false
  | ResourceState.downloading => Except.ok false
  | ResourceState.finalizing => Except.ok false
  | ResourceState.initializing => Except.ok false
  | ResourceState.ready => Except.ok true
  | _ => Except.error ⟨message⟩

namespace Renderer

/-- A bound layer of the map configuration, as far as `prerequisitesCheck` reads it; the
entries of `credits` are the `second` components of its credit map. -/
structure BoundLayer where
  id : String
  url : String
  external : Bool
  metaUrl : Option String
  maskUrl : Option String
  creditsUrl : Option String
  credits : List (Option CreditId)

/-- An `ExternalBoundLayer` resource: its state and the bound layer it holds. -/
structure ExternalBoundLayer where
  resource : Resource
  layer : BoundLayer

/-- A virtual surface of the map configuration, `vtslibs::vts::VirtualSurfaceConfig`. -/
structure VirtualSurfaceConfig where
  id : List String
  mapping : String

/-- The `MapConfig` resource, as far as renderer.cpp reads and writes it; `viewSurfaces` are
the keys of `view.surfaces`. -/
structure MapConfig where
  resource : Resource
  name : String
  boundLayers : List BoundLayer
  viewSurfaces : List String
  virtualSurfaces : List VirtualSurfaceConfig
  surfaceStack : List SurfaceStackItem
  boundInfos : List (String × BoundLayer)

/-- The `TilesetMapping` resource. -/
structure TilesetMapping where
  resource : Resource
  surfaceStack : List SurfaceStackItem

/-- The members of `navigation` that `purgeMapConfig` writes; `mode` stands for what
`resetNavigationGeographicMode` resets. -/
structure Navigation where
  autoRotation : ℚ
  lastPositionAltitudeShift : Option ℚ
  positionAltitudeResetHeight : Option ℚ
  mode : Nat

/-- The members of `MapImpl` that the life cycle functions of renderer.cpp read and write.
`frame` holds `draws.draws` and the statistics; `finalizing` lists the resources whose state
was set to `finalizing`; `readyCalls` counts the calls of `callbacks.mapconfigReady`. -/
structure MapImpl where
  mapConfigPath : String
  authPath : String
  sriPath : String
  auth : Option Resource
  searchTasks : List String
  mapConfig : Option MapConfig
  mapConfigView : String
  initialized : Bool
  traverseRoot : Option TraverseNode
  tilesetMapping : Option TilesetMapping
  rendererCredits : List CreditId
  credits : List CreditId
  navigation : Navigation
  windowWidth : Nat
  windowHeight : Nat
  frame : Frame
  finalizing : List String
  readyCalls : Nat

/-- What the life cycle functions call and these sources do not define, as parameters: store
lookups, path conversion, the surface stack generator, the credit registry, navigation, the
statistics reset, and `renderFrame` for the part of `renderTickRender` that follows the clearing
of the draws (`updateCamera`, the loop that drains `renderer.traverseQueue` through `traverse`,
and `renderer.credits.tick`). -/
structure MapEnv where
  debugDisableVirtualSurfaces : Bool
  getAuthConfig : String → Resource
  getMapConfig : String → MapConfig
  getExternalBoundLayer : String → ExternalBoundLayer
  getTilesetMapping : String → TilesetMapping
  convertPath : String → String → String
  generateSurfaceStack : MapConfig → Option VirtualSurfaceConfig → MapConfig
  tilesetMappingUpdate : TilesetMapping → TilesetMapping
  consolidateView : MapConfig → MapConfig
  rootNodeInfo : MapConfig → NodeInfo
  creditsPurge : List CreditId → List CreditId
  creditsMergeConfig : List CreditId → MapConfig → List CreditId
  creditsMerge : List CreditId → CreditId → List CreditId
  resetNavigationGeographicMode : Navigation → Navigation
  initializeNavigation : MapConfig → Navigation → Navigation
  resetFrame : Frame → Frame
  renderFrame : MapImpl → MapImpl

/-- The function `MapImpl::purgeViewCache`.  A default constructed `MapDraws` and `MapCredits`
hold no draw tasks and no credits. -/
def purgeViewCache (X : MapEnv) (m : MapImpl) : MapImpl :=
  let m :=
    match m.mapConfig with
    | some mc => { m with mapConfig := some { X.consolidateView mc with surfaceStack := [] } }
    | none => m
  { m with
    traverseRoot := none
    tilesetMapping := none
    frame := { X.resetFrame m.frame with draws := [] }
    credits := []
    mapConfigView := ""
    initialized := false }

/-- The function `MapImpl::purgeMapConfig`. -/
def purgeMapConfig (X : MapEnv) (m : MapImpl) : MapImpl :=
  let m := { m with
    finalizing := m.finalizing ++ (m.auth.map (fun (r : Resource) => r.name)).toList
      ++ (m.mapConfig.map (fun (c : MapConfig) => c.resource.name)).toList }
  let m := { m with auth := none }
  let m := { m with mapConfig := none }
  let m := { m with rendererCredits := X.creditsPurge m.rendererCredits }
  let m := { m with searchTasks := [] }
  let m := { m with navigation := X.resetNavigationGeographicMode m.navigation }
  let m := { m with navigation := { m.navigation with autoRotation := 0 } }
  let m := { m with navigation := { m.navigation with lastPositionAltitudeShift := none } }
  let m := { m with navigation := { m.navigation with positionAltitudeResetHeight := none } }
  purgeViewCache X m

/-- The function `MapImpl::setMapConfigPath`. -/
def setMapConfigPath (X : MapEnv) (mapConfigPath authPath sriPath : String) (m : MapImpl) :
    MapImpl :=
  purgeMapConfig X { m with mapConfigPath := mapConfigPath, authPath := authPath,
                            sriPath := sriPath }

/-- The function `MapImpl::renderTickRender`; what follows `draws.draws.clear()` is
`X.renderFrame`. -/
def renderTickRender (X : MapEnv) (windowWidth windowHeight : Nat) (m : MapImpl) : MapImpl :=
  if !m.initialized then m
  else
    X.renderFrame { m with
      windowWidth := windowWidth
      windowHeight := windowHeight
      frame := { m.frame with draws := [] } }

/-- The block "load external bound layers" of `prerequisitesCheck`: `done` are the layers
seen so far (`boundLayers.replace(*r)` puts the loaded layer in the place of the one visited,
which has the same id), `ok` the flag; a fatal state throws. -/
def loadExternalBoundLayers (X : MapEnv) (configName : String) :
    List BoundLayer → Bool → List BoundLayer → Except MapConfigException (Bool × List BoundLayer)
  | [], ok, done => Except.ok (ok, done)
  | bl :: rest, ok, done =>
    if !bl.external then loadExternalBoundLayers X configName rest ok (done ++ [bl])
    else
      let url := X.convertPath bl.url configName
      let r := X.getExternalBoundLayer url
      match testAndThrow r.resource.state "External bound layer failure." with
      | Except.error e => Except.error e
      | Except.ok false => loadExternalBoundLayers X configName rest false (done ++ [bl])
      | Except.ok true =>
        let l : BoundLayer :=
          { r.layer with
            id := bl.id
            url := X.convertPath r.layer.url url
            metaUrl := r.layer.metaUrl.map (fun u => X.convertPath u url)
            maskUrl := r.layer.maskUrl.map (fun u => X.convertPath u url)
            creditsUrl := r.layer.creditsUrl.map (fun u => X.convertPath u url) }
        loadExternalBoundLayers X configName rest ok (done ++ [l])

/-- The loop of the block "check for virtual surface" of `prerequisitesCheck`: the result is
the flag "go on" (false for `return false`), the map configuration and `renderer.tilesetMapping`
afterwards. -/
def checkVirtualSurfaces (X : MapEnv) (viewSurfaces : List String) (mc : MapConfig)
    (tilesetMapping : Option TilesetMapping) :
    List VirtualSurfaceConfig →
      Except MapConfigException (Bool × MapConfig × Option TilesetMapping)
  | [] => Except.ok (true, mc, tilesetMapping)
  | it :: rest =>
    if it.id.length ≠ viewSurfaces.length then
      checkVirtualSurfaces X viewSurfaces mc tilesetMapping rest
    else if stdSort (fun a b => decide (a < b)) it.id ≠ viewSurfaces then
      checkVirtualSurfaces X viewSurfaces mc tilesetMapping rest
    else
      let tm := X.getTilesetMapping (X.convertPath it.mapping mc.name)
      match testAndThrow tm.resource.state "Tileset mapping failure." with
      | Except.error e => Except.error e
      | Except.ok false => Except.ok (false, mc, some tm)
      | Except.ok true =>
        Except.ok (true, X.generateSurfaceStack mc (some it), some (X.tilesetMappingUpdate tm))

/-- The credits loop at the end of `prerequisitesCheck`: the credits of every bound layer are
merged and its `BoundInfo` is stored. -/
def mergeBoundLayers (X : MapEnv) :
    List BoundLayer → List CreditId × List (String × BoundLayer) →
      List CreditId × List (String × BoundLayer)
  | [], acc => acc
  | bl :: rest, acc =>
    mergeBoundLayers X rest
      (bl.credits.foldl (fun cs c =>
          match c with
          | some c => X.creditsMerge cs c
          | none => cs) acc.1,
        acc.2.filter (fun e => e.1 ≠ bl.id) ++ [(bl.id, bl)])

/-- The two statements of `prerequisitesCheck` that create the root of the traversal tree. -/
def newTraverseRoot (X : MapEnv) (mc : MapConfig) : TraverseNode :=
  (TraverseNode.new (X.rootNodeInfo mc)).setPriority ⊤

/-- The part of `prerequisitesCheck` after the map configuration turned out ready. -/
def prerequisitesReady (X : MapEnv) (mc : MapConfig) (m : MapImpl) :
    Except MapConfigException (Bool × MapImpl) :=
  match loadExternalBoundLayers X mc.name mc.boundLayers true [] with
  | Except.error e => Except.error e
  | Except.ok (ok, layers) =>
    let mc := { mc with boundLayers := layers }
    let m := { m with mapConfig := some mc }
    if !ok then Except.ok (false, m)
    else
      let virt : Except MapConfigException (Bool × MapConfig × Option TilesetMapping) :=
        if !X.debugDisableVirtualSurfaces then
          checkVirtualSurfaces X (stdSort (fun a b => decide (a < b)) mc.viewSurfaces) mc
            m.tilesetMapping mc.virtualSurfaces
        else Except.ok (true, mc, m.tilesetMapping)
      match virt with
      | Except.error e => Except.error e
      | Except.ok (false, mc, tm) =>
        Except.ok (false, { m with mapConfig := some mc, tilesetMapping := tm })
      | Except.ok (true, mc, tm) =>
        let mc := if mc.surfaceStack.isEmpty then X.generateSurfaceStack mc none else mc
        let root := newTraverseRoot X mc
        let credits := X.creditsMergeConfig m.rendererCredits mc
        let merged := mergeBoundLayers X mc.boundLayers (credits, [])
        let mc := { mc with boundInfos := merged.2 }
        Except.ok (true, { m with
          mapConfig := some mc
          tilesetMapping := tm
          traverseRoot := some root
          rendererCredits := merged.1
          navigation := X.initializeNavigation mc m.navigation
          initialized := true
          readyCalls := m.readyCalls + 1 })

/-- The function `MapImpl::prerequisitesCheck`: the returned flag and the map, or the exception
thrown by `testAndThrow` (the map is not given then).  Of the head, the touches are recorded
and `checkTime` is not. -/
def prerequisitesCheck (X : MapEnv) (m : MapImpl) : Except MapConfigException (Bool × MapImpl) :=
  let m := { m with frame := { m.frame with
    touched := m.frame.touched ++ (m.auth.map (fun (r : Resource) => r.name)).toList
      ++ (m.mapConfig.map (fun (c : MapConfig) => c.resource.name)).toList
      ++ (m.tilesetMapping.map (fun (t : TilesetMapping) => t.resource.name)).toList } }
  if m.initialized then Except.ok (true, m)
  else if m.mapConfigPath.isEmpty then Except.ok (false, m)
  else
    let authStep : Except MapConfigException (Bool × MapImpl) :=
      if !m.authPath.isEmpty then
        let a := X.getAuthConfig m.authPath
        match testAndThrow a.state "Authentication failure." with
        | Except.error e => Except.error e
        | Except.ok b => Except.ok (b, { m with auth := some a })
      else Except.ok (true, m)
    match authStep with
    | Except.error e => Except.error e
    | Except.ok (false, m) => Except.ok (false, m)
    | Except.ok (true, m) =>
      let mc := X.getMapConfig m.mapConfigPath
      let m := { m with mapConfig := some mc }
      match testAndThrow mc.resource.state "Map config failure." with
      | Except.error e => Except.error e
      | Except.ok false => Except.ok (false, m)
      | Except.ok true => prerequisitesReady X mc m

end Renderer

/-- A sample of what the life cycle functions call: every resource of the store ready, no
bound layers and no virtual surfaces; `renderFrame` counts a mesh as rendered. -/
def sampleMapEnv : Renderer.MapEnv where
  debugDisableVirtualSurfaces := false
  getAuthConfig := fun n => ⟨n, ResourceState.ready⟩
  getMapConfig := fun n => ⟨⟨n, ResourceState.ready⟩, n, [], ["s"], [], [], []⟩
  getExternalBoundLayer := fun n =>
    ⟨⟨n, ResourceState.ready⟩, ⟨n, n, false, none, none, none, []⟩⟩
  getTilesetMapping := fun n => ⟨⟨n, ResourceState.ready⟩, []⟩
  convertPath := fun a _ => a
  generateSurfaceStack := fun mc _ => { mc with surfaceStack := sampleEnv.surfaceStack }
  tilesetMappingUpdate := fun t => t
  consolidateView := fun mc => mc
  rootNodeInfo := fun _ => ⟨⟨0, 0, 0⟩, "srs", (0, 0), (1, 1), 0⟩
  creditsPurge := fun _ => []
  creditsMergeConfig := fun cs _ => cs
  creditsMerge := fun cs c => cs ++ [c]
  resetNavigationGeographicMode := fun n => { n with mode := 0 }
  initializeNavigation := fun _ n => n
  resetFrame := fun f => { f with meshesRenderedTotal := 0, metaNodesTraversedTotal := 0 }
  renderFrame := fun m =>
    { m with frame := { m.frame with meshesRenderedTotal := m.frame.meshesRenderedTotal + 1 } }

/-- A sample map in use: initialized, with configuration, root, and one draw task. -/
def sampleMap : Renderer.MapImpl where
  mapConfigPath := "config"
  authPath := ""
  sriPath := ""
  auth := some ⟨"auth", ResourceState.ready⟩
  searchTasks := ["search"]
  mapConfig := some (sampleMapEnv.getMapConfig "config")
  mapConfigView := "view"
  initialized := true
  traverseRoot := some sampleOldChain
  tilesetMapping := some ⟨⟨"mapping", ResourceState.ready⟩, []⟩
  rendererCredits := [1]
  credits := [1]
  navigation := ⟨1, some 1, some 1, 1⟩
  windowWidth := 800
  windowHeight := 600
  frame := { sampleFrame with draws := [sampleDrawTask 1] }
  finalizing := []
  readyCalls := 1

/-- The sample map after a purge and a following `prerequisitesCheck`. -/
def sampleMapReady : Renderer.MapImpl :=
  match Renderer.prerequisitesCheck sampleMapEnv
      (Renderer.purgeMapConfig sampleMapEnv sampleMap) with
  | Except.ok r => r.2
  | Except.error _ => sampleMap


/-! ## Samples for the coarseness test and the meta-tile priority -/

/-- A sample resolved meta whose node has only the flag `applyDisplaySize`. -/
def sampleMetaDisplay : Renderer.MetaInfo :=
  { sampleMetaInfo with node := { sampleMetaNode with flags := 0x08 } }

/-- A sample resolved meta whose node has both `applyTexelSize` and `applyDisplaySize`. -/
def sampleMetaBoth : Renderer.MetaInfo :=
  { sampleMetaInfo with node := { sampleMetaNode with flags := 0x0c } }

/-- A sample resolved meta whose node has only the flag `applyTexelSize`. -/
def sampleMetaTexel : Renderer.MetaInfo :=
  { sampleMetaInfo with node := { sampleMetaNode with flags := 0x04 } }

/-- The texel-size criterion of `coarsenessTest` alone: every corner's projected texel length
is below `maxTexelToPixelScale`. -/
def Renderer.TexelAccepts (E : Renderer.Env) (m : Renderer.MetaInfo) : Prop :=
  ∀ i : Fin 8, E.texelLength m (m.cornersPhys i) < E.options.maxTexelToPixelScale

/-- The fresh root of renderer.cpp with priority 1. -/
def sampleOldRootOne : Renderer.TraverseNode := sampleOldRoot.setPriority 1

/-! ## The frustum planes of `updateCamera` -/

/-- Sum `a + b` of two `vec4`. -/
def Vec4.add (a b : Vec4) : Vec4 := ⟨a.x + b.x, a.y + b.y, a.z + b.z, a.w + b.w⟩

/-- Difference `a - b` of two `vec4`. -/
def Vec4.sub (a b : Vec4) : Vec4 := ⟨a.x - b.x, a.y - b.y, a.z - b.z, a.w - b.w⟩

namespace Renderer

/-- The helper `column(m, index)` of renderer.cpp:
`vec4(m(index, 0), m(index, 1), m(index, 2), m(index, 3))`, with `m(i, j)` the entry in row `i`
and column `j`. -/
def column (m : Mat4) (index : Fin 4) : Vec4 :=
  ⟨m index 0, m index 1, m index 2, m index 3⟩

/-- The block "frustum planes" of `MapImpl::updateCamera`: the six assignments
`frustumPlanes[0] = c3 + c0` to `frustumPlanes[5] = c3 - c2`. -/
def frustumPlanesOf (viewProj : Mat4) : Fin 6 → Vec4 :=
  let c0 := column viewProj 0
  let c1 := column viewProj 1
  let c2 := column viewProj 2
  let c3 := column viewProj 3
  ![c3.add c0, c3.sub c0, c3.add c1, c3.sub c1, c3.add c2, c3.sub c2]

/-- The members `viewProj` and `frustumPlanes` after the branch
`if (!options.debugDetachedCamera)` of `MapImpl::updateCamera`, given `viewProjRender` and the
two members before; with a detached camera both are left as they are. -/
def updateCameraFrustum (debugDetachedCamera : Bool) (viewProjRender : Mat4)
    (viewProj : Mat4) (frustumPlanes : Fin 6 → Vec4) : Mat4 × (Fin 6 → Vec4) :=
  if !debugDetachedCamera then (viewProjRender, frustumPlanesOf viewProjRender)
  else (viewProj, frustumPlanes)

end Renderer

/-- The product `M * vec4(p, 1)` of a point in homogeneous coordinates: the clip coordinates
`(cx, cy, cz, cw)` of `p`. -/
def clipCoords (M : Mat4) (p : Vec3) : Vec4 :=
  ⟨Matrix.mulVec M ![p.x, p.y, p.z, 1] 0, Matrix.mulVec M ![p.x, p.y, p.z, 1] 1,
   Matrix.mulVec M ![p.x, p.y, p.z, 1] 2, Matrix.mulVec M ![p.x, p.y, p.z, 1] 3⟩

/-- The point with clip coordinates `c` lies in the clip volume `-cw <= cx, cy, cz <= cw`. -/
def InClipVolume (c : Vec4) : Prop :=
  -c.w ≤ c.x ∧ c.x ≤ c.w ∧ -c.w ≤ c.y ∧ c.y ≤ c.w ∧ -c.w ≤ c.z ∧ c.z ≤ c.w

/-! ## Samples for the sampled clearing and the priority refresh -/

/-- A sample node of renderer.cpp at the tile `(3, 1, 0)`, last accessed in frame 0, with meta
and a draw task. -/
def sampleLod3 : Renderer.TraverseNode :=
  .mk ⟨⟨3, 1, 0⟩, "srs", (0, 0), (1, 1), 3⟩ (some sampleMetaInfo) [RenderTask.new] [] 1 0

/-- The priority `updateNodePriority` computes on a refresh: `1e6 / (travDistance + 1)`. -/
def Traversal.freshPriority (E : Traversal.Env) (d : Traversal.NodeData) : Priority :=
  ((1000000 / (E.aabbPointDist E.focusPosPhys d.aabbPhys + 1) : ℚ) : WithTop ℚ)

/-! ## Samples for the assertions of `travDetermineMeta` -/

/-- A sample store in which every meta-tile failed for good (state `errorFatal`). -/
def sampleStoreFatal : String → MetaTile := fun name =>
  ⟨⟨name, ResourceState.errorFatal⟩, fun _ => none⟩

/-- The sample environment of renderer.cpp over the store `sampleStoreFatal`. -/
def sampleEnvFatal : Renderer.Env := { sampleEnv with meta := ⟨sampleStoreFatal, 5⟩ }

/-- The sample environment of rendererTraversal.cpp over the store `sampleStoreFatal`. -/
def sampleTEnvFatal : Traversal.Env := { sampleTEnv with getMetaTile := sampleStoreFatal }

/-- A sample meta-node with geometry and `sourceReference = 1`. -/
def sampleMappedNode : MetaNode := { sampleMetaNode with sourceReference := 1 }

/-- A sample store in which every meta-tile is ready and holds `sampleMappedNode`. -/
def sampleStoreMapped : String → MetaTile := fun name =>
  ⟨⟨name, ResourceState.ready⟩, fun _ => some sampleMappedNode⟩

/-- The sample environment of renderer.cpp with a tileset mapping whose surface stack has one
entry, over the store `sampleStoreMapped`. -/
def sampleEnvMapped : Renderer.Env :=
  { sampleEnv with
    meta := ⟨sampleStoreMapped, 5⟩
    tilesetMapping := some [⟨sampleSurfaceLow, false, ⟨0, 0, 0⟩⟩] }

/-- The sample environment of rendererTraversal.cpp with a tileset stack of one surface, over
the store `sampleStoreMapped`. -/
def sampleTEnvMapped : Traversal.Env :=
  { sampleTEnv with
    getMetaTile := sampleStoreMapped
    layer := { sampleTEnv.layer with tilesetStack := some [sampleSurfaceLow] } }

/-- The resolver `checkMetaNode` returns `Invalid` for the surface of the stack entry. -/
def Renderer.ResolvesInvalid (E : Renderer.Env) (nodeId : TileId) (priority : Priority)
    (it : Renderer.SurfaceStackItem) : Prop :=
  ∃ n log, Renderer.checkMetaNode E.flag E.meta it.surface nodeId none priority
    = (some (Validity.Invalid, n), log)

/-- The resolver `checkMetaNode` returns `Valid` with the meta-node `n` for the surface of the
stack entry. -/
def Renderer.ResolvesValid (E : Renderer.Env) (nodeId : TileId) (priority : Priority)
    (it : Renderer.SurfaceStackItem) (n : MetaNode) : Prop :=
  ∃ log, Renderer.checkMetaNode E.flag E.meta it.surface nodeId none priority
    = (some (Validity.Valid, some n), log)

/-! ## Samples for a mesh aggregate that failed for good -/

/-- The sample surface "top" with a mesh URL of its own. -/
def sampleSurfaceTopMesh : SurfaceInfo := { sampleSurfaceTop with urlMesh := fun _ => "top-mesh" }

/-- The sample surface "low" with a mesh URL of its own. -/
def sampleSurfaceLowMesh : SurfaceInfo := { sampleSurfaceLow with urlMesh := fun _ => "low-mesh" }

/-- A sample store of mesh aggregates: "top-mesh" failed for good, every other one is ready
with one submesh. -/
def sampleMeshStoreBroken : String → Renderer.MeshAggregate := fun n =>
  if n = "top-mesh" then ⟨⟨n, ResourceState.errorFatal⟩, []⟩
  else ⟨⟨n, ResourceState.ready⟩, [⟨⟨"mesh0", ResourceState.ready⟩, 1, true, false, 0, 1⟩]⟩

/-- The sample environment of rendererTraversal.cpp with the stack of the surfaces "top" and
"low", both with geometry at every tile, the mesh store `sampleMeshStoreBroken`, and a
coarseness test that accepts every node. -/
def sampleTEnvBroken : Traversal.Env :=
  { sampleTEnvCoarse with
    layer := { sampleTEnv.layer with surfaces := [sampleSurfaceTopMesh, sampleSurfaceLowMesh] }
    getMetaTile := sampleStoreTwo
    getMeshAggregate := sampleMeshStoreBroken }

/-- The sample environment of renderer.cpp with the stack of the surfaces "top" and "low" and
the mesh store `sampleMeshStoreBroken`. -/
def sampleEnvBroken : Renderer.Env :=
  { sampleEnv with
    surfaceStack := [⟨sampleSurfaceTopMesh, false, ⟨0, 0, 0⟩⟩,
      ⟨sampleSurfaceLowMesh, false, ⟨0, 0, 0⟩⟩]
    meta := ⟨sampleStoreTwo, 5⟩
    getMeshAggregate := sampleMeshStoreBroken }

/-- The root and the frame after `travDetermineMeta` in `sampleTEnvBroken`. -/
def sampleBrokenMeta : Traversal.TraverseNode × Traversal.Frame :=
  Traversal.outcome (Traversal.travDetermineMeta sampleTEnvBroken none sampleRoot sampleTFrame)
    sampleRoot sampleTFrame

/-- The root and the frame after a first frame of `travModeFlat` in `sampleTEnvBroken`. -/
def sampleBrokenFirst : Traversal.TraverseNode × Traversal.Frame :=
  Traversal.result (Traversal.travModeFlat sampleTEnvBroken 2 none sampleRoot sampleTFrame)
    sampleRoot sampleTFrame

/-- The root and the frame after a second frame of `travModeFlat` in `sampleTEnvBroken`,
started with an empty frame. -/
def sampleBrokenSecond : Traversal.TraverseNode × Traversal.Frame :=
  Traversal.result
    (Traversal.travModeFlat sampleTEnvBroken 2 none sampleBrokenFirst.1 sampleTFrame)
    sampleRoot sampleTFrame

/-- The root of renderer.cpp after `travDetermineMeta` and then `travDetermineDraws` in
`sampleEnvBroken`, with the frame. -/
def sampleOldBroken : Renderer.TraverseNode × Renderer.Frame :=
  Renderer.outcome
    (Renderer.travDetermineDraws sampleEnvBroken
      (Renderer.outcome (Renderer.travDetermineMeta sampleEnvBroken sampleOldRoot sampleFrame)
        sampleOldRoot sampleFrame).1 sampleFrame)
    sampleOldRoot sampleFrame

/-! ## The opaque list of `travDetermineDrawsSurface` -/

/-- The task the block "internal texture" of `travDetermineDrawsSurface` makes for submesh
`i`. -/
def Traversal.internalTask (E : Traversal.Env) (d : Traversal.NodeData) (surface : SurfaceInfo)
    (i : Nat) (part : Renderer.MeshPart) : RenderTask :=
  { RenderTask.new with
    textureColor := some (E.getTexture (surface.urlIntTex d.nodeInfo.nodeId i))
    mesh := some part.renderable
    model := part.normToPhys
    uvm := 1
    externalUv := false }

/-- Submesh `i` gets its internal-texture task: it has internal UV, the loop reaches the block
"internal texture" (no external UV, or bound layers that resolved `Valid` and are all
transparent), and the internal texture is `Valid`. -/
def Traversal.emitsInternal (E : Traversal.Env) (d : Traversal.NodeData) (surface : SurfaceInfo)
    (i : Nat) (part : Renderer.MeshPart) : Bool :=
  part.internalUv &&
    decide (getResourceValidity (E.getTexture (surface.urlIntTex d.nodeInfo.nodeId i))
      = Validity.Valid) &&
    (!part.externalUv ||
      match reorderBoundLayers E.prepare d.nodeInfo i (Traversal.subMeshBoundList E surface part)
          d.priority with
      | (Validity.Valid, bls) => bls.all (fun b => b.transparent)
      | _ => false)

/-- The bound-layer tasks of submesh `i` that go to the opaque list: those of the layers that
are neither transparent nor masked, when the bound layers resolved `Valid`. -/
def Traversal.opaqueBoundTasks (E : Traversal.Env) (d : Traversal.NodeData)
    (surface : SurfaceInfo) (i : Nat) (part : Renderer.MeshPart) : List RenderTask :=
  if part.externalUv then
    match reorderBoundLayers E.prepare d.nodeInfo i (Traversal.subMeshBoundList E surface part)
        d.priority with
    | (Validity.Valid, bls) =>
      (bls.filter (fun b =>
        !(b.transparent || (Traversal.boundLayerTask E part b).textureMask.isSome))).map
          (Traversal.boundLayerTask E part)
    | _ => []
  else []

/-- The internal-texture tasks of the submeshes from index `i` on, in submesh order. -/
def Traversal.internalTasks (E : Traversal.Env) (d : Traversal.NodeData)
    (surface : SurfaceInfo) : Nat → List Renderer.MeshPart → List RenderTask
  | _, [] => []
  | i, part :: rest =>
    (if Traversal.emitsInternal E d surface i part then
      [Traversal.internalTask E d surface i part] else [])
      ++ Traversal.internalTasks E d surface (i + 1) rest

/-- The opaque bound-layer tasks of the submeshes from index `i` on, in submesh order. -/
def Traversal.boundTasks (E : Traversal.Env) (d : Traversal.NodeData)
    (surface : SurfaceInfo) : Nat → List Renderer.MeshPart → List RenderTask
  | _, [] => []
  | i, part :: rest =>
    Traversal.opaqueBoundTasks E d surface i part ++ Traversal.boundTasks E d surface (i + 1) rest

/-- The sample environment in which every texture is ready, the single submesh has both UV
sets, and its bound list is one opaque watertight layer with a ready texture. -/
def sampleTEnvBothReady : Traversal.Env :=
  { sampleTEnvDownloading with getTexture := fun n => ⟨n, ResourceState.ready⟩ }

/-- The sample environment in which every texture is ready, the single submesh has both UV
sets, and its bound list is one layer that is not watertight, not transparent, and has a
mask. -/
def sampleTEnvMasked : Traversal.Env :=
  { sampleTEnvBothReady with
    layer := { sampleTEnv.layer with
      boundList := fun _ _ =>
        [⟨"bl", none, false, false, [], some ⟨"ext", ResourceState.ready⟩,
          some ⟨"mask", ResourceState.ready⟩⟩] } }

/-- The sample environment in which every texture is ready, the single submesh has both UV
sets, and its bound list is an opaque watertight layer below a masked layer that is not
watertight and not transparent. -/
def sampleTEnvTwoLayers : Traversal.Env :=
  { sampleTEnvBothReady with
    layer := { sampleTEnv.layer with
      boundList := fun _ _ =>
        [⟨"a", none, true, false, [], some ⟨"ext-a", ResourceState.ready⟩, none⟩,
         ⟨"b", none, false, false, [], some ⟨"ext-b", ResourceState.ready⟩,
          some ⟨"mask-b", ResourceState.ready⟩⟩] } }

/-! ## The rendered nodes of one frame -/

/-- Neither of the two paths is a prefix of the other: the nodes they lead to are different,
and neither is a descendant of the other. -/
def Traversal.Incomparable (p q : List Nat) : Prop := ¬ p <+: q ∧ ¬ q <+: p

/-- The calls of `renderNode` with the tiles `ids`, in this order, were made on nodes of the
tree `t` that form an antichain and have draws: there are paths from `t`, one for each call,
pairwise incomparable, each leading to a node with that tile whose draws are not empty. -/
def Traversal.RenderedAntichain (t : Traversal.TraverseNode) (ids : List TileId) : Prop :=
  ∃ Q : List (List Nat × TileId), Q.map Prod.snd = ids ∧
    Q.Pairwise (fun a b => Traversal.Incomparable a.1 b.1) ∧
    ∀ a ∈ Q, ∃ n, Traversal.nodeAt t a.1 = some n ∧ n.data.nodeInfo.nodeId = a.2 ∧
      n.data.rendersEmpty = false

/-- The same for the calls within the subtrees of a children list `cs`: each path starts with
the index of a child and goes on from that child. -/
def Traversal.ForestAntichain (cs : List Traversal.TraverseNode) (ids : List TileId) : Prop :=
  ∃ Q : List ((Nat × List Nat) × TileId), Q.map Prod.snd = ids ∧
    Q.Pairwise (fun a b => Traversal.Incomparable (a.1.1 :: a.1.2) (b.1.1 :: b.1.2)) ∧
    ∀ a ∈ Q, ∃ c n, cs[a.1.1]? = some c ∧ Traversal.nodeAt c a.1.2 = some n ∧
      n.data.nodeInfo.nodeId = a.2 ∧ n.data.rendersEmpty = false

/-! ## Which surfaces a node can take -/

/-- The first loop of `travDetermineMeta` (rendererTraversal.cpp) gets as far as `getMetaTile`
for stack index `i`: always at a node without parent; below a parent only when the parent holds
a meta-tile at index `i` and the parent's meta-node in it has the child flag towards the
node. -/
def Traversal.Reaches (E : Traversal.Env) (parent : Option Traversal.NodeData)
    (nodeId : TileId) (i : Nat) : Prop :=
  match parent with
  | none => True
  | some pd =>
    ∃ (p : MetaTile) (node : MetaNode), pd.metaTiles[i]? = some (some p) ∧
      p.get (Vts.parent nodeId) = some node ∧
      node.flags &&& (E.flag.ulChild <<< ((nodeId.x % 2) + (nodeId.y % 2) * 2)) ≠ 0

/-- Stack index `i` is eligible for the node (rendererTraversal.cpp), in terms of what the call
reads: the loop reaches the lookup for surface `i`, the meta-tile of surface `i` is `Valid`,
its meta-node at the tile has geometry, and `alien()` equals `surfaces[i].alien`. -/
def Traversal.Eligible (E : Traversal.Env) (parent : Option Traversal.NodeData)
    (nodeId : TileId) (i : Nat) (surface : SurfaceInfo) : Prop :=
  E.layer.surfaces[i]? = some surface ∧ Traversal.Reaches E parent nodeId i ∧
  getResourceValidity
    (E.getMetaTile (surface.urlMeta (roundId E.metaBinaryOrder nodeId))).resource
      = Validity.Valid ∧
  ∃ n, (E.getMetaTile (surface.urlMeta (roundId E.metaBinaryOrder nodeId))).get nodeId = some n ∧
    n.geometry = true ∧ n.alien = surface.alien

/-- The recursion of `checkMetaNode` (renderer.cpp) gets as far as the meta-tile of tile `t`
itself: on the way down from lod 0 the meta-tile of every ancestor is `Valid` and its
meta-node has the child flag towards the next tile of the path. -/
def Renderer.Reaches (F : MetaFlag) (E : Renderer.MetaEnv) (surface : SurfaceInfo)
    (t : TileId) : Prop :=
  ∀ j < t.lod, Renderer.OpensChild F E surface (ancestor t j) (ancestor t (j + 1))

/-- Stack index `i` is eligible for the tile (renderer.cpp), in terms of the store: the
resolver reaches the tile in surface `i`, the meta-tile of surface `i` is `Valid`, its
meta-node at the tile has geometry, and `alien()` equals the `alien` mark of the entry. -/
def Renderer.Eligible (R : Renderer.Env) (nodeId : TileId) (i : Nat)
    (item : Renderer.SurfaceStackItem) : Prop :=
  R.surfaceStack[i]? = some item ∧ Renderer.Reaches R.flag R.meta item.surface nodeId ∧
  getResourceValidity (Renderer.metaTileOf R.meta item.surface nodeId).resource
    = Validity.Valid ∧
  ∃ n, (Renderer.metaTileOf R.meta item.surface nodeId).get nodeId = some n ∧
    n.geometry = true ∧ n.alien = item.alien

/-- The first child of the root resolved over the stack "top", "low" (rendererTraversal.cpp):
the tile `(1, 0, 0)`. -/
def sampleChildTwo : Traversal.TraverseNode := sampleMetaOutTwo.1.childs.head?.getD sampleRoot

/-- The first child of the root resolved over the stack "top", "low" (renderer.cpp): the tile
`(1, 0, 0)`. -/
def sampleOldChildTwo : Renderer.TraverseNode :=
  sampleOldMetaOutTwo.1.childs.head?.getD sampleOldRoot

/-- The child `(1, 0, 0)` and the frame after `travDetermineMeta` below the resolved root
(rendererTraversal.cpp). -/
def sampleChildOutTwo : Traversal.TraverseNode × Traversal.Frame :=
  Traversal.outcome
    (Traversal.travDetermineMeta sampleTEnvTwo (some sampleMetaOutTwo.1.data) sampleChildTwo
      sampleTFrame) sampleChildTwo sampleTFrame

/-- The child `(1, 0, 0)` and the frame after `travDetermineMeta` (renderer.cpp). -/
def sampleOldChildOutTwo : Renderer.TraverseNode × Renderer.Frame :=
  Renderer.outcome (Renderer.travDetermineMeta sampleEnvTwo sampleOldChildTwo sampleFrame)
    sampleOldChildTwo sampleFrame

/-! ## Theorems -/

theorem coord_le_pvertex (n lo hi c : ℚ) (h1 : lo ≤ c) (h2 : c ≤ hi) :
    n * c ≤ n * (if n > 0 then hi else lo) := by
  split_ifs with h
  · exact mul_le_mul_of_nonneg_left h2 h.le
  · exact mul_le_mul_of_nonpos_left h1 (not_lt.mp h)

theorem corner_pVertexIndex (p : Vec4) (a : Aabb) :
    a.corner (pVertexIndex p) = pVertex p a := by
  unfold Aabb.corner pVertexIndex pVertex lowerUpperCombine
  by_cases hx : p.x > 0 <;> by_cases hy : p.y > 0 <;> by_cases hz : p.z > 0 <;>
    simp [hx, hy, hz]

theorem planeAccepts_eq_false_iff (p : Vec4) (a : Aabb) :
    Renderer.planeAccepts p a = false ↔ signedDistance p (pVertex p a) < 0 := by
  have hpv : (⟨(a.index (decide (p.get 0 > 0))).get 0, (a.index (decide (p.get 1 > 0))).get 1,
      (a.index (decide (p.get 2 > 0))).get 2⟩ : Vec3) = pVertex p a := by
    unfold pVertex Aabb.index Vec3.get Vec4.get
    by_cases hx : p.x > 0 <;> by_cases hy : p.y > 0 <;> by_cases hz : p.z > 0 <;>
      simp [hx, hy, hz]
  unfold Renderer.planeAccepts
  simp only [hpv]
  unfold signedDistance
  simp [Vec4.get]
  constructor <;> intro h <;> linarith

theorem signedDistance_le_pVertex (p : Vec4) (a : Aabb) (q : Vec3) (hq : a.Contains q) :
    signedDistance p q ≤ signedDistance p (pVertex p a) := by
  obtain ⟨h1, h2, h3, h4, h5, h6⟩ := hq
  have hx := coord_le_pvertex p.x a.lo.x a.hi.x q.x h1 h2
  have hy := coord_le_pvertex p.y a.lo.y a.hi.y q.y h3 h4
  have hz := coord_le_pvertex p.z a.lo.z a.hi.z q.z h5 h6
  unfold signedDistance dot vec4to3 pVertex
  simp only
  linarith

theorem corner_contained (a : Aabb) (h : a.Ordered) (k : Nat) : a.Contains (a.corner k) := by
  obtain ⟨hx, hy, hz⟩ := h
  have key : ∀ (b : Nat) (lo hi : ℚ), lo ≤ hi →
      lo ≤ ((b % 2 : Nat) : ℚ) * (hi - lo) + lo ∧ ((b % 2 : Nat) : ℚ) * (hi - lo) + lo ≤ hi := by
    intro b lo hi hle
    rcases Nat.mod_two_eq_zero_or_one b with h0 | h1
    · rw [h0]; constructor <;> simp [hle]
    · rw [h1]; constructor <;> simp [hle]
  unfold Aabb.Contains Aabb.corner lowerUpperCombine
  exact ⟨(key _ _ _ hx).1, (key _ _ _ hx).2, (key _ _ _ hy).1, (key _ _ _ hy).2,
    (key _ _ _ hz).1, (key _ _ _ hz).2⟩

theorem visibilityTest_eq_false_iff (planes : Fin 6 → Vec4) (a : Aabb) :
    Renderer.visibilityTest planes a = false ↔
      ∃ i : Fin 6, signedDistance (planes i) (pVertex (planes i) a) < 0 := by
  unfold Renderer.visibilityTest
  rw [← Bool.not_eq_true, List.all_eq_true]
  push_neg
  constructor
  · rintro ⟨i, _, hi⟩
    exact ⟨i, (planeAccepts_eq_false_iff _ _).1 (by simpa using hi)⟩
  · rintro ⟨i, hi⟩
    exact ⟨i, List.mem_finRange i, by simpa using (planeAccepts_eq_false_iff _ _).2 hi⟩

theorem visibilityTest_of_inner_point (planes : Fin 6 → Vec4) (a : Aabb) (q : Vec3)
    (hq : a.Contains q) (hall : ∀ i : Fin 6, 0 ≤ signedDistance (planes i) q) :
    Renderer.visibilityTest planes a = true := by
  by_contra hne
  rw [Bool.not_eq_true, visibilityTest_eq_false_iff] at hne
  obtain ⟨i, hi⟩ := hne
  have := signedDistance_le_pVertex (planes i) a q hq
  linarith [hall i]

/-- C4: for a well formed box, `visibilityTest` returns false exactly when some plane has its
maximising corner at negative signed distance, which is exactly when all eight corners are at
negative distance to that plane; a box with a point on the inner side of all six planes is
accepted. -/
theorem visibilityTest_rejects_iff (planes : Fin 6 → Vec4) (a : Aabb) (h : a.Ordered) :
    (∀ (i : Fin 6) (k : Nat), signedDistance (planes i) (a.corner k)
        ≤ signedDistance (planes i) (a.corner (pVertexIndex (planes i)))) ∧
    (Renderer.visibilityTest planes a = false ↔
      ∃ i : Fin 6, signedDistance (planes i) (a.corner (pVertexIndex (planes i))) < 0) ∧
    (Renderer.visibilityTest planes a = false ↔
      ∃ i : Fin 6, ∀ k < 8, signedDistance (planes i) (a.corner k) < 0) ∧
    ((∃ q : Vec3, a.Contains q ∧ ∀ i : Fin 6, 0 ≤ signedDistance (planes i) q) →
      Renderer.visibilityTest planes a = true) := by
  have hmax : ∀ (i : Fin 6) (k : Nat), signedDistance (planes i) (a.corner k)
      ≤ signedDistance (planes i) (a.corner (pVertexIndex (planes i))) := by
    intro i k
    rw [corner_pVertexIndex]
    exact signedDistance_le_pVertex _ _ _ (corner_contained a h k)
  have hidx : ∀ p : Vec4, pVertexIndex p < 8 := by
    intro p
    unfold pVertexIndex
    split_ifs <;> omega
  refine ⟨hmax, ?_, ?_, ?_⟩
  · rw [visibilityTest_eq_false_iff]
    simp only [corner_pVertexIndex]
  · rw [visibilityTest_eq_false_iff]
    constructor
    · rintro ⟨i, hi⟩
      refine ⟨i, fun k _ => lt_of_le_of_lt (hmax i k) ?_⟩
      rw [corner_pVertexIndex]; exact hi
    · rintro ⟨i, hi⟩
      refine ⟨i, ?_⟩
      rw [← corner_pVertexIndex]
      exact hi _ (hidx _)
  · rintro ⟨q, hq, hall⟩
    exact visibilityTest_of_inner_point planes a q hq hall

theorem visibilityTest_rejects_iff_witness :
    sampleBox.Ordered ∧
    ((∃ q : Vec3, sampleBox.Contains q ∧ ∀ i : Fin 6, 0 ≤ signedDistance (samplePlanes i) q) →
      Renderer.visibilityTest samplePlanes sampleBox = true) :=
  ⟨by norm_num [Aabb.Ordered, sampleBox],
   (visibilityTest_rejects_iff samplePlanes sampleBox
      (by norm_num [Aabb.Ordered, sampleBox])).2.2.2⟩

/-! ### Bound layer reordering -/

theorem prepareAllLayers_snd (prep : BoundParamInfo → Validity × BoundParamInfo)
    (l : List BoundParamInfo) (d : Bool) :
    (prepareAllLayers prep l d).2 = preparedLayers prep l := by
  induction l generalizing d with
  | nil => rfl
  | cons b rest ih =>
    unfold prepareAllLayers
    rcases hb : prep b with ⟨v, b'⟩
    cases v <;> simp [preparedLayers, hb, ih]

theorem prepareAllLayers_fst (prep : BoundParamInfo → Validity × BoundParamInfo)
    (l : List BoundParamInfo) (d : Bool)
    (h : ∀ b ∈ l, (prep b).1 ≠ Validity.Indeterminate) :
    (prepareAllLayers prep l d).1 = d := by
  induction l generalizing d with
  | nil => rfl
  | cons b rest ih =>
    have hb := h b (List.mem_cons_self _ _)
    have hr : ∀ b ∈ rest, (prep b).1 ≠ Validity.Indeterminate :=
      fun c hc => h c (List.mem_cons_of_mem _ hc)
    unfold prepareAllLayers
    rcases hpb : prep b with ⟨v, b'⟩
    rw [hpb] at hb
    cases v
    · exact absurd rfl hb
    · simpa using ih d hr
    · simpa using ih d hr

theorem skipOverlappingLayers_spec (l : List BoundParamInfo) :
    (∃ pre, l = pre ++ skipOverlappingLayers l ∧
      (pre = [] ∨ ∃ b t, skipOverlappingLayers l = b :: t ∧ b.opaqueWatertight = true)) ∧
    (∀ b ∈ (skipOverlappingLayers l).tail, b.opaqueWatertight = false) := by
  unfold skipOverlappingLayers
  set p : BoundParamInfo → Bool := fun b => !b.watertight || b.transparent with hp
  have hsplit := List.takeWhile_append_dropWhile p l.reverse
  have hall : ∀ b ∈ l.reverse.takeWhile p, b.opaqueWatertight = false := by
    intro b hb
    have := List.mem_takeWhile_imp hb
    simp only [hp, Bool.or_eq_true, Bool.not_eq_true'] at this
    unfold BoundParamInfo.opaqueWatertight
    rcases this with h | h <;> simp [h]
  simp only
  by_cases hlen : (l.reverse.takeWhile p).length = l.reverse.length
  · rw [if_neg (by simpa using hlen)]
    have hd : l.reverse.dropWhile p = [] := by
      have := congrArg List.length hsplit
      rw [List.length_append, hlen] at this
      exact List.length_eq_zero.mp (by omega)
    rw [hd, List.append_nil] at hsplit
    refine ⟨⟨[], by simp, Or.inl rfl⟩, ?_⟩
    intro b hb
    have hb' := List.mem_of_mem_tail hb
    rw [List.reverse_reverse] at hb'
    apply hall
    rw [hsplit]
    exact List.mem_reverse.mpr hb'
  · rw [if_pos hlen]
    rcases hd : l.reverse.dropWhile p with _ | ⟨x, rest⟩
    · rw [hd, List.append_nil] at hsplit
      exact absurd (congrArg List.length hsplit) hlen
    · have hx : p x = false := by
        have := List.head_dropWhile_not p l.reverse (by rw [hd]; simp)
        simpa [hd] using this
      have htake : l.reverse.take ((l.reverse.takeWhile p).length + 1)
          = l.reverse.takeWhile p ++ [x] := by
        rw [hd] at hsplit
        generalize l.reverse.takeWhile p = tw at hsplit ⊢
        rw [← hsplit]
        simp [List.take_append_eq_append_take]
      rw [htake]
      have hl : l = rest.reverse ++ (x :: (l.reverse.takeWhile p).reverse) := by
        have h2 := congrArg List.reverse hsplit
        rw [hd, List.reverse_append, List.reverse_reverse, List.reverse_cons] at h2
        rw [List.append_assoc] at h2
        exact h2.symm
      refine ⟨⟨rest.reverse, ?_, Or.inr ⟨x, (l.reverse.takeWhile p).reverse, by simp, ?_⟩⟩, ?_⟩
      · simpa using hl
      · simp only [hp, Bool.or_eq_false_iff, Bool.not_eq_false'] at hx
        simp [BoundParamInfo.opaqueWatertight, hx.1, hx.2]
      · intro b hb
        simp only [List.reverse_append, List.reverse_cons, List.reverse_nil, List.nil_append,
          List.singleton_append, List.tail_cons, List.mem_reverse] at hb
        exact hall b hb

/-- C5: when no layer's `prepare` is `Indeterminate`, `reorderBoundLayers` returns `Valid` and
the list becomes the suffix of the prepared list (`Invalid` layers removed, order kept) that
starts at its last watertight, non-transparent layer, or the whole prepared list when there is
no such layer; no layer of the result lies below an opaque watertight one. -/
theorem reorderBoundLayers_valid (prepare : Prepare) (nodeInfo : NodeInfo) (subMeshIndex : Nat)
    (boundList : List BoundParamInfo) (priority : Priority)
    (h : ∀ b ∈ boundList, (prepare nodeInfo subMeshIndex priority b).1 ≠ Validity.Indeterminate) :
    (reorderBoundLayers prepare nodeInfo subMeshIndex boundList priority).1 = Validity.Valid ∧
    (∃ pre, preparedLayers (prepare nodeInfo subMeshIndex priority) boundList
        = pre ++ (reorderBoundLayers prepare nodeInfo subMeshIndex boundList priority).2 ∧
      (pre = [] ∨ ∃ b t,
        (reorderBoundLayers prepare nodeInfo subMeshIndex boundList priority).2 = b :: t ∧
        b.opaqueWatertight = true)) ∧
    (∀ b ∈ (reorderBoundLayers prepare nodeInfo subMeshIndex boundList priority).2.tail,
      b.opaqueWatertight = false) ∧
    ((∀ b ∈ preparedLayers (prepare nodeInfo subMeshIndex priority) boundList,
        b.opaqueWatertight = false) →
      (reorderBoundLayers prepare nodeInfo subMeshIndex boundList priority).2
        = preparedLayers (prepare nodeInfo subMeshIndex priority) boundList) ∧
    (∀ below b above,
      (reorderBoundLayers prepare nodeInfo subMeshIndex boundList priority).2
        = below ++ b :: above → b.opaqueWatertight = true → below = []) := by
  have h1 := prepareAllLayers_fst (prepare nodeInfo subMeshIndex priority) boundList true h
  have h2 := prepareAllLayers_snd (prepare nodeInfo subMeshIndex priority) boundList true
  have hR : reorderBoundLayers prepare nodeInfo subMeshIndex boundList priority
      = (Validity.Valid, skipOverlappingLayers
          (preparedLayers (prepare nodeInfo subMeshIndex priority) boundList)) := by
    unfold reorderBoundLayers
    simp [h1, h2]
  rw [hR]
  obtain ⟨⟨pre, hpre, hhead⟩, htail⟩ :=
    skipOverlappingLayers_spec (preparedLayers (prepare nodeInfo subMeshIndex priority) boundList)
  refine ⟨rfl, ⟨pre, hpre, hhead⟩, htail, ?_, ?_⟩
  · intro hnone
    rcases hhead with hnil | ⟨b, t, hbt, hb⟩
    · rw [hnil, List.nil_append] at hpre
      exact hpre.symm
    · have hmem : b ∈ preparedLayers (prepare nodeInfo subMeshIndex priority) boundList := by
        rw [hpre, hbt]
        simp
      rw [hnone b hmem] at hb
      exact absurd hb (by decide)
  · intro below b above hdec hb
    cases below with
    | nil => rfl
    | cons c cs =>
      have hdec' : skipOverlappingLayers
          (preparedLayers (prepare nodeInfo subMeshIndex priority) boundList)
          = c :: cs ++ b :: above := hdec
      rw [hdec'] at htail
      have := htail b (by simp)
      rw [this] at hb
      exact absurd hb (by decide)

theorem reorderBoundLayers_valid_witness :
    (∀ b ∈ sampleLayers, (samplePrepare sampleNodeInfo 0 1 b).1 ≠ Validity.Indeterminate) ∧
    (reorderBoundLayers samplePrepare sampleNodeInfo 0 sampleLayers 1).1 = Validity.Valid :=
  ⟨fun _ _ => by simp [samplePrepare],
   (reorderBoundLayers_valid samplePrepare sampleNodeInfo 0 sampleLayers 1
      (fun _ _ => by simp [samplePrepare])).1⟩

theorem reorderBoundLayers_sample :
    (reorderBoundLayers samplePrepare sampleNodeInfo 0 sampleLayers 1).2.map (fun b => b.id)
      = ["c", "d"] := by decide

/-! ### Opaque sort -/

theorem insertSorted_perm {α : Type} (comp : α → α → Bool) (x : α) (l : List α) :
    (insertSorted comp x l).Perm (x :: l) := by
  induction l with
  | nil => exact List.Perm.refl _
  | cons y ys ih =>
    unfold insertSorted
    split_ifs
    · exact List.Perm.refl _
    · exact (List.Perm.cons y ih).trans (List.Perm.swap x y ys)

theorem stdSort_perm {α : Type} (comp : α → α → Bool) (l : List α) :
    (stdSort comp l).Perm l := by
  induction l with
  | nil => exact List.Perm.refl _
  | cons x xs ih =>
    unfold stdSort
    exact (insertSorted_perm comp x _).trans (List.Perm.cons x ih)

theorem insertSorted_pairwise {α : Type} (key : α → ℚ) (x : α) (l : List α)
    (h : l.Pairwise (fun a b => key a ≤ key b)) :
    (insertSorted (fun a b => decide (key a < key b)) x l).Pairwise
      (fun a b => key a ≤ key b) := by
  induction l with
  | nil => simp [insertSorted]
  | cons y ys ih =>
    unfold insertSorted
    rw [List.pairwise_cons] at h
    split_ifs with hc
    · have hxy : key x < key y := by simpa using hc
      refine List.pairwise_cons.mpr ⟨?_, List.pairwise_cons.mpr h⟩
      intro b hb
      rcases List.mem_cons.mp hb with rfl | hb'
      · exact hxy.le
      · exact hxy.le.trans (h.1 b hb')
    · have hyx : key y ≤ key x := by simpa using hc
      refine List.pairwise_cons.mpr ⟨?_, ih h.2⟩
      intro b hb
      rcases List.mem_cons.mp ((insertSorted_perm _ x ys).subset hb) with rfl | hb'
      · exact hyx
      · exact h.1 b hb'

theorem stdSort_pairwise {α : Type} (key : α → ℚ) (l : List α) :
    (stdSort (fun a b => decide (key a < key b)) l).Pairwise (fun a b => key a ≤ key b) := by
  induction l with
  | nil => simp [stdSort]
  | cons x xs ih =>
    unfold stdSort
    exact insertSorted_pairwise key x _ ih

/-- C7: `sortOpaqueFrontToBack` leaves a permutation of the opaque list in which the squared
distances to the eye never decrease from one task to the next (indeed along the whole list),
and touches nothing else; tasks at distances 100, 10, 1000 come out as 10, 100, 1000. -/
theorem sortOpaqueFrontToBack_sorted (d : MapDraws) :
    d.sortOpaqueFrontToBack.opaqueTasks.Perm d.opaqueTasks ∧
    d.sortOpaqueFrontToBack.opaqueTasks.Chain'
      (fun a b => a.eyeDistance2 d.eye ≤ b.eyeDistance2 d.eye) ∧
    d.sortOpaqueFrontToBack.opaqueTasks.Pairwise
      (fun a b => a.eyeDistance2 d.eye ≤ b.eyeDistance2 d.eye) ∧
    d.sortOpaqueFrontToBack.transparent = d.transparent ∧
    d.sortOpaqueFrontToBack.Infographic = d.Infographic ∧
    d.sortOpaqueFrontToBack.eye = d.eye ∧
    sampleDraws.sortOpaqueFrontToBack.opaqueTasks
      = [sampleDrawTask 10, sampleDrawTask 100, sampleDrawTask 1000] := by
  have hp : d.sortOpaqueFrontToBack.opaqueTasks.Pairwise
      (fun a b => a.eyeDistance2 d.eye ≤ b.eyeDistance2 d.eye) :=
    stdSort_pairwise (DrawTask.eyeDistance2 d.eye) d.opaqueTasks
  refine ⟨stdSort_perm _ _, List.Pairwise.chain' hp, hp, rfl, rfl, rfl, ?_⟩
  norm_num [MapDraws.sortOpaqueFrontToBack, sampleDraws, stdSort, insertSorted, sampleDrawTask,
    dot, Vec3.sub]

/-! ### The meta-node resolver -/

theorem checkMetaNode_succ (F : MetaFlag) (E : Renderer.MetaEnv) (surface : SurfaceInfo)
    (priority : Priority) (t : TileId) (node : Option MetaNode) (h : 0 < t.lod) :
    Renderer.checkMetaNode F E surface t node priority =
      match Renderer.checkMetaNode F E surface (parent t) none priority with
      | (none, log) => (none, log)
      | (some (Validity.Invalid, _), log) => (some (Validity.Invalid, node), log)
      | (some (Validity.Indeterminate, _), log) => (some (Validity.Indeterminate, node), log)
      | (some (Validity.Valid, none), log) => (none, log)
      | (some (Validity.Valid, some pn), log) =>
        if pn.flags &&& (F.ulChild <<< ((t.x % 2) + (t.y % 2) * 2)) ≠ 0 then
          (some ((Renderer.returnValidMetaNode E surface t node priority).1,
                 (Renderer.returnValidMetaNode E surface t node priority).2.1),
           log ++ (Renderer.returnValidMetaNode E surface t node priority).2.2)
        else (some (Validity.Invalid, node), log) := by
  obtain ⟨lod, x, y⟩ := t
  cases lod with
  | zero => exact absurd h (Nat.lt_irrefl 0)
  | succ n =>
    simp only [Renderer.checkMetaNode, parent, Nat.add_sub_cancel]
    rw [Renderer.checkMetaNodeAt]
    simp only [parent, Nat.add_sub_cancel]

theorem ancestor_self (t : TileId) : ancestor t t.lod = t := by
  simp [ancestor]

theorem ancestor_parent (lod x y j : Nat) (h : j ≤ lod) :
    ancestor ⟨lod, x >>> 1, y >>> 1⟩ j = ancestor ⟨lod + 1, x, y⟩ j := by
  have hp : 2 ^ (lod + 1 - j) = 2 * 2 ^ (lod - j) := by
    rw [show lod + 1 - j = (lod - j) + 1 by omega, pow_succ, mul_comm]
  simp only [ancestor, Nat.shiftRight_eq_div_pow, pow_one, Nat.div_div_eq_div_mul, hp]

theorem returnValidMetaNode_valid (E : Renderer.MetaEnv) (surface : SurfaceInfo) (t : TileId)
    (node : Option MetaNode) (priority : Priority) (n : Option MetaNode)
    (h : (Renderer.returnValidMetaNode E surface t node priority).1 = Validity.Valid ∧
      (Renderer.returnValidMetaNode E surface t node priority).2.1 = n) :
    getResourceValidity (Renderer.metaTileOf E surface t).resource = Validity.Valid ∧
      n = (Renderer.metaTileOf E surface t).get t := by
  obtain ⟨h1, h2⟩ := h
  simp only [Renderer.returnValidMetaNode] at h1 h2
  refine ⟨h1, ?_⟩
  rw [← h2]
  simp only [Renderer.metaTileOf]
  rw [if_pos h1]

theorem checkMetaNodeAt_log (F : MetaFlag) (E : Renderer.MetaEnv) (surface : SurfaceInfo)
    (priority : Priority) (lod x y : Nat) (node : Option MetaNode) :
    ∃ k, k ≤ lod ∧
      (Renderer.checkMetaNodeAt F E surface priority lod x y node).2
        = (List.range (k + 1)).map
            (fun j => Renderer.requestFor E surface priority (ancestor ⟨lod, x, y⟩ j)) ∧
      (∀ j < k, Renderer.OpensChild F E surface (ancestor ⟨lod, x, y⟩ j)
        (ancestor ⟨lod, x, y⟩ (j + 1))) ∧
      (∀ n, (Renderer.checkMetaNodeAt F E surface priority lod x y node).1
          = some (Validity.Valid, n) →
        k = lod ∧
        getResourceValidity (Renderer.metaTileOf E surface ⟨lod, x, y⟩).resource
          = Validity.Valid ∧
        n = (Renderer.metaTileOf E surface ⟨lod, x, y⟩).get ⟨lod, x, y⟩) := by
  induction lod generalizing x y node with
  | zero =>
    refine ⟨0, le_refl _, ?_, fun j hj => absurd hj (Nat.not_lt_zero j), ?_⟩
    · simp [Renderer.checkMetaNodeAt, Renderer.returnValidMetaNode, Renderer.requestFor,
        ancestor, List.range_succ]
    · intro n hn
      simp only [Renderer.checkMetaNodeAt, Option.some.injEq, Prod.mk.injEq] at hn
      exact ⟨rfl, returnValidMetaNode_valid E surface _ node priority n hn⟩
  | succ lod ih =>
    obtain ⟨k, hk, hlog, hopen, hvalid⟩ := ih (x >>> 1) (y >>> 1) none
    have hanc : ∀ j, j ≤ lod →
        ancestor ⟨lod, x >>> 1, y >>> 1⟩ j = ancestor ⟨lod + 1, x, y⟩ j :=
      fun j hj => ancestor_parent lod x y j hj
    have hlog' : (Renderer.checkMetaNodeAt F E surface priority lod (x >>> 1) (y >>> 1) none).2
        = (List.range (k + 1)).map
            (fun j => Renderer.requestFor E surface priority (ancestor ⟨lod + 1, x, y⟩ j)) := by
      rw [hlog]
      apply List.map_congr_left
      intro j hj
      rw [hanc j (by have := List.mem_range.mp hj; omega)]
    have hopen' : ∀ j < k, Renderer.OpensChild F E surface (ancestor ⟨lod + 1, x, y⟩ j)
        (ancestor ⟨lod + 1, x, y⟩ (j + 1)) := by
      intro j hj
      have := hopen j hj
      rwa [hanc j (by omega), hanc (j + 1) (by omega)] at this
    rw [Renderer.checkMetaNodeAt]
    simp only [parent]
    rcases hrec : Renderer.checkMetaNodeAt F E surface priority lod (x >>> 1) (y >>> 1) none
      with ⟨res, log⟩
    rw [hrec] at hlog' hvalid
    simp only at hlog' hvalid
    rcases res with _ | ⟨v, pn⟩
    · exact ⟨k, by omega, hlog', hopen', fun n hn => by simp at hn⟩
    · cases v with
      | Indeterminate => exact ⟨k, by omega, hlog', hopen', fun n hn => by simp at hn⟩
      | Invalid => exact ⟨k, by omega, hlog', hopen', fun n hn => by simp at hn⟩
      | Valid =>
        obtain ⟨hkl, hpv, hpn⟩ := hvalid pn rfl
        cases pn with
        | none => exact ⟨k, by omega, hlog', hopen', fun n hn => by simp at hn⟩
        | some p =>
          simp only
          by_cases hflag : p.flags &&& (F.ulChild <<< ((x % 2) + (y % 2) * 2)) ≠ 0
          · rw [if_pos hflag]
            refine ⟨lod + 1, le_refl _, ?_, ?_, ?_⟩
            · simp only [hlog', hkl]
              rw [List.range_succ (n := lod + 1), List.map_append]
              simp [Renderer.returnValidMetaNode, Renderer.requestFor, ancestor]
            · intro j hj
              by_cases hjl : j < lod
              · exact hopen' j (by omega)
              · have hje : j = lod := by omega
                subst hje
                rw [← hanc j (le_refl _)]
                have hself : ancestor ⟨j, x >>> 1, y >>> 1⟩ j = ⟨j, x >>> 1, y >>> 1⟩ :=
                  ancestor_self ⟨j, x >>> 1, y >>> 1⟩
                have hself' : ancestor ⟨j + 1, x, y⟩ (j + 1) = ⟨j + 1, x, y⟩ :=
                  ancestor_self ⟨j + 1, x, y⟩
                rw [hself, hself']
                exact ⟨hpv, p, hpn.symm, hflag⟩
            · intro n hn
              simp only [Option.some.injEq, Prod.mk.injEq] at hn
              exact ⟨rfl, returnValidMetaNode_valid E surface _ node priority n hn⟩
          · rw [if_neg hflag]
            exact ⟨k, by omega, hlog', hopen', fun n hn => by simp at hn⟩

theorem parent_ancestor (t : TileId) (j : Nat) (h : j + 1 ≤ t.lod) :
    parent (ancestor t (j + 1)) = ancestor t j := by
  have hp : 2 ^ (t.lod - j) = 2 ^ (t.lod - (j + 1)) * 2 := by
    rw [show t.lod - j = (t.lod - (j + 1)) + 1 by omega, pow_succ]
  simp only [parent, ancestor, Nat.shiftRight_eq_div_pow, pow_one, Nat.div_div_eq_div_mul, hp,
    Nat.add_sub_cancel]

/-- C2: the requests of one `checkMetaNode(surface, t)` are those for a prefix `a_0 .. a_k` of
the ancestor path of `t`, in increasing lod; the request for `a_(j+1)` is made only when the
meta-tile of `a_j` was `Valid` with the child flag towards `a_(j+1)` set; there are at most
`t.lod + 1` requests, and exactly one at lod 0. -/
theorem checkMetaNode_requests (F : MetaFlag) (E : Renderer.MetaEnv) (surface : SurfaceInfo)
    (priority : Priority) (t : TileId) (node : Option MetaNode) :
    ancestor t t.lod = t ∧
    (∀ j, j + 1 ≤ t.lod → parent (ancestor t (j + 1)) = ancestor t j) ∧
    (∃ k, k ≤ t.lod ∧
      (Renderer.checkMetaNode F E surface t node priority).2
        = (List.range (k + 1)).map
            (fun j => Renderer.requestFor E surface priority (ancestor t j)) ∧
      (∀ j < k, Renderer.OpensChild F E surface (ancestor t j) (ancestor t (j + 1)))) ∧
    (Renderer.checkMetaNode F E surface t node priority).2.length ≤ t.lod + 1 ∧
    (t.lod = 0 → (Renderer.checkMetaNode F E surface t node priority).2
        = [Renderer.requestFor E surface priority t]) := by
  obtain ⟨k, hk, hlog, hopen, _⟩ := checkMetaNodeAt_log F E surface priority t.lod t.x t.y node
  have hlog' : (Renderer.checkMetaNode F E surface t node priority).2
      = (List.range (k + 1)).map
          (fun j => Renderer.requestFor E surface priority (ancestor t j)) := hlog
  refine ⟨ancestor_self t, fun j hj => parent_ancestor t j hj, ⟨k, hk, hlog', hopen⟩, ?_, ?_⟩
  · rw [hlog']
    simp only [List.length_map, List.length_range]
    omega
  · intro h0
    rw [hlog']
    have hk0 : k = 0 := by omega
    subst hk0
    have : ancestor t 0 = t := by
      have := ancestor_self t
      rwa [h0] at this
    simp [List.range_succ, this]

/-- C3: for a tile with lod > 0, `checkMetaNode` returns `Invalid` when the parent resolves to
`Invalid`, `Indeterminate` when it resolves to `Indeterminate`, `Invalid` when the parent is
`Valid` (its node `pn` being the meta-node of the parent tile) with the child flag
`ulChild << ((x mod 2) + 2 (y mod 2))` clear, and otherwise the validity of the tile's own
meta-tile. -/
theorem checkMetaNode_parent_cases (F : MetaFlag) (E : Renderer.MetaEnv)
    (surface : SurfaceInfo) (priority : Priority) (t : TileId) (node : Option MetaNode)
    (h : 0 < t.lod) :
    (∀ n, (Renderer.checkMetaNode F E surface (parent t) none priority).1
        = some (Validity.Invalid, n) →
      (Renderer.checkMetaNode F E surface t node priority).1
        = some (Validity.Invalid, node)) ∧
    (∀ n, (Renderer.checkMetaNode F E surface (parent t) none priority).1
        = some (Validity.Indeterminate, n) →
      (Renderer.checkMetaNode F E surface t node priority).1
        = some (Validity.Indeterminate, node)) ∧
    (∀ pn, (Renderer.checkMetaNode F E surface (parent t) none priority).1
        = some (Validity.Valid, some pn) →
      (Renderer.metaTileOf E surface (parent t)).get (parent t) = some pn ∧
      (pn.flags &&& (F.ulChild <<< ((t.x % 2) + 2 * (t.y % 2))) = 0 →
        (Renderer.checkMetaNode F E surface t node priority).1
          = some (Validity.Invalid, node)) ∧
      (pn.flags &&& (F.ulChild <<< ((t.x % 2) + 2 * (t.y % 2))) ≠ 0 →
        (Renderer.checkMetaNode F E surface t node priority).1
          = some (getResourceValidity (Renderer.metaTileOf E surface t).resource,
              if getResourceValidity (Renderer.metaTileOf E surface t).resource = Validity.Valid
              then (Renderer.metaTileOf E surface t).get t else node))) := by
  have hunf := checkMetaNode_succ F E surface priority t node h
  have hidx : (t.x % 2) + 2 * (t.y % 2) = (t.x % 2) + (t.y % 2) * 2 := by ring
  rw [hidx]
  rcases hrec : Renderer.checkMetaNode F E surface (parent t) none priority with ⟨res, log⟩
  rw [hrec] at hunf
  refine ⟨?_, ?_, ?_⟩
  · intro n hn
    simp only at hn
    subst hn
    simp only [hunf]
  · intro n hn
    simp only at hn
    subst hn
    simp only [hunf]
  · intro pn hn
    simp only at hn
    subst hn
    obtain ⟨_, _, _, _, hvalid⟩ := checkMetaNodeAt_log F E surface priority (parent t).lod
      (parent t).x (parent t).y none
    have hv := hvalid (some pn) (by
        have : (Renderer.checkMetaNode F E surface (parent t) none priority).1
            = some (Validity.Valid, some pn) := by rw [hrec]
        exact this)
    refine ⟨hv.2.2.symm, ?_, ?_⟩
    · intro hclear
      simp only [hunf, hclear, ne_eq, not_true_eq_false, if_false]
    · intro hset
      simp only [hunf, hset, ne_eq, not_false_eq_true, if_true]
      rfl

theorem checkMetaNode_parent_cases_witness :
    0 < (⟨1, 1, 0⟩ : TileId).lod ∧
    (∀ n, (Renderer.checkMetaNode sampleFlag sampleMetaEnv sampleSurface
        (parent ⟨1, 1, 0⟩) none 1).1 = some (Validity.Invalid, n) →
      (Renderer.checkMetaNode sampleFlag sampleMetaEnv sampleSurface ⟨1, 1, 0⟩ none 1).1
        = some (Validity.Invalid, none)) :=
  ⟨by decide,
   (checkMetaNode_parent_cases sampleFlag sampleMetaEnv sampleSurface 1 ⟨1, 1, 0⟩ none
      (by decide)).1⟩

theorem checkMetaNode_sample :
    (Renderer.checkMetaNode sampleFlag sampleMetaEnv sampleSurface ⟨2, 3, 1⟩ none 1).1
        = some (Validity.Valid, some sampleMetaNode) ∧
    ((Renderer.checkMetaNode sampleFlag sampleMetaEnv sampleSurface ⟨2, 3, 1⟩ none 1).2.map
        (fun r => r.name)) = ["meta-0-0-0", "meta-1-0-0", "meta-2-0-0"] := by
  constructor <;> decide

/-! ### Rendering a node -/

theorem RenderTask.ready_iff (r : RenderTask) : r.ready = true ↔ r.AllReady := by
  unfold RenderTask.ready RenderTask.AllReady Resource.toBool
  rcases r.mesh with _ | m <;> rcases r.textureColor with _ | c <;>
    rcases r.textureMask with _ | k <;> simp

theorem Renderer.Emits.refl (E : Renderer.Env) (s : Renderer.Frame) : Renderer.Emits E s s :=
  ⟨⟨[], [], by simp, List.Forall₂.nil⟩, rfl, rfl⟩

theorem Renderer.Emits.trans {E : Renderer.Env} {s1 s2 s3 : Renderer.Frame}
    (h1 : Renderer.Emits E s1 s2) (h2 : Renderer.Emits E s2 s3) : Renderer.Emits E s1 s3 := by
  obtain ⟨⟨rs1, ds1, e1, b1⟩, r1, m1⟩ := h1
  obtain ⟨⟨rs2, ds2, e2, b2⟩, r2, m2⟩ := h2
  refine ⟨⟨rs1 ++ rs2, ds1 ++ ds2, ?_, ?_⟩, r2.trans r1, m2.trans m1⟩
  · rw [e2, e1, List.append_assoc]
  · exact List.rel_append b1 b2

theorem Renderer.emplaceDraw_ready (E : Renderer.Env) (s : Renderer.Frame) (r : RenderTask)
    (h : r.ready = true) :
    ∃ s', Renderer.emplaceDraw E s r = Except.ok s' ∧ Renderer.Emits E s s' := by
  unfold Renderer.emplaceDraw
  have hd : DrawTask.ofRenderTask r E.viewRender E.options.debugFlatShading ≠ none := by
    simp [DrawTask.ofRenderTask, h]
  rcases hof : DrawTask.ofRenderTask r E.viewRender E.options.debugFlatShading with _ | d
  · exact absurd hof hd
  · exact ⟨_, rfl, ⟨[r], [d], rfl, List.Forall₂.cons ⟨h, hof⟩ List.Forall₂.nil⟩, rfl, rfl⟩

theorem Renderer.debugMesh_emits (E : Renderer.Env) (name : String) (s : Renderer.Frame) :
    Renderer.Emits E s (Renderer.debugMesh E name s).2 :=
  ⟨⟨[], [], by simp [Renderer.debugMesh], List.Forall₂.nil⟩, rfl, rfl⟩

theorem Renderer.renderMeshes_emits (E : Renderer.Env) (l : List RenderTask)
    (s : Renderer.Frame) :
    ∃ s', Renderer.renderMeshes E l s = Except.ok s' ∧ Renderer.Emits E s s' := by
  induction l generalizing s with
  | nil => exact ⟨s, rfl, Renderer.Emits.refl E s⟩
  | cons r rest ih =>
    unfold Renderer.renderMeshes
    by_cases hr : r.ready = true
    · obtain ⟨s1, h1, e1⟩ := Renderer.emplaceDraw_ready E s r hr
      obtain ⟨s2, h2, e2⟩ := ih s1
      exact ⟨s2, by simp [hr, h1, h2], e1.trans e2⟩
    · obtain ⟨s2, h2, e2⟩ := ih s
      exact ⟨s2, by simp [hr, h2], e2⟩

theorem Renderer.renderSurrogate_emits (E : Renderer.Env) (ni : NodeInfo)
    (m : Renderer.MetaInfo) (s : Renderer.Frame) :
    ∃ s', Renderer.renderSurrogate E ni m s = Except.ok s' ∧ Renderer.Emits E s s' := by
  unfold Renderer.renderSurrogate
  dsimp only
  split_ifs with h1 h2
  · obtain ⟨s1, e1, em⟩ := Renderer.emplaceDraw_ready E
      (Renderer.debugMesh E "data/meshes/sphere.obj" s).2 _ h2
    exact ⟨s1, e1, (Renderer.debugMesh_emits E "data/meshes/sphere.obj" s).trans em⟩
  · exact ⟨_, rfl, Renderer.debugMesh_emits E "data/meshes/sphere.obj" s⟩
  · exact ⟨s, rfl, Renderer.Emits.refl E s⟩

theorem Renderer.renderMeshBoxesLoop_emits (E : Renderer.Env) (l : List RenderTask)
    (s : Renderer.Frame) :
    ∃ s', Renderer.renderMeshBoxesLoop E l s = Except.ok s' ∧ Renderer.Emits E s s' := by
  induction l generalizing s with
  | nil => exact ⟨s, rfl, Renderer.Emits.refl E s⟩
  | cons r rest ih =>
    unfold Renderer.renderMeshBoxesLoop
    dsimp only
    split_ifs with ht hr
    · exact ih s
    · obtain ⟨s1, h1, e1⟩ := Renderer.emplaceDraw_ready E
        (Renderer.debugMesh E "data/meshes/aabb.obj" s).2 _ hr
      obtain ⟨s2, h2, e2⟩ := ih s1
      refine ⟨s2, ?_, (Renderer.debugMesh_emits E "data/meshes/aabb.obj" s).trans (e1.trans e2)⟩
      simp only [h1, h2]
    · obtain ⟨s2, h2, e2⟩ := ih (Renderer.debugMesh E "data/meshes/aabb.obj" s).2
      exact ⟨s2, h2, (Renderer.debugMesh_emits E "data/meshes/aabb.obj" s).trans e2⟩

theorem Renderer.renderTileBoxLoop_emits (E : Renderer.Env) (m : Renderer.MetaInfo)
    (task : RenderTask) (ht : task.ready = true) (l : List (Fin 8 × Fin 8))
    (s : Renderer.Frame) :
    ∃ s', Renderer.renderTileBoxLoop E m task l s = Except.ok s' ∧ Renderer.Emits E s s' := by
  induction l generalizing s with
  | nil => exact ⟨s, rfl, Renderer.Emits.refl E s⟩
  | cons e rest ih =>
    obtain ⟨ia, ib⟩ := e
    unfold Renderer.renderTileBoxLoop
    have hr : ({ task with model := E.lookAt (m.cornersPhys ia) (m.cornersPhys ib) }
        : RenderTask).ready = true := ht
    obtain ⟨s1, h1, e1⟩ := Renderer.emplaceDraw_ready E s _ hr
    obtain ⟨s2, h2, e2⟩ := ih s1
    exact ⟨s2, by simp only [h1, h2], e1.trans e2⟩

theorem Renderer.renderMeshBoxes_emits (E : Renderer.Env) (l : List RenderTask)
    (s : Renderer.Frame) :
    ∃ s', Renderer.renderMeshBoxes E l s = Except.ok s' ∧ Renderer.Emits E s s' := by
  unfold Renderer.renderMeshBoxes
  split_ifs
  · exact Renderer.renderMeshBoxesLoop_emits E l s
  · exact ⟨s, rfl, Renderer.Emits.refl E s⟩

theorem Renderer.renderTileBox_emits (E : Renderer.Env) (m : Renderer.MetaInfo)
    (s : Renderer.Frame) :
    ∃ s', Renderer.renderTileBox E m s = Except.ok s' ∧ Renderer.Emits E s s' := by
  unfold Renderer.renderTileBox
  dsimp only
  split_ifs with h1 h2
  · obtain ⟨s1, e1, em⟩ := Renderer.renderTileBoxLoop_emits E m _ h2
      (Renderer.cora.zip Renderer.corb) (Renderer.debugMesh E "data/meshes/line.obj" s).2
    exact ⟨s1, e1, (Renderer.debugMesh_emits E "data/meshes/line.obj" s).trans em⟩
  · exact ⟨_, rfl, Renderer.debugMesh_emits E "data/meshes/line.obj" s⟩
  · exact ⟨s, rfl, Renderer.Emits.refl E s⟩

theorem Renderer.renderNode_ok (E : Renderer.Env) (trav : Renderer.TraverseNode)
    (s : Renderer.Frame) (m : Renderer.MetaInfo) (hm : trav.meta = some m)
    (hv : Renderer.boxVisible E.frustumPlanes m.aabbPhys = true) :
    ∃ s', Renderer.renderNode E trav s = Except.ok s' ∧
      (∃ rs ds, s'.draws = s.draws ++ ds ∧ Renderer.BuiltFromReady E rs ds) ∧
      s'.rendered = s.rendered ++ [trav.nodeInfo.nodeId] ∧
      s'.metaNodesTraversedTotal = s.metaNodesTraversedTotal := by
  unfold Renderer.renderNode
  rw [hm]
  simp only [hv, Bool.not_true, Bool.false_eq_true, if_false]
  obtain ⟨s1, h1, e1⟩ := Renderer.renderMeshes_emits E trav.draws
    { s with rendered := s.rendered ++ [trav.nodeInfo.nodeId] }
  obtain ⟨s2, h2, e2⟩ := Renderer.renderSurrogate_emits E trav.nodeInfo m s1
  obtain ⟨s3, h3, e3⟩ := Renderer.renderMeshBoxes_emits E trav.draws s2
  obtain ⟨s4, h4, e4⟩ := Renderer.renderTileBox_emits E m s3
  rw [h1]; simp only
  rw [h2]; simp only
  rw [h3]; simp only
  rw [h4]; simp only
  obtain ⟨⟨rs, ds, hd, hb⟩, hr, hmt⟩ := e1.trans (e2.trans (e3.trans e4))
  exact ⟨_, rfl, ⟨rs, ds, hd, hb⟩, hr, hmt⟩

theorem Renderer.BuiltFromReady.allReady {E : Renderer.Env} {rs : List RenderTask}
    {ds : List DrawTask} (h : Renderer.BuiltFromReady E rs ds) : ∀ r ∈ rs, r.AllReady := by
  unfold Renderer.BuiltFromReady at h
  induction h with
  | nil => intro r hr; cases hr
  | cons hab _ ih =>
    intro r hr
    rcases List.mem_cons.mp hr with rfl | hr'
    · exact (RenderTask.ready_iff _).1 hab.1
    · exact ih r hr'

/-- C8: every draw task `renderNode` appends to the frame's draw list is built from a
`RenderTask` that is ready, with each present mesh, colour texture and mask texture in state
`ready`; the assertion `r.ready()` of the `DrawTask` constructor never fails in `renderNode`,
and on a visible node with meta `renderNode` runs through. -/
theorem renderNode_emits_ready (E : Renderer.Env) (trav : Renderer.TraverseNode)
    (s : Renderer.Frame) :
    Renderer.renderNode E trav s ≠ Except.error Renderer.Failure.assertReady ∧
    (∀ s', Renderer.renderNode E trav s = Except.ok s' →
      ∃ rs ds, s'.draws = s.draws ++ ds ∧ Renderer.BuiltFromReady E rs ds ∧
        ∀ r ∈ rs, r.ready = true ∧ r.AllReady) ∧
    (∀ m, trav.meta = some m → Renderer.boxVisible E.frustumPlanes m.aabbPhys = true →
      ∃ s', Renderer.renderNode E trav s = Except.ok s') := by
  rcases hm : trav.meta with _ | m
  · refine ⟨?_, ?_, ?_⟩
    · simp [Renderer.renderNode, hm]
    · intro s' hs'
      simp [Renderer.renderNode, hm] at hs'
    · intro m h
      cases h
  · by_cases hv : Renderer.boxVisible E.frustumPlanes m.aabbPhys = true
    · obtain ⟨s1, h1, ⟨rs, ds, hd, hb⟩, _⟩ := Renderer.renderNode_ok E trav s m hm hv
      refine ⟨by rw [h1]; simp, ?_, fun _ _ _ => ⟨s1, h1⟩⟩
      intro s' hs'
      rw [h1] at hs'
      cases hs'
      refine ⟨rs, ds, hd, hb, fun r hr => ⟨?_, hb.allReady r hr⟩⟩
      exact (RenderTask.ready_iff r).2 (hb.allReady r hr)
    · refine ⟨?_, ?_, ?_⟩
      · simp [Renderer.renderNode, hm, hv]
      · intro s' hs'
        simp [Renderer.renderNode, hm, hv] at hs'
      · intro m' hm' hv'
        cases hm'
        exact absurd hv' hv

/-! ### Surface selection (rendererTraversal.cpp) -/

theorem Traversal.qualifiesAt_succ (nodeId : TileId) (x : Option MetaTile × SurfaceInfo)
    (rest : List (Option MetaTile × SurfaceInfo)) (i : Nat) (surface : SurfaceInfo) :
    Traversal.QualifiesAt nodeId (x :: rest) (i + 1) surface
      ↔ Traversal.QualifiesAt nodeId rest i surface := by
  simp [Traversal.QualifiesAt]

theorem Traversal.findTopmost_spec (E : Traversal.Env) (nodeId : TileId)
    (hts : E.layer.tilesetStack = none) (l : List (Option MetaTile × SurfaceInfo))
    (a a' : Traversal.SurfaceSearch) (h : Traversal.findTopmost E nodeId l a = Except.ok a') :
    (a.topmost.isSome = true → a'.topmost = a.topmost) ∧
    (a.topmost = none →
      (∀ i surface, Traversal.QualifiesAt nodeId l i surface →
        (∀ j < i, ∀ s', ¬ Traversal.QualifiesAt nodeId l j s') → a'.topmost = some surface) ∧
      ((∀ i s', ¬ Traversal.QualifiesAt nodeId l i s') → a'.topmost = none)) := by
  induction l generalizing a with
  | nil =>
    simp only [Traversal.findTopmost, Except.ok.injEq] at h
    subst h
    refine ⟨fun _ => rfl, fun hn => ⟨?_, fun _ => hn⟩⟩
    intro i surface hq
    simp [Traversal.QualifiesAt] at hq
  | cons x rest ih =>
    obtain ⟨omt, sf⟩ := x
    have shift : ∀ (a1 : Traversal.SurfaceSearch),
        Traversal.findTopmost E nodeId rest a1 = Except.ok a' → a1.topmost = none →
        (∀ s', ¬ Traversal.QualifiesAt nodeId ((omt, sf) :: rest) 0 s') →
        (∀ i surface, Traversal.QualifiesAt nodeId ((omt, sf) :: rest) i surface →
          (∀ j < i, ∀ s', ¬ Traversal.QualifiesAt nodeId ((omt, sf) :: rest) j s') →
          a'.topmost = some surface) ∧
        ((∀ i s', ¬ Traversal.QualifiesAt nodeId ((omt, sf) :: rest) i s') →
          a'.topmost = none) := by
      intro a1 h1 hn1 h0
      obtain ⟨_, ih2⟩ := ih a1 h1
      obtain ⟨ihA, ihB⟩ := ih2 hn1
      constructor
      · intro i surface hq hmin
        cases i with
        | zero => exact absurd hq (h0 surface)
        | succ k =>
          refine ihA k surface ((Traversal.qualifiesAt_succ _ _ _ _ _).1 hq) ?_
          intro j hj s' hqj
          exact hmin (j + 1) (by omega) s' ((Traversal.qualifiesAt_succ _ _ _ _ _).2 hqj)
      · intro hall
        exact ihB (fun i s' hq => hall (i + 1) s' ((Traversal.qualifiesAt_succ _ _ _ _ _).2 hq))
    cases omt with
    | none =>
      simp only [Traversal.findTopmost] at h
      refine ⟨(ih a h).1, fun hn => shift a h hn ?_⟩
      intro s' hq
      simp [Traversal.QualifiesAt] at hq
    | some mt =>
      simp only [Traversal.findTopmost] at h
      rcases hget : mt.get nodeId with _ | n
      · rw [hget] at h
        simp at h
      · rw [hget] at h
        simp only at h
        by_cases hc : (a.topmost.isSome || n.alien != sf.alien) = true
        · rw [if_pos hc] at h
          refine ⟨(ih _ h).1, fun hn => shift _ h hn ?_⟩
          intro s' hq
          obtain ⟨mt', n', hl, hg, _, hal⟩ := hq
          simp only [List.getElem?_cons_zero, Option.some.injEq, Prod.mk.injEq] at hl
          obtain ⟨hmt, hs⟩ := hl
          subst hmt hs
          rw [hget] at hg
          cases hg
          simp [hn, hal] at hc
        · rw [if_neg hc] at h
          simp only [Bool.or_eq_true, not_or, Bool.not_eq_true] at hc
          obtain ⟨hnone, halien⟩ := hc
          have hnone' : a.topmost = none := by
            cases ht : a.topmost with
            | none => rfl
            | some v => simp [ht] at hnone
          have halien' : n.alien = sf.alien := by simpa using halien
          by_cases hgeo : n.geometry = true
          · rw [if_pos hgeo, hts] at h
            simp only at h
            have htop := (ih _ h).1 rfl
            simp only at htop
            refine ⟨fun hs => by simp [hnone'] at hs, fun _ => ⟨?_, ?_⟩⟩
            · intro i surface hq hmin
              have h0 : Traversal.QualifiesAt nodeId ((some mt, sf) :: rest) 0 sf :=
                ⟨mt, n, by simp, hget, hgeo, halien'⟩
              cases i with
              | zero =>
                obtain ⟨_, _, hl, _⟩ := hq
                simp only [List.getElem?_cons_zero, Option.some.injEq, Prod.mk.injEq] at hl
                rw [htop, hl.2]
              | succ k => exact absurd h0 (hmin 0 (by omega) sf)
            · intro hall
              exact absurd ⟨mt, n, by simp, hget, hgeo, halien'⟩ (hall 0 sf)
          · rw [if_neg hgeo] at h
            refine ⟨fun hs => by simp [hnone'] at hs, fun _ => shift _ h hnone' ?_⟩
            intro s' hq
            obtain ⟨mt', n', hl, hg, hgeo', _⟩ := hq
            simp only [List.getElem?_cons_zero, Option.some.injEq, Prod.mk.injEq] at hl
            obtain ⟨hmt, _⟩ := hl
            subst hmt
            rw [hget] at hg
            cases hg
            exact hgeo hgeo'

theorem Traversal.travDetermineMeta_true (E : Traversal.Env)
    (parent : Option Traversal.NodeData) (trav trav' : Traversal.TraverseNode)
    (s s' : Traversal.Frame) (hmono : E.layer.freeLayerMonolithicGeodata = false)
    (h : Traversal.travDetermineMeta E parent trav s = Except.ok (true, trav', s')) :
    ∃ metaTiles req a node d1,
      Traversal.findMetaTiles E parent trav.data 0 E.layer.surfaces
        = Except.ok (metaTiles, true, req) ∧
      Traversal.findTopmost E trav.data.nodeInfo.nodeId (metaTiles.zip E.layer.surfaces)
        ⟨none, none, fun _ => false⟩ = Except.ok a ∧
      a.node = some node ∧
      Traversal.travDetermineMetaImpl E
        { trav.data with meta := some node, metaTiles := metaTiles } = Except.ok d1 ∧
      trav'.data = Traversal.updateNodePriority E parent
        (match a.topmost with
          | some tm => { d1 with surface := some tm, credits := d1.credits ++ node.credits }
          | none => d1) ∧
      trav'.childs = trav.childs ++ (List.range 4).filterMap (fun i =>
        if a.childsAvailable i then
          some (Traversal.TraverseNode.mk (Traversal.NodeData.new E
            (E.nodeInfoChild trav.data.nodeInfo (children trav.data.nodeInfo.nodeId i))) [])
        else none) ∧
      trav.data.meta = none ∧ trav.childs = [] := by
  unfold Traversal.travDetermineMeta at h
  simp only [hmono] at h
  split_ifs at h with h1 h2 h3 h4 h5
  · exact h5.elim
  split at h
  · cases h
  · rename_i metaTiles determined req hfm
    split_ifs at h with hdet
    · simp at h
    · split at h
      · cases h
      · rename_i a hft
        split at h
        · simp at h
        · rename_i node hnode
          split at h
          · cases h
          · rename_i d1 himpl
            simp only [Except.ok.injEq, Prod.mk.injEq, true_and] at h
            obtain ⟨htrav, _⟩ := h
            have hdet' : determined = true := by simpa using hdet
            subst hdet'
            refine ⟨metaTiles, req, a, node, d1, hfm, hft, hnode, himpl, ?_, ?_, ?_, ?_⟩
            · rw [← htrav]; rfl
            · rw [← htrav]; rfl
            · simpa using h1
            · simpa using h2

theorem Traversal.travDetermineMetaImpl_keeps (E : Traversal.Env) (d d1 : Traversal.NodeData)
    (h : Traversal.travDetermineMetaImpl E d = Except.ok d1) :
    d1.surface = d.surface ∧ d1.metaTiles = d.metaTiles ∧ d1.meta = d.meta ∧
    d1.nodeInfo = d.nodeInfo ∧ d1.credits = d.credits ∧ d1.opaqueTasks = d.opaqueTasks ∧
    d1.transparent = d.transparent ∧ d1.geodata = d.geodata := by
  unfold Traversal.travDetermineMetaImpl at h
  split at h
  · cases h
  · simp only [Except.ok.injEq] at h
    subst h
    split_ifs <;> simp

theorem Traversal.updateNodePriority_keeps (E : Traversal.Env)
    (parent : Option Traversal.NodeData) (d : Traversal.NodeData) :
    (Traversal.updateNodePriority E parent d).surface = d.surface ∧
    (Traversal.updateNodePriority E parent d).metaTiles = d.metaTiles ∧
    (Traversal.updateNodePriority E parent d).meta = d.meta ∧
    (Traversal.updateNodePriority E parent d).nodeInfo = d.nodeInfo ∧
    (Traversal.updateNodePriority E parent d).credits = d.credits ∧
    (Traversal.updateNodePriority E parent d).opaqueTasks = d.opaqueTasks ∧
    (Traversal.updateNodePriority E parent d).transparent = d.transparent ∧
    (Traversal.updateNodePriority E parent d).geodata = d.geodata ∧
    (Traversal.updateNodePriority E parent d).aabbPhys = d.aabbPhys ∧
    (Traversal.updateNodePriority E parent d).lastAccessTime = d.lastAccessTime := by
  unfold Traversal.updateNodePriority
  split_ifs
  · simp
  · simp
  · cases parent <;> simp

theorem Traversal.findMetaTiles_root (E : Traversal.Env) (d : Traversal.NodeData)
    (surfaces : List SurfaceInfo) (i : Nat) (mts : List (Option MetaTile)) (det : Bool)
    (req : List MetaRequest)
    (h : Traversal.findMetaTiles E none d i surfaces = Except.ok (mts, det, req)) :
    ∀ (k : Nat) (surface : SurfaceInfo), surfaces[k]? = some surface →
      getResourceValidity (E.getMetaTile
        (surface.urlMeta (roundId E.metaBinaryOrder d.nodeInfo.nodeId))).resource
          = Validity.Valid →
      mts[k]? = some (some (E.getMetaTile
        (surface.urlMeta (roundId E.metaBinaryOrder d.nodeInfo.nodeId)))) := by
  induction surfaces generalizing i mts det req with
  | nil => intro k surface hk; simp at hk
  | cons sf rest ih =>
    unfold Traversal.findMetaTiles at h
    rcases h1 : Traversal.findMetaTile E none d i sf with e | ⟨m, det1, req1⟩
    · rw [h1] at h
      cases h
    · rw [h1] at h
      simp only at h
      rcases h2 : Traversal.findMetaTiles E none d (i + 1) rest with e | ⟨ms, det2, req2⟩
      · rw [h2] at h
        cases h
      · rw [h2] at h
        simp only [Except.ok.injEq, Prod.mk.injEq] at h
        obtain ⟨hm, _, _⟩ := h
        subst hm
        intro k surface hk hv
        cases k with
        | zero =>
          simp only [List.getElem?_cons_zero, Option.some.injEq] at hk
          subst hk
          unfold Traversal.findMetaTile at h1
          simp only [hv, Except.ok.injEq, Prod.mk.injEq] at h1
          simp [← h1.1]
        | succ k' =>
          simp only [List.getElem?_cons_succ] at hk ⊢
          exact ih (i + 1) ms det2 req2 h2 k' surface hk hv

theorem Traversal.qualifies_iff (nodeId : TileId) (metaTiles : List (Option MetaTile))
    (surfaces : List SurfaceInfo) (i : Nat) (surface : SurfaceInfo) :
    Traversal.Qualifies nodeId metaTiles surfaces i surface
      ↔ Traversal.QualifiesAt nodeId (metaTiles.zip surfaces) i surface := by
  unfold Traversal.Qualifies Traversal.QualifiesAt
  constructor
  · rintro ⟨mt, n, h1, h2, h3⟩
    exact ⟨mt, n, List.getElem?_zip_eq_some.mpr ⟨h1, h2⟩, h3⟩
  · rintro ⟨mt, n, h1, h3⟩
    have := List.getElem?_zip_eq_some.mp h1
    exact ⟨mt, n, this.1, this.2, h3⟩

theorem Traversal.eq_of_succeeded (r : Except Traversal.Failure
    (Bool × Traversal.TraverseNode × Traversal.Frame)) (t0 : Traversal.TraverseNode)
    (s0 : Traversal.Frame) (h : Traversal.succeeded r = true) :
    r = Except.ok (true, (Traversal.outcome r t0 s0).1, (Traversal.outcome r t0 s0).2) := by
  rcases r with e | ⟨b, t, s⟩
  · simp [Traversal.succeeded] at h
  · simp only [Traversal.succeeded] at h
    subst h
    rfl

theorem sample_travDetermineMeta_succeeded :
    Traversal.succeeded (Traversal.travDetermineMeta sampleTEnv none sampleRoot sampleTFrame)
      = true := by
  decide

theorem sample_travDetermineMeta_surface :
    (sampleMetaOut.1.data.surface.map (fun sf => sf.name)) = some ["s"] ∧
    sampleMetaOut.1.childs.length = 4 := by
  constructor <;> decide

/-! ### No partial commit of draws -/

theorem Traversal.boundLayersLoop_spec (E : Traversal.Env) (part : Renderer.MeshPart)
    (bls : List BoundParamInfo) (acc : Traversal.DrawsAcc) (at0 : Bool) :
    (Traversal.boundLayersLoop E part bls acc at0).1.determined = acc.determined ∧
    (Traversal.boundLayersLoop E part bls acc at0).2
      = (at0 && bls.all (fun b => b.transparent)) := by
  induction bls generalizing acc at0 with
  | nil => simp [Traversal.boundLayersLoop]
  | cons b rest ih =>
    unfold Traversal.boundLayersLoop
    dsimp only
    split_ifs
    · rw [(ih _ _).1, (ih _ _).2]
      simp [Bool.and_assoc]
    · rw [(ih _ _).1, (ih _ _).2]
      simp [Bool.and_assoc]

theorem Traversal.internalTextureStep_false (E : Traversal.Env) (d : Traversal.NodeData)
    (surface : SurfaceInfo) (i : Nat) (part : Renderer.MeshPart) (acc : Traversal.DrawsAcc)
    (h : acc.determined = false ∨ (part.internalUv = true ∧
      getResourceValidity (E.getTexture (surface.urlIntTex d.nodeInfo.nodeId i))
        = Validity.Indeterminate)) :
    (Traversal.internalTextureStep E d surface i part acc).determined = false := by
  unfold Traversal.internalTextureStep Traversal.travInternalTexture
  dsimp only
  rcases h with h | ⟨h1, h2⟩
  · split_ifs
    · split <;> simp [h]
    · exact h
  · rw [if_pos h1, h2]

theorem Traversal.subMeshStep_false (E : Traversal.Env) (d : Traversal.NodeData)
    (surface : SurfaceInfo) (i : Nat) (part : Renderer.MeshPart) (acc : Traversal.DrawsAcc)
    (h : acc.determined = false ∨ Traversal.SubmeshBlocks E d surface i part) :
    (Traversal.subMeshStep E d surface i part acc).determined = false := by
  unfold Traversal.subMeshStep
  by_cases hext : part.externalUv = true
  · rw [if_pos hext]
    rcases hr : reorderBoundLayers E.prepare d.nodeInfo i
      (Traversal.subMeshBoundList E surface part) d.priority with ⟨v, bls⟩
    cases v with
    | Indeterminate => rfl
    | Invalid =>
      simp only
      rcases h with h | ⟨hb, hv⟩ | ⟨_, hb | ⟨hv, _⟩, _⟩
      · exact h
      · rw [hr] at hv; cases hv
      · rw [hext] at hb; cases hb
      · rw [hr] at hv; cases hv
    | Valid =>
      simp only
      have hloop := Traversal.boundLayersLoop_spec E part bls acc true
      split_ifs with hall
      · rw [hloop.1]
        rcases h with h | ⟨_, hv⟩ | ⟨_, hb | ⟨_, htr⟩, _⟩
        · exact h
        · rw [hr] at hv; cases hv
        · rw [hext] at hb; cases hb
        · rw [hr] at htr
          rw [hloop.2] at hall
          have : bls.all (fun b => b.transparent) = true := List.all_eq_true.mpr htr
          simp [this] at hall
      · apply Traversal.internalTextureStep_false
        rcases h with h | ⟨_, hv⟩ | ⟨hi, _, htex⟩
        · exact Or.inl (hloop.1.trans h)
        · rw [hr] at hv; cases hv
        · exact Or.inr ⟨hi, htex⟩
  · rw [if_neg hext]
    apply Traversal.internalTextureStep_false
    rcases h with h | ⟨hb, _⟩ | ⟨hi, _, htex⟩
    · exact Or.inl h
    · exact absurd hb hext
    · exact Or.inr ⟨hi, htex⟩

theorem Traversal.subMeshLoop_false (E : Traversal.Env) (d : Traversal.NodeData)
    (surface : SurfaceInfo) (parts : List Renderer.MeshPart) (i0 : Nat)
    (acc : Traversal.DrawsAcc)
    (h : acc.determined = false ∨
      ∃ (k : Nat) (part : Renderer.MeshPart), parts[k]? = some part ∧
        Traversal.SubmeshBlocks E d surface (i0 + k) part) :
    (Traversal.subMeshLoop E d surface i0 parts acc).determined = false := by
  induction parts generalizing i0 acc with
  | nil =>
    rcases h with h | ⟨k, part, hk, _⟩
    · exact h
    · simp at hk
  | cons p rest ih =>
    unfold Traversal.subMeshLoop
    apply ih
    rcases h with h | ⟨k, part, hk, hb⟩
    · exact Or.inl (Traversal.subMeshStep_false E d surface i0 p acc (Or.inl h))
    · cases k with
      | zero =>
        simp only [List.getElem?_cons_zero, Option.some.injEq] at hk
        subst hk
        exact Or.inl (Traversal.subMeshStep_false E d surface i0 p acc (Or.inr hb))
      | succ k' =>
        simp only [List.getElem?_cons_succ] at hk
        refine Or.inr ⟨k', part, hk, ?_⟩
        rwa [show i0 + 1 + k' = i0 + (k' + 1) by omega]

/-- C6 (as stated, refuted): a submesh with both UV sets whose bound layers resolve to one
opaque layer and whose internal texture is still `Indeterminate`: `travDetermineDrawsSurface`
returns true and commits the bound-layer task. -/
theorem travDetermineDrawsSurface_commits_with_indeterminate_texture :
    (sampleTEnvDownloading.getMeshAggregate
        (sampleSurface.urlMesh sampleResolvedRoot.data.nodeInfo.nodeId)).submeshes[0]?
      = some samplePartBoth ∧
    Traversal.SubmeshIndeterminate sampleTEnvDownloading sampleResolvedRoot.data sampleSurface 0
      samplePartBoth ∧
    Traversal.succeeded (Traversal.travDetermineDrawsSurface sampleTEnvDownloading
      sampleResolvedRoot sampleTFrame) = true ∧
    sampleResolvedRoot.data.opaqueTasks.length = 0 ∧
    (Traversal.outcome (Traversal.travDetermineDrawsSurface sampleTEnvDownloading
      sampleResolvedRoot sampleTFrame) sampleResolvedRoot sampleTFrame).1.data.opaqueTasks.length
      = 1 := by
  refine ⟨rfl, Or.inr ⟨rfl, by decide⟩, by decide, rfl, by decide⟩

/-- C6 (amended): when the bound-layer resolution of some submesh is `Indeterminate`, or the
internal texture of some submesh whose internal-texture step is reached (internal UV, and no
external UV or only transparent bound layers) is `Indeterminate`, then
`travDetermineDrawsSurface` returns false and the node's opaque list, transparent list,
geodata and credits are what they were before the call. -/
theorem travDetermineDrawsSurface_no_partial_commit (E : Traversal.Env)
    (trav : Traversal.TraverseNode) (s : Traversal.Frame) (meta : MetaNode)
    (surface : SurfaceInfo) (hm : trav.data.meta = some meta)
    (hs : trav.data.surface = some surface)
    (hblock : ∃ (i : Nat) (part : Renderer.MeshPart),
      (E.getMeshAggregate (surface.urlMesh trav.data.nodeInfo.nodeId)).submeshes[i]?
        = some part ∧
      Traversal.SubmeshBlocks E trav.data surface i part) :
    ∃ trav' s', Traversal.travDetermineDrawsSurface E trav s = Except.ok (false, trav', s') ∧
      trav'.data.opaqueTasks = trav.data.opaqueTasks ∧
      trav'.data.transparent = trav.data.transparent ∧
      trav'.data.geodata = trav.data.geodata ∧
      trav'.data.credits = trav.data.credits := by
  unfold Traversal.travDetermineDrawsSurface
  simp only [hm, hs]
  rcases hv : getResourceValidity
    (E.getMeshAggregate (surface.urlMesh trav.data.nodeInfo.nodeId)).resource with _ | _ | _
  · exact ⟨_, _, rfl, rfl, rfl, rfl, rfl⟩
  · exact ⟨_, _, rfl, rfl, rfl, rfl, rfl⟩
  · have hdet := Traversal.subMeshLoop_false E trav.data surface
      (E.getMeshAggregate (surface.urlMesh trav.data.nodeInfo.nodeId)).submeshes 0
      ⟨true, [], [], [], [], []⟩ (Or.inr (by
        obtain ⟨i, part, hi, hb⟩ := hblock
        exact ⟨i, part, hi, by rwa [Nat.zero_add]⟩))
    simp only [hdet]
    exact ⟨_, _, rfl, rfl, rfl, rfl, rfl⟩

theorem travDetermineDrawsSurface_no_partial_commit_witness :
    sampleResolvedRoot.data.meta = some sampleMetaNode ∧
    sampleResolvedRoot.data.surface = some sampleSurface ∧
    (∃ (i : Nat) (part : Renderer.MeshPart),
      (sampleTEnvInternal.getMeshAggregate
        (sampleSurface.urlMesh sampleResolvedRoot.data.nodeInfo.nodeId)).submeshes[i]?
        = some part ∧
      Traversal.SubmeshBlocks sampleTEnvInternal sampleResolvedRoot.data sampleSurface i part) ∧
    ∃ trav' s', Traversal.travDetermineDrawsSurface sampleTEnvInternal sampleResolvedRoot
        sampleTFrame = Except.ok (false, trav', s') ∧
      trav'.data.opaqueTasks = sampleResolvedRoot.data.opaqueTasks ∧
      trav'.data.transparent = sampleResolvedRoot.data.transparent ∧
      trav'.data.geodata = sampleResolvedRoot.data.geodata ∧
      trav'.data.credits = sampleResolvedRoot.data.credits :=
  have hb : ∃ (i : Nat) (part : Renderer.MeshPart),
      (sampleTEnvInternal.getMeshAggregate
        (sampleSurface.urlMesh sampleResolvedRoot.data.nodeInfo.nodeId)).submeshes[i]?
        = some part ∧
      Traversal.SubmeshBlocks sampleTEnvInternal sampleResolvedRoot.data sampleSurface i part :=
    ⟨0, ⟨⟨"mesh0", ResourceState.ready⟩, 1, true, false, 0, 1⟩, rfl,
      Or.inr ⟨rfl, Or.inl rfl, by decide⟩⟩
  ⟨rfl, rfl, hb,
   travDetermineDrawsSurface_no_partial_commit sampleTEnvInternal sampleResolvedRoot
     sampleTFrame sampleMetaNode sampleSurface rfl rfl hb⟩

/-! ### Traversal modes (rendererTraversal.cpp) -/

theorem Traversal.travDetermineDrawsSurface_ok (E : Traversal.Env)
    (trav : Traversal.TraverseNode) (s : Traversal.Frame)
    (hm : trav.data.meta.isSome = true) (hs : trav.data.surface.isSome = true)
    (hr : trav.data.rendersEmpty = true) :
    ∃ b trav' s', Traversal.travDetermineDrawsSurface E trav s = Except.ok (b, trav', s') ∧
      Traversal.Quiet trav trav' s s' := by
  obtain ⟨meta, hmeta⟩ := Option.isSome_iff_exists.mp hm
  obtain ⟨surface, hsurface⟩ := Option.isSome_iff_exists.mp hs
  unfold Traversal.travDetermineDrawsSurface
  simp only [hmeta, hsurface, hr]
  rcases getResourceValidity
    (E.getMeshAggregate (surface.urlMesh trav.data.nodeInfo.nodeId)).resource with _ | _ | _
  · exact ⟨_, _, _, rfl, rfl, rfl, rfl, rfl, rfl⟩
  · exact ⟨_, _, _, rfl, rfl, rfl, rfl, rfl, hmeta.symm⟩
  · simp only [Bool.not_true, Bool.false_eq_true, if_false]
    split_ifs
    all_goals exact ⟨_, _, _, rfl, rfl, rfl, rfl, rfl, by first | rfl | exact hmeta.symm⟩

theorem Traversal.travDetermineDrawsGeodata_ok (E : Traversal.Env)
    (trav : Traversal.TraverseNode) (s : Traversal.Frame)
    (hs : trav.data.surface.isSome = true) (hr : trav.data.rendersEmpty = true) :
    ∃ b trav' s', Traversal.travDetermineDrawsGeodata E trav s = Except.ok (b, trav', s') ∧
      Traversal.Quiet trav trav' s s' := by
  obtain ⟨surface, hsurface⟩ := Option.isSome_iff_exists.mp hs
  unfold Traversal.travDetermineDrawsGeodata
  simp only [hsurface, hr, Bool.not_true, Bool.false_eq_true, if_false]
  rcases getResourceValidity (E.getGeodata
      (surface.urlGeodata trav.data.nodeInfo.nodeId ++ "#$!gpu")).resource with _ | _ | _
  all_goals
    simp only
    split_ifs
    all_goals exact ⟨_, _, _, rfl, rfl, rfl, rfl, rfl, rfl⟩

theorem Traversal.travDetermineMeta_frame (E : Traversal.Env)
    (parent : Option Traversal.NodeData) (trav t' : Traversal.TraverseNode)
    (s s' : Traversal.Frame) (b : Bool)
    (h : Traversal.travDetermineMeta E parent trav s = Except.ok (b, t', s')) :
    s'.rendered = s.rendered ∧ s'.metaNodesTraversedTotal = s.metaNodesTraversedTotal := by
  unfold Traversal.travDetermineMeta at h
  dsimp only at h
  repeat' first
    | (cases h; done)
    | (simp only [Except.ok.injEq, Prod.mk.injEq] at h
       obtain ⟨_, _, hs⟩ := h
       subst hs
       exact ⟨rfl, rfl⟩)
    | split at h

theorem Traversal.travDetermineDraws_ok (E : Traversal.Env)
    (parent : Option Traversal.NodeData) (trav : Traversal.TraverseNode)
    (s : Traversal.Frame) (hm : trav.data.meta.isSome = true)
    (hs : trav.data.surface.isSome = true) (hr : trav.data.rendersEmpty = true) :
    ∃ b trav' s', Traversal.travDetermineDraws E parent trav s = Except.ok (b, trav', s') ∧
      Traversal.Quiet trav trav' s s' := by
  have hk := Traversal.updateNodePriority_keeps E parent trav.data
  obtain ⟨k1, _, k3, k4, _, k6, k7, k8, _⟩ := hk
  have hm' : (trav.setData (Traversal.updateNodePriority E parent trav.data)).data.meta.isSome
      = true := by
    show (Traversal.updateNodePriority E parent trav.data).meta.isSome = true
    rw [k3]; exact hm
  have hs' : (trav.setData (Traversal.updateNodePriority E parent trav.data)).data.surface.isSome
      = true := by
    show (Traversal.updateNodePriority E parent trav.data).surface.isSome = true
    rw [k1]; exact hs
  have hr' : (trav.setData (Traversal.updateNodePriority E parent trav.data)).data.rendersEmpty
      = true := by
    show (Traversal.updateNodePriority E parent trav.data).rendersEmpty = true
    unfold Traversal.NodeData.rendersEmpty at hr ⊢
    rw [k6, k7, k8]; exact hr
  unfold Traversal.travDetermineDraws
  have hm0 : trav.data.meta.isNone = false := by
    cases hmm : trav.data.meta <;> simp [hmm] at hm ⊢
  have hs0 : trav.data.surface.isNone = false := by
    cases hss : trav.data.surface <;> simp [hss] at hs ⊢
  simp only [hm0, hs0, hr, Bool.not_true, Bool.false_eq_true, if_false]
  split_ifs
  · obtain ⟨b, t', s', he, q1, q2, q3, q4, q5⟩ := Traversal.travDetermineDrawsGeodata_ok E
      (trav.setData (Traversal.updateNodePriority E parent trav.data))
      { s with currentNodeDrawsUpdates := s.currentNodeDrawsUpdates + 1 } hs' hr'
    exact ⟨b, t', s', he, q1, q2, q3, q4.trans k4, q5.trans k3⟩
  · obtain ⟨b, t', s', he, q1, q2, q3, q4, q5⟩ := Traversal.travDetermineDrawsSurface_ok E
      (trav.setData (Traversal.updateNodePriority E parent trav.data))
      { s with currentNodeDrawsUpdates := s.currentNodeDrawsUpdates + 1 } hm' hs' hr'
    exact ⟨b, t', s', he, q1, q2, q3, q4.trans k4, q5.trans k3⟩

theorem Traversal.ensureDraws_ok (E : Traversal.Env) (parent : Option Traversal.NodeData)
    (trav : Traversal.TraverseNode) (s : Traversal.Frame)
    (hm : trav.data.meta.isSome = true) :
    ∃ trav' s', Traversal.ensureDraws E parent trav s = Except.ok (trav', s') ∧
      Traversal.Quiet trav trav' s s' := by
  unfold Traversal.ensureDraws
  split_ifs with hc
  · simp only [Bool.and_eq_true] at hc
    obtain ⟨b, t', s', he, hq⟩ := Traversal.travDetermineDraws_ok E parent trav s hm hc.1 hc.2
    rw [he]
    exact ⟨t', s', rfl, hq⟩
  · exact ⟨trav, s, rfl, rfl, rfl, rfl, rfl, rfl⟩

theorem Traversal.travInit_resolved (E : Traversal.Env) (parent : Option Traversal.NodeData)
    (trav : Traversal.TraverseNode) (s : Traversal.Frame)
    (hm : trav.data.meta.isSome = true) :
    Traversal.travInit E parent trav s = Except.ok (true,
      trav.setData (Traversal.initData E parent trav.data),
      { s with metaNodesTraversedTotal := s.metaNodesTraversedTotal + 1 }) := by
  unfold Traversal.travInit
  have : (trav.setData (Traversal.initData E parent trav.data)).data.meta.isNone = false := by
    show (Traversal.initData E parent trav.data).meta.isNone = false
    unfold Traversal.initData
    rw [(Traversal.updateNodePriority_keeps E parent _).2.2.1]
    cases hmm : trav.data.meta <;> simp [hmm] at hm ⊢
  simp only [this, Bool.false_eq_true, if_false]

theorem Traversal.travInit_frame (E : Traversal.Env) (parent : Option Traversal.NodeData)
    (trav t' : Traversal.TraverseNode) (s s' : Traversal.Frame) (b : Bool)
    (h : Traversal.travInit E parent trav s = Except.ok (b, t', s')) :
    s'.rendered = s.rendered ∧
    s'.metaNodesTraversedTotal = s.metaNodesTraversedTotal + 1 := by
  unfold Traversal.travInit at h
  dsimp only at h
  split_ifs at h
  · exact Traversal.travDetermineMeta_frame E parent _ t' _ s' b h
  · simp only [Except.ok.injEq, Prod.mk.injEq] at h
    obtain ⟨_, _, hs⟩ := h
    subst hs
    exact ⟨rfl, rfl⟩

/-! ### The queue driven traversal (renderer.cpp) -/

theorem Renderer.travDetermineDraws_runs (E : Renderer.Env) (trav : Renderer.TraverseNode)
    (s : Renderer.Frame) (m : Renderer.MetaInfo) (hm : trav.meta = some m)
    (hs : m.surface.isSome = true) (hd : trav.draws.isEmpty = true) :
    ∃ b trav' s', Renderer.travDetermineDraws E trav s = Except.ok (b, trav', s') ∧
      s'.rendered = s.rendered ∧ s'.metaNodesTraversedTotal = s.metaNodesTraversedTotal ∧
      trav'.childs = trav.childs ∧ trav'.nodeInfo = trav.nodeInfo ∧
      ∃ m', trav'.meta = some m' ∧ m'.aabbPhys = m.aabbPhys := by
  obtain ⟨item, hitem⟩ := Option.isSome_iff_exists.mp hs
  unfold Renderer.travDetermineDraws
  simp only [hm, hitem, hd, Bool.not_true, Bool.false_eq_true, if_false]
  split_ifs <;> (try split) <;> first
    | exact ⟨_, _, _, rfl, rfl, rfl, rfl, rfl, m, hm, rfl⟩
    | exact ⟨_, _, _, rfl, rfl, rfl, rfl, rfl, _, rfl, rfl⟩

theorem Renderer.traverse_leaf (E : Renderer.Env) (trav : Renderer.TraverseNode)
    (s : Renderer.Frame) (m : Renderer.MetaInfo) (hm : trav.meta = some m)
    (hc : trav.childs = [])
    (hv : Renderer.boxVisible E.frustumPlanes m.aabbPhys = true) :
    ∃ trav' s', Renderer.traverse E trav false s = Except.ok (trav', s', []) ∧
      s'.rendered = s.rendered ++ [trav.nodeInfo.nodeId] ∧ trav'.childs = [] ∧
      s'.metaNodesTraversedTotal = s.metaNodesTraversedTotal + 1 := by
  -- the node and frame after `touchResources`
  obtain ⟨trav0, htrav0⟩ : ∃ t, t = trav.setLastAccessTime E.frameIndex := ⟨_, rfl⟩
  obtain ⟨s0, hs0⟩ : ∃ f : Renderer.Frame, f =
      { s with metaNodesTraversedTotal := s.metaNodesTraversedTotal + 1,
               touched := s.touched ++ (trav.draws.map Renderer.touchTask).flatten } := ⟨_, rfl⟩
  have hm0 : trav0.meta = some m := by rw [htrav0]; exact hm
  have hc0 : trav0.childs = [] := by rw [htrav0]; exact hc
  have hn0 : trav0.nodeInfo = trav.nodeInfo := by rw [htrav0]; rfl
  have hr0 : s0.rendered = s.rendered := by rw [hs0]
  have ht0 : s0.metaNodesTraversedTotal = s.metaNodesTraversedTotal + 1 := by rw [hs0]
  -- the draws step
  have hdraws : ∃ b trav1 s1,
      (if m.surface.isSome && trav0.draws.isEmpty then Renderer.travDetermineDraws E trav0 s0
        else Except.ok (true, trav0, s0)) = Except.ok (b, trav1, s1) ∧
      s1.rendered = s0.rendered ∧ s1.metaNodesTraversedTotal = s0.metaNodesTraversedTotal ∧
      trav1.childs = trav0.childs ∧ trav1.nodeInfo = trav0.nodeInfo ∧
      ∃ m', trav1.meta = some m' ∧ m'.aabbPhys = m.aabbPhys := by
    split_ifs with hcond
    · simp only [Bool.and_eq_true] at hcond
      exact Renderer.travDetermineDraws_runs E trav0 s0 m hm0 hcond.1 hcond.2
    · exact ⟨true, trav0, s0, rfl, rfl, rfl, rfl, rfl, m, hm0, rfl⟩
  obtain ⟨b, trav1, s1, hstep, hr1, ht1, hc1, hn1, m', hm1, haabb⟩ := hdraws
  have hv1 : Renderer.boxVisible E.frustumPlanes m'.aabbPhys = true := by rw [haabb]; exact hv
  obtain ⟨s2, hrender, _, hr2, ht2⟩ := Renderer.renderNode_ok E trav1 s1 m' hm1 hv1
  have hce : trav1.childs = [] := hc1.trans hc0
  refine ⟨trav1, s2, ?_, ?_, hce, ?_⟩
  · unfold Renderer.traverse Renderer.touchResources
    simp only [← htrav0, ← hs0, hm0, Option.isNone_some, Bool.false_eq_true, if_false, hstep, hm1,
      hv1, Bool.not_true, Bool.not_false, hce, Renderer.childsOk, Bool.and_false, Bool.or_false,
      if_true, hrender, List.isEmpty_nil, Bool.and_self, Bool.or_self]
    split_ifs <;> rfl
  · rw [hr2, hr1, hr0, hn1, hn0]
  · rw [ht2, ht1, ht0]

theorem Traversal.travModeFlat_leaf (E : Traversal.Env) (parent : Option Traversal.NodeData)
    (trav : Traversal.TraverseNode) (s : Traversal.Frame) (fuel : Nat)
    (hm : trav.data.meta.isSome = true) (hc : trav.childs = [])
    (hv : E.visibilityTest (Traversal.initData E parent trav.data) = true) :
    ∃ trav' s', Traversal.travModeFlat E (fuel + 1) parent trav s
        = some (Except.ok (trav', s')) ∧
      trav'.childs = [] ∧
      s'.rendered = s.rendered ++
        (if trav'.data.rendersEmpty then [] else [trav.data.nodeInfo.nodeId]) ∧
      s'.metaNodesTraversedTotal = s.metaNodesTraversedTotal + 1 := by
  have hinit := Traversal.travInit_resolved E parent trav s hm
  have hk := Traversal.updateNodePriority_keeps E parent
    { trav.data with lastAccessTime := E.tickIndex }
  have hm1 : (trav.setData (Traversal.initData E parent trav.data)).data.meta.isSome = true := by
    show (Traversal.initData E parent trav.data).meta.isSome = true
    unfold Traversal.initData
    rw [hk.2.2.1]; exact hm
  have hn1 : (Traversal.initData E parent trav.data).nodeInfo = trav.data.nodeInfo := by
    unfold Traversal.initData
    rw [hk.2.2.2.1]
  obtain ⟨trav2, s2, hens, q1, q2, q3, q4, _⟩ := Traversal.ensureDraws_ok E parent
    (trav.setData (Traversal.initData E parent trav.data))
    (Traversal.touchDraws E (trav.setData (Traversal.initData E parent trav.data)).data
      { s with metaNodesTraversedTotal := s.metaNodesTraversedTotal + 1 }) hm1
  have hc2 : trav2.childs = [] := q3.trans hc
  have hn2 : trav2.data.nodeInfo = trav.data.nodeInfo := q4.trans hn1
  have hv1 : E.visibilityTest (trav.setData (Traversal.initData E parent trav.data)).data
      = true := hv
  have hc1 : (trav.setData (Traversal.initData E parent trav.data)).childs = [] := hc
  refine ⟨trav2, if !trav2.data.rendersEmpty then Traversal.renderNode trav2 s2 else s2,
    ?_, hc2, ?_, ?_⟩
  · rw [Traversal.travModeFlat]
    simp only [hinit, hv1, hc1, Bool.not_true, Bool.false_eq_true, if_false, List.isEmpty_nil,
      Bool.or_true, if_true, hens]
  · cases hre : trav2.data.rendersEmpty
    · simp only [Bool.not_false, if_true, Bool.false_eq_true, if_false, Traversal.renderNode]
      rw [q1, hn2]
      rfl
    · simp only [Bool.not_true, Bool.false_eq_true, if_false, if_true, List.append_nil]
      exact q1
  · cases hre : trav2.data.rendersEmpty
    · simp only [Bool.not_false, if_true, Traversal.renderNode]
      exact q2
    · simp only [Bool.not_true, Bool.false_eq_true, if_false]
      exact q2

/-- C9 (as stated, refuted): a visible resolved leaf without surface and draws, traversed by
`travModeFlat`: `renderNode` is not called on it. -/
theorem travModeFlat_leaf_without_draws_not_rendered :
    sampleBareLeaf.data.meta.isSome = true ∧ sampleBareLeaf.childs = [] ∧
    sampleTEnv.visibilityTest (Traversal.initData sampleTEnv none sampleBareLeaf.data) = true ∧
    Traversal.renderedOf (Traversal.travModeFlat sampleTEnv 1 none sampleBareLeaf sampleTFrame)
      = some [] := by
  refine ⟨rfl, rfl, rfl, by decide⟩

/-- C9 (amended): a node with resolved meta and no children that is traversed in render mode
and passes the visibility test is rendered whether or not the coarseness test passes, by
`traverse` always and by `travModeFlat` exactly when its draws are non-empty after the draws
step; nothing beneath it is visited or put on the queue. -/
theorem traverse_renders_leaf :
    (∀ (E : Renderer.Env) (trav : Renderer.TraverseNode) (s : Renderer.Frame)
        (m : Renderer.MetaInfo),
      trav.meta = some m → trav.childs = [] →
      Renderer.boxVisible E.frustumPlanes m.aabbPhys = true →
      ∃ trav' s', Renderer.traverse E trav false s = Except.ok (trav', s', []) ∧
        s'.rendered = s.rendered ++ [trav.nodeInfo.nodeId] ∧ trav'.childs = [] ∧
        s'.metaNodesTraversedTotal = s.metaNodesTraversedTotal + 1) ∧
    (∀ (T : Traversal.Env) (parent : Option Traversal.NodeData)
        (tnode : Traversal.TraverseNode) (ts : Traversal.Frame) (fuel : Nat),
      tnode.data.meta.isSome = true → tnode.childs = [] →
      T.visibilityTest (Traversal.initData T parent tnode.data) = true →
      ∃ tnode' ts', Traversal.travModeFlat T (fuel + 1) parent tnode ts
          = some (Except.ok (tnode', ts')) ∧
        tnode'.childs = [] ∧
        ts'.rendered = ts.rendered ++
          (if tnode'.data.rendersEmpty then [] else [tnode.data.nodeInfo.nodeId]) ∧
        ts'.metaNodesTraversedTotal = ts.metaNodesTraversedTotal + 1) :=
  ⟨fun E trav s m hm hc hv => Renderer.traverse_leaf E trav s m hm hc hv,
   fun T parent tnode ts fuel hm' hc' hv' =>
     Traversal.travModeFlat_leaf T parent tnode ts fuel hm' hc' hv'⟩

theorem traverse_renders_leaf_witness :
    sampleLeaf.meta = some sampleMetaInfo ∧ sampleLeaf.childs = [] ∧
    Renderer.boxVisible sampleEnv.frustumPlanes sampleMetaInfo.aabbPhys = true ∧
    sampleResolvedRoot.data.meta.isSome = true ∧ sampleResolvedRoot.childs = [] ∧
    sampleTEnv.visibilityTest (Traversal.initData sampleTEnv none sampleResolvedRoot.data)
      = true ∧
    (∃ trav' s', Renderer.traverse sampleEnv sampleLeaf false sampleFrame
        = Except.ok (trav', s', []) ∧
      s'.rendered = sampleFrame.rendered ++ [sampleLeaf.nodeInfo.nodeId] ∧ trav'.childs = [] ∧
      s'.metaNodesTraversedTotal = sampleFrame.metaNodesTraversedTotal + 1) ∧
    (∃ tnode' ts', Traversal.travModeFlat sampleTEnv (0 + 1) none sampleResolvedRoot sampleTFrame
        = some (Except.ok (tnode', ts')) ∧
      tnode'.childs = [] ∧
      ts'.rendered = sampleTFrame.rendered ++
        (if tnode'.data.rendersEmpty then [] else [sampleResolvedRoot.data.nodeInfo.nodeId]) ∧
      ts'.metaNodesTraversedTotal = sampleTFrame.metaNodesTraversedTotal + 1) :=
  have hv : Renderer.boxVisible sampleEnv.frustumPlanes sampleMetaInfo.aabbPhys = true :=
    visibilityTest_of_inner_point sampleEnv.frustumPlanes sampleBox ⟨0, 0, 0⟩
      (by norm_num [Aabb.Contains, sampleBox])
      (fun i => by norm_num [signedDistance, sampleEnv, samplePlanes, dot, vec4to3])
  ⟨rfl, rfl, hv, rfl, rfl, rfl,
   traverse_renders_leaf.1 sampleEnv sampleLeaf sampleFrame sampleMetaInfo rfl rfl hv,
   traverse_renders_leaf.2 sampleTEnv none sampleResolvedRoot sampleTFrame 0 rfl rfl rfl⟩

theorem Traversal.travDetermineDrawsSurface_frame (E : Traversal.Env)
    (trav t' : Traversal.TraverseNode) (s s' : Traversal.Frame) (b : Bool)
    (h : Traversal.travDetermineDrawsSurface E trav s = Except.ok (b, t', s')) :
    s'.rendered = s.rendered := by
  unfold Traversal.travDetermineDrawsSurface at h
  dsimp only at h
  repeat' first
    | (cases h; done)
    | (simp only [Except.ok.injEq, Prod.mk.injEq] at h
       obtain ⟨_, _, hs⟩ := h
       subst hs
       rfl)
    | split at h

theorem Traversal.travDetermineDrawsGeodata_frame (E : Traversal.Env)
    (trav t' : Traversal.TraverseNode) (s s' : Traversal.Frame) (b : Bool)
    (h : Traversal.travDetermineDrawsGeodata E trav s = Except.ok (b, t', s')) :
    s'.rendered = s.rendered := by
  unfold Traversal.travDetermineDrawsGeodata at h
  dsimp only at h
  repeat' first
    | (cases h; done)
    | (simp only [Except.ok.injEq, Prod.mk.injEq] at h
       obtain ⟨_, _, hs⟩ := h
       subst hs
       rfl)
    | split at h

theorem Traversal.ensureDraws_frame (E : Traversal.Env) (parent : Option Traversal.NodeData)
    (trav t' : Traversal.TraverseNode) (s s' : Traversal.Frame)
    (h : Traversal.ensureDraws E parent trav s = Except.ok (t', s')) :
    s'.rendered = s.rendered := by
  unfold Traversal.ensureDraws at h
  split_ifs at h
  · rcases hd : Traversal.travDetermineDraws E parent trav s with e | ⟨b, t1, s1⟩
    · rw [hd] at h
      cases h
    · rw [hd] at h
      simp only [Except.ok.injEq, Prod.mk.injEq] at h
      obtain ⟨_, hs⟩ := h
      subst hs
      unfold Traversal.travDetermineDraws at hd
      dsimp only at hd
      split_ifs at hd
      · have := Traversal.travDetermineDrawsGeodata_frame E _ t1 _ s1 b hd
        exact this
      · have := Traversal.travDetermineDrawsSurface_frame E _ t1 _ s1 b hd
        exact this
  · simp only [Except.ok.injEq, Prod.mk.injEq] at h
    rw [← h.2]

theorem Traversal.travModeHierarchical_loadOnly (E : Traversal.Env) (fuel : Nat)
    (parent : Option Traversal.NodeData) (t : Traversal.TraverseNode) (s : Traversal.Frame) :
    Traversal.travModeHierarchical E (fuel + 1) parent t true s ≠ none ∧
    ∀ t' s', Traversal.travModeHierarchical E (fuel + 1) parent t true s
      = some (Except.ok (t', s')) → s'.rendered = s.rendered := by
  rw [Traversal.travModeHierarchical]
  rcases hinit : Traversal.travInit E parent t s with e | ⟨b, t1, s1⟩
  · exact ⟨by simp, fun t' s' h => by simp at h⟩
  · have hr1 := (Traversal.travInit_frame E parent t t1 s s1 b hinit).1
    cases b with
    | false =>
      refine ⟨by simp, fun t' s' h => ?_⟩
      simp only [Option.some.injEq, Except.ok.injEq, Prod.mk.injEq] at h
      rw [← h.2]; exact hr1
    | true =>
      simp only
      rcases hens : Traversal.ensureDraws E parent t1 (Traversal.touchDraws E t1.data s1)
        with e | ⟨t2, s2⟩
      · exact ⟨by simp, fun t' s' h => by simp at h⟩
      · have hr2 := Traversal.ensureDraws_frame E parent t1 t2 _ s2 hens
        refine ⟨by simp, fun t' s' h => ?_⟩
        simp only [if_true, Option.some.injEq, Except.ok.injEq, Prod.mk.injEq] at h
        rw [← h.2, hr2]
        exact hr1

theorem sample_travModeHierarchical_rendered :
    Traversal.renderedOf
      (Traversal.travModeHierarchical sampleTEnv 2 none sampleParentNode false sampleTFrame)
      = some [⟨0, 0, 0⟩] := by
  decide

/-! ### Surface selection (renderer.cpp) -/

theorem Renderer.qualifiesAt_step (E : Renderer.Env) (nodeId : TileId) (priority : Priority)
    (x : Renderer.SurfaceStackItem) (rest : List Renderer.SurfaceStackItem) (i : Nat)
    (item : Renderer.SurfaceStackItem) :
    Renderer.QualifiesAt E nodeId priority (x :: rest) (i + 1) item
      ↔ Renderer.QualifiesAt E nodeId priority rest i item := by
  simp [Renderer.QualifiesAt]

theorem Renderer.findTopmost_selects (E : Renderer.Env) (nodeId : TileId) (priority : Priority)
    (hts : E.tilesetMapping = none) (l : List Renderer.SurfaceStackItem)
    (a a' : Renderer.MetaSearch)
    (h : Renderer.findTopmost E nodeId priority l a = Except.ok a') :
    (a.topmost.isSome = true → a'.topmost = a.topmost) ∧
    (a.topmost = none →
      (∀ i item, Renderer.QualifiesAt E nodeId priority l i item →
        (∀ j < i, ∀ it, ¬ Renderer.QualifiesAt E nodeId priority l j it) →
        a'.topmost = some item) ∧
      ((∀ i it, ¬ Renderer.QualifiesAt E nodeId priority l i it) → a'.topmost = none)) := by
  induction l generalizing a with
  | nil =>
    simp only [Renderer.findTopmost, Except.ok.injEq] at h
    subst h
    refine ⟨fun _ => rfl, fun hn => ⟨?_, fun _ => hn⟩⟩
    intro i item hq
    simp [Renderer.QualifiesAt] at hq
  | cons x rest ih =>
    have shift : ∀ (a1 : Renderer.MetaSearch),
        Renderer.findTopmost E nodeId priority rest a1 = Except.ok a' → a1.topmost = none →
        (∀ it, ¬ Renderer.QualifiesAt E nodeId priority (x :: rest) 0 it) →
        (∀ i item, Renderer.QualifiesAt E nodeId priority (x :: rest) i item →
          (∀ j < i, ∀ it, ¬ Renderer.QualifiesAt E nodeId priority (x :: rest) j it) →
          a'.topmost = some item) ∧
        ((∀ i it, ¬ Renderer.QualifiesAt E nodeId priority (x :: rest) i it) →
          a'.topmost = none) := by
      intro a1 h1 hn1 h0
      obtain ⟨_, ih2⟩ := ih a1 h1
      obtain ⟨ihA, ihB⟩ := ih2 hn1
      constructor
      · intro i item hq hmin
        cases i with
        | zero => exact absurd hq (h0 item)
        | succ k =>
          refine ihA k item ((Renderer.qualifiesAt_step _ _ _ _ _ _ _).1 hq) ?_
          intro j hj it hqj
          exact hmin (j + 1) (by omega) it ((Renderer.qualifiesAt_step _ _ _ _ _ _ _).2 hqj)
      · intro hall
        exact ihB (fun i it hq =>
          hall (i + 1) it ((Renderer.qualifiesAt_step _ _ _ _ _ _ _).2 hq))
    have notq : ∀ (r : Option (Validity × Option MetaNode)) (log : List MetaRequest),
        Renderer.checkMetaNode E.flag E.meta x.surface nodeId none priority = (r, log) →
        (∀ n, r = some (Validity.Valid, some n) → ¬ (n.geometry = true ∧ n.alien = x.alien)) →
        ∀ it, ¬ Renderer.QualifiesAt E nodeId priority (x :: rest) 0 it := by
      intro r log hr hno it hq
      obtain ⟨n, log', hl, hc, hg, hal⟩ := hq
      simp only [List.getElem?_cons_zero, Option.some.injEq] at hl
      subst hl
      rw [hr] at hc
      simp only [Prod.mk.injEq] at hc
      exact hno n hc.1 ⟨hg, hal⟩
    rw [Renderer.findTopmost] at h
    rcases hcm : Renderer.checkMetaNode E.flag E.meta x.surface nodeId none priority
      with ⟨r, log⟩
    rw [hcm] at h
    rcases r with _ | ⟨v, optn⟩
    · simp at h
    · cases v with
      | Indeterminate =>
        simp only at h
        exact ⟨(ih _ h).1, fun hn => shift _ h hn
          (notq _ _ hcm (fun n hr => by simp at hr))⟩
      | Invalid =>
        simp only at h
        exact ⟨(ih _ h).1, fun hn => shift _ h hn
          (notq _ _ hcm (fun n hr => by simp at hr))⟩
      | Valid =>
        cases optn with
        | none => simp at h
        | some n =>
          simp only at h
          by_cases hc : (a.topmost.isSome || n.alien != x.alien) = true
          · rw [if_pos hc] at h
            refine ⟨(ih _ h).1, fun hn => shift _ h hn (notq _ _ hcm ?_)⟩
            intro n' hr hq
            simp only [Option.some.injEq, Prod.mk.injEq, true_and] at hr
            subst hr
            simp [hn, hq.2] at hc
          · rw [if_neg hc] at h
            simp only [Bool.or_eq_true, not_or, Bool.not_eq_true] at hc
            obtain ⟨hnone, halien⟩ := hc
            have hnone' : a.topmost = none := by
              cases ht : a.topmost with
              | none => rfl
              | some v => simp [ht] at hnone
            have halien' : n.alien = x.alien := by simpa using halien
            by_cases hgeo : n.geometry = true
            · rw [if_pos hgeo, hts] at h
              simp only at h
              have htop := (ih _ h).1 rfl
              simp only at htop
              have h0 : Renderer.QualifiesAt E nodeId priority (x :: rest) 0 x :=
                ⟨n, log, by simp, hcm, hgeo, halien'⟩
              refine ⟨fun hs => by simp [hnone'] at hs, fun _ => ⟨?_, ?_⟩⟩
              · intro i item hq hmin
                cases i with
                | zero =>
                  obtain ⟨_, _, hl, _⟩ := hq
                  simp only [List.getElem?_cons_zero, Option.some.injEq] at hl
                  rw [htop, hl]
                | succ k => exact absurd h0 (hmin 0 (by omega) x)
              · intro hall
                exact absurd h0 (hall 0 x)
            · rw [if_neg hgeo] at h
              refine ⟨fun hs => by simp [hnone'] at hs,
                fun _ => shift _ h hnone' (notq _ _ hcm ?_)⟩
              intro n' hr hq
              simp only [Option.some.injEq, Prod.mk.injEq, true_and] at hr
              subst hr
              exact hgeo hq.1

theorem Renderer.travDetermineMeta_resolved (E : Renderer.Env) (trav trav' : Renderer.TraverseNode)
    (s s' : Renderer.Frame)
    (h : Renderer.travDetermineMeta E trav s = Except.ok (true, trav', s')) :
    ∃ a node m',
      Renderer.findTopmost E trav.nodeInfo.nodeId trav.priority E.surfaceStack
        ⟨none, none, fun _ => false, true, []⟩ = Except.ok a ∧
      a.determined = true ∧ a.node = some node ∧ trav'.meta = some m' ∧ m'.node = node ∧
      m'.surface = a.topmost := by
  unfold Renderer.travDetermineMeta at h
  dsimp only at h
  split at h
  · cases h
  split at h
  · cases h
  split at h
  · cases h
  split at h
  · simp at h
  split at h
  · cases h
  rename_i a hft
  split at h
  · simp at h
  rename_i hdet
  split at h
  · cases h
  rename_i node hnode
  simp only [Except.ok.injEq, Prod.mk.injEq, true_and] at h
  obtain ⟨htrav, _⟩ := h
  have hmeta : ∃ m', trav'.meta = some m' ∧ m'.node = node ∧ m'.surface = a.topmost := by
    rw [← htrav]
    refine ⟨_, rfl, ?_, ?_⟩
    · cases a.topmost <;> split_ifs <;> rfl
    · cases a.topmost <;> split_ifs <;> rfl
  obtain ⟨m', hm1, hm2, hm3⟩ := hmeta
  exact ⟨a, node, m', hft, by simpa using hdet, hnode, hm1, hm2, hm3⟩

theorem Renderer.checkMetaNode_valid (F : MetaFlag) (E : Renderer.MetaEnv)
    (surface : SurfaceInfo) (priority : Priority) (t : TileId) (node n : Option MetaNode)
    (log : List MetaRequest)
    (h : Renderer.checkMetaNode F E surface t node priority
      = (some (Validity.Valid, n), log)) :
    getResourceValidity (Renderer.metaTileOf E surface t).resource = Validity.Valid ∧
    n = (Renderer.metaTileOf E surface t).get t := by
  obtain ⟨_, _, _, _, hvalid⟩ := checkMetaNodeAt_log F E surface priority t.lod t.x t.y node
  have := hvalid n (by
    have h' : (Renderer.checkMetaNode F E surface t node priority).1
        = some (Validity.Valid, n) := by rw [h]
    exact h')
  exact this.2

theorem Renderer.eq_of_outcome (r : Except Renderer.Failure
    (Bool × Renderer.TraverseNode × Renderer.Frame)) (t0 : Renderer.TraverseNode)
    (s0 : Renderer.Frame) (h : Renderer.succeeded r = true) :
    r = Except.ok (true, (Renderer.outcome r t0 s0).1, (Renderer.outcome r t0 s0).2) := by
  rcases r with e | ⟨b, t, s⟩
  · simp [Renderer.succeeded] at h
  · simp only [Renderer.succeeded] at h
    subst h
    rfl

theorem Traversal.findMetaTile_iff (E : Traversal.Env) (parent : Option Traversal.NodeData)
    (d : Traversal.NodeData) (i : Nat) (surface : SurfaceInfo) (m : Option MetaTile) (det : Bool)
    (req : List MetaRequest)
    (h : Traversal.findMetaTile E parent d i surface = Except.ok (m, det, req)) (mt : MetaTile) :
    m = some mt ↔
      (Traversal.Reaches E parent d.nodeInfo.nodeId i ∧
        getResourceValidity (E.getMetaTile
          (surface.urlMeta (roundId E.metaBinaryOrder d.nodeInfo.nodeId))).resource
            = Validity.Valid ∧
        mt = E.getMetaTile (surface.urlMeta (roundId E.metaBinaryOrder d.nodeInfo.nodeId))) := by
  have hfetch : ∀ (m : Option MetaTile) (det : Bool) (req : List MetaRequest),
      (match getResourceValidity (E.getMetaTile
          (surface.urlMeta (roundId E.metaBinaryOrder d.nodeInfo.nodeId))).resource with
        | Validity.Indeterminate =>
          (Except.ok (none, false, [⟨surface.urlMeta (roundId E.metaBinaryOrder
            d.nodeInfo.nodeId), d.priority * 2⟩]) :
              Except Traversal.Failure (Option MetaTile × Bool × List MetaRequest))
        | Validity.Invalid => Except.ok (none, true, [⟨surface.urlMeta
            (roundId E.metaBinaryOrder d.nodeInfo.nodeId), d.priority * 2⟩])
        | Validity.Valid => Except.ok (some (E.getMetaTile (surface.urlMeta
            (roundId E.metaBinaryOrder d.nodeInfo.nodeId))), true, [⟨surface.urlMeta
            (roundId E.metaBinaryOrder d.nodeInfo.nodeId), d.priority * 2⟩]))
        = Except.ok (m, det, req) →
      (m = some mt ↔
        (getResourceValidity (E.getMetaTile
          (surface.urlMeta (roundId E.metaBinaryOrder d.nodeInfo.nodeId))).resource
            = Validity.Valid ∧
        mt = E.getMetaTile
          (surface.urlMeta (roundId E.metaBinaryOrder d.nodeInfo.nodeId)))) := by
    intro m det req hm
    split at hm
    · rename_i hv
      simp only [Except.ok.injEq, Prod.mk.injEq] at hm
      rw [← hm.1, hv]
      simp
    · rename_i hv
      simp only [Except.ok.injEq, Prod.mk.injEq] at hm
      rw [← hm.1, hv]
      simp
    · rename_i hv
      simp only [Except.ok.injEq, Prod.mk.injEq] at hm
      rw [← hm.1, hv]
      simp only [Option.some.injEq, true_and]
      exact eq_comm
  unfold Traversal.findMetaTile at h
  dsimp only at h
  cases parent with
  | none =>
    simp only at h
    rw [hfetch m det req h]
    simp [Traversal.Reaches]
  | some pd =>
    simp only at h
    rcases hp : pd.metaTiles[i]? with _ | (_ | p)
    · rw [hp] at h
      cases h
    · rw [hp] at h
      simp only [Except.ok.injEq, Prod.mk.injEq] at h
      rw [← h.1]
      simp [Traversal.Reaches, hp]
    · rw [hp] at h
      simp only at h
      rcases hg : p.get (Vts.parent d.nodeInfo.nodeId) with _ | node
      · rw [hg] at h
        cases h
      · rw [hg] at h
        simp only at h
        by_cases hf : node.flags &&& (E.flag.ulChild <<<
            ((d.nodeInfo.nodeId.x % 2) + (d.nodeInfo.nodeId.y % 2) * 2)) = 0
        · rw [if_pos hf] at h
          simp only [Except.ok.injEq, Prod.mk.injEq] at h
          rw [← h.1]
          constructor
          · intro hh
            cases hh
          · rintro ⟨⟨p', node', h1, h2, h3⟩, _⟩
            rw [hp] at h1
            simp only [Option.some.injEq] at h1
            subst h1
            rw [hg] at h2
            simp only [Option.some.injEq] at h2
            subst h2
            exact absurd hf h3
        · rw [if_neg hf] at h
          rw [hfetch m det req h]
          constructor
          · intro hh
            exact ⟨⟨p, node, hp, hg, hf⟩, hh⟩
          · intro hh
            exact hh.2

theorem Traversal.findMetaTiles_iff (E : Traversal.Env) (parent : Option Traversal.NodeData)
    (d : Traversal.NodeData) (surfaces : List SurfaceInfo) (i : Nat)
    (mts : List (Option MetaTile)) (det : Bool) (req : List MetaRequest)
    (h : Traversal.findMetaTiles E parent d i surfaces = Except.ok (mts, det, req)) :
    ∀ (k : Nat) (surface : SurfaceInfo) (mt : MetaTile), surfaces[k]? = some surface →
      (mts[k]? = some (some mt) ↔
        (Traversal.Reaches E parent d.nodeInfo.nodeId (i + k) ∧
          getResourceValidity (E.getMetaTile
            (surface.urlMeta (roundId E.metaBinaryOrder d.nodeInfo.nodeId))).resource
              = Validity.Valid ∧
          mt = E.getMetaTile
            (surface.urlMeta (roundId E.metaBinaryOrder d.nodeInfo.nodeId)))) := by
  induction surfaces generalizing i mts det req with
  | nil => intro k surface mt hk; simp at hk
  | cons sf rest ih =>
    unfold Traversal.findMetaTiles at h
    rcases h1 : Traversal.findMetaTile E parent d i sf with e | ⟨m, det1, req1⟩
    · rw [h1] at h
      cases h
    · rw [h1] at h
      simp only at h
      rcases h2 : Traversal.findMetaTiles E parent d (i + 1) rest with e | ⟨ms, det2, req2⟩
      · rw [h2] at h
        cases h
      · rw [h2] at h
        simp only [Except.ok.injEq, Prod.mk.injEq] at h
        obtain ⟨hm, _, _⟩ := h
        subst hm
        intro k surface mt hk
        cases k with
        | zero =>
          simp only [List.getElem?_cons_zero, Option.some.injEq] at hk
          subst hk
          simp only [List.getElem?_cons_zero, Option.some.injEq, Nat.add_zero]
          exact Traversal.findMetaTile_iff E parent d i sf m det1 req1 h1 mt
        | succ k =>
          simp only [List.getElem?_cons_succ] at hk ⊢
          have := ih (i + 1) ms det2 req2 h2 k surface mt hk
          rw [show i + (k + 1) = i + 1 + k by omega]
          exact this

theorem Traversal.qualifies_eligible (E : Traversal.Env) (parent : Option Traversal.NodeData)
    (d : Traversal.NodeData) (mts : List (Option MetaTile)) (det : Bool)
    (req : List MetaRequest)
    (h : Traversal.findMetaTiles E parent d 0 E.layer.surfaces = Except.ok (mts, det, req))
    (i : Nat) (surface : SurfaceInfo) :
    Traversal.Qualifies d.nodeInfo.nodeId mts E.layer.surfaces i surface ↔
      Traversal.Eligible E parent d.nodeInfo.nodeId i surface := by
  have key := Traversal.findMetaTiles_iff E parent d E.layer.surfaces 0 mts det req h i surface
  simp only [Nat.zero_add] at key
  constructor
  · rintro ⟨mt, n, hmt, hsf, hget, hg, hal⟩
    obtain ⟨hr, hv, hmt'⟩ := (key mt hsf).1 hmt
    subst hmt'
    exact ⟨hsf, hr, hv, n, hget, hg, hal⟩
  · rintro ⟨hsf, hr, hv, n, hget, hg, hal⟩
    exact ⟨_, n, (key _ hsf).2 ⟨hr, hv, rfl⟩, hsf, hget, hg, hal⟩

theorem Renderer.checkMetaNodeAt_reached (F : MetaFlag) (E : Renderer.MetaEnv)
    (surface : SurfaceInfo) (priority : Priority) (lod x y : Nat) (node : Option MetaNode)
    (hr : ∀ j < lod, Renderer.OpensChild F E surface (ancestor ⟨lod, x, y⟩ j)
      (ancestor ⟨lod, x, y⟩ (j + 1)))
    (hv : getResourceValidity (Renderer.metaTileOf E surface ⟨lod, x, y⟩).resource
      = Validity.Valid) :
    ∃ log, Renderer.checkMetaNodeAt F E surface priority lod x y node
      = (some (Validity.Valid, (Renderer.metaTileOf E surface ⟨lod, x, y⟩).get ⟨lod, x, y⟩),
          log) := by
  induction lod generalizing x y node with
  | zero =>
    refine ⟨[⟨surface.urlMeta (roundId E.metaBinaryOrder ⟨0, x, y⟩), priority⟩], ?_⟩
    simp only [Renderer.metaTileOf] at hv
    simp only [Renderer.checkMetaNodeAt, Renderer.returnValidMetaNode, hv, if_true,
      Renderer.metaTileOf]
  | succ lod ih =>
    have hpar : ∀ j ≤ lod, ancestor ⟨lod, x >>> 1, y >>> 1⟩ j = ancestor ⟨lod + 1, x, y⟩ j :=
      fun j hj => ancestor_parent lod x y j hj
    have hself : ancestor ⟨lod + 1, x, y⟩ lod = ⟨lod, x >>> 1, y >>> 1⟩ := by
      rw [← hpar lod (le_refl _)]
      exact ancestor_self ⟨lod, x >>> 1, y >>> 1⟩
    have htop : ancestor ⟨lod + 1, x, y⟩ (lod + 1) = ⟨lod + 1, x, y⟩ :=
      ancestor_self ⟨lod + 1, x, y⟩
    obtain ⟨hvp, pn, hpn, hflag⟩ := hr lod (Nat.lt_succ_self lod)
    rw [hself] at hvp hpn
    rw [htop] at hflag
    simp only at hflag
    obtain ⟨log, hrec⟩ := ih (x >>> 1) (y >>> 1) none
      (fun j hj => by
        rw [hpar j (Nat.le_of_lt hj), hpar (j + 1) hj]
        exact hr j (Nat.lt_succ_of_lt hj))
      hvp
    rw [hpn] at hrec
    refine ⟨log ++ [⟨surface.urlMeta (roundId E.metaBinaryOrder ⟨lod + 1, x, y⟩), priority⟩],
      ?_⟩
    rw [Renderer.checkMetaNodeAt]
    simp only [parent, Nat.add_sub_cancel, hrec]
    rw [if_pos hflag]
    simp only [Renderer.metaTileOf] at hv
    simp only [Renderer.returnValidMetaNode, hv, if_true, Renderer.metaTileOf]

theorem Renderer.qualifiesAt_eligible (R : Renderer.Env) (nodeId : TileId)
    (priority : Priority) (i : Nat) (item : Renderer.SurfaceStackItem) :
    Renderer.QualifiesAt R nodeId priority R.surfaceStack i item ↔
      Renderer.Eligible R nodeId i item := by
  constructor
  · rintro ⟨n, log, hl, hc, hg, hal⟩
    obtain ⟨k, _, _, hopen, hvalid⟩ := checkMetaNodeAt_log R.flag R.meta item.surface priority
      nodeId.lod nodeId.x nodeId.y none
    have hc' : (Renderer.checkMetaNodeAt R.flag R.meta item.surface priority nodeId.lod
        nodeId.x nodeId.y none).1 = some (Validity.Valid, some n) := by
      have : Renderer.checkMetaNodeAt R.flag R.meta item.surface priority nodeId.lod
          nodeId.x nodeId.y none = (some (Validity.Valid, some n), log) := hc
      rw [this]
    obtain ⟨hk, hv, hn⟩ := hvalid (some n) hc'
    subst hk
    exact ⟨hl, hopen, hv, n, hn.symm, hg, hal⟩
  · rintro ⟨hl, hr, hv, n, hget, hg, hal⟩
    obtain ⟨log, hc⟩ := Renderer.checkMetaNodeAt_reached R.flag R.meta item.surface priority
      nodeId.lod nodeId.x nodeId.y none hr hv
    have hget' : (Renderer.metaTileOf R.meta item.surface ⟨nodeId.lod, nodeId.x, nodeId.y⟩).get
        ⟨nodeId.lod, nodeId.x, nodeId.y⟩ = some n := hget
    rw [hget'] at hc
    exact ⟨n, log, hl, hc, hg, hal⟩

/-- C1, as the code has it: without tileset mapping, after a successful `travDetermineMeta`
the node's surface is `surfaces[i]` for the smallest stack index `i` that is eligible: the
tile is reached in surface `i` from above (rendererTraversal.cpp: the node has no parent, or
the parent holds a meta-tile at index `i` whose meta-node at the parent tile has the child
flag towards the node; renderer.cpp: the meta-tile of every ancestor tile in surface `i` is
`Valid` and its meta-node has the child flag towards the next tile of the path), the
meta-tile of surface `i` is `Valid`, its meta-node at the tile has geometry and `alien()`
equals `surfaces[i].alien`; with no eligible index the surface is unset (what it was). -/
theorem travDetermineMeta_surface :
    (∀ (E : Traversal.Env) (parent : Option Traversal.NodeData)
        (trav trav' : Traversal.TraverseNode) (s s' : Traversal.Frame),
      E.layer.tilesetStack = none → E.layer.freeLayerMonolithicGeodata = false →
      Traversal.travDetermineMeta E parent trav s = Except.ok (true, trav', s') →
      (∀ (i : Nat) (surface : SurfaceInfo),
        Traversal.Eligible E parent trav.data.nodeInfo.nodeId i surface →
        (∀ j < i, ∀ sf, ¬ Traversal.Eligible E parent trav.data.nodeInfo.nodeId j sf) →
        trav'.data.surface = some surface) ∧
      ((∀ i sf, ¬ Traversal.Eligible E parent trav.data.nodeInfo.nodeId i sf) →
        trav'.data.surface = trav.data.surface)) ∧
    (∀ (R : Renderer.Env) (rtrav rtrav' : Renderer.TraverseNode) (rs rs' : Renderer.Frame),
      R.tilesetMapping = none →
      Renderer.travDetermineMeta R rtrav rs = Except.ok (true, rtrav', rs') →
      ∃ m', rtrav'.meta = some m' ∧
        (∀ (i : Nat) (item : Renderer.SurfaceStackItem),
          Renderer.Eligible R rtrav.nodeInfo.nodeId i item →
          (∀ j < i, ∀ it, ¬ Renderer.Eligible R rtrav.nodeInfo.nodeId j it) →
          m'.surface = some item) ∧
        ((∀ i it, ¬ Renderer.Eligible R rtrav.nodeInfo.nodeId i it) → m'.surface = none)) := by
  constructor
  · intro E parent trav trav' s s' hts hmono h
    obtain ⟨metaTiles, req, a, node, d1, hfm, hft, _, himpl, hdata, _, _, _⟩ :=
      Traversal.travDetermineMeta_true E parent trav trav' s s' hmono h
    obtain ⟨hsurf1, _, _⟩ := Traversal.travDetermineMetaImpl_keeps E _ d1 himpl
    have hsurf : trav'.data.surface = match a.topmost with
        | some tm => some tm
        | none => trav.data.surface := by
      rw [hdata, (Traversal.updateNodePriority_keeps E parent _).1]
      cases a.topmost <;> simp [hsurf1]
    obtain ⟨_, hsel⟩ := Traversal.findTopmost_spec E trav.data.nodeInfo.nodeId hts _ _ a hft
    obtain ⟨hselA, hselB⟩ := hsel rfl
    have heq : ∀ i sf, Traversal.QualifiesAt trav.data.nodeInfo.nodeId
        (metaTiles.zip E.layer.surfaces) i sf ↔
        Traversal.Eligible E parent trav.data.nodeInfo.nodeId i sf := fun i sf =>
      (Traversal.qualifies_iff _ _ _ _ _).symm.trans
        (Traversal.qualifies_eligible E parent trav.data metaTiles true req hfm i sf)
    refine ⟨?_, ?_⟩
    · intro i surface hq hmin
      have := hselA i surface ((heq i surface).2 hq)
        (fun j hj sf hqj => hmin j hj sf ((heq j sf).1 hqj))
      rw [hsurf, this]
    · intro hall
      have := hselB (fun i sf hq => hall i sf ((heq i sf).1 hq))
      rw [hsurf, this]
  · intro R rtrav rtrav' rs rs' hrts hr
    obtain ⟨a, node, m', hft, _, _, hmeta, _, hsurf⟩ :=
      Renderer.travDetermineMeta_resolved R rtrav rtrav' rs rs' hr
    obtain ⟨_, hsel⟩ := Renderer.findTopmost_selects R rtrav.nodeInfo.nodeId rtrav.priority hrts
      _ _ a hft
    obtain ⟨hselA, hselB⟩ := hsel rfl
    have heq := Renderer.qualifiesAt_eligible R rtrav.nodeInfo.nodeId rtrav.priority
    refine ⟨m', hmeta, ?_, ?_⟩
    · intro i item hq hmin
      rw [hsurf]
      exact hselA i item ((heq i item).2 hq) (fun j hj it hqj => hmin j hj it ((heq j it).1 hqj))
    · intro hall
      rw [hsurf]
      exact hselB (fun i it hq => hall i it ((heq i it).1 hq))

/-- The theorem `travDetermineMeta_surface` at the child `(1, 0, 0)` of the root resolved over
the stack "top", "low": index 1 is eligible, index 0 is not (the parent's meta-node in "top"
has no child flag), and the child's surface is "low". -/
theorem travDetermineMeta_surface_witness :
    sampleTEnvTwo.layer.tilesetStack = none ∧
    sampleTEnvTwo.layer.freeLayerMonolithicGeodata = false ∧
    Traversal.travDetermineMeta sampleTEnvTwo (some sampleMetaOutTwo.1.data) sampleChildTwo
      sampleTFrame = Except.ok (true, sampleChildOutTwo.1, sampleChildOutTwo.2) ∧
    Traversal.Eligible sampleTEnvTwo (some sampleMetaOutTwo.1.data)
      sampleChildTwo.data.nodeInfo.nodeId 1 sampleSurfaceLow ∧
    (∀ j < 1, ∀ sf, ¬ Traversal.Eligible sampleTEnvTwo (some sampleMetaOutTwo.1.data)
      sampleChildTwo.data.nodeInfo.nodeId j sf) ∧
    sampleChildOutTwo.1.data.surface = some sampleSurfaceLow :=
  have h1 : Traversal.travDetermineMeta sampleTEnvTwo (some sampleMetaOutTwo.1.data)
      sampleChildTwo sampleTFrame = Except.ok (true, sampleChildOutTwo.1, sampleChildOutTwo.2) :=
    Traversal.eq_of_succeeded _ sampleChildTwo sampleTFrame (by decide)
  have hel : Traversal.Eligible sampleTEnvTwo (some sampleMetaOutTwo.1.data)
      sampleChildTwo.data.nodeInfo.nodeId 1 sampleSurfaceLow :=
    ⟨rfl, ⟨sampleStoreTwo "low", sampleMetaNode, rfl, rfl, by decide⟩, by decide,
      sampleMetaNode, rfl, rfl, rfl⟩
  have hmin : ∀ j < 1, ∀ sf, ¬ Traversal.Eligible sampleTEnvTwo (some sampleMetaOutTwo.1.data)
      sampleChildTwo.data.nodeInfo.nodeId j sf := by
    intro j hj sf hE
    obtain rfl : j = 0 := by omega
    obtain ⟨_, ⟨p, node, h1, h2, h3⟩, _⟩ := hE
    have hp : sampleMetaOutTwo.1.data.metaTiles[0]? = some (some (sampleStoreTwo "top")) := rfl
    rw [hp] at h1
    simp only [Option.some.injEq] at h1
    subst h1
    have h2' : some sampleChildlessNode = some node := h2
    simp only [Option.some.injEq] at h2'
    subst h2'
    exact h3 (by decide)
  ⟨rfl, rfl, h1, hel, hmin,
    (travDetermineMeta_surface.1 sampleTEnvTwo (some sampleMetaOutTwo.1.data) sampleChildTwo
      sampleChildOutTwo.1 sampleTFrame sampleChildOutTwo.2 rfl rfl h1).1 1 sampleSurfaceLow hel
      hmin⟩

/-- C1 as stated fails below the root.  Over the stack "top", "low" the meta-node of the root
in "top" has no child flag, that in "low" has all four.  At the child `(1, 0, 0)` the
meta-tile of "top" is `Valid`, its meta-node at the tile has geometry and `alien()` equals the
`alien` mark of "top", so index 0 satisfies the stated condition; yet `travDetermineMeta`
succeeds with the surface "low", in rendererTraversal.cpp and in renderer.cpp: "top" is not
looked up for a tile its parent's meta-node does not open. -/
theorem travDetermineMeta_surface_below_closed_parent :
    sampleChildTwo.data.nodeInfo.nodeId = ⟨1, 0, 0⟩ ∧
    sampleOldChildTwo.nodeInfo.nodeId = ⟨1, 0, 0⟩ ∧
    sampleTEnvTwo.layer.tilesetStack.isNone = true ∧
    sampleEnvTwo.tilesetMapping.isNone = true ∧
    sampleTEnvTwo.layer.surfaces.map (fun sf => sf.name) = [["top"], ["low"]] ∧
    sampleEnvTwo.surfaceStack.map (fun it => it.surface.name) = [["top"], ["low"]] ∧
    getResourceValidity (sampleTEnvTwo.getMetaTile
      (sampleSurfaceTop.urlMeta (roundId sampleTEnvTwo.metaBinaryOrder ⟨1, 0, 0⟩))).resource
        = Validity.Valid ∧
    ((sampleTEnvTwo.getMetaTile
      (sampleSurfaceTop.urlMeta (roundId sampleTEnvTwo.metaBinaryOrder ⟨1, 0, 0⟩))).get
        ⟨1, 0, 0⟩).map (fun n => (n.geometry, n.alien)) = some (true, sampleSurfaceTop.alien) ∧
    getResourceValidity (Renderer.metaTileOf sampleEnvTwo.meta sampleSurfaceTop
      ⟨1, 0, 0⟩).resource = Validity.Valid ∧
    ((Renderer.metaTileOf sampleEnvTwo.meta sampleSurfaceTop ⟨1, 0, 0⟩).get ⟨1, 0, 0⟩).map
      (fun n => (n.geometry, n.alien)) = some (true, sampleSurfaceTop.alien) ∧
    ((sampleStoreTwo "top").get ⟨0, 0, 0⟩).map
      (fun n => n.flags &&& (sampleFlag.ulChild <<< 0)) = some 0 ∧
    Traversal.succeeded (Traversal.travDetermineMeta sampleTEnvTwo
      (some sampleMetaOutTwo.1.data) sampleChildTwo sampleTFrame) = true ∧
    sampleChildOutTwo.1.data.surface.map (fun sf => sf.name) = some ["low"] ∧
    Renderer.succeeded (Renderer.travDetermineMeta sampleEnvTwo sampleOldChildTwo sampleFrame)
      = true ∧
    (sampleOldChildOutTwo.1.meta.bind (fun m => m.surface)).map (fun it => it.surface.name)
      = some ["low"] := by
  decide

theorem sample_travDetermineMeta_old_surface :
    ((sampleOldMetaOut.1.meta.bind (fun m => m.surface)).map (fun it => it.surface.name))
      = some ["s"] ∧
    sampleOldMetaOut.1.childs.length = 4 := by
  constructor <;> decide

/-! ### Rounded tile ids and resource states -/

theorem shift_round (k x : Nat) (hx : x < 2 ^ 32) :
    ((x >>> k) <<< k) % 2 ^ 32 = x - x % 2 ^ k := by
  have h1 : (x >>> k) <<< k = x - x % 2 ^ k := by
    rw [Nat.shiftLeft_eq, Nat.shiftRight_eq_div_pow]
    have := Nat.div_add_mod x (2 ^ k)
    have h2 : x / 2 ^ k * 2 ^ k = 2 ^ k * (x / 2 ^ k) := Nat.mul_comm _ _
    omega
  rw [h1]
  exact Nat.mod_eq_of_lt (lt_of_le_of_lt (Nat.sub_le _ _) hx)

theorem roundId_eq (k : Nat) (t : TileId) (hx : t.x < 2 ^ 32) (hy : t.y < 2 ^ 32) :
    roundId k t = ⟨t.lod, t.x - t.x % 2 ^ k, t.y - t.y % 2 ^ k⟩ := by
  unfold roundId
  rw [shift_round k t.x hx, shift_round k t.y hy]

theorem sub_mod_eq_mul_div (k x : Nat) : x - x % 2 ^ k = 2 ^ k * (x / 2 ^ k) := by
  have := Nat.div_add_mod x (2 ^ k)
  omega

/-- C16: `roundId` is idempotent on tile ids with 32 bit coordinates, for every
`metaBinaryOrder` below 32. -/
theorem roundId_idempotent (k : Nat) (t : TileId) (_hk : k < 32) (hx : t.x < 2 ^ 32)
    (hy : t.y < 2 ^ 32) : roundId k (roundId k t) = roundId k t := by
  have h := roundId_eq k t hx hy
  have hx' : (roundId k t).x < 2 ^ 32 := by
    rw [h]; exact lt_of_le_of_lt (Nat.sub_le _ _) hx
  have hy' : (roundId k t).y < 2 ^ 32 := by
    rw [h]; exact lt_of_le_of_lt (Nat.sub_le _ _) hy
  rw [roundId_eq k (roundId k t) hx' hy', h]
  simp only [sub_mod_eq_mul_div, Nat.mul_mod_right, Nat.sub_zero]

theorem roundId_idempotent_witness :
    roundId 5 (roundId 5 ⟨7, 1000, 77⟩) = roundId 5 ⟨7, 1000, 77⟩ ∧
    roundId 5 ⟨7, 1000, 77⟩ = ⟨7, 992, 64⟩ :=
  ⟨roundId_idempotent 5 ⟨7, 1000, 77⟩ (by decide) (by decide) (by decide), by decide⟩

/-- C17: `roundId` clears the low `k` bits of both coordinates and keeps the lod: the result is
`(lod, x - x mod 2^k, y - y mod 2^k)`, both coordinates are multiples of `2^k` at most `2^k - 1`
below the given ones, and two tiles have the same rounded id exactly when they have the same
lod and lie in the same `2^k x 2^k` block. -/
theorem roundId_block (k : Nat) (t : TileId) (_hk : k < 32) (hx : t.x < 2 ^ 32)
    (hy : t.y < 2 ^ 32) :
    roundId k t = ⟨t.lod, t.x - t.x % 2 ^ k, t.y - t.y % 2 ^ k⟩ ∧
    (roundId k t).lod = t.lod ∧
    2 ^ k ∣ (roundId k t).x ∧ 2 ^ k ∣ (roundId k t).y ∧
    (roundId k t).x ≤ t.x ∧ t.x < (roundId k t).x + 2 ^ k ∧
    (roundId k t).y ≤ t.y ∧ t.y < (roundId k t).y + 2 ^ k ∧
    (∀ u : TileId, u.x < 2 ^ 32 → u.y < 2 ^ 32 →
      (roundId k t = roundId k u ↔
        t.lod = u.lod ∧ t.x / 2 ^ k = u.x / 2 ^ k ∧ t.y / 2 ^ k = u.y / 2 ^ k)) := by
  have h := roundId_eq k t hx hy
  have hpos : 0 < 2 ^ k := Nat.two_pow_pos k
  have mx := Nat.mod_lt t.x hpos
  have my := Nat.mod_lt t.y hpos
  have lx := Nat.mod_le t.x (2 ^ k)
  have ly := Nat.mod_le t.y (2 ^ k)
  refine ⟨h, by rw [h], ?_, ?_, ?_, ?_, ?_, ?_, ?_⟩
  · rw [h]; exact ⟨_, sub_mod_eq_mul_div k t.x⟩
  · rw [h]; exact ⟨_, sub_mod_eq_mul_div k t.y⟩
  · rw [h]; exact Nat.sub_le _ _
  · rw [h]; show t.x < t.x - t.x % 2 ^ k + 2 ^ k; omega
  · rw [h]; exact Nat.sub_le _ _
  · rw [h]; show t.y < t.y - t.y % 2 ^ k + 2 ^ k; omega
  · intro u hux huy
    rw [h, roundId_eq k u hux huy]
    simp only [TileId.mk.injEq, sub_mod_eq_mul_div]
    constructor
    · rintro ⟨h1, h2, h3⟩
      exact ⟨h1, Nat.eq_of_mul_eq_mul_left hpos h2, Nat.eq_of_mul_eq_mul_left hpos h3⟩
    · rintro ⟨h1, h2, h3⟩
      exact ⟨h1, by rw [h2], by rw [h3]⟩

theorem roundId_block_witness :
    roundId 5 ⟨7, 1000, 77⟩ = ⟨7, 1000 - 1000 % 2 ^ 5, 77 - 77 % 2 ^ 5⟩ ∧
    roundId 5 ⟨7, 1000, 77⟩ = roundId 5 ⟨7, 1023, 95⟩ ∧
    roundId 5 ⟨7, 1000, 77⟩ ≠ roundId 5 ⟨7, 1024, 77⟩ :=
  ⟨(roundId_block 5 ⟨7, 1000, 77⟩ (by decide) (by decide) (by decide)).1,
   ((roundId_block 5 ⟨7, 1000, 77⟩ (by decide) (by decide) (by decide)).2.2.2.2.2.2.2.2
      ⟨7, 1023, 95⟩ (by decide) (by decide)).2 (by decide),
   by decide⟩

/-- C20: `testAndThrow` returns true exactly for `ready`, false exactly for `initializing`,
`downloading`, `downloaded`, `finalizing` and `errorRetry`, and throws `MapConfigException`
(with the message given) exactly for the remaining state `errorFatal`; these are the cases
`Valid`, `Indeterminate` and `Invalid` of the validity of a resource in that state. -/
theorem testAndThrow_cases (state : ResourceState) (message : String) :
    (testAndThrow state message = Except.ok true ↔ state = ResourceState.ready) ∧
    (testAndThrow state message = Except.ok false ↔
      state = ResourceState.initializing ∨ state = ResourceState.downloading ∨
      state = ResourceState.downloaded ∨ state = ResourceState.finalizing ∨
      state = ResourceState.errorRetry) ∧
    (testAndThrow state message = Except.error ⟨message⟩ ↔ state = ResourceState.errorFatal) ∧
    ((∃ e, testAndThrow state message = Except.error e) ↔ state = ResourceState.errorFatal) ∧
    (state ≠ ResourceState.ready → testAndThrow state message ≠ Except.ok true) ∧
    (∀ name : String,
      (testAndThrow state message = Except.ok true ↔
        getResourceValidity ⟨name, state⟩ = Validity.Valid) ∧
      (testAndThrow state message = Except.ok false ↔
        getResourceValidity ⟨name, state⟩ = Validity.Indeterminate) ∧
      ((∃ e, testAndThrow state message = Except.error e) ↔
        getResourceValidity ⟨name, state⟩ = Validity.Invalid)) := by
  cases state <;> simp [testAndThrow, getResourceValidity]

/-! ### Fixed mode -/

theorem Traversal.travDetermineDrawsSurface_shape (E : Traversal.Env)
    (trav t' : Traversal.TraverseNode) (s s' : Traversal.Frame) (b : Bool)
    (h : Traversal.travDetermineDrawsSurface E trav s = Except.ok (b, t', s')) :
    t'.childs = trav.childs ∧ t'.data.aabbPhys = trav.data.aabbPhys ∧
    t'.data.nodeInfo = trav.data.nodeInfo ∧ t'.data.meta = trav.data.meta ∧
    t'.data.priority = trav.data.priority ∧ t'.data.lastAccessTime = trav.data.lastAccessTime := by
  unfold Traversal.travDetermineDrawsSurface at h
  dsimp only at h
  repeat' first
    | (cases h; done)
    | (simp only [Except.ok.injEq, Prod.mk.injEq] at h
       obtain ⟨_, ht, _⟩ := h
       subst ht
       first
         | exact ⟨rfl, rfl, rfl, rfl, rfl, rfl⟩
         | (simp only [Traversal.TraverseNode.setData, Traversal.TraverseNode.data,
              Traversal.TraverseNode.childs]
            split_ifs
            all_goals exact ⟨rfl, rfl, rfl, rfl, rfl, rfl⟩))
    | split at h

theorem Traversal.travDetermineDrawsGeodata_shape (E : Traversal.Env)
    (trav t' : Traversal.TraverseNode) (s s' : Traversal.Frame) (b : Bool)
    (h : Traversal.travDetermineDrawsGeodata E trav s = Except.ok (b, t', s')) :
    t'.childs = trav.childs ∧ t'.data.aabbPhys = trav.data.aabbPhys ∧
    t'.data.nodeInfo = trav.data.nodeInfo ∧ t'.data.meta = trav.data.meta ∧
    t'.data.priority = trav.data.priority ∧ t'.data.lastAccessTime = trav.data.lastAccessTime := by
  unfold Traversal.travDetermineDrawsGeodata at h
  dsimp only at h
  repeat' first
    | (cases h; done)
    | (simp only [Except.ok.injEq, Prod.mk.injEq] at h
       obtain ⟨_, ht, _⟩ := h
       subst ht
       first
         | exact ⟨rfl, rfl, rfl, rfl, rfl, rfl⟩
         | (simp only [Traversal.TraverseNode.setData, Traversal.TraverseNode.data,
              Traversal.TraverseNode.childs]
            split_ifs
            all_goals exact ⟨rfl, rfl, rfl, rfl, rfl, rfl⟩))
    | split at h

theorem Traversal.ensureDraws_shape (E : Traversal.Env) (parent : Option Traversal.NodeData)
    (trav t' : Traversal.TraverseNode) (s s' : Traversal.Frame)
    (h : Traversal.ensureDraws E parent trav s = Except.ok (t', s')) :
    t'.childs = trav.childs ∧ t'.data.aabbPhys = trav.data.aabbPhys ∧
    t'.data.nodeInfo = trav.data.nodeInfo ∧ t'.data.meta = trav.data.meta ∧
    t'.data.lastAccessTime = trav.data.lastAccessTime := by
  unfold Traversal.ensureDraws at h
  split_ifs at h
  · rcases hd : Traversal.travDetermineDraws E parent trav s with e | ⟨b, t1, s1⟩
    · rw [hd] at h
      cases h
    · rw [hd] at h
      simp only [Except.ok.injEq, Prod.mk.injEq] at h
      obtain ⟨ht, _⟩ := h
      subst ht
      unfold Traversal.travDetermineDraws at hd
      dsimp only at hd
      have hk := Traversal.updateNodePriority_keeps E parent trav.data
      split_ifs at hd
      · obtain ⟨h1, h2, h3, h4, _, h6⟩ := Traversal.travDetermineDrawsGeodata_shape E _ t1 _ s1 b hd
        exact ⟨h1, h2.trans hk.2.2.2.2.2.2.2.2.1, h3.trans hk.2.2.2.1, h4.trans hk.2.2.1,
          h6.trans hk.2.2.2.2.2.2.2.2.2⟩
      · obtain ⟨h1, h2, h3, h4, _, h6⟩ := Traversal.travDetermineDrawsSurface_shape E _ t1 _ s1 b hd
        exact ⟨h1, h2.trans hk.2.2.2.2.2.2.2.2.1, h3.trans hk.2.2.2.1, h4.trans hk.2.2.1,
          h6.trans hk.2.2.2.2.2.2.2.2.2⟩
  · simp only [Except.ok.injEq, Prod.mk.injEq] at h
    rw [← h.1]
    exact ⟨rfl, rfl, rfl, rfl, rfl⟩

theorem Traversal.forChilds_rendered (P : Traversal.TraverseNode → Prop)
    (f : Traversal.TraverseNode → Traversal.Frame →
      Option (Except Traversal.Failure (Traversal.TraverseNode × Traversal.Frame)))
    (hf : ∀ t s t' s', f t s = some (Except.ok (t', s')) →
      ∃ ids, s'.rendered = s.rendered ++ ids ∧
        ∀ id ∈ ids, ∃ n, Traversal.InTree n t' ∧ n.data.nodeInfo.nodeId = id ∧ P n)
    (l l' : List Traversal.TraverseNode) (s s' : Traversal.Frame)
    (h : Traversal.forChilds f l s = some (Except.ok (l', s'))) :
    ∃ ids, s'.rendered = s.rendered ++ ids ∧
      ∀ id ∈ ids, ∃ c ∈ l', ∃ n, Traversal.InTree n c ∧ n.data.nodeInfo.nodeId = id ∧ P n := by
  induction l generalizing s l' with
  | nil =>
    simp only [Traversal.forChilds, Option.some.injEq, Except.ok.injEq, Prod.mk.injEq] at h
    refine ⟨[], by rw [← h.2]; simp, ?_⟩
    intro id hid
    cases hid
  | cons t rest ih =>
    rw [Traversal.forChilds] at h
    rcases hft : f t s with _ | (e | ⟨t1, s1⟩)
    · rw [hft] at h; cases h
    · rw [hft] at h; cases h
    · rw [hft] at h
      simp only at h
      rcases hrest : Traversal.forChilds f rest s1 with _ | (e | ⟨r1, s2⟩)
      · rw [hrest] at h; cases h
      · rw [hrest] at h; cases h
      · rw [hrest] at h
        simp only [Option.some.injEq, Except.ok.injEq, Prod.mk.injEq] at h
        obtain ⟨hl, hs⟩ := h
        subst hl
        subst hs
        obtain ⟨ids1, hr1, hp1⟩ := hf t s t1 s1 hft
        obtain ⟨ids2, hr2, hp2⟩ := ih r1 s1 hrest
        refine ⟨ids1 ++ ids2, by rw [hr2, hr1, List.append_assoc], ?_⟩
        intro id hid
        rcases List.mem_append.1 hid with hid | hid
        · obtain ⟨n, hn⟩ := hp1 id hid
          exact ⟨t1, List.mem_cons_self _ _, n, hn⟩
        · obtain ⟨c, hc, n, hn⟩ := hp2 id hid
          exact ⟨c, List.mem_cons_of_mem _ hc, n, hn⟩

theorem Traversal.travModeFixed_rendered (E : Traversal.Env) (fuel : Nat)
    (parent : Option Traversal.NodeData) (trav trav' : Traversal.TraverseNode)
    (s s' : Traversal.Frame)
    (h : Traversal.travModeFixed E fuel parent trav s = some (Except.ok (trav', s'))) :
    ∃ ids, s'.rendered = s.rendered ++ ids ∧
      ∀ id ∈ ids, ∃ n, Traversal.InTree n trav' ∧ n.data.nodeInfo.nodeId = id ∧
        Traversal.FixedRendered E n := by
  induction fuel generalizing parent trav trav' s s' with
  | zero => simp [Traversal.travModeFixed] at h
  | succ fuel ih =>
    rw [Traversal.travModeFixed] at h
    rcases hinit : Traversal.travInit E parent trav s with e | ⟨b, t1, s1⟩
    · rw [hinit] at h; cases h
    · rw [hinit] at h
      have hr1 := (Traversal.travInit_frame E parent trav t1 s s1 b hinit).1
      cases b with
      | false =>
        simp only [Option.some.injEq, Except.ok.injEq, Prod.mk.injEq] at h
        refine ⟨[], by rw [← h.2, hr1]; simp, ?_⟩
        intro id hid
        cases hid
      | true =>
        simp only at h
        split_ifs at h with hdist hlod
        · simp only [Option.some.injEq, Except.ok.injEq, Prod.mk.injEq] at h
          refine ⟨[], by rw [← h.2, hr1]; simp, ?_⟩
          intro id hid
          cases hid
        · rcases hens : Traversal.ensureDraws E parent t1 (Traversal.touchDraws E t1.data s1)
            with e | ⟨t2, s2⟩
          · rw [hens] at h; cases h
          · rw [hens] at h
            have hr2 := Traversal.ensureDraws_frame E parent t1 t2 _ s2 hens
            obtain ⟨hch, hbox, hni, _, _⟩ := Traversal.ensureDraws_shape E parent t1 t2 _ s2 hens
            simp only [Option.some.injEq, Except.ok.injEq, Prod.mk.injEq] at h
            obtain ⟨ht, hs⟩ := h
            subst ht
            by_cases hre : t2.data.rendersEmpty = true
            · simp only [hre, Bool.not_true, Bool.false_eq_true, if_false] at hs
              refine ⟨[], by rw [← hs, hr2]; show s1.rendered = _; rw [hr1]; simp, ?_⟩
              intro id hid
              cases hid
            · have hre' : t2.data.rendersEmpty = false := by simpa using hre
              simp only [hre', Bool.not_false, if_true] at hs
              refine ⟨[t2.data.nodeInfo.nodeId], ?_, ?_⟩
              · rw [← hs]
                show s2.rendered ++ _ = _
                rw [hr2]
                show s1.rendered ++ _ = _
                rw [hr1]
              · intro id hid
                simp only [List.mem_singleton] at hid
                subst hid
                refine ⟨t2, Traversal.InTree.self t2, rfl, ?_, ?_, hre'⟩
                · simp only [Bool.or_eq_true, decide_eq_true_eq, List.isEmpty_iff] at hlod
                  rw [hni, hch]
                  exact hlod
                · have : Traversal.travDistance E t2.data E.focusPosPhys
                      = Traversal.travDistance E t1.data E.focusPosPhys := by
                    unfold Traversal.travDistance
                    rw [hbox]
                  rw [this]
                  exact not_lt.1 hdist
        · rcases hfc : Traversal.forChilds
              (fun t s => Traversal.travModeFixed E fuel (some t1.data) t s) t1.childs s1
            with _ | (e | ⟨cs, s2⟩)
          · rw [hfc] at h; cases h
          · rw [hfc] at h; cases h
          · rw [hfc] at h
            simp only [Option.some.injEq, Except.ok.injEq, Prod.mk.injEq] at h
            obtain ⟨ht, hs⟩ := h
            subst ht
            subst hs
            obtain ⟨ids, hids, hp⟩ := Traversal.forChilds_rendered (Traversal.FixedRendered E)
              (fun t s => Traversal.travModeFixed E fuel (some t1.data) t s)
              (fun t s t' s' hrun => ih (some t1.data) t t' s s' hrun) t1.childs cs s1 s2 hfc
            refine ⟨ids, by rw [hids, hr1], ?_⟩
            intro id hid
            obtain ⟨c, hc, n, hn, hrest⟩ := hp id hid
            exact ⟨n, Traversal.InTree.child n c _ hc hn, hrest⟩

theorem Traversal.findMetaTiles_tests (E : Traversal.Env) (v c : Traversal.NodeData → Bool)
    (parent : Option Traversal.NodeData) (d : Traversal.NodeData) (i : Nat)
    (l : List SurfaceInfo) :
    Traversal.findMetaTiles { E with visibilityTest := v, coarsenessTest := c } parent d i l
      = Traversal.findMetaTiles E parent d i l := by
  induction l generalizing i with
  | nil => rfl
  | cons a l ih =>
    rw [Traversal.findMetaTiles, Traversal.findMetaTiles, ih]
    rfl

theorem Traversal.findTopmost_tests (E : Traversal.Env) (v c : Traversal.NodeData → Bool)
    (nodeId : TileId) (l : List (Option MetaTile × SurfaceInfo)) (a : Traversal.SurfaceSearch) :
    Traversal.findTopmost { E with visibilityTest := v, coarsenessTest := c } nodeId l a
      = Traversal.findTopmost E nodeId l a := by
  induction l generalizing a with
  | nil => rfl
  | cons x l ih =>
    rcases x with ⟨_ | mt, sf⟩
    · rw [Traversal.findTopmost, Traversal.findTopmost, ih]
    · rw [Traversal.findTopmost, Traversal.findTopmost]
      simp only [ih]

theorem Traversal.travDetermineMeta_tests (E : Traversal.Env) (v c : Traversal.NodeData → Bool)
    (parent : Option Traversal.NodeData) (trav : Traversal.TraverseNode) (s : Traversal.Frame) :
    Traversal.travDetermineMeta { E with visibilityTest := v, coarsenessTest := c } parent trav s
      = Traversal.travDetermineMeta E parent trav s := by
  unfold Traversal.travDetermineMeta
  simp only [Traversal.findMetaTiles_tests, Traversal.findTopmost_tests]
  rfl

theorem Traversal.boundLayersLoop_tests (E : Traversal.Env) (v c : Traversal.NodeData → Bool)
    (part : Renderer.MeshPart) (l : List BoundParamInfo) (acc : Traversal.DrawsAcc) (b : Bool) :
    Traversal.boundLayersLoop { E with visibilityTest := v, coarsenessTest := c } part l acc b
      = Traversal.boundLayersLoop E part l acc b := by
  induction l generalizing acc b with
  | nil => rfl
  | cons x l ih =>
    rw [Traversal.boundLayersLoop, Traversal.boundLayersLoop]
    simp only [ih]
    rfl

theorem Traversal.subMeshStep_tests (E : Traversal.Env) (v c : Traversal.NodeData → Bool)
    (d : Traversal.NodeData) (surface : SurfaceInfo) (i : Nat) (part : Renderer.MeshPart)
    (acc : Traversal.DrawsAcc) :
    Traversal.subMeshStep { E with visibilityTest := v, coarsenessTest := c } d surface i part acc
      = Traversal.subMeshStep E d surface i part acc := by
  unfold Traversal.subMeshStep
  simp only [Traversal.boundLayersLoop_tests]
  rfl

theorem Traversal.subMeshLoop_tests (E : Traversal.Env) (v c : Traversal.NodeData → Bool)
    (d : Traversal.NodeData) (surface : SurfaceInfo) (i : Nat) (l : List Renderer.MeshPart)
    (acc : Traversal.DrawsAcc) :
    Traversal.subMeshLoop { E with visibilityTest := v, coarsenessTest := c } d surface i l acc
      = Traversal.subMeshLoop E d surface i l acc := by
  induction l generalizing i acc with
  | nil => rfl
  | cons x l ih =>
    rw [Traversal.subMeshLoop, Traversal.subMeshLoop, ih, Traversal.subMeshStep_tests]

theorem Traversal.ensureDraws_tests (E : Traversal.Env) (v c : Traversal.NodeData → Bool)
    (parent : Option Traversal.NodeData) (trav : Traversal.TraverseNode) (s : Traversal.Frame) :
    Traversal.ensureDraws { E with visibilityTest := v, coarsenessTest := c } parent trav s
      = Traversal.ensureDraws E parent trav s := by
  unfold Traversal.ensureDraws Traversal.travDetermineDraws Traversal.travDetermineDrawsSurface
  simp only [Traversal.subMeshLoop_tests]
  rfl

theorem Traversal.travInit_tests (E : Traversal.Env) (v c : Traversal.NodeData → Bool)
    (parent : Option Traversal.NodeData) (trav : Traversal.TraverseNode) (s : Traversal.Frame) :
    Traversal.travInit { E with visibilityTest := v, coarsenessTest := c } parent trav s
      = Traversal.travInit E parent trav s := by
  unfold Traversal.travInit
  simp only [Traversal.travDetermineMeta_tests]
  rfl

theorem Traversal.forChilds_congr
    (f g : Traversal.TraverseNode → Traversal.Frame →
      Option (Except Traversal.Failure (Traversal.TraverseNode × Traversal.Frame)))
    (hfg : ∀ t s, f t s = g t s) (l : List Traversal.TraverseNode) (s : Traversal.Frame) :
    Traversal.forChilds f l s = Traversal.forChilds g l s := by
  have : f = g := funext fun t => funext fun s => hfg t s
  rw [this]

theorem Traversal.travModeFixed_tests (E : Traversal.Env) (v c : Traversal.NodeData → Bool)
    (fuel : Nat) (parent : Option Traversal.NodeData) (trav : Traversal.TraverseNode)
    (s : Traversal.Frame) :
    Traversal.travModeFixed { E with visibilityTest := v, coarsenessTest := c } fuel parent trav s
      = Traversal.travModeFixed E fuel parent trav s := by
  induction fuel generalizing parent trav s with
  | zero => rfl
  | succ fuel ih =>
    rw [Traversal.travModeFixed, Traversal.travModeFixed, Traversal.travInit_tests]
    simp only [Traversal.ensureDraws_tests]
    have hfc : ∀ (p : Traversal.NodeData) (l : List Traversal.TraverseNode) (s : Traversal.Frame),
        Traversal.forChilds (fun t s => Traversal.travModeFixed
          { E with visibilityTest := v, coarsenessTest := c } fuel (some p) t s) l s
        = Traversal.forChilds (fun t s => Traversal.travModeFixed E fuel (some p) t s) l s :=
      fun p l s => Traversal.forChilds_congr _ _ (fun t s => ih (some p) t s) l s
    simp only [hfc]
    rfl

theorem Traversal.eq_of_finished
    (r : Option (Except Traversal.Failure (Traversal.TraverseNode × Traversal.Frame)))
    (t0 : Traversal.TraverseNode) (s0 : Traversal.Frame) (h : Traversal.finished r = true) :
    r = some (Except.ok ((Traversal.result r t0 s0).1, (Traversal.result r t0 s0).2)) := by
  rcases r with _ | (e | x)
  · cases h
  · cases h
  · rfl

theorem Traversal.lodStep_iff (d : Traversal.NodeData) (cs : List Traversal.TraverseNode) :
    Traversal.LodStep (.mk d cs) ↔
      ∀ c ∈ cs, c.data.nodeInfo.nodeId.lod = d.nodeInfo.nodeId.lod + 1 ∧ Traversal.LodStep c := by
  constructor
  · intro h c hc
    refine ⟨h _ (Traversal.InTree.self _) c hc, ?_⟩
    intro n hn c' hc'
    exact h n (Traversal.InTree.child n c _ hc hn) c' hc'
  · intro h n hn c' hc'
    cases hn with
    | self => exact (h c' hc').1
    | child c t' hc hn => exact (h c hc).2 n hn c' hc'

theorem Traversal.travInit_lodStep (E : Traversal.Env)
    (parent : Option Traversal.NodeData) (trav t' : Traversal.TraverseNode)
    (s s' : Traversal.Frame) (hmono : E.layer.freeLayerMonolithicGeodata = false)
    (hchild : ∀ ni id, (E.nodeInfoChild ni id).nodeId = id)
    (hstep : Traversal.LodStep trav)
    (h : Traversal.travInit E parent trav s = Except.ok (true, t', s')) :
    t'.data.nodeInfo = trav.data.nodeInfo ∧ Traversal.LodStep t' := by
  have hni0 : (Traversal.initData E parent trav.data).nodeInfo = trav.data.nodeInfo := by
    unfold Traversal.initData
    rw [(Traversal.updateNodePriority_keeps E parent _).2.2.2.1]
  unfold Traversal.travInit at h
  dsimp only at h
  split_ifs at h with hm
  · obtain ⟨metaTiles, req, a, node, d1, _, _, _, himpl, hdata, hchilds, _, hnil⟩ :=
      Traversal.travDetermineMeta_true E parent _ t' _ s' hmono h
    obtain ⟨_, _, _, hni1, _⟩ := Traversal.travDetermineMetaImpl_keeps E _ d1 himpl
    have hni : t'.data.nodeInfo = trav.data.nodeInfo := by
      rw [hdata, (Traversal.updateNodePriority_keeps E parent _).2.2.2.1]
      cases a.topmost
      · exact hni1.trans hni0
      · exact hni1.trans hni0
    refine ⟨hni, ?_⟩
    obtain ⟨d, cs⟩ := t'
    refine (Traversal.lodStep_iff d cs).2 fun c hc => ?_
    simp only [Traversal.TraverseNode.data] at hni
    have hc' : c ∈ (Traversal.TraverseNode.mk d cs).childs := hc
    rw [hchilds, hnil, List.nil_append, List.mem_filterMap] at hc'
    obtain ⟨i, _, hi⟩ := hc'
    split_ifs at hi
    simp only [Option.some.injEq] at hi
    subst hi
    refine ⟨?_, ?_⟩
    · show (E.nodeInfoChild _ _).nodeId.lod = _
      rw [hchild, hni]
      show (Traversal.initData E parent trav.data).nodeInfo.nodeId.lod + 1 = _
      rw [hni0]
      rfl
    · intro n hn c' hc'
      cases hn with
      | self => cases hc'
      | child c t'' hc hn => cases hc
  · simp only [Except.ok.injEq, Prod.mk.injEq] at h
    obtain ⟨_, ht, _⟩ := h
    subst ht
    obtain ⟨d, cs⟩ := trav
    refine ⟨hni0, ?_⟩
    refine (Traversal.lodStep_iff _ cs).2 fun c hc => ?_
    obtain ⟨h1, h2⟩ := (Traversal.lodStep_iff d cs).1 hstep c hc
    refine ⟨?_, h2⟩
    show _ = (Traversal.initData E parent d).nodeInfo.nodeId.lod + 1
    rw [show (Traversal.initData E parent d).nodeInfo = d.nodeInfo from hni0]
    exact h1

theorem Traversal.forChilds_rendered_mem (P : Traversal.TraverseNode → Prop)
    (f : Traversal.TraverseNode → Traversal.Frame →
      Option (Except Traversal.Failure (Traversal.TraverseNode × Traversal.Frame)))
    (l l' : List Traversal.TraverseNode) (s s' : Traversal.Frame)
    (hf : ∀ t ∈ l, ∀ s t' s', f t s = some (Except.ok (t', s')) →
      ∃ ids, s'.rendered = s.rendered ++ ids ∧
        ∀ id ∈ ids, ∃ n, Traversal.InTree n t' ∧ n.data.nodeInfo.nodeId = id ∧ P n)
    (h : Traversal.forChilds f l s = some (Except.ok (l', s'))) :
    ∃ ids, s'.rendered = s.rendered ++ ids ∧
      ∀ id ∈ ids, ∃ c ∈ l', ∃ n, Traversal.InTree n c ∧ n.data.nodeInfo.nodeId = id ∧ P n := by
  induction l generalizing s l' with
  | nil =>
    simp only [Traversal.forChilds, Option.some.injEq, Except.ok.injEq, Prod.mk.injEq] at h
    refine ⟨[], by rw [← h.2]; simp, ?_⟩
    intro id hid
    cases hid
  | cons t rest ih =>
    rw [Traversal.forChilds] at h
    rcases hft : f t s with _ | (e | ⟨t1, s1⟩)
    · rw [hft] at h; cases h
    · rw [hft] at h; cases h
    · rw [hft] at h
      simp only at h
      rcases hrest : Traversal.forChilds f rest s1 with _ | (e | ⟨r1, s2⟩)
      · rw [hrest] at h; cases h
      · rw [hrest] at h; cases h
      · rw [hrest] at h
        simp only [Option.some.injEq, Except.ok.injEq, Prod.mk.injEq] at h
        obtain ⟨hl, hs⟩ := h
        subst hl
        subst hs
        obtain ⟨ids1, hr1, hp1⟩ := hf t (List.mem_cons_self _ _) s t1 s1 hft
        obtain ⟨ids2, hr2, hp2⟩ :=
          ih r1 s1 (fun t ht => hf t (List.mem_cons_of_mem _ ht)) hrest
        refine ⟨ids1 ++ ids2, by rw [hr2, hr1, List.append_assoc], ?_⟩
        intro id hid
        rcases List.mem_append.1 hid with hid | hid
        · obtain ⟨n, hn⟩ := hp1 id hid
          exact ⟨t1, List.mem_cons_self _ _, n, hn⟩
        · obtain ⟨c, hc, n, hn⟩ := hp2 id hid
          exact ⟨c, List.mem_cons_of_mem _ hc, n, hn⟩

theorem Traversal.travModeFixed_rendered_lod (E : Traversal.Env) (fuel : Nat)
    (parent : Option Traversal.NodeData) (trav trav' : Traversal.TraverseNode)
    (s s' : Traversal.Frame) (hmono : E.layer.freeLayerMonolithicGeodata = false)
    (hchild : ∀ ni id, (E.nodeInfoChild ni id).nodeId = id)
    (hstep : Traversal.LodStep trav)
    (hstart : trav.data.nodeInfo.nodeId.lod ≤ E.fixedModeLod)
    (h : Traversal.travModeFixed E fuel parent trav s = some (Except.ok (trav', s'))) :
    ∃ ids, s'.rendered = s.rendered ++ ids ∧
      ∀ id ∈ ids, ∃ n, Traversal.InTree n trav' ∧ n.data.nodeInfo.nodeId = id ∧
        (n.data.nodeInfo.nodeId.lod = E.fixedModeLod ∨
          (n.childs = [] ∧ n.data.nodeInfo.nodeId.lod < E.fixedModeLod)) ∧
        Traversal.travDistance E n.data E.focusPosPhys ≤ E.fixedModeDistance ∧
        n.data.rendersEmpty = false := by
  induction fuel generalizing parent trav trav' s s' with
  | zero => simp [Traversal.travModeFixed] at h
  | succ fuel ih =>
    rw [Traversal.travModeFixed] at h
    rcases hinit : Traversal.travInit E parent trav s with e | ⟨b, t1, s1⟩
    · rw [hinit] at h; cases h
    · rw [hinit] at h
      have hr1 := (Traversal.travInit_frame E parent trav t1 s s1 b hinit).1
      cases b with
      | false =>
        simp only [Option.some.injEq, Except.ok.injEq, Prod.mk.injEq] at h
        refine ⟨[], by rw [← h.2, hr1]; simp, ?_⟩
        intro id hid
        cases hid
      | true =>
        obtain ⟨hni1, hstep1⟩ :=
          Traversal.travInit_lodStep E parent trav t1 s s1 hmono hchild hstep hinit
        simp only at h
        split_ifs at h with hdist hlod
        · simp only [Option.some.injEq, Except.ok.injEq, Prod.mk.injEq] at h
          refine ⟨[], by rw [← h.2, hr1]; simp, ?_⟩
          intro id hid
          cases hid
        · rcases hens : Traversal.ensureDraws E parent t1 (Traversal.touchDraws E t1.data s1)
            with e | ⟨t2, s2⟩
          · rw [hens] at h; cases h
          · rw [hens] at h
            have hr2 := Traversal.ensureDraws_frame E parent t1 t2 _ s2 hens
            obtain ⟨hch, hbox, hni, _, _⟩ := Traversal.ensureDraws_shape E parent t1 t2 _ s2 hens
            simp only [Option.some.injEq, Except.ok.injEq, Prod.mk.injEq] at h
            obtain ⟨ht, hs⟩ := h
            subst ht
            by_cases hre : t2.data.rendersEmpty = true
            · simp only [hre, Bool.not_true, Bool.false_eq_true, if_false] at hs
              refine ⟨[], by rw [← hs, hr2]; show s1.rendered = _; rw [hr1]; simp, ?_⟩
              intro id hid
              cases hid
            · have hre' : t2.data.rendersEmpty = false := by simpa using hre
              simp only [hre', Bool.not_false, if_true] at hs
              refine ⟨[t2.data.nodeInfo.nodeId], ?_, ?_⟩
              · rw [← hs]
                show s2.rendered ++ _ = _
                rw [hr2]
                show s1.rendered ++ _ = _
                rw [hr1]
              · intro id hid
                simp only [List.mem_singleton] at hid
                subst hid
                refine ⟨t2, Traversal.InTree.self t2, rfl, ?_, ?_, hre'⟩
                · simp only [Bool.or_eq_true, decide_eq_true_eq, List.isEmpty_iff] at hlod
                  rw [hni, hch, hni1]
                  rw [hni1] at hlod
                  rcases hlod with hl | hl
                  · exact Or.inl (le_antisymm hstart hl)
                  · rcases Nat.lt_or_ge trav.data.nodeInfo.nodeId.lod E.fixedModeLod
                      with hlt | hge
                    · exact Or.inr ⟨hl, hlt⟩
                    · exact Or.inl (le_antisymm hstart hge)
                · have : Traversal.travDistance E t2.data E.focusPosPhys
                      = Traversal.travDistance E t1.data E.focusPosPhys := by
                    unfold Traversal.travDistance
                    rw [hbox]
                  rw [this]
                  exact not_lt.1 hdist
        · rcases hfc : Traversal.forChilds
              (fun t s => Traversal.travModeFixed E fuel (some t1.data) t s) t1.childs s1
            with _ | (e | ⟨cs, s2⟩)
          · rw [hfc] at h; cases h
          · rw [hfc] at h; cases h
          · rw [hfc] at h
            simp only [Option.some.injEq, Except.ok.injEq, Prod.mk.injEq] at h
            obtain ⟨ht, hs⟩ := h
            subst ht
            subst hs
            simp only [Bool.or_eq_true, decide_eq_true_eq, List.isEmpty_iff, not_or] at hlod
            have hlt : trav.data.nodeInfo.nodeId.lod < E.fixedModeLod := by
              have := hlod.1
              rw [hni1] at this
              exact not_le.1 this
            obtain ⟨d1, cs1⟩ := t1
            have hkids := (Traversal.lodStep_iff d1 cs1).1 hstep1
            obtain ⟨ids, hids, hp⟩ := Traversal.forChilds_rendered_mem
              (fun n => (n.data.nodeInfo.nodeId.lod = E.fixedModeLod ∨
                  (n.childs = [] ∧ n.data.nodeInfo.nodeId.lod < E.fixedModeLod)) ∧
                Traversal.travDistance E n.data E.focusPosPhys ≤ E.fixedModeDistance ∧
                n.data.rendersEmpty = false)
              (fun t s => Traversal.travModeFixed E fuel (some d1) t s) cs1 cs s1 s2
              (fun t ht s t' s' hrun => ih (some d1) t t' s s' (hkids t ht).2
                (by
                  rw [(hkids t ht).1]
                  simp only [Traversal.TraverseNode.data] at hni1
                  rw [hni1]
                  exact hlt) hrun) hfc
            refine ⟨ids, by rw [hids, hr1], ?_⟩
            intro id hid
            obtain ⟨c, hc, n, hn, hrest⟩ := hp id hid
            exact ⟨n, Traversal.InTree.child n c _ hc hn, hrest⟩

/-- C11 (counterexample): with fixed lod 2, `travModeFixed` renders the resolved root (lod 0)
that has no children and one draw task: a rendered node whose lod is not the fixed lod. -/
theorem travModeFixed_renders_leaf_above_fixed_lod :
    Traversal.renderedOf (Traversal.travModeFixed sampleTEnv 1 none sampleDrawnLeaf sampleTFrame)
      = some [⟨0, 0, 0⟩] ∧
    sampleTEnv.fixedModeLod = 2 ∧ sampleDrawnLeaf.data.nodeInfo.nodeId.lod = 0 ∧
    sampleDrawnLeaf.childs.length = 0 := by
  decide

/-- C11 (amended): every node on which `travModeFixed` calls `renderNode` is a node of the
tree it returns that has draws, whose box is within `fixedModeDistance` of the focus, and that
is at or beyond the fixed lod or has no children.  When the run starts at a node not beyond
the fixed lod, in a tree of a tiled layer whose children lie one lod below their parents (as
from the root), the lod of a rendered node is the fixed lod, unless the node has no children
and a smaller lod.  The visibility and coarseness tests play no part: the run is the same
whatever they answer. -/
theorem travModeFixed_rendered_nodes (E : Traversal.Env) (fuel : Nat)
    (parent : Option Traversal.NodeData) (trav trav' : Traversal.TraverseNode)
    (s s' : Traversal.Frame)
    (h : Traversal.travModeFixed E fuel parent trav s = some (Except.ok (trav', s'))) :
    (∃ ids, s'.rendered = s.rendered ++ ids ∧
      ∀ id ∈ ids, ∃ n, Traversal.InTree n trav' ∧ n.data.nodeInfo.nodeId = id ∧
        (E.fixedModeLod ≤ id.lod ∨ n.childs = []) ∧
        Traversal.travDistance E n.data E.focusPosPhys ≤ E.fixedModeDistance ∧
        n.data.rendersEmpty = false) ∧
    (E.layer.freeLayerMonolithicGeodata = false →
      (∀ ni id, (E.nodeInfoChild ni id).nodeId = id) → Traversal.LodStep trav →
      trav.data.nodeInfo.nodeId.lod ≤ E.fixedModeLod →
      ∃ ids, s'.rendered = s.rendered ++ ids ∧
        ∀ id ∈ ids, ∃ n, Traversal.InTree n trav' ∧ n.data.nodeInfo.nodeId = id ∧
          (id.lod = E.fixedModeLod ∨ (n.childs = [] ∧ id.lod < E.fixedModeLod)) ∧
          Traversal.travDistance E n.data E.focusPosPhys ≤ E.fixedModeDistance ∧
          n.data.rendersEmpty = false) ∧
    (∀ v c : Traversal.NodeData → Bool,
      Traversal.travModeFixed { E with visibilityTest := v, coarsenessTest := c } fuel parent
        trav s = some (Except.ok (trav', s'))) := by
  refine ⟨?_, ?_, ?_⟩
  · obtain ⟨ids, h1, h2⟩ := Traversal.travModeFixed_rendered E fuel parent trav trav' s s' h
    refine ⟨ids, h1, fun id hid => ?_⟩
    obtain ⟨n, hn, hid', hl, hd, hr⟩ := h2 id hid
    exact ⟨n, hn, hid', by rw [← hid']; exact hl, hd, hr⟩
  · intro hmono hchild hstep hstart
    obtain ⟨ids, h1, h2⟩ := Traversal.travModeFixed_rendered_lod E fuel parent trav trav' s s'
      hmono hchild hstep hstart h
    refine ⟨ids, h1, fun id hid => ?_⟩
    obtain ⟨n, hn, hid', hl, hd, hr⟩ := h2 id hid
    exact ⟨n, hn, hid', by rw [← hid']; exact hl, hd, hr⟩
  · intro v c
    rw [Traversal.travModeFixed_tests, h]

theorem travModeFixed_rendered_nodes_witness :
    Traversal.travModeFixed sampleTEnvFixed 2 none sampleRoot sampleTFrame
      = some (Except.ok (sampleFixedOut.1, sampleFixedOut.2)) ∧
    sampleFixedOut.2.rendered = [⟨1, 0, 0⟩, ⟨1, 1, 0⟩, ⟨1, 0, 1⟩, ⟨1, 1, 1⟩] ∧
    Traversal.LodStep sampleRoot ∧
    sampleRoot.data.nodeInfo.nodeId.lod ≤ sampleTEnvFixed.fixedModeLod ∧
    ∃ ids, sampleFixedOut.2.rendered = sampleTFrame.rendered ++ ids ∧
      ∀ id ∈ ids, ∃ n, Traversal.InTree n sampleFixedOut.1 ∧ n.data.nodeInfo.nodeId = id ∧
        (id.lod = sampleTEnvFixed.fixedModeLod ∨
          (n.childs = [] ∧ id.lod < sampleTEnvFixed.fixedModeLod)) ∧
        Traversal.travDistance sampleTEnvFixed n.data sampleTEnvFixed.focusPosPhys
          ≤ sampleTEnvFixed.fixedModeDistance ∧
        n.data.rendersEmpty = false :=
  have h : Traversal.travModeFixed sampleTEnvFixed 2 none sampleRoot sampleTFrame
      = some (Except.ok (sampleFixedOut.1, sampleFixedOut.2)) :=
    Traversal.eq_of_finished _ sampleRoot sampleTFrame (by decide)
  have hstep : Traversal.LodStep sampleRoot :=
    (Traversal.lodStep_iff _ []).2 (fun c hc => by cases hc)
  ⟨h, by decide, hstep, by decide,
   (travModeFixed_rendered_nodes sampleTEnvFixed 2 none sampleRoot sampleFixedOut.1
      sampleTFrame sampleFixedOut.2 h).2.1 rfl (fun _ _ => rfl) hstep (by decide)⟩

/-! ### Children of a resolved node -/

theorem Renderer.travDetermineMeta_shape (E : Renderer.Env) (trav trav' : Renderer.TraverseNode)
    (s s' : Renderer.Frame)
    (h : Renderer.travDetermineMeta E trav s = Except.ok (true, trav', s')) :
    ∃ a node,
      Renderer.findTopmost E trav.nodeInfo.nodeId trav.priority E.surfaceStack
        ⟨none, none, fun _ => false, true, []⟩ = Except.ok a ∧
      a.node = some node ∧ trav.childs = [] ∧
      trav'.childs = (List.range 4).filterMap (fun i =>
        if a.childsAvailable i then
          some (Renderer.TraverseNode.new
            (E.nodeInfoChild trav.nodeInfo (children trav.nodeInfo.nodeId i)))
        else none) ∧
      trav'.nodeInfo = trav.nodeInfo ∧ trav'.priority = trav.priority ∧
      ∃ m', trav'.meta = some m' ∧ m'.node = node ∧
        m'.cornersPhys = Renderer.metaCorners E trav.nodeInfo node
          ⟨node, none, [], E.initCornersPhys, NodeBox.init, E.initSurrogatePhys⟩ ∧
        m'.aabbPhys = if trav.nodeInfo.distanceFromRoot > 2 then
          NodeBox.finite (aabbOfCorners m'.cornersPhys) else NodeBox.init := by
  unfold Renderer.travDetermineMeta at h
  dsimp only at h
  split at h
  · cases h
  split at h
  · cases h
  split at h
  · cases h
  rename_i hch
  split at h
  · simp at h
  split at h
  · cases h
  rename_i a hft
  split at h
  · simp at h
  split at h
  · cases h
  rename_i node hnode
  simp only [Except.ok.injEq, Prod.mk.injEq, true_and] at h
  obtain ⟨htrav, _⟩ := h
  have hch' : trav.childs = [] := by
    cases hc : trav.childs with
    | nil => rfl
    | cons x l => simp [hc] at hch
  refine ⟨a, node, hft, hnode, hch', ?_, ?_, ?_, ?_⟩
  · rw [← htrav, hch']
    rfl
  · rw [← htrav]
    rfl
  · rw [← htrav]
    rfl
  · rw [← htrav]
    refine ⟨_, rfl, ?_, ?_, ?_⟩
    · cases a.topmost <;> split_ifs <;> rfl
    · cases a.topmost <;> split_ifs <;> rfl
    · cases a.topmost <;> split_ifs <;> rfl

theorem foldl_box_spec (l : List Vec3) (b : Aabb) :
    ((l.foldl (fun a c => (⟨a.lo.min c, a.hi.max c⟩ : Aabb)) b).lo.x ≤ b.lo.x ∧
     (l.foldl (fun a c => (⟨a.lo.min c, a.hi.max c⟩ : Aabb)) b).lo.y ≤ b.lo.y ∧
     (l.foldl (fun a c => (⟨a.lo.min c, a.hi.max c⟩ : Aabb)) b).lo.z ≤ b.lo.z ∧
     b.hi.x ≤ (l.foldl (fun a c => (⟨a.lo.min c, a.hi.max c⟩ : Aabb)) b).hi.x ∧
     b.hi.y ≤ (l.foldl (fun a c => (⟨a.lo.min c, a.hi.max c⟩ : Aabb)) b).hi.y ∧
     b.hi.z ≤ (l.foldl (fun a c => (⟨a.lo.min c, a.hi.max c⟩ : Aabb)) b).hi.z) ∧
    ∀ c ∈ l, (l.foldl (fun a c => (⟨a.lo.min c, a.hi.max c⟩ : Aabb)) b).Contains c := by
  induction l generalizing b with
  | nil =>
    simp only [List.foldl_nil]
    exact ⟨⟨le_refl _, le_refl _, le_refl _, le_refl _, le_refl _, le_refl _⟩,
      fun c hc => by cases hc⟩
  | cons x l ih =>
    simp only [List.foldl_cons]
    obtain ⟨⟨h1, h2, h3, h4, h5, h6⟩, hin⟩ := ih ⟨b.lo.min x, b.hi.max x⟩
    simp only [Vec3.min, Vec3.max] at h1 h2 h3 h4 h5 h6
    refine ⟨⟨le_trans h1 (min_le_left _ _), le_trans h2 (min_le_left _ _),
      le_trans h3 (min_le_left _ _), le_trans (le_max_left _ _) h4,
      le_trans (le_max_left _ _) h5, le_trans (le_max_left _ _) h6⟩, ?_⟩
    intro c hc
    rcases List.mem_cons.1 hc with hcx | hcl
    · subst hcx
      exact ⟨le_trans h1 (min_le_right _ _), le_trans (le_max_right _ _) h4,
        le_trans h2 (min_le_right _ _), le_trans (le_max_right _ _) h5,
        le_trans h3 (min_le_right _ _), le_trans (le_max_right _ _) h6⟩
    · exact hin c hcl

theorem aabbOfCorners_contains (cornersPhys : Fin 8 → Vec3) (i : Fin 8) :
    (aabbOfCorners cornersPhys).Contains (cornersPhys i) := by
  unfold aabbOfCorners
  exact (foldl_box_spec _ _).2 _ ((List.mem_ofFn _ _).2 ⟨i, rfl⟩)

theorem Traversal.travDetermineMetaImpl_box (E : Traversal.Env) (d d1 : Traversal.NodeData)
    (h : Traversal.travDetermineMetaImpl E d = Except.ok d1) :
    (2 < d.nodeInfo.distanceFromRoot → ∀ i, d1.aabbPhys.Contains (d1.cornersPhys i)) ∧
    (2 < d.nodeInfo.distanceFromRoot →
      d1.aabbPhys = NodeBox.finite (aabbOfCorners d1.cornersPhys)) ∧
    (d.nodeInfo.distanceFromRoot ≤ 2 → d1.aabbPhys = d.aabbPhys) := by
  unfold Traversal.travDetermineMetaImpl at h
  split at h
  · cases h
  · simp only [Except.ok.injEq] at h
    subst h
    refine ⟨?_, ?_, ?_⟩
    · intro hd i
      split_ifs <;> exact aabbOfCorners_contains _ i
    · intro hd
      split_ifs <;> rfl
    · intro hd
      split_ifs <;> first
        | rfl
        | (exfalso; simp_all; omega)

theorem Traversal.updateNodePriority_corners (E : Traversal.Env)
    (parent : Option Traversal.NodeData) (d : Traversal.NodeData) :
    (Traversal.updateNodePriority E parent d).cornersPhys = d.cornersPhys := by
  unfold Traversal.updateNodePriority
  split_ifs
  · rfl
  · rfl
  · cases parent <;> rfl

theorem Traversal.travDetermineMeta_box (E : Traversal.Env)
    (parent : Option Traversal.NodeData) (trav trav' : Traversal.TraverseNode)
    (s s' : Traversal.Frame) (hmono : E.layer.freeLayerMonolithicGeodata = false)
    (h : Traversal.travDetermineMeta E parent trav s = Except.ok (true, trav', s')) :
    (2 < trav.data.nodeInfo.distanceFromRoot →
      ∀ i, trav'.data.aabbPhys.Contains (trav'.data.cornersPhys i)) ∧
    (trav.data.nodeInfo.distanceFromRoot ≤ 2 → trav'.data.aabbPhys = trav.data.aabbPhys) := by
  obtain ⟨metaTiles, req, a, node, d1, _, _, _, himpl, hdata, _, _, _⟩ :=
    Traversal.travDetermineMeta_true E parent trav trav' s s' hmono h
  obtain ⟨h1, _, h2⟩ := Traversal.travDetermineMetaImpl_box E _ d1 himpl
  have hbox : trav'.data.aabbPhys = d1.aabbPhys := by
    rw [hdata, (Traversal.updateNodePriority_keeps E parent _).2.2.2.2.2.2.2.2.1]
    cases a.topmost <;> rfl
  have hcor : trav'.data.cornersPhys = d1.cornersPhys := by
    rw [hdata, Traversal.updateNodePriority_corners]
    cases a.topmost <;> rfl
  rw [hbox, hcor]
  exact ⟨h1, h2⟩

/-! ### The clearing pass -/

theorem Traversal.traverseClearingChilds_eq (T : Nat) (l : List Traversal.TraverseNode) :
    Traversal.traverseClearingChilds T l = l.map (Traversal.traverseClearing T) := by
  induction l with
  | nil => rw [Traversal.traverseClearingChilds]; rfl
  | cons t rest ih => rw [Traversal.traverseClearingChilds, ih]; rfl

theorem Traversal.traverseClearing_stale (T : Nat) (t : Traversal.TraverseNode)
    (h : Traversal.stale T t = true) :
    Traversal.traverseClearing T t = t.clearAll := by
  obtain ⟨d, childs⟩ := t
  have h' : d.lastAccessTime + 5 < T := by simpa [Traversal.stale] using h
  rw [Traversal.traverseClearing, if_pos h']

theorem Traversal.traverseClearing_fresh (T : Nat) (t : Traversal.TraverseNode)
    (h : Traversal.stale T t = false) :
    Traversal.traverseClearing T t
      = .mk t.data (t.childs.map (Traversal.traverseClearing T)) := by
  obtain ⟨d, childs⟩ := t
  have h' : ¬ d.lastAccessTime + 5 < T := by simpa [Traversal.stale] using h
  rw [Traversal.traverseClearing, if_neg h', Traversal.traverseClearingChilds_eq]
  rfl

theorem Traversal.traverseClearing_nodeAt (T : Nat) (p : List Nat)
    (t n : Traversal.TraverseNode) (h : Traversal.nodeAt t p = some n) :
    (Traversal.freshAbove T t p = true → Traversal.stale T n = false →
      Traversal.nodeAt (Traversal.traverseClearing T t) p
        = some (.mk n.data (n.childs.map (Traversal.traverseClearing T)))) ∧
    (Traversal.freshAbove T t p = true → Traversal.stale T n = true →
      Traversal.nodeAt (Traversal.traverseClearing T t) p = some n.clearAll) ∧
    (Traversal.freshAbove T t p = false →
      Traversal.nodeAt (Traversal.traverseClearing T t) p = none) := by
  induction p generalizing t with
  | nil =>
    simp only [Traversal.nodeAt, Option.some.injEq] at h
    subst h
    refine ⟨fun _ hf => ?_, fun _ hs => ?_, fun hfa => by simp [Traversal.freshAbove] at hfa⟩
    · rw [Traversal.traverseClearing_fresh T t hf]; rfl
    · rw [Traversal.traverseClearing_stale T t hs]; rfl
  | cons i p ih =>
    rw [Traversal.nodeAt] at h
    rcases hc : t.childs[i]? with _ | c
    · rw [hc] at h; cases h
    · rw [hc] at h
      simp only at h
      obtain ⟨ih1, ih2, ih3⟩ := ih c h
      have hfa : Traversal.freshAbove T t (i :: p)
          = (!Traversal.stale T t && Traversal.freshAbove T c p) := by
        rw [Traversal.freshAbove, hc]
      cases hst : Traversal.stale T t with
      | true =>
        have hnone : Traversal.nodeAt (Traversal.traverseClearing T t) (i :: p) = none := by
          rw [Traversal.traverseClearing_stale T t hst]
          rfl
        rw [hfa, hst]
        exact ⟨fun hh => by simp at hh, fun hh => by simp at hh, fun _ => hnone⟩
      | false =>
        have hstep : Traversal.nodeAt (Traversal.traverseClearing T t) (i :: p)
            = Traversal.nodeAt (Traversal.traverseClearing T c) p := by
          rw [Traversal.traverseClearing_fresh T t hst, Traversal.nodeAt]
          show (match (t.childs.map (Traversal.traverseClearing T))[i]? with
            | none => none
            | some c => Traversal.nodeAt c p) = _
          rw [List.getElem?_map, hc]
          rfl
        rw [hfa, hst, hstep]
        simp only [Bool.not_false, Bool.true_and]
        exact ⟨ih1, ih2, ih3⟩

theorem Traversal.traverseClearing_inTree (T : Nat) (t n : Traversal.TraverseNode)
    (h : Traversal.InTree n (Traversal.traverseClearing T t)) :
    ∃ m, Traversal.InTree m t ∧ n = Traversal.traverseClearing T m := by
  generalize ht : Traversal.traverseClearing T t = t' at h
  induction h generalizing t with
  | self => exact ⟨t, Traversal.InTree.self t, ht.symm⟩
  | child c t' hc hn ih =>
    cases hst : Traversal.stale T t with
    | true =>
      rw [Traversal.traverseClearing_stale T t hst] at ht
      subst ht
      cases hc
    | false =>
      rw [Traversal.traverseClearing_fresh T t hst] at ht
      subst ht
      obtain ⟨c0, hc0, hcc⟩ := List.mem_map.1 hc
      obtain ⟨m, hm, hnm⟩ := ih c0 hcc
      exact ⟨m, Traversal.InTree.child m c0 t hc0 hm, hnm⟩

theorem Traversal.traverseClearing_no_stale_meta (T : Nat) (t n : Traversal.TraverseNode)
    (h : Traversal.InTree n (Traversal.traverseClearing T t))
    (hm : n.data.meta.isSome = true) : Traversal.stale T n = false := by
  obtain ⟨m, _, hnm⟩ := Traversal.traverseClearing_inTree T t n h
  cases hst : Traversal.stale T m with
  | true =>
    rw [Traversal.traverseClearing_stale T m hst] at hnm
    subst hnm
    simp [Traversal.TraverseNode.clearAll, Traversal.NodeData.clearAll,
      Traversal.TraverseNode.data] at hm
  | false =>
    rw [Traversal.traverseClearing_fresh T m hst] at hnm
    subst hnm
    exact hst

theorem Renderer.traverseClearingChilds_map (F : Nat) (l : List Renderer.TraverseNode) :
    Renderer.traverseClearingChilds F l = l.map (Renderer.traverseClearing F) := by
  induction l with
  | nil => rw [Renderer.traverseClearingChilds]; rfl
  | cons t rest ih => rw [Renderer.traverseClearingChilds, ih]; rfl

theorem Renderer.traverseClearing_skipped (F : Nat) (t : Renderer.TraverseNode)
    (h : Renderer.skipped F t = true) : Renderer.traverseClearing F t = t := by
  obtain ⟨ni, m, draws, childs, prio, time⟩ := t
  rw [Renderer.traverseClearing, if_pos h]

theorem Renderer.traverseClearing_old (F : Nat) (t : Renderer.TraverseNode)
    (hk : Renderer.skipped F t = false) (h : Renderer.stale F t = true) :
    Renderer.traverseClearing F t = t.clear := by
  obtain ⟨ni, m, draws, childs, prio, time⟩ := t
  have h' : time + 5 < F := by simpa [Renderer.stale, Renderer.TraverseNode.lastAccessTime] using h
  rw [Renderer.traverseClearing, hk]
  simp only [Bool.false_eq_true, if_false, if_pos h']

theorem Renderer.traverseClearing_recent (F : Nat) (t : Renderer.TraverseNode)
    (hk : Renderer.skipped F t = false) (h : Renderer.stale F t = false) :
    Renderer.traverseClearing F t
      = .mk t.nodeInfo t.meta t.draws (t.childs.map (Renderer.traverseClearing F))
          t.priority t.lastAccessTime := by
  obtain ⟨ni, m, draws, childs, prio, time⟩ := t
  have h' : ¬ time + 5 < F := by
    simpa [Renderer.stale, Renderer.TraverseNode.lastAccessTime] using h
  rw [Renderer.traverseClearing, hk]
  simp only [Bool.false_eq_true, if_false, if_neg h', Renderer.traverseClearingChilds_map]
  rfl

theorem Renderer.traverseClearing_keeps (F : Nat) (p : List Nat)
    (t n : Renderer.TraverseNode) (h : Renderer.nodeAt t p = some n)
    (hf : Renderer.freshAlong F t p = true) :
    ∃ n', Renderer.nodeAt (Renderer.traverseClearing F t) p = some n' ∧
      n'.nodeInfo = n.nodeInfo ∧ n'.meta = n.meta ∧ n'.draws = n.draws ∧
      n'.priority = n.priority ∧ n'.lastAccessTime = n.lastAccessTime ∧
      n'.childs.length = n.childs.length := by
  induction p generalizing t with
  | nil =>
    simp only [Renderer.nodeAt, Option.some.injEq] at h
    subst h
    have hst : Renderer.stale F t = false := by simpa [Renderer.freshAlong] using hf
    cases hk : Renderer.skipped F t with
    | true =>
      rw [Renderer.traverseClearing_skipped F t hk]
      exact ⟨t, rfl, rfl, rfl, rfl, rfl, rfl, rfl⟩
    | false =>
      rw [Renderer.traverseClearing_recent F t hk hst]
      exact ⟨_, rfl, rfl, rfl, rfl, rfl, rfl, by simp [Renderer.TraverseNode.childs]⟩
  | cons i p ih =>
    cases hk : Renderer.skipped F t with
    | true =>
      rw [Renderer.traverseClearing_skipped F t hk]
      exact ⟨n, h, rfl, rfl, rfl, rfl, rfl, rfl⟩
    | false =>
      rw [Renderer.nodeAt] at h
      rw [Renderer.freshAlong] at hf
      rcases hc : t.childs[i]? with _ | c
      · rw [hc] at h; cases h
      · rw [hc] at h hf
        simp only [Bool.and_eq_true, Bool.not_eq_true'] at hf
        simp only at h
        obtain ⟨n', hn', hrest⟩ := ih c h hf.2
        refine ⟨n', ?_, hrest⟩
        rw [Renderer.traverseClearing_recent F t hk hf.1, Renderer.nodeAt]
        show (match (t.childs.map (Renderer.traverseClearing F))[i]? with
          | none => none
          | some c => Renderer.nodeAt c p) = _
        rw [List.getElem?_map, hc]
        exact hn'

theorem Renderer.traverseClearing_stale_meta (F : Nat) (t n : Renderer.TraverseNode)
    (h : Renderer.InTree n (Renderer.traverseClearing F t))
    (hm : n.meta.isSome = true) (hs : Renderer.stale F n = true) :
    ∃ m, Renderer.InTree m (Renderer.traverseClearing F t) ∧ Renderer.InTree n m ∧
      Renderer.skipped F m = true := by
  generalize ht : Renderer.traverseClearing F t = t' at h
  induction h generalizing t with
  | self =>
    cases hk : Renderer.skipped F t with
    | true =>
      rw [Renderer.traverseClearing_skipped F t hk] at ht
      subst ht
      exact ⟨t, Renderer.InTree.self t, Renderer.InTree.self t, hk⟩
    | false =>
      cases hst : Renderer.stale F t with
      | true =>
        rw [Renderer.traverseClearing_old F t hk hst] at ht
        subst ht
        simp [Renderer.TraverseNode.clear, Renderer.TraverseNode.meta] at hm
      | false =>
        rw [Renderer.traverseClearing_recent F t hk hst] at ht
        subst ht
        have : Renderer.stale F t = true := hs
        rw [hst] at this
        cases this
  | child c t' hc hn ih =>
    cases hk : Renderer.skipped F t with
    | true =>
      rw [Renderer.traverseClearing_skipped F t hk] at ht
      subst ht
      exact ⟨t, Renderer.InTree.self t, Renderer.InTree.child _ c t hc hn, hk⟩
    | false =>
      cases hst : Renderer.stale F t with
      | true =>
        rw [Renderer.traverseClearing_old F t hk hst] at ht
        subst ht
        cases hc
      | false =>
        rw [Renderer.traverseClearing_recent F t hk hst] at ht
        subst ht
        obtain ⟨c0, _, hcc⟩ := List.mem_map.1 hc
        obtain ⟨m, hm1, hm2, hm3⟩ := ih c0 hcc
        exact ⟨m, Renderer.InTree.child m c _ hc hm1, hm2, hm3⟩

/-- C18 (counterexample): in renderer.cpp the clearing pass from the root at frame 100 passes
over the tile `(3, 1, 0)` (slot 1, while `100 % 64 = 36`), which was last accessed in frame 0:
the stale node stays in the tree with its meta and its draw task. -/
theorem traverseClearing_skips_stale_lod3 :
    (Renderer.nodeAt (Renderer.traverseClearing 100 sampleOldChain) [0, 0, 0]).map
        (fun n => (n.nodeInfo.nodeId, n.meta.isSome, n.draws.length, n.lastAccessTime))
      = some (⟨3, 1, 0⟩, true, 1, 0) ∧
    (0 + 5 < 100) ∧ (0 * 8 + 1) % 64 ≠ 100 % 64 := by
  decide

/-- C18 (amended): the clearing pass of rendererTraversal.cpp clears every stale node all of
whose ancestors are fresh (meta and draws dropped, children list emptied) and thereby removes
the nodes below it, so no node left with meta is stale, and a fresh node with fresh ancestors
keeps its members and its children (each one the result of the pass on it).  The pass of
renderer.cpp also keeps the members and the number of children of a fresh node with fresh
ancestors, but it passes over a lod-3 node whose slot `(y * 8 + x) % 64` is not
`frameIndex % 64`: a stale node with meta is left only inside such a subtree. -/
theorem traverseClearing_clears_stale :
    (∀ (T : Nat) (t n : Traversal.TraverseNode) (p : List Nat),
      Traversal.nodeAt t p = some n →
      (Traversal.stale T n = true →
        Traversal.nodeAt (Traversal.traverseClearing T t) p = some n.clearAll ∨
        Traversal.nodeAt (Traversal.traverseClearing T t) p = none) ∧
      (Traversal.stale T n = true → Traversal.freshAbove T t p = true →
        Traversal.nodeAt (Traversal.traverseClearing T t) p = some n.clearAll) ∧
      (Traversal.stale T n = false → Traversal.freshAbove T t p = true →
        Traversal.nodeAt (Traversal.traverseClearing T t) p
          = some (.mk n.data (n.childs.map (Traversal.traverseClearing T))))) ∧
    (∀ (t : Traversal.TraverseNode), t.clearAll.data.meta = none ∧
      t.clearAll.data.rendersEmpty = true ∧ t.clearAll.childs = []) ∧
    (∀ (T : Nat) (t n : Traversal.TraverseNode),
      Traversal.InTree n (Traversal.traverseClearing T t) → n.data.meta.isSome = true →
      Traversal.stale T n = false) ∧
    (∀ (F : Nat) (t n : Renderer.TraverseNode) (p : List Nat),
      Renderer.nodeAt t p = some n → Renderer.freshAlong F t p = true →
      ∃ n', Renderer.nodeAt (Renderer.traverseClearing F t) p = some n' ∧
        n'.nodeInfo = n.nodeInfo ∧ n'.meta = n.meta ∧ n'.draws = n.draws ∧
        n'.priority = n.priority ∧ n'.lastAccessTime = n.lastAccessTime ∧
        n'.childs.length = n.childs.length) ∧
    (∀ (F : Nat) (t n : Renderer.TraverseNode),
      Renderer.InTree n (Renderer.traverseClearing F t) → n.meta.isSome = true →
      Renderer.stale F n = true →
      ∃ m, Renderer.InTree m (Renderer.traverseClearing F t) ∧ Renderer.InTree n m ∧
        Renderer.skipped F m = true) := by
  refine ⟨fun T t n p h => ?_, fun t => ⟨rfl, rfl, rfl⟩,
    fun T t n h hm => Traversal.traverseClearing_no_stale_meta T t n h hm,
    fun F t n p h hf => Renderer.traverseClearing_keeps F p t n h hf,
    fun F t n h hm hs => Renderer.traverseClearing_stale_meta F t n h hm hs⟩
  obtain ⟨h1, h2, h3⟩ := Traversal.traverseClearing_nodeAt T p t n h
  refine ⟨fun hs => ?_, fun hs hf => h2 hf hs, fun hs hf => h1 hf hs⟩
  cases hf : Traversal.freshAbove T t p with
  | true => exact Or.inl (h2 hf hs)
  | false => exact Or.inr (h3 hf)

theorem traverseClearing_clears_stale_witness :
    Traversal.nodeAt (Traversal.traverseClearing 100 sampleClearTree) [1]
      = some (Traversal.TraverseNode.clearAll
          (.mk { sampleBareLeaf.data with lastAccessTime := 0, opaqueTasks := [RenderTask.new] }
            [sampleBareLeaf])) ∧
    (Traversal.nodeAt (Traversal.traverseClearing 100 sampleClearTree) [0]).map
        (fun n => n.data.opaqueTasks.length) = some 1 ∧
    (Traversal.nodeAt (Traversal.traverseClearing 100 sampleClearTree) [1, 0]).isNone = true :=
  ⟨(traverseClearing_clears_stale.1 100 sampleClearTree _ [1] rfl).2.1 (by decide) (by decide),
   by decide, by decide⟩

/-! ### The tree invariant -/

theorem Traversal.findMetaTile_error (E : Traversal.Env) (parent : Option Traversal.NodeData)
    (d : Traversal.NodeData) (i : Nat) (surface : SurfaceInfo) (e : Traversal.Failure)
    (h : Traversal.findMetaTile E parent d i surface = Except.error e) :
    e ≠ Traversal.Failure.assertParentMeta := by
  unfold Traversal.findMetaTile at h
  dsimp only at h
  repeat' first
    | (cases h; done)
    | (cases h; decide)
    | split at h

theorem Traversal.findMetaTiles_error (E : Traversal.Env) (parent : Option Traversal.NodeData)
    (d : Traversal.NodeData) (i : Nat) (l : List SurfaceInfo) (e : Traversal.Failure)
    (h : Traversal.findMetaTiles E parent d i l = Except.error e) :
    e ≠ Traversal.Failure.assertParentMeta := by
  induction l generalizing i with
  | nil => simp [Traversal.findMetaTiles] at h
  | cons sf rest ih =>
    rw [Traversal.findMetaTiles] at h
    rcases h1 : Traversal.findMetaTile E parent d i sf with e1 | ⟨m, det1, req1⟩
    · rw [h1] at h
      simp only [Except.error.injEq] at h
      subst h
      exact Traversal.findMetaTile_error E parent d i sf e1 h1
    · rw [h1] at h
      simp only at h
      rcases h2 : Traversal.findMetaTiles E parent d (i + 1) rest with e2 | ⟨ms, det2, req2⟩
      · rw [h2] at h
        simp only [Except.error.injEq] at h
        subst h
        exact ih (i + 1) h2
      · rw [h2] at h
        cases h

theorem Traversal.findTopmost_error (E : Traversal.Env) (nodeId : TileId)
    (l : List (Option MetaTile × SurfaceInfo)) (a : Traversal.SurfaceSearch)
    (e : Traversal.Failure) (h : Traversal.findTopmost E nodeId l a = Except.error e) :
    e ≠ Traversal.Failure.assertParentMeta := by
  induction l generalizing a with
  | nil => simp [Traversal.findTopmost] at h
  | cons x rest ih =>
    obtain ⟨omt, sf⟩ := x
    cases omt with
    | none =>
      rw [Traversal.findTopmost] at h
      exact ih a h
    | some mt =>
      rcases hget : mt.get nodeId with _ | n
      · simp only [Traversal.findTopmost, hget, Except.error.injEq] at h
        subst h
        decide
      · simp only [Traversal.findTopmost, hget] at h
        repeat' first
          | exact ih _ h
          | (cases h; done)
          | (cases h; decide)
          | split at h

theorem Traversal.travDetermineMetaImpl_error (E : Traversal.Env) (d : Traversal.NodeData)
    (e : Traversal.Failure) (h : Traversal.travDetermineMetaImpl E d = Except.error e) :
    e ≠ Traversal.Failure.assertParentMeta := by
  unfold Traversal.travDetermineMetaImpl at h
  split at h
  · simp only [Except.error.injEq] at h
    subst h
    intro hh
    cases hh
  · cases h

theorem Traversal.travDetermineMeta_error (E : Traversal.Env)
    (parent : Option Traversal.NodeData) (trav : Traversal.TraverseNode) (s : Traversal.Frame)
    (hmono : E.layer.freeLayerMonolithicGeodata = false)
    (h : Traversal.travDetermineMeta E parent trav s
      = Except.error Traversal.Failure.assertParentMeta) :
    ∃ p, parent = some p ∧ p.meta = none := by
  unfold Traversal.travDetermineMeta at h
  simp only [hmono] at h
  split_ifs at h with h1 h2 h3 h4
  · cases h
  · cases h
  · cases h
  · cases parent with
    | none => simp at h4
    | some p =>
      refine ⟨p, rfl, ?_⟩
      simpa using h4
  · exfalso
    rcases hfm : Traversal.findMetaTiles E parent trav.data 0 E.layer.surfaces
      with e1 | ⟨metaTiles, det, req⟩
    · rw [hfm] at h
      simp only [Except.error.injEq] at h
      exact Traversal.findMetaTiles_error E parent trav.data 0 _ e1 hfm h
    · rw [hfm] at h
      simp only at h
      split_ifs at h
      rcases hft : Traversal.findTopmost E trav.data.nodeInfo.nodeId
          (metaTiles.zip E.layer.surfaces) ⟨none, none, fun _ => false⟩ with e2 | a
      · rw [hft] at h
        simp only [Except.error.injEq] at h
        exact Traversal.findTopmost_error E _ _ _ e2 hft h
      · rw [hft] at h
        simp only at h
        split at h
        · cases h
        · rename_i node hnode
          rcases himpl : Traversal.travDetermineMetaImpl E
              { trav.data with meta := some node, metaTiles := metaTiles } with e3 | d1
          · rw [himpl] at h
            simp only [Except.error.injEq] at h
            exact Traversal.travDetermineMetaImpl_error E _ e3 himpl h
          · rw [himpl] at h
            cases h

theorem Traversal.noOrphans_iff (d : Traversal.NodeData) (cs : List Traversal.TraverseNode) :
    Traversal.NoOrphans (.mk d cs) ↔
      (d.meta = none → cs = []) ∧ ∀ c ∈ cs, Traversal.NoOrphans c := by
  constructor
  · intro h
    refine ⟨fun hm => h _ (Traversal.InTree.self _) hm, fun c hc n hn hm => ?_⟩
    exact h n (Traversal.InTree.child n c _ hc hn) hm
  · rintro ⟨h1, h2⟩ n hn hm
    cases hn with
    | self => exact h1 hm
    | child c _ hc hn' => exact h2 c hc n hn' hm

theorem Traversal.noOrphans_leaf (d : Traversal.NodeData) : Traversal.NoOrphans (.mk d []) :=
  (Traversal.noOrphans_iff d []).2 ⟨(fun _ => rfl), (fun c hc => by cases hc)⟩

theorem Traversal.noOrphans_parentMeta (t : Traversal.TraverseNode)
    (h : Traversal.NoOrphans t) : Traversal.ParentMeta t := by
  intro n hn c hc _
  cases hm : n.data.meta with
  | some m => rfl
  | none =>
    rw [h n hn hm] at hc
    cases hc

theorem Traversal.travDetermineMeta_false (E : Traversal.Env)
    (parent : Option Traversal.NodeData) (trav t' : Traversal.TraverseNode)
    (s s' : Traversal.Frame) (hmono : E.layer.freeLayerMonolithicGeodata = false)
    (h : Traversal.travDetermineMeta E parent trav s = Except.ok (false, t', s')) :
    t' = trav ∧ trav.childs = [] := by
  unfold Traversal.travDetermineMeta at h
  simp only [hmono] at h
  split_ifs at h with h1 h2 h3 h4
  all_goals first
    | simp only [reduceCtorEq] at h
    | contradiction
    | skip
  all_goals
    have hch : trav.childs = [] := by
      cases hc : trav.childs with
      | nil => rfl
      | cons x l => simp [hc] at h2
    repeat' first
      | simp only [reduceCtorEq] at h
      | (simp only [Except.ok.injEq, Prod.mk.injEq, Bool.true_eq_false, false_and] at h; done)
      | (simp only [Except.ok.injEq, Prod.mk.injEq, true_and] at h
         exact ⟨h.1.symm, hch⟩)
      | split at h

theorem Traversal.travDetermineMeta_inv (E : Traversal.Env)
    (parent : Option Traversal.NodeData) (trav t' : Traversal.TraverseNode)
    (s s' : Traversal.Frame) (b : Bool) (hmono : E.layer.freeLayerMonolithicGeodata = false)
    (h : Traversal.travDetermineMeta E parent trav s = Except.ok (b, t', s')) :
    Traversal.NoOrphans t' ∧ (b = true → t'.data.meta.isSome = true) ∧
    (b = false → t' = trav) ∧
    (∀ c ∈ t'.childs, c.data.meta = none ∧ c.childs = []) := by
  cases b with
  | false =>
    obtain ⟨ht, hch⟩ := Traversal.travDetermineMeta_false E parent trav t' s s' hmono h
    subst ht
    obtain ⟨d, cs⟩ := t'
    simp only [Traversal.TraverseNode.childs] at hch
    subst hch
    exact ⟨Traversal.noOrphans_leaf d, (fun hh => by cases hh), (fun _ => rfl),
      (fun c hc => by cases hc)⟩
  | true =>
    obtain ⟨metaTiles, req, a, node, d1, _, _, _, himpl, hdata, hchilds, _, hnil⟩ :=
      Traversal.travDetermineMeta_true E parent trav t' s s' hmono h
    obtain ⟨_, _, hmeta1, _⟩ := Traversal.travDetermineMetaImpl_keeps E _ d1 himpl
    have hmeta : t'.data.meta = some node := by
      rw [hdata, (Traversal.updateNodePriority_keeps E parent _).2.2.1]
      cases a.topmost <;> simp [hmeta1]
    have hfresh : ∀ c ∈ t'.childs, c.data.meta = none ∧ c.childs = [] := by
      intro c hc
      rw [hchilds, hnil, List.nil_append, List.mem_filterMap] at hc
      obtain ⟨i, _, hi⟩ := hc
      split_ifs at hi
      simp only [Option.some.injEq] at hi
      subst hi
      exact ⟨rfl, rfl⟩
    refine ⟨?_, (fun _ => by rw [hmeta]; rfl), (fun hh => by cases hh), hfresh⟩
    obtain ⟨d, cs⟩ := t'
    refine (Traversal.noOrphans_iff d cs).2 ⟨fun hm => ?_, fun c hc => ?_⟩
    · simp only [Traversal.TraverseNode.data] at hmeta
      rw [hmeta] at hm
      cases hm
    · obtain ⟨dc, cc⟩ := c
      have := (hfresh _ hc).2
      simp only [Traversal.TraverseNode.childs] at this
      subst this
      exact Traversal.noOrphans_leaf dc

theorem Traversal.initData_meta (E : Traversal.Env) (parent : Option Traversal.NodeData)
    (d : Traversal.NodeData) : (Traversal.initData E parent d).meta = d.meta := by
  unfold Traversal.initData
  rw [(Traversal.updateNodePriority_keeps E parent _).2.2.1]

theorem Traversal.travInit_inv (E : Traversal.Env)
    (parent : Option Traversal.NodeData) (trav t' : Traversal.TraverseNode)
    (s s' : Traversal.Frame) (b : Bool) (hmono : E.layer.freeLayerMonolithicGeodata = false)
    (hno : Traversal.NoOrphans trav)
    (h : Traversal.travInit E parent trav s = Except.ok (b, t', s')) :
    Traversal.NoOrphans t' ∧ (b = true → t'.data.meta.isSome = true) := by
  unfold Traversal.travInit at h
  dsimp only at h
  split_ifs at h with hm
  · obtain ⟨h1, h2, _, _⟩ := Traversal.travDetermineMeta_inv E parent _ t' _ s' b hmono h
    exact ⟨h1, h2⟩
  · simp only [Except.ok.injEq, Prod.mk.injEq] at h
    obtain ⟨hb, ht, _⟩ := h
    subst hb
    subst ht
    obtain ⟨d, cs⟩ := trav
    have hmeta : (Traversal.initData E parent d).meta = d.meta := Traversal.initData_meta E parent d
    refine ⟨?_, fun _ => ?_⟩
    · obtain ⟨h1, h2⟩ := (Traversal.noOrphans_iff d cs).1 hno
      exact (Traversal.noOrphans_iff _ cs).2 ⟨fun hh => h1 (hmeta ▸ hh), h2⟩
    · have hm' : ¬ (Traversal.initData E parent d).meta.isNone = true := hm
      show (Traversal.initData E parent d).meta.isSome = true
      cases hmm : (Traversal.initData E parent d).meta with
      | none => rw [hmm] at hm'; simp at hm'
      | some v => rfl

theorem Traversal.travInit_error (E : Traversal.Env)
    (parent : Option Traversal.NodeData) (trav : Traversal.TraverseNode) (s : Traversal.Frame)
    (hmono : E.layer.freeLayerMonolithicGeodata = false)
    (hp : Traversal.ParentResolved parent) :
    Traversal.travInit E parent trav s ≠ Except.error Traversal.Failure.assertParentMeta := by
  intro h
  unfold Traversal.travInit at h
  dsimp only at h
  split_ifs at h
  · obtain ⟨p, hpp, hpm⟩ := Traversal.travDetermineMeta_error E parent _ _ hmono h
    have := hp p hpp
    rw [hpm] at this
    cases this

theorem Traversal.forChilds_inv (P : Traversal.TraverseNode → Prop) (e0 : Traversal.Failure)
    (f : Traversal.TraverseNode → Traversal.Frame →
      Option (Except Traversal.Failure (Traversal.TraverseNode × Traversal.Frame)))
    (hf : ∀ c s, P c → f c s ≠ some (Except.error e0) ∧
      ∀ c' s', f c s = some (Except.ok (c', s')) → P c')
    (l : List Traversal.TraverseNode) (s : Traversal.Frame) (hl : ∀ c ∈ l, P c) :
    Traversal.forChilds f l s ≠ some (Except.error e0) ∧
    ∀ l' s', Traversal.forChilds f l s = some (Except.ok (l', s')) → ∀ c' ∈ l', P c' := by
  induction l generalizing s with
  | nil =>
    refine ⟨by simp [Traversal.forChilds], fun l' s' h => ?_⟩
    simp only [Traversal.forChilds, Option.some.injEq, Except.ok.injEq, Prod.mk.injEq] at h
    rw [← h.1]
    intro c' hc'
    cases hc'
  | cons t rest ih =>
    have hPt := hl t (List.mem_cons_self _ _)
    have hrest : ∀ c ∈ rest, P c := fun c hc => hl c (List.mem_cons_of_mem _ hc)
    rw [Traversal.forChilds]
    rcases hft : f t s with _ | (e | ⟨t1, s1⟩)
    · exact ⟨by simp, fun l' s' h => by simp at h⟩
    · refine ⟨?_, fun l' s' h => by simp at h⟩
      intro h
      simp only [Option.some.injEq, Except.error.injEq] at h
      subst h
      exact (hf t s hPt).1 hft
    · have hP1 := (hf t s hPt).2 t1 s1 hft
      simp only
      rcases hr : Traversal.forChilds f rest s1 with _ | (e | ⟨r1, s2⟩)
      · exact ⟨by simp, fun l' s' h => by simp at h⟩
      · refine ⟨?_, fun l' s' h => by simp at h⟩
        intro h
        simp only [Option.some.injEq, Except.error.injEq] at h
        subst h
        exact (ih s1 hrest).1 hr
      · refine ⟨by simp, fun l' s' h => ?_⟩
        simp only [Option.some.injEq, Except.ok.injEq, Prod.mk.injEq] at h
        rw [← h.1]
        intro c' hc'
        rcases List.mem_cons.1 hc' with hc | hc
        · rw [hc]; exact hP1
        · exact (ih s1 hrest).2 r1 s2 hr c' hc

theorem Traversal.ensureDraws_inv (E : Traversal.Env) (parent : Option Traversal.NodeData)
    (trav : Traversal.TraverseNode) (s : Traversal.Frame)
    (hm : trav.data.meta.isSome = true) (hno : Traversal.NoOrphans trav) :
    ∃ t' s', Traversal.ensureDraws E parent trav s = Except.ok (t', s') ∧
      Traversal.NoOrphans t' ∧ t'.data.meta.isSome = true ∧ t'.childs = trav.childs := by
  obtain ⟨t', s', he, _, _, hch, _, hmeta⟩ := Traversal.ensureDraws_ok E parent trav s hm
  refine ⟨t', s', he, ?_, by rw [hmeta]; exact hm, hch⟩
  obtain ⟨d, cs⟩ := trav
  obtain ⟨d', cs'⟩ := t'
  simp only [Traversal.TraverseNode.childs] at hch
  simp only [Traversal.TraverseNode.data] at hmeta
  subst hch
  obtain ⟨h1, h2⟩ := (Traversal.noOrphans_iff d cs').1 hno
  exact (Traversal.noOrphans_iff d' cs').2 ⟨fun hh => h1 (hmeta ▸ hh), h2⟩

theorem Traversal.noOrphans_resolved (d : Traversal.NodeData)
    (cs : List Traversal.TraverseNode) (hm : d.meta.isSome = true)
    (hcs : ∀ c ∈ cs, Traversal.NoOrphans c) : Traversal.NoOrphans (.mk d cs) := by
  refine (Traversal.noOrphans_iff d cs).2 ⟨fun hh => ?_, hcs⟩
  rw [hh] at hm
  cases hm

theorem Traversal.parentResolved_some (d : Traversal.NodeData) (hm : d.meta.isSome = true) :
    Traversal.ParentResolved (some d) := by
  intro p hp
  cases hp
  exact hm

theorem Traversal.travModeFlat_inv (E : Traversal.Env)
    (hmono : E.layer.freeLayerMonolithicGeodata = false) (fuel : Nat)
    (parent : Option Traversal.NodeData) (trav : Traversal.TraverseNode) (s : Traversal.Frame)
    (hp : Traversal.ParentResolved parent) (hno : Traversal.NoOrphans trav) :
    Traversal.travModeFlat E fuel parent trav s
      ≠ some (Except.error Traversal.Failure.assertParentMeta) ∧
    ∀ t' s', Traversal.travModeFlat E fuel parent trav s = some (Except.ok (t', s')) →
      Traversal.NoOrphans t' := by
  induction fuel generalizing parent trav s with
  | zero => exact ⟨by simp [Traversal.travModeFlat], fun t' s' h => by
      simp [Traversal.travModeFlat] at h⟩
  | succ fuel ih =>
    rw [Traversal.travModeFlat]
    rcases hinit : Traversal.travInit E parent trav s with e | ⟨b, t1, s1⟩
    · refine ⟨?_, fun t' s' h => by simp at h⟩
      intro h
      simp only [Option.some.injEq, Except.error.injEq] at h
      subst h
      exact Traversal.travInit_error E parent trav s hmono hp hinit
    · obtain ⟨hno1, hmeta1⟩ := Traversal.travInit_inv E parent trav t1 s s1 b hmono hno hinit
      cases b with
      | false =>
        refine ⟨by simp, fun t' s' h => ?_⟩
        simp only [Option.some.injEq, Except.ok.injEq, Prod.mk.injEq] at h
        rw [← h.1]
        exact hno1
      | true =>
        have hm1 := hmeta1 rfl
        obtain ⟨d1, cs1⟩ := t1
        obtain ⟨_, hcs1⟩ := (Traversal.noOrphans_iff d1 cs1).1 hno1
        simp only
        split_ifs with hvis hleaf
        · refine ⟨by simp, fun t' s' h => ?_⟩
          simp only [Option.some.injEq, Except.ok.injEq, Prod.mk.injEq] at h
          rw [← h.1]
          exact Traversal.noOrphans_resolved _ cs1 hm1 hcs1
        · obtain ⟨t2, s2, he, hno2, _, _⟩ := Traversal.ensureDraws_inv E parent
            (.mk d1 cs1) (Traversal.touchDraws E d1 s1) hm1 hno1
          have he' : Traversal.ensureDraws E parent (.mk d1 cs1)
              (Traversal.touchDraws E (Traversal.TraverseNode.mk d1 cs1).data s1)
                = Except.ok (t2, s2) := he
          rw [he']
          refine ⟨by simp, fun t' s' h => ?_⟩
          simp only [Option.some.injEq, Except.ok.injEq, Prod.mk.injEq] at h
          rw [← h.1]
          exact hno2
        · have hfc := Traversal.forChilds_inv Traversal.NoOrphans
            Traversal.Failure.assertParentMeta
            (fun t s => Traversal.travModeFlat E fuel (some d1) t s)
            (fun c s hc => ih (some d1) c s (Traversal.parentResolved_some d1 hm1) hc)
            cs1 s1 hcs1
          rcases hr : Traversal.forChilds
              (fun t s => Traversal.travModeFlat E fuel (some d1) t s) cs1 s1
            with _ | (e | ⟨cs2, s2⟩)
          · exact ⟨by simp [Traversal.TraverseNode.data, Traversal.TraverseNode.childs, hr],
              fun t' s' h => by
                simp [Traversal.TraverseNode.data, Traversal.TraverseNode.childs, hr] at h⟩
          · refine ⟨?_, fun t' s' h => by
              simp [Traversal.TraverseNode.data, Traversal.TraverseNode.childs, hr] at h⟩
            intro h
            simp only [Traversal.TraverseNode.data, Traversal.TraverseNode.childs, hr,
              Option.some.injEq, Except.error.injEq] at h
            subst h
            exact hfc.1 hr
          · refine ⟨by simp [Traversal.TraverseNode.data, Traversal.TraverseNode.childs, hr],
              fun t' s' h => ?_⟩
            simp only [Traversal.TraverseNode.data, Traversal.TraverseNode.childs, hr,
              Option.some.injEq, Except.ok.injEq, Prod.mk.injEq] at h
            rw [← h.1]
            exact Traversal.noOrphans_resolved _ cs2 hm1 (hfc.2 cs2 s2 hr)

theorem Traversal.travModeFixed_inv (E : Traversal.Env)
    (hmono : E.layer.freeLayerMonolithicGeodata = false) (fuel : Nat)
    (parent : Option Traversal.NodeData) (trav : Traversal.TraverseNode) (s : Traversal.Frame)
    (hp : Traversal.ParentResolved parent) (hno : Traversal.NoOrphans trav) :
    Traversal.travModeFixed E fuel parent trav s
      ≠ some (Except.error Traversal.Failure.assertParentMeta) ∧
    ∀ t' s', Traversal.travModeFixed E fuel parent trav s = some (Except.ok (t', s')) →
      Traversal.NoOrphans t' := by
  induction fuel generalizing parent trav s with
  | zero => exact ⟨by simp [Traversal.travModeFixed], fun t' s' h => by
      simp [Traversal.travModeFixed] at h⟩
  | succ fuel ih =>
    rw [Traversal.travModeFixed]
    rcases hinit : Traversal.travInit E parent trav s with e | ⟨b, t1, s1⟩
    · refine ⟨?_, fun t' s' h => by simp at h⟩
      intro h
      simp only [Option.some.injEq, Except.error.injEq] at h
      subst h
      exact Traversal.travInit_error E parent trav s hmono hp hinit
    · obtain ⟨hno1, hmeta1⟩ := Traversal.travInit_inv E parent trav t1 s s1 b hmono hno hinit
      cases b with
      | false =>
        refine ⟨by simp, fun t' s' h => ?_⟩
        simp only [Option.some.injEq, Except.ok.injEq, Prod.mk.injEq] at h
        rw [← h.1]
        exact hno1
      | true =>
        have hm1 := hmeta1 rfl
        obtain ⟨d1, cs1⟩ := t1
        obtain ⟨_, hcs1⟩ := (Traversal.noOrphans_iff d1 cs1).1 hno1
        simp only
        split_ifs with hdist hleaf
        · refine ⟨by simp, fun t' s' h => ?_⟩
          simp only [Option.some.injEq, Except.ok.injEq, Prod.mk.injEq] at h
          rw [← h.1]
          exact Traversal.noOrphans_resolved _ cs1 hm1 hcs1
        · obtain ⟨t2, s2, he, hno2, _, _⟩ := Traversal.ensureDraws_inv E parent
            (.mk d1 cs1) (Traversal.touchDraws E d1 s1) hm1 hno1
          have he' : Traversal.ensureDraws E parent (.mk d1 cs1)
              (Traversal.touchDraws E (Traversal.TraverseNode.mk d1 cs1).data s1)
                = Except.ok (t2, s2) := he
          rw [he']
          refine ⟨by simp, fun t' s' h => ?_⟩
          simp only [Option.some.injEq, Except.ok.injEq, Prod.mk.injEq] at h
          rw [← h.1]
          exact hno2
        · have hfc := Traversal.forChilds_inv Traversal.NoOrphans
            Traversal.Failure.assertParentMeta
            (fun t s => Traversal.travModeFixed E fuel (some d1) t s)
            (fun c s hc => ih (some d1) c s (Traversal.parentResolved_some d1 hm1) hc)
            cs1 s1 hcs1
          rcases hr : Traversal.forChilds
              (fun t s => Traversal.travModeFixed E fuel (some d1) t s) cs1 s1
            with _ | (e | ⟨cs2, s2⟩)
          · exact ⟨by simp [Traversal.TraverseNode.data, Traversal.TraverseNode.childs, hr],
              fun t' s' h => by
                simp [Traversal.TraverseNode.data, Traversal.TraverseNode.childs, hr] at h⟩
          · refine ⟨?_, fun t' s' h => by
              simp [Traversal.TraverseNode.data, Traversal.TraverseNode.childs, hr] at h⟩
            intro h
            simp only [Traversal.TraverseNode.data, Traversal.TraverseNode.childs, hr,
              Option.some.injEq, Except.error.injEq] at h
            subst h
            exact hfc.1 hr
          · refine ⟨by simp [Traversal.TraverseNode.data, Traversal.TraverseNode.childs, hr],
              fun t' s' h => ?_⟩
            simp only [Traversal.TraverseNode.data, Traversal.TraverseNode.childs, hr,
              Option.some.injEq, Except.ok.injEq, Prod.mk.injEq] at h
            rw [← h.1]
            exact Traversal.noOrphans_resolved _ cs2 hm1 (hfc.2 cs2 s2 hr)

theorem Traversal.travModeHierarchical_inv (E : Traversal.Env)
    (hmono : E.layer.freeLayerMonolithicGeodata = false) (fuel : Nat)
    (parent : Option Traversal.NodeData) (trav : Traversal.TraverseNode) (loadOnly : Bool)
    (s : Traversal.Frame)
    (hp : Traversal.ParentResolved parent) (hno : Traversal.NoOrphans trav) :
    Traversal.travModeHierarchical E fuel parent trav loadOnly s
      ≠ some (Except.error Traversal.Failure.assertParentMeta) ∧
    ∀ t' s', Traversal.travModeHierarchical E fuel parent trav loadOnly s
        = some (Except.ok (t', s')) →
      Traversal.NoOrphans t' := by
  induction fuel generalizing parent trav loadOnly s with
  | zero => exact ⟨by simp [Traversal.travModeHierarchical], fun t' s' h => by
      simp [Traversal.travModeHierarchical] at h⟩
  | succ fuel ih =>
    rw [Traversal.travModeHierarchical]
    rcases hinit : Traversal.travInit E parent trav s with e | ⟨b, t1, s1⟩
    · refine ⟨?_, fun t' s' h => by simp at h⟩
      intro h
      simp only [Option.some.injEq, Except.error.injEq] at h
      subst h
      exact Traversal.travInit_error E parent trav s hmono hp hinit
    · obtain ⟨hno1, hmeta1⟩ := Traversal.travInit_inv E parent trav t1 s s1 b hmono hno hinit
      cases b with
      | false =>
        refine ⟨by simp, fun t' s' h => ?_⟩
        simp only [Option.some.injEq, Except.ok.injEq, Prod.mk.injEq] at h
        rw [← h.1]
        exact hno1
      | true =>
        have hm1 := hmeta1 rfl
        obtain ⟨t2, s2, he, hno2, hm2, _⟩ := Traversal.ensureDraws_inv E parent
          t1 (Traversal.touchDraws E t1.data s1) hm1 hno1
        simp only [he]
        obtain ⟨d2, cs2⟩ := t2
        obtain ⟨_, hcs2⟩ := (Traversal.noOrphans_iff d2 cs2).1 hno2
        have hfc := Traversal.forChilds_inv Traversal.NoOrphans
          Traversal.Failure.assertParentMeta
          (fun t s => Traversal.travModeHierarchical E fuel (some d2) t
            (!Traversal.childsOk cs2 true) s)
          (fun c s hc => ih (some d2) c _ s (Traversal.parentResolved_some d2 hm2) hc)
          cs2 s2 hcs2
        split_ifs
        all_goals first
          | (refine ⟨by simp, fun t' s' h => ?_⟩
             simp only [Option.some.injEq, Except.ok.injEq, Prod.mk.injEq] at h
             rw [← h.1]
             exact hno2)
          | (rcases hr : Traversal.forChilds
                (fun t s => Traversal.travModeHierarchical E fuel (some d2) t
                  (!Traversal.childsOk cs2 true) s) cs2 s2
              with _ | (e | ⟨cs3, s3⟩)
             · exact ⟨by simp [Traversal.TraverseNode.data, Traversal.TraverseNode.childs, hr],
                 fun t' s' h => by
                   simp [Traversal.TraverseNode.data, Traversal.TraverseNode.childs, hr] at h⟩
             · refine ⟨?_, fun t' s' h => by
                 simp [Traversal.TraverseNode.data, Traversal.TraverseNode.childs, hr] at h⟩
               intro h
               simp only [Traversal.TraverseNode.data, Traversal.TraverseNode.childs, hr,
                 Option.some.injEq, Except.error.injEq] at h
               subst h
               exact hfc.1 hr
             · refine ⟨by simp [Traversal.TraverseNode.data, Traversal.TraverseNode.childs, hr],
                 fun t' s' h => ?_⟩
               simp only [Traversal.TraverseNode.data, Traversal.TraverseNode.childs, hr,
                 Option.some.injEq, Except.ok.injEq, Prod.mk.injEq] at h
               rw [← h.1]
               exact Traversal.noOrphans_resolved _ cs3 hm2 (hfc.2 cs3 s3 hr))

theorem Traversal.noOrphans_setData (trav : Traversal.TraverseNode) (d : Traversal.NodeData)
    (hm : d.meta = trav.data.meta) (hno : Traversal.NoOrphans trav) :
    Traversal.NoOrphans (trav.setData d) := by
  obtain ⟨d0, cs⟩ := trav
  obtain ⟨h1, h2⟩ := (Traversal.noOrphans_iff d0 cs).1 hno
  exact (Traversal.noOrphans_iff d cs).2 ⟨fun hh => h1 (hm ▸ hh), h2⟩

theorem Traversal.balancedInit_inv (E : Traversal.Env)
    (hmono : E.layer.freeLayerMonolithicGeodata = false)
    (parent : Option Traversal.NodeData) (trav : Traversal.TraverseNode) (renderOnly : Bool)
    (s : Traversal.Frame)
    (hp : renderOnly = false → Traversal.ParentResolved parent)
    (hno : Traversal.NoOrphans trav) :
    Traversal.balancedInit E parent trav renderOnly s
      ≠ Except.error Traversal.Failure.assertParentMeta ∧
    ∀ b t' s', Traversal.balancedInit E parent trav renderOnly s = Except.ok (b, t', s') →
      Traversal.NoOrphans t' ∧ (b = true → t'.data.meta.isSome = true) := by
  unfold Traversal.balancedInit
  cases renderOnly with
  | true =>
    simp only [if_true]
    refine ⟨by simp, fun b t' s' h => ?_⟩
    simp only [Except.ok.injEq, Prod.mk.injEq] at h
    obtain ⟨hb, ht, _⟩ := h
    subst ht
    exact ⟨Traversal.noOrphans_setData trav _ rfl hno, fun hb' => hb.trans hb'⟩
  | false =>
    simp only [Bool.false_eq_true, if_false]
    refine ⟨Traversal.travInit_error E parent trav s hmono (hp rfl), fun b t' s' h => ?_⟩
    exact Traversal.travInit_inv E parent trav t' s s' b hmono hno h

theorem Traversal.balancedDraws_inv (E : Traversal.Env)
    (parent : Option Traversal.NodeData) (trav : Traversal.TraverseNode) (renderOnly : Bool)
    (s : Traversal.Frame) (hm : trav.data.meta.isSome = true)
    (hno : Traversal.NoOrphans trav) :
    ∃ r t' s', Traversal.balancedDraws E parent trav renderOnly s = Except.ok (r, t', s') ∧
      Traversal.NoOrphans t' ∧ t'.data.meta.isSome = true := by
  unfold Traversal.balancedDraws
  split_ifs
  · obtain ⟨t2, s2, he, hno2, hm2, _⟩ :=
      Traversal.ensureDraws_inv E parent trav (Traversal.touchDraws E trav.data s) hm hno
    rw [he]
    exact ⟨true, t2, s2, rfl, hno2, hm2⟩
  · exact ⟨renderOnly, trav, s, rfl, hno, hm⟩

theorem Traversal.travModeBalanced_inv (E : Traversal.Env)
    (rn : List Traversal.NodeData → Traversal.TraverseNode → Traversal.Frame → Traversal.Frame)
    (hmono : E.layer.freeLayerMonolithicGeodata = false) (fuel : Nat)
    (ancestors : List Traversal.NodeData) (trav : Traversal.TraverseNode) (renderOnly : Bool)
    (s : Traversal.Frame)
    (hp : renderOnly = false → Traversal.ParentResolved ancestors.head?)
    (hno : Traversal.NoOrphans trav) :
    Traversal.travModeBalanced E rn fuel ancestors trav renderOnly s
      ≠ some (Except.error Traversal.Failure.assertParentMeta) ∧
    ∀ t' s', Traversal.travModeBalanced E rn fuel ancestors trav renderOnly s
        = some (Except.ok (t', s')) → Traversal.NoOrphans t' := by
  induction fuel generalizing ancestors trav renderOnly s with
  | zero => exact ⟨by simp [Traversal.travModeBalanced], fun t' s' h => by
      simp [Traversal.travModeBalanced] at h⟩
  | succ fuel ih =>
    rw [Traversal.travModeBalanced]
    obtain ⟨hne, hok⟩ := Traversal.balancedInit_inv E hmono ancestors.head? trav renderOnly s hp hno
    rcases hinit : Traversal.balancedInit E ancestors.head? trav renderOnly s
      with e | ⟨b, t1, s1⟩
    · refine ⟨?_, fun t' s' h => by simp at h⟩
      intro h
      simp only [Option.some.injEq, Except.error.injEq] at h
      subst h
      exact hne hinit
    · obtain ⟨hno1, hmeta1⟩ := hok b t1 s1 hinit
      cases b with
      | false =>
        refine ⟨by simp, fun t' s' h => ?_⟩
        simp only [Option.some.injEq, Except.ok.injEq, Prod.mk.injEq] at h
        rw [← h.1]
        exact hno1
      | true =>
        have hm1 := hmeta1 rfl
        simp only
        split_ifs with hvis
        · refine ⟨by simp, fun t' s' h => ?_⟩
          simp only [Option.some.injEq, Except.ok.injEq, Prod.mk.injEq] at h
          rw [← h.1]
          exact Traversal.noOrphans_setData t1 _ rfl hno1
        · obtain ⟨r, t2, s2, hd, hno2, hm2⟩ :=
            Traversal.balancedDraws_inv E ancestors.head? t1 renderOnly s1 hm1 hno1
          rw [hd]
          simp only
          obtain ⟨d2, cs2⟩ := t2
          obtain ⟨_, hcs2⟩ := (Traversal.noOrphans_iff d2 cs2).1 hno2
          split_ifs with hrender hleaf
          · refine ⟨by simp, fun t' s' h => ?_⟩
            simp only [Option.some.injEq, Except.ok.injEq, Prod.mk.injEq] at h
            rw [← h.1]
            exact hno2
          · refine ⟨by simp, fun t' s' h => ?_⟩
            simp only [Option.some.injEq, Except.ok.injEq, Prod.mk.injEq] at h
            rw [← h.1]
            exact Traversal.noOrphans_setData _ _ rfl hno2
          · have hfc := Traversal.forChilds_inv Traversal.NoOrphans
              Traversal.Failure.assertParentMeta
              (fun t s => Traversal.travModeBalanced E rn fuel (d2 :: ancestors) t r s)
              (fun c s hc => ih (d2 :: ancestors) c r s
                (fun _ => Traversal.parentResolved_some d2 hm2) hc)
              cs2 s2 hcs2
            rcases hr : Traversal.forChilds
                (fun t s => Traversal.travModeBalanced E rn fuel (d2 :: ancestors) t r s) cs2 s2
              with _ | (e | ⟨cs3, s3⟩)
            · exact ⟨by simp [Traversal.TraverseNode.data, Traversal.TraverseNode.childs, hr],
                fun t' s' h => by
                  simp [Traversal.TraverseNode.data, Traversal.TraverseNode.childs, hr] at h⟩
            · refine ⟨?_, fun t' s' h => by
                simp [Traversal.TraverseNode.data, Traversal.TraverseNode.childs, hr] at h⟩
              intro h
              simp only [Traversal.TraverseNode.data, Traversal.TraverseNode.childs, hr,
                Option.some.injEq, Except.error.injEq] at h
              subst h
              exact hfc.1 hr
            · refine ⟨by simp [Traversal.TraverseNode.data, Traversal.TraverseNode.childs, hr],
                fun t' s' h => ?_⟩
              simp only [Traversal.TraverseNode.data, Traversal.TraverseNode.childs, hr,
                Option.some.injEq, Except.ok.injEq, Prod.mk.injEq] at h
              rw [← h.1]
              exact Traversal.noOrphans_resolved _ cs3 hm2 (hfc.2 cs3 s3 hr)

theorem Traversal.traverseClearing_noOrphans (T : Nat) (t : Traversal.TraverseNode)
    (h : Traversal.NoOrphans t) : Traversal.NoOrphans (Traversal.traverseClearing T t) := by
  intro n hn hm
  obtain ⟨m, hmt, hnm⟩ := Traversal.traverseClearing_inTree T t n hn
  cases hst : Traversal.stale T m with
  | true =>
    rw [Traversal.traverseClearing_stale T m hst] at hnm
    rw [hnm]
    rfl
  | false =>
    rw [Traversal.traverseClearing_fresh T m hst] at hnm
    subst hnm
    have : m.childs = [] := h m hmt hm
    show m.childs.map (Traversal.traverseClearing T) = []
    rw [this]
    rfl

theorem Traversal.parentResolved_none : Traversal.ParentResolved none := by
  intro p hp
  cases hp

theorem Traversal.reachable_noOrphans (t : Traversal.TraverseNode)
    (h : Traversal.Reachable t) : Traversal.NoOrphans t := by
  induction h with
  | root E ni => exact Traversal.noOrphans_leaf _
  | hierarchical E fuel t t' s s' hmono _ hrun ih =>
    exact (Traversal.travModeHierarchical_inv E hmono fuel none t false s
      Traversal.parentResolved_none ih).2 t' s' hrun
  | flat E fuel t t' s s' hmono _ hrun ih =>
    exact (Traversal.travModeFlat_inv E hmono fuel none t s
      Traversal.parentResolved_none ih).2 t' s' hrun
  | fixed E fuel t t' s s' hmono _ hrun ih =>
    exact (Traversal.travModeFixed_inv E hmono fuel none t s
      Traversal.parentResolved_none ih).2 t' s' hrun
  | balanced E rn fuel t t' s s' hmono _ hrun ih =>
    exact (Traversal.travModeBalanced_inv E rn hmono fuel [] t false s
      (fun _ => Traversal.parentResolved_none) ih).2 t' s' hrun
  | clearing T t _ ih => exact Traversal.traverseClearing_noOrphans T t ih

/-- C14: in every tree reachable from a fresh root by frames of `travModeHierarchical`,
`travModeFlat`, `travModeBalanced` or `travModeFixed` (tiled layers) and by clearing passes,
every node below the root whose meta is set has a parent whose meta is set (indeed every node
without meta has no children), and in a frame run on such a tree
`assert(!trav->parent || trav->parent->meta)` never fails.  `travDetermineMeta` fails with that assertion only for a parent without meta,
creates children only when it stores the meta, and creates them without meta and children;
the clearing pass keeps the invariant, dropping meta together with the children. -/
theorem traverse_keeps_parent_meta :
    (∀ t, Traversal.Reachable t → Traversal.ParentMeta t ∧ Traversal.NoOrphans t) ∧
    (∀ t, Traversal.Reachable t → ∀ (E : Traversal.Env) (fuel : Nat) (s : Traversal.Frame),
      E.layer.freeLayerMonolithicGeodata = false →
      Traversal.travModeHierarchical E fuel none t false s
        ≠ some (Except.error Traversal.Failure.assertParentMeta) ∧
      Traversal.travModeFlat E fuel none t s
        ≠ some (Except.error Traversal.Failure.assertParentMeta) ∧
      Traversal.travModeFixed E fuel none t s
        ≠ some (Except.error Traversal.Failure.assertParentMeta) ∧
      ∀ rn : List Traversal.NodeData → Traversal.TraverseNode → Traversal.Frame →
          Traversal.Frame,
        Traversal.travModeBalanced E rn fuel [] t false s
          ≠ some (Except.error Traversal.Failure.assertParentMeta)) ∧
    (∀ (E : Traversal.Env) (parent : Option Traversal.NodeData) (trav : Traversal.TraverseNode)
        (s : Traversal.Frame), E.layer.freeLayerMonolithicGeodata = false →
      Traversal.travDetermineMeta E parent trav s
        = Except.error Traversal.Failure.assertParentMeta →
      ∃ p, parent = some p ∧ p.meta = none) ∧
    (∀ (E : Traversal.Env) (parent : Option Traversal.NodeData)
        (trav t' : Traversal.TraverseNode) (s s' : Traversal.Frame) (b : Bool),
      E.layer.freeLayerMonolithicGeodata = false →
      Traversal.travDetermineMeta E parent trav s = Except.ok (b, t', s') →
      (b = true → t'.data.meta.isSome = true) ∧ (b = false → t' = trav) ∧
      (∀ c ∈ t'.childs, c.data.meta = none ∧ c.childs = [])) ∧
    (∀ (T : Nat) (t : Traversal.TraverseNode), Traversal.NoOrphans t →
      Traversal.NoOrphans (Traversal.traverseClearing T t) ∧
      Traversal.ParentMeta (Traversal.traverseClearing T t)) := by
  refine ⟨fun t h => ?_, fun t h E fuel s hmono => ?_, fun E parent trav s hmono h => ?_,
    fun E parent trav t' s s' b hmono h => ?_, fun T t h => ?_⟩
  · have := Traversal.reachable_noOrphans t h
    exact ⟨Traversal.noOrphans_parentMeta t this, this⟩
  · have hno := Traversal.reachable_noOrphans t h
    exact ⟨(Traversal.travModeHierarchical_inv E hmono fuel none t false s
        Traversal.parentResolved_none hno).1,
      (Traversal.travModeFlat_inv E hmono fuel none t s Traversal.parentResolved_none hno).1,
      (Traversal.travModeFixed_inv E hmono fuel none t s Traversal.parentResolved_none hno).1,
      fun rn => (Traversal.travModeBalanced_inv E rn hmono fuel [] t false s
        (fun _ => Traversal.parentResolved_none) hno).1⟩
  · exact Traversal.travDetermineMeta_error E parent trav s hmono h
  · obtain ⟨_, h2, h3, h4⟩ := Traversal.travDetermineMeta_inv E parent trav t' s s' b hmono h
    exact ⟨h2, h3, h4⟩
  · have := Traversal.traverseClearing_noOrphans T t h
    exact ⟨this, Traversal.noOrphans_parentMeta _ this⟩

theorem traverse_keeps_parent_meta_witness :
    Traversal.Reachable (Traversal.traverseClearing 100 sampleFixedOut.1) ∧
    Traversal.ParentMeta (Traversal.traverseClearing 100 sampleFixedOut.1) ∧
    Traversal.ParentMeta sampleFixedOut.1 ∧ sampleFixedOut.1.childs.length = 4 ∧
    Traversal.travModeFixed sampleTEnvFixed 2 none sampleFixedOut.1 sampleTFrame
      ≠ some (Except.error Traversal.Failure.assertParentMeta) ∧
    Traversal.travModeBalanced sampleTEnvCoarse (fun _ _ s => s) 1 [] sampleRoot false
        sampleTFrame = some (Except.ok (sampleBalancedOut.1, sampleBalancedOut.2)) ∧
    sampleBalancedOut.1.childs.length = 4 ∧ Traversal.ParentMeta sampleBalancedOut.1 :=
  have h : Traversal.travModeFixed sampleTEnvFixed 2 none sampleRoot sampleTFrame
      = some (Except.ok (sampleFixedOut.1, sampleFixedOut.2)) :=
    Traversal.eq_of_finished _ sampleRoot sampleTFrame (by decide)
  have hr : Traversal.Reachable sampleFixedOut.1 :=
    Traversal.Reachable.fixed sampleTEnvFixed 2 sampleRoot sampleFixedOut.1 sampleTFrame
      sampleFixedOut.2 rfl (Traversal.Reachable.root sampleTEnv _) h
  have hb : Traversal.travModeBalanced sampleTEnvCoarse (fun _ _ s => s) 1 [] sampleRoot false
      sampleTFrame = some (Except.ok (sampleBalancedOut.1, sampleBalancedOut.2)) :=
    Traversal.eq_of_finished _ sampleRoot sampleTFrame (by decide)
  have hrb : Traversal.Reachable sampleBalancedOut.1 :=
    Traversal.Reachable.balanced sampleTEnvCoarse (fun _ _ s => s) 1 sampleRoot
      sampleBalancedOut.1 sampleTFrame sampleBalancedOut.2 rfl
      (Traversal.Reachable.root sampleTEnv _) hb
  ⟨Traversal.Reachable.clearing 100 _ hr,
   (traverse_keeps_parent_meta.1 _ (Traversal.Reachable.clearing 100 _ hr)).1,
   (traverse_keeps_parent_meta.1 _ hr).1, by decide,
   ((traverse_keeps_parent_meta.2.1 _ hr) sampleTEnvFixed 2 sampleTFrame rfl).2.2.1,
   hb, by decide, (traverse_keeps_parent_meta.1 _ hrb).1⟩


/-! ### The box of a node in the tree -/

theorem Traversal.boxOk_same (d d' : Traversal.NodeData) (hs : Traversal.SameBox d d')
    (h : Traversal.BoxOk d) : Traversal.BoxOk d' := by
  obtain ⟨h1, h2, h3, h4⟩ := hs
  unfold Traversal.BoxOk
  rw [h1, h2, h3, h4]
  exact h

theorem Traversal.sameBox_trans (a b c : Traversal.NodeData) (h1 : Traversal.SameBox a b)
    (h2 : Traversal.SameBox b c) : Traversal.SameBox a c :=
  ⟨h2.1.trans h1.1, h2.2.1.trans h1.2.1, h2.2.2.1.trans h1.2.2.1, h2.2.2.2.trans h1.2.2.2⟩

theorem Traversal.allBoxOk_iff (d : Traversal.NodeData) (cs : List Traversal.TraverseNode) :
    Traversal.AllBoxOk (.mk d cs) ↔ Traversal.BoxOk d ∧ ∀ c ∈ cs, Traversal.AllBoxOk c := by
  constructor
  · intro h
    refine ⟨h _ (Traversal.InTree.self _), fun c hc n hn => ?_⟩
    exact h n (Traversal.InTree.child n c _ hc hn)
  · rintro ⟨h1, h2⟩ n hn
    cases hn with
    | self => exact h1
    | child c _ hc hn' => exact h2 c hc n hn'

theorem Traversal.allBoxOk_same (t t' : Traversal.TraverseNode) (hc : t'.childs = t.childs)
    (hs : Traversal.SameBox t.data t'.data) (h : Traversal.AllBoxOk t) :
    Traversal.AllBoxOk t' := by
  obtain ⟨d, cs⟩ := t
  obtain ⟨d', cs'⟩ := t'
  simp only [Traversal.TraverseNode.childs] at hc
  subst hc
  obtain ⟨h1, h2⟩ := (Traversal.allBoxOk_iff d cs').1 h
  exact (Traversal.allBoxOk_iff d' cs').2 ⟨Traversal.boxOk_same d d' hs h1, h2⟩

theorem Traversal.updateNodePriority_same (E : Traversal.Env)
    (parent : Option Traversal.NodeData) (d : Traversal.NodeData) :
    Traversal.SameBox d (Traversal.updateNodePriority E parent d) := by
  have hk := Traversal.updateNodePriority_keeps E parent d
  exact ⟨hk.2.2.2.1, hk.2.2.2.2.2.2.2.2.1, Traversal.updateNodePriority_corners E parent d,
    hk.2.2.1⟩

theorem Traversal.initData_same (E : Traversal.Env) (parent : Option Traversal.NodeData)
    (d : Traversal.NodeData) : Traversal.SameBox d (Traversal.initData E parent d) := by
  unfold Traversal.initData
  exact Traversal.sameBox_trans d { d with lastAccessTime := E.tickIndex } _
    ⟨rfl, rfl, rfl, rfl⟩ (Traversal.updateNodePriority_same E parent _)

theorem Traversal.travDetermineDrawsSurface_corners (E : Traversal.Env)
    (trav t' : Traversal.TraverseNode) (s s' : Traversal.Frame) (b : Bool)
    (h : Traversal.travDetermineDrawsSurface E trav s = Except.ok (b, t', s')) :
    t'.data.cornersPhys = trav.data.cornersPhys := by
  unfold Traversal.travDetermineDrawsSurface at h
  dsimp only at h
  repeat' first
    | (cases h; done)
    | (simp only [Except.ok.injEq, Prod.mk.injEq] at h
       obtain ⟨_, ht, _⟩ := h
       subst ht
       first
         | rfl
         | (simp only [Traversal.TraverseNode.setData, Traversal.TraverseNode.data,
              Traversal.TraverseNode.childs]
            split_ifs
            all_goals rfl))
    | split at h

theorem Traversal.travDetermineDrawsGeodata_corners (E : Traversal.Env)
    (trav t' : Traversal.TraverseNode) (s s' : Traversal.Frame) (b : Bool)
    (h : Traversal.travDetermineDrawsGeodata E trav s = Except.ok (b, t', s')) :
    t'.data.cornersPhys = trav.data.cornersPhys := by
  unfold Traversal.travDetermineDrawsGeodata at h
  dsimp only at h
  repeat' first
    | (cases h; done)
    | (simp only [Except.ok.injEq, Prod.mk.injEq] at h
       obtain ⟨_, ht, _⟩ := h
       subst ht
       first
         | rfl
         | (simp only [Traversal.TraverseNode.setData, Traversal.TraverseNode.data,
              Traversal.TraverseNode.childs]
            split_ifs
            all_goals rfl))
    | split at h

theorem Traversal.ensureDraws_same (E : Traversal.Env) (parent : Option Traversal.NodeData)
    (trav t' : Traversal.TraverseNode) (s s' : Traversal.Frame)
    (h : Traversal.ensureDraws E parent trav s = Except.ok (t', s')) :
    t'.childs = trav.childs ∧ Traversal.SameBox trav.data t'.data := by
  obtain ⟨hch, hbox, hni, hmeta, _⟩ := Traversal.ensureDraws_shape E parent trav t' s s' h
  refine ⟨hch, hni, hbox, ?_, hmeta⟩
  unfold Traversal.ensureDraws at h
  split_ifs at h
  · rcases hd : Traversal.travDetermineDraws E parent trav s with e | ⟨b, t1, s1⟩
    · rw [hd] at h
      cases h
    · rw [hd] at h
      simp only [Except.ok.injEq, Prod.mk.injEq] at h
      obtain ⟨ht, _⟩ := h
      subst ht
      unfold Traversal.travDetermineDraws at hd
      dsimp only at hd
      have hk := Traversal.updateNodePriority_corners E parent trav.data
      split_ifs at hd
      · exact (Traversal.travDetermineDrawsGeodata_corners E _ t1 _ s1 b hd).trans hk
      · exact (Traversal.travDetermineDrawsSurface_corners E _ t1 _ s1 b hd).trans hk
  · simp only [Except.ok.injEq, Prod.mk.injEq] at h
    rw [← h.1]

theorem Traversal.travDetermineMeta_allBoxOk (E : Traversal.Env)
    (parent : Option Traversal.NodeData) (trav t' : Traversal.TraverseNode)
    (s s' : Traversal.Frame) (b : Bool) (hmono : E.layer.freeLayerMonolithicGeodata = false)
    (hok : Traversal.AllBoxOk trav)
    (h : Traversal.travDetermineMeta E parent trav s = Except.ok (b, t', s')) :
    Traversal.AllBoxOk t' := by
  cases b with
  | false =>
    rw [(Traversal.travDetermineMeta_false E parent trav t' s s' hmono h).1]
    exact hok
  | true =>
    have hroot := hok trav (Traversal.InTree.self trav)
    obtain ⟨h1, h3⟩ := Traversal.travDetermineMeta_box E parent trav t' s s' hmono h
    obtain ⟨metaTiles, req, a, node, d1, _, _, _, himpl, hdata, hchilds, _, hnil⟩ :=
      Traversal.travDetermineMeta_true E parent trav t' s s' hmono h
    obtain ⟨_, _, _, hni1, _⟩ := Traversal.travDetermineMetaImpl_keeps E _ d1 himpl
    have hni : t'.data.nodeInfo = trav.data.nodeInfo := by
      rw [hdata, (Traversal.updateNodePriority_keeps E parent _).2.2.2.1]
      cases a.topmost
      · exact hni1
      · exact hni1
    have hinit : t'.data.nodeInfo.distanceFromRoot ≤ 2 → t'.data.aabbPhys = NodeBox.init := by
      intro hd
      rw [hni] at hd
      rw [h3 hd]
      exact hroot.1 hd
    have hdata' : Traversal.BoxOk t'.data := by
      refine ⟨hinit, fun _ i => ?_⟩
      rcases Nat.lt_or_ge 2 trav.data.nodeInfo.distanceFromRoot with hd | hd
      · exact h1 hd i
      · rw [hinit (by rw [hni]; exact hd)]
        exact trivial
    obtain ⟨d, cs⟩ := t'
    refine (Traversal.allBoxOk_iff d cs).2 ⟨hdata', fun c hc => ?_⟩
    have hc' : c ∈ (Traversal.TraverseNode.mk d cs).childs := hc
    rw [hchilds, hnil, List.nil_append, List.mem_filterMap] at hc'
    obtain ⟨i, _, hi⟩ := hc'
    split_ifs at hi
    simp only [Option.some.injEq] at hi
    subst hi
    refine (Traversal.allBoxOk_iff _ []).2 ⟨⟨fun _ => rfl, fun hm => ?_⟩, fun c hc => ?_⟩
    · cases hm
    · cases hc

theorem Traversal.travInit_allBoxOk (E : Traversal.Env)
    (parent : Option Traversal.NodeData) (trav t' : Traversal.TraverseNode)
    (s s' : Traversal.Frame) (b : Bool) (hmono : E.layer.freeLayerMonolithicGeodata = false)
    (hok : Traversal.AllBoxOk trav)
    (h : Traversal.travInit E parent trav s = Except.ok (b, t', s')) :
    Traversal.AllBoxOk t' := by
  have h0 : Traversal.AllBoxOk (trav.setData (Traversal.initData E parent trav.data)) :=
    Traversal.allBoxOk_same trav _ (by cases trav; rfl)
      (by cases trav; exact Traversal.initData_same E parent _) hok
  unfold Traversal.travInit at h
  dsimp only at h
  split_ifs at h
  · exact Traversal.travDetermineMeta_allBoxOk E parent _ t' _ s' b hmono h0 h
  · simp only [Except.ok.injEq, Prod.mk.injEq] at h
    rw [← h.2.1]
    exact h0

theorem Traversal.forChilds_pres (P : Traversal.TraverseNode → Prop)
    (f : Traversal.TraverseNode → Traversal.Frame →
      Option (Except Traversal.Failure (Traversal.TraverseNode × Traversal.Frame)))
    (hf : ∀ c s c' s', P c → f c s = some (Except.ok (c', s')) → P c')
    (l l' : List Traversal.TraverseNode) (s s' : Traversal.Frame) (hl : ∀ c ∈ l, P c)
    (h : Traversal.forChilds f l s = some (Except.ok (l', s'))) : ∀ c' ∈ l', P c' := by
  induction l generalizing s l' with
  | nil =>
    simp only [Traversal.forChilds, Option.some.injEq, Except.ok.injEq, Prod.mk.injEq] at h
    rw [← h.1]
    intro c' hc'
    cases hc'
  | cons t rest ih =>
    rw [Traversal.forChilds] at h
    rcases hft : f t s with _ | (e | ⟨t1, s1⟩)
    · rw [hft] at h; cases h
    · rw [hft] at h; cases h
    · rw [hft] at h
      simp only at h
      rcases hrest : Traversal.forChilds f rest s1 with _ | (e | ⟨r1, s2⟩)
      · rw [hrest] at h; cases h
      · rw [hrest] at h; cases h
      · rw [hrest] at h
        simp only [Option.some.injEq, Except.ok.injEq, Prod.mk.injEq] at h
        obtain ⟨hl', hs⟩ := h
        subst hl'
        subst hs
        intro c' hc'
        rcases List.mem_cons.1 hc' with hc | hc
        · rw [hc]
          exact hf t s t1 s1 (hl t (List.mem_cons_self _ _)) hft
        · exact ih r1 s1 (fun c hc => hl c (List.mem_cons_of_mem _ hc)) hrest c' hc

theorem Traversal.allBoxOk_clearRenders (d : Traversal.NodeData)
    (cs cs' : List Traversal.TraverseNode) (h : Traversal.AllBoxOk (.mk d cs))
    (hcs : ∀ c ∈ cs', Traversal.AllBoxOk c) :
    Traversal.AllBoxOk (.mk d.clearRenders cs') :=
  (Traversal.allBoxOk_iff _ cs').2
    ⟨Traversal.boxOk_same d _ ⟨rfl, rfl, rfl, rfl⟩ ((Traversal.allBoxOk_iff d cs).1 h).1, hcs⟩

theorem Traversal.allBoxOk_setData (t : Traversal.TraverseNode) (d : Traversal.NodeData)
    (hs : Traversal.SameBox t.data d) (h : Traversal.AllBoxOk t) :
    Traversal.AllBoxOk (t.setData d) := by
  obtain ⟨d0, cs⟩ := t
  exact Traversal.allBoxOk_same (.mk d0 cs) _ rfl hs h

theorem Traversal.allBoxOk_childs (t : Traversal.TraverseNode) (h : Traversal.AllBoxOk t) :
    ∀ c ∈ t.childs, Traversal.AllBoxOk c := by
  obtain ⟨d, cs⟩ := t
  exact ((Traversal.allBoxOk_iff d cs).1 h).2

theorem Traversal.allBoxOk_mk (t : Traversal.TraverseNode) (d : Traversal.NodeData)
    (cs : List Traversal.TraverseNode) (hs : Traversal.SameBox t.data d)
    (h : Traversal.AllBoxOk t) (hcs : ∀ c ∈ cs, Traversal.AllBoxOk c) :
    Traversal.AllBoxOk (.mk d cs) :=
  (Traversal.allBoxOk_iff d cs).2
    ⟨Traversal.boxOk_same _ d hs (h t (Traversal.InTree.self t)), hcs⟩

theorem Traversal.travModeFlat_allBoxOk (E : Traversal.Env)
    (hmono : E.layer.freeLayerMonolithicGeodata = false) (fuel : Nat)
    (parent : Option Traversal.NodeData) (trav t' : Traversal.TraverseNode)
    (s s' : Traversal.Frame) (hok : Traversal.AllBoxOk trav)
    (h : Traversal.travModeFlat E fuel parent trav s = some (Except.ok (t', s'))) :
    Traversal.AllBoxOk t' := by
  induction fuel generalizing parent trav t' s s' with
  | zero => simp [Traversal.travModeFlat] at h
  | succ fuel ih =>
    rw [Traversal.travModeFlat] at h
    rcases hinit : Traversal.travInit E parent trav s with e | ⟨b, t1, s1⟩
    · rw [hinit] at h; cases h
    · rw [hinit] at h
      have hok1 := Traversal.travInit_allBoxOk E parent trav t1 s s1 b hmono hok hinit
      cases b with
      | false =>
        simp only [Option.some.injEq, Except.ok.injEq, Prod.mk.injEq] at h
        rw [← h.1]
        exact hok1
      | true =>
        simp only at h
        split_ifs at h with hvis hleaf
        · simp only [Option.some.injEq, Except.ok.injEq, Prod.mk.injEq] at h
          rw [← h.1]
          exact Traversal.allBoxOk_setData t1 _ ⟨rfl, rfl, rfl, rfl⟩ hok1
        · rcases hens : Traversal.ensureDraws E parent t1 (Traversal.touchDraws E t1.data s1)
            with e | ⟨t2, s2⟩
          · rw [hens] at h; cases h
          · rw [hens] at h
            simp only [Option.some.injEq, Except.ok.injEq, Prod.mk.injEq] at h
            rw [← h.1]
            obtain ⟨hch, hsame⟩ := Traversal.ensureDraws_same E parent t1 t2 _ s2 hens
            exact Traversal.allBoxOk_same t1 t2 hch hsame hok1
        · rcases hfc : Traversal.forChilds
              (fun t s => Traversal.travModeFlat E fuel (some t1.data) t s) t1.childs s1
            with _ | (e | ⟨cs, s2⟩)
          · rw [hfc] at h; cases h
          · rw [hfc] at h; cases h
          · rw [hfc] at h
            simp only [Option.some.injEq, Except.ok.injEq, Prod.mk.injEq] at h
            rw [← h.1]
            exact Traversal.allBoxOk_mk t1 _ cs ⟨rfl, rfl, rfl, rfl⟩ hok1
              (Traversal.forChilds_pres Traversal.AllBoxOk _
                (fun c s c' s' hc hrun => ih (some t1.data) c c' s s' hc hrun)
                t1.childs cs s1 s2 (Traversal.allBoxOk_childs t1 hok1) hfc)

theorem Traversal.travModeFixed_allBoxOk (E : Traversal.Env)
    (hmono : E.layer.freeLayerMonolithicGeodata = false) (fuel : Nat)
    (parent : Option Traversal.NodeData) (trav t' : Traversal.TraverseNode)
    (s s' : Traversal.Frame) (hok : Traversal.AllBoxOk trav)
    (h : Traversal.travModeFixed E fuel parent trav s = some (Except.ok (t', s'))) :
    Traversal.AllBoxOk t' := by
  induction fuel generalizing parent trav t' s s' with
  | zero => simp [Traversal.travModeFixed] at h
  | succ fuel ih =>
    rw [Traversal.travModeFixed] at h
    rcases hinit : Traversal.travInit E parent trav s with e | ⟨b, t1, s1⟩
    · rw [hinit] at h; cases h
    · rw [hinit] at h
      have hok1 := Traversal.travInit_allBoxOk E parent trav t1 s s1 b hmono hok hinit
      cases b with
      | false =>
        simp only [Option.some.injEq, Except.ok.injEq, Prod.mk.injEq] at h
        rw [← h.1]
        exact hok1
      | true =>
        simp only at h
        split_ifs at h with hdist hleaf
        · simp only [Option.some.injEq, Except.ok.injEq, Prod.mk.injEq] at h
          rw [← h.1]
          exact Traversal.allBoxOk_setData t1 _ ⟨rfl, rfl, rfl, rfl⟩ hok1
        · rcases hens : Traversal.ensureDraws E parent t1 (Traversal.touchDraws E t1.data s1)
            with e | ⟨t2, s2⟩
          · rw [hens] at h; cases h
          · rw [hens] at h
            simp only [Option.some.injEq, Except.ok.injEq, Prod.mk.injEq] at h
            rw [← h.1]
            obtain ⟨hch, hsame⟩ := Traversal.ensureDraws_same E parent t1 t2 _ s2 hens
            exact Traversal.allBoxOk_same t1 t2 hch hsame hok1
        · rcases hfc : Traversal.forChilds
              (fun t s => Traversal.travModeFixed E fuel (some t1.data) t s) t1.childs s1
            with _ | (e | ⟨cs, s2⟩)
          · rw [hfc] at h; cases h
          · rw [hfc] at h; cases h
          · rw [hfc] at h
            simp only [Option.some.injEq, Except.ok.injEq, Prod.mk.injEq] at h
            rw [← h.1]
            exact Traversal.allBoxOk_mk t1 _ cs ⟨rfl, rfl, rfl, rfl⟩ hok1
              (Traversal.forChilds_pres Traversal.AllBoxOk _
                (fun c s c' s' hc hrun => ih (some t1.data) c c' s s' hc hrun)
                t1.childs cs s1 s2 (Traversal.allBoxOk_childs t1 hok1) hfc)

theorem Traversal.travModeHierarchical_allBoxOk (E : Traversal.Env)
    (hmono : E.layer.freeLayerMonolithicGeodata = false) (fuel : Nat)
    (parent : Option Traversal.NodeData) (trav t' : Traversal.TraverseNode) (loadOnly : Bool)
    (s s' : Traversal.Frame) (hok : Traversal.AllBoxOk trav)
    (h : Traversal.travModeHierarchical E fuel parent trav loadOnly s
      = some (Except.ok (t', s'))) :
    Traversal.AllBoxOk t' := by
  induction fuel generalizing parent trav t' loadOnly s s' with
  | zero => simp [Traversal.travModeHierarchical] at h
  | succ fuel ih =>
    rw [Traversal.travModeHierarchical] at h
    rcases hinit : Traversal.travInit E parent trav s with e | ⟨b, t1, s1⟩
    · rw [hinit] at h; cases h
    · rw [hinit] at h
      have hok1 := Traversal.travInit_allBoxOk E parent trav t1 s s1 b hmono hok hinit
      cases b with
      | false =>
        simp only [Option.some.injEq, Except.ok.injEq, Prod.mk.injEq] at h
        rw [← h.1]
        exact hok1
      | true =>
        simp only at h
        rcases hens : Traversal.ensureDraws E parent t1 (Traversal.touchDraws E t1.data s1)
          with e | ⟨t2, s2⟩
        · rw [hens] at h; cases h
        · rw [hens] at h
          obtain ⟨hch, hsame⟩ := Traversal.ensureDraws_same E parent t1 t2 _ s2 hens
          have hok2 := Traversal.allBoxOk_same t1 t2 hch hsame hok1
          simp only at h
          split_ifs at h
          all_goals first
            | (simp only [Option.some.injEq, Except.ok.injEq, Prod.mk.injEq] at h
               rw [← h.1]
               exact hok2)
            | (rcases hfc : Traversal.forChilds
                  (fun t s => Traversal.travModeHierarchical E fuel (some t2.data) t
                    (!Traversal.childsOk t2.childs true) s) t2.childs s2
                with _ | (e | ⟨cs, s3⟩)
               · rw [hfc] at h; cases h
               · rw [hfc] at h; cases h
               · rw [hfc] at h
                 simp only [Option.some.injEq, Except.ok.injEq, Prod.mk.injEq] at h
                 rw [← h.1]
                 exact Traversal.allBoxOk_mk t2 _ cs ⟨rfl, rfl, rfl, rfl⟩ hok2
                   (Traversal.forChilds_pres Traversal.AllBoxOk _
                     (fun c s c' s' hc hrun => ih (some t2.data) c c' _ s s' hc hrun)
                     t2.childs cs s2 s3 (Traversal.allBoxOk_childs t2 hok2) hfc))

theorem Traversal.balancedInit_allBoxOk (E : Traversal.Env)
    (hmono : E.layer.freeLayerMonolithicGeodata = false)
    (parent : Option Traversal.NodeData) (trav t' : Traversal.TraverseNode)
    (renderOnly b : Bool) (s s' : Traversal.Frame) (hok : Traversal.AllBoxOk trav)
    (h : Traversal.balancedInit E parent trav renderOnly s = Except.ok (b, t', s')) :
    Traversal.AllBoxOk t' := by
  unfold Traversal.balancedInit at h
  cases renderOnly with
  | true =>
    simp only [if_true, Except.ok.injEq, Prod.mk.injEq] at h
    rw [← h.2.1]
    exact Traversal.allBoxOk_setData trav _ ⟨rfl, rfl, rfl, rfl⟩ hok
  | false =>
    simp only [Bool.false_eq_true, if_false] at h
    exact Traversal.travInit_allBoxOk E parent trav t' s s' b hmono hok h

theorem Traversal.balancedDraws_allBoxOk (E : Traversal.Env)
    (parent : Option Traversal.NodeData) (trav t' : Traversal.TraverseNode)
    (renderOnly r : Bool) (s s' : Traversal.Frame) (hok : Traversal.AllBoxOk trav)
    (h : Traversal.balancedDraws E parent trav renderOnly s = Except.ok (r, t', s')) :
    Traversal.AllBoxOk t' := by
  unfold Traversal.balancedDraws at h
  split_ifs at h
  · rcases hens : Traversal.ensureDraws E parent trav (Traversal.touchDraws E trav.data s)
      with e | ⟨t2, s2⟩
    · rw [hens] at h; cases h
    · rw [hens] at h
      simp only [Except.ok.injEq, Prod.mk.injEq] at h
      rw [← h.2.1]
      obtain ⟨hch, hsame⟩ := Traversal.ensureDraws_same E parent trav t2 _ s2 hens
      exact Traversal.allBoxOk_same trav t2 hch hsame hok
  · simp only [Except.ok.injEq, Prod.mk.injEq] at h
    rw [← h.2.1]
    exact hok

theorem Traversal.travModeBalanced_allBoxOk (E : Traversal.Env)
    (rn : List Traversal.NodeData → Traversal.TraverseNode → Traversal.Frame → Traversal.Frame)
    (hmono : E.layer.freeLayerMonolithicGeodata = false) (fuel : Nat)
    (ancestors : List Traversal.NodeData) (trav t' : Traversal.TraverseNode) (renderOnly : Bool)
    (s s' : Traversal.Frame) (hok : Traversal.AllBoxOk trav)
    (h : Traversal.travModeBalanced E rn fuel ancestors trav renderOnly s
      = some (Except.ok (t', s'))) :
    Traversal.AllBoxOk t' := by
  induction fuel generalizing ancestors trav t' renderOnly s s' with
  | zero => simp [Traversal.travModeBalanced] at h
  | succ fuel ih =>
    rw [Traversal.travModeBalanced] at h
    rcases hinit : Traversal.balancedInit E ancestors.head? trav renderOnly s
      with e | ⟨b, t1, s1⟩
    · rw [hinit] at h; cases h
    · rw [hinit] at h
      have hok1 := Traversal.balancedInit_allBoxOk E hmono _ trav t1 renderOnly b s s1 hok hinit
      cases b with
      | false =>
        simp only [Option.some.injEq, Except.ok.injEq, Prod.mk.injEq] at h
        rw [← h.1]
        exact hok1
      | true =>
        simp only at h
        split_ifs at h with hvis
        · simp only [Option.some.injEq, Except.ok.injEq, Prod.mk.injEq] at h
          rw [← h.1]
          exact Traversal.allBoxOk_setData t1 _ ⟨rfl, rfl, rfl, rfl⟩ hok1
        · rcases hd : Traversal.balancedDraws E ancestors.head? t1 renderOnly s1
            with e | ⟨r, t2, s2⟩
          · rw [hd] at h; cases h
          · rw [hd] at h
            have hok2 := Traversal.balancedDraws_allBoxOk E _ t1 t2 renderOnly r s1 s2 hok1 hd
            simp only at h
            split_ifs at h with hrender hleaf
            · simp only [Option.some.injEq, Except.ok.injEq, Prod.mk.injEq] at h
              rw [← h.1]
              exact hok2
            · simp only [Option.some.injEq, Except.ok.injEq, Prod.mk.injEq] at h
              rw [← h.1]
              exact Traversal.allBoxOk_setData t2 _ ⟨rfl, rfl, rfl, rfl⟩ hok2
            · rcases hfc : Traversal.forChilds
                  (fun t s => Traversal.travModeBalanced E rn fuel (t2.data :: ancestors) t r s)
                  t2.childs s2
                with _ | (e | ⟨cs, s3⟩)
              · rw [hfc] at h; cases h
              · rw [hfc] at h; cases h
              · rw [hfc] at h
                simp only [Option.some.injEq, Except.ok.injEq, Prod.mk.injEq] at h
                rw [← h.1]
                exact Traversal.allBoxOk_mk t2 _ cs ⟨rfl, rfl, rfl, rfl⟩ hok2
                  (Traversal.forChilds_pres Traversal.AllBoxOk _
                    (fun c s c' s' hc hrun => ih (t2.data :: ancestors) c c' r s s' hc hrun)
                    t2.childs cs s2 s3 (Traversal.allBoxOk_childs t2 hok2) hfc)

theorem Traversal.traverseClearing_allBoxOk (T : Nat) (t : Traversal.TraverseNode)
    (h : Traversal.AllBoxOk t) : Traversal.AllBoxOk (Traversal.traverseClearing T t) := by
  intro n hn
  obtain ⟨m, hmt, hnm⟩ := Traversal.traverseClearing_inTree T t n hn
  have hm := h m hmt
  cases hst : Traversal.stale T m with
  | true =>
    rw [Traversal.traverseClearing_stale T m hst] at hnm
    rw [hnm]
    exact ⟨hm.1, fun hh => by cases hh⟩
  | false =>
    rw [Traversal.traverseClearing_fresh T m hst] at hnm
    rw [hnm]
    exact hm

theorem Traversal.reachable_allBoxOk (t : Traversal.TraverseNode)
    (h : Traversal.Reachable t) : Traversal.AllBoxOk t := by
  induction h with
  | root E ni =>
    exact (Traversal.allBoxOk_iff _ []).2
      ⟨⟨fun _ => rfl, fun hm => by cases hm⟩, fun c hc => by cases hc⟩
  | hierarchical E fuel t t' s s' hmono _ hrun ih =>
    exact Traversal.travModeHierarchical_allBoxOk E hmono fuel none t t' false s s' ih hrun
  | flat E fuel t t' s s' hmono _ hrun ih =>
    exact Traversal.travModeFlat_allBoxOk E hmono fuel none t t' s s' ih hrun
  | fixed E fuel t t' s s' hmono _ hrun ih =>
    exact Traversal.travModeFixed_allBoxOk E hmono fuel none t t' s s' ih hrun
  | balanced E rn fuel t t' s s' hmono _ hrun ih =>
    exact Traversal.travModeBalanced_allBoxOk E rn hmono fuel [] t t' false s s' ih hrun
  | clearing T t _ ih => exact Traversal.traverseClearing_allBoxOk T t ih

/-- C13: after `travDetermineMetaImpl`, and after a successful `travDetermineMeta` of either
version, each of the eight corners lies in the box of the node, at every depth.  For a node
with `distanceFromRoot > 2` the box is written as the component-wise minimum and maximum of
the corners; for a node at depth 0, 1 or 2 the box is not written: it stays the box the node
was constructed with (`NodeBox.init`), which contains every point.  So in every tree reachable
from a fresh root by frames of the four traversal modes (tiled layers) and by clearing passes,
the box of every node whose meta is set contains its eight corners. -/
theorem travDetermineMeta_box_contains_corners :
    (∀ (E : Traversal.Env) (d d1 : Traversal.NodeData),
      Traversal.travDetermineMetaImpl E d = Except.ok d1 →
      (d.nodeInfo.distanceFromRoot ≤ 2 → d.aabbPhys = NodeBox.init) →
      (∀ i, d1.aabbPhys.Contains (d1.cornersPhys i)) ∧
      (2 < d.nodeInfo.distanceFromRoot →
        d1.aabbPhys = NodeBox.finite (aabbOfCorners d1.cornersPhys)) ∧
      (d.nodeInfo.distanceFromRoot ≤ 2 → d1.aabbPhys = d.aabbPhys)) ∧
    (∀ (E : Traversal.Env) (parent : Option Traversal.NodeData)
        (trav trav' : Traversal.TraverseNode) (s s' : Traversal.Frame),
      E.layer.freeLayerMonolithicGeodata = false →
      Traversal.travDetermineMeta E parent trav s = Except.ok (true, trav', s') →
      (trav.data.nodeInfo.distanceFromRoot ≤ 2 → trav.data.aabbPhys = NodeBox.init) →
      ∀ i, trav'.data.aabbPhys.Contains (trav'.data.cornersPhys i)) ∧
    (∀ (R : Renderer.Env) (rtrav rtrav' : Renderer.TraverseNode) (rs rs' : Renderer.Frame),
      Renderer.travDetermineMeta R rtrav rs = Except.ok (true, rtrav', rs') →
      ∃ m', rtrav'.meta = some m' ∧ ∀ i, m'.aabbPhys.Contains (m'.cornersPhys i)) ∧
    (∀ (E : Traversal.Env) (ni : NodeInfo),
      (Traversal.NodeData.new E ni).aabbPhys = NodeBox.init) ∧
    (∀ t, Traversal.Reachable t → ∀ n, Traversal.InTree n t → n.data.meta.isSome = true →
      ∀ i, n.data.aabbPhys.Contains (n.data.cornersPhys i)) := by
  refine ⟨fun E d d1 h hinit => ?_, fun E parent trav trav' s s' hmono h hinit i => ?_, ?_,
    fun _ _ => rfl, fun t ht n hn hm => (Traversal.reachable_allBoxOk t ht n hn).2 hm⟩
  · obtain ⟨h1, h2, h3⟩ := Traversal.travDetermineMetaImpl_box E d d1 h
    refine ⟨fun i => ?_, h2, h3⟩
    rcases Nat.lt_or_ge 2 d.nodeInfo.distanceFromRoot with hd | hd
    · exact h1 hd i
    · rw [h3 hd, hinit hd]
      exact trivial
  · obtain ⟨h1, h3⟩ := Traversal.travDetermineMeta_box E parent trav trav' s s' hmono h
    rcases Nat.lt_or_ge 2 trav.data.nodeInfo.distanceFromRoot with hd | hd
    · exact h1 hd i
    · rw [h3 hd, hinit hd]
      exact trivial
  · intro R rtrav rtrav' rs rs' h
    obtain ⟨a, node, _, _, _, _, _, _, m', hm', _, _, hbox⟩ :=
      Renderer.travDetermineMeta_shape R rtrav rtrav' rs rs' h
    refine ⟨m', hm', fun i => ?_⟩
    rw [hbox]
    split_ifs
    · exact aabbOfCorners_contains _ i
    · exact trivial

theorem travDetermineMeta_box_contains_corners_witness :
    Traversal.travDetermineMetaImpl sampleTEnvWide sampleDeepData = Except.ok sampleDeepOut ∧
    sampleDeepData.nodeInfo.distanceFromRoot = 3 ∧
    (∀ i, sampleDeepOut.aabbPhys.Contains (sampleDeepOut.cornersPhys i)) ∧
    Traversal.travDetermineMeta sampleTEnvWide none sampleRoot sampleTFrame
      = Except.ok (true, sampleMetaOutWide.1, sampleMetaOutWide.2) ∧
    sampleRoot.data.nodeInfo.distanceFromRoot = 0 ∧
    sampleMetaOutWide.1.data.aabbPhys = NodeBox.universe ∧
    (∀ i, sampleMetaOutWide.1.data.aabbPhys.Contains
      (sampleMetaOutWide.1.data.cornersPhys i)) ∧
    Traversal.Reachable sampleFixedOut.1 ∧ sampleFixedOut.1.data.meta.isSome = true ∧
    (∀ i, sampleFixedOut.1.data.aabbPhys.Contains (sampleFixedOut.1.data.cornersPhys i)) :=
  have h : Traversal.travDetermineMetaImpl sampleTEnvWide sampleDeepData
      = Except.ok sampleDeepOut := rfl
  have h2 : Traversal.travDetermineMeta sampleTEnvWide none sampleRoot sampleTFrame
      = Except.ok (true, sampleMetaOutWide.1, sampleMetaOutWide.2) :=
    Traversal.eq_of_succeeded _ sampleRoot sampleTFrame (by decide)
  have h3 : Traversal.travModeFixed sampleTEnvFixed 2 none sampleRoot sampleTFrame
      = some (Except.ok (sampleFixedOut.1, sampleFixedOut.2)) :=
    Traversal.eq_of_finished _ sampleRoot sampleTFrame (by decide)
  have hr : Traversal.Reachable sampleFixedOut.1 :=
    Traversal.Reachable.fixed sampleTEnvFixed 2 sampleRoot sampleFixedOut.1 sampleTFrame
      sampleFixedOut.2 rfl (Traversal.Reachable.root sampleTEnv _) h3
  ⟨h, rfl, (travDetermineMeta_box_contains_corners.1 sampleTEnvWide sampleDeepData
      sampleDeepOut h (fun _ => rfl)).1, h2, rfl, by decide,
    travDetermineMeta_box_contains_corners.2.1 sampleTEnvWide none sampleRoot
      sampleMetaOutWide.1 sampleTFrame sampleMetaOutWide.2 rfl h2 (fun _ => rfl),
    hr, by decide,
    travDetermineMeta_box_contains_corners.2.2.2.2 _ hr _ (Traversal.InTree.self _)
      (by decide)⟩


/-! ### Root priority and the map life cycle -/

theorem Renderer.travDetermineMeta_priority (E : Renderer.Env)
    (trav t' : Renderer.TraverseNode) (s s' : Renderer.Frame) (b : Bool)
    (h : Renderer.travDetermineMeta E trav s = Except.ok (b, t', s')) :
    t'.priority = trav.priority := by
  unfold Renderer.travDetermineMeta at h
  dsimp only at h
  repeat' first
    | simp only [reduceCtorEq] at h
    | (simp only [Except.ok.injEq, Prod.mk.injEq] at h
       obtain ⟨_, ht, _⟩ := h
       subst ht
       rfl)
    | split at h

theorem Renderer.travDetermineDraws_priority (E : Renderer.Env)
    (trav t' : Renderer.TraverseNode) (s s' : Renderer.Frame) (b : Bool)
    (h : Renderer.travDetermineDraws E trav s = Except.ok (b, t', s')) :
    t'.priority = trav.priority := by
  unfold Renderer.travDetermineDraws at h
  dsimp only at h
  repeat' first
    | simp only [reduceCtorEq] at h
    | (simp only [Except.ok.injEq, Prod.mk.injEq] at h
       obtain ⟨_, ht, _⟩ := h
       subst ht
       rfl)
    | split at h

theorem Renderer.traverse_priority (E : Renderer.Env) (trav trav' : Renderer.TraverseNode)
    (loadOnly : Bool) (s s' : Renderer.Frame) (q : List (Renderer.TraverseNode × Bool))
    (h : Renderer.traverse E trav loadOnly s = Except.ok (trav', s', q)) :
    trav'.priority = trav.priority := by
  unfold Renderer.traverse at h
  dsimp only at h
  have h0 : (Renderer.touchResources E trav
      { s with metaNodesTraversedTotal := s.metaNodesTraversedTotal + 1 }).1.priority
        = trav.priority := rfl
  generalize Renderer.touchResources E trav
    { s with metaNodesTraversedTotal := s.metaNodesTraversedTotal + 1 } = tr at h h0
  obtain ⟨t0, s0⟩ := tr
  simp only at h h0
  have hmeta : ∀ b t1 s1, (if t0.meta.isNone = true then Renderer.travDetermineMeta E t0 s0
      else Except.ok (true, t0, s0)) = Except.ok (b, t1, s1) → t1.priority = trav.priority := by
    intro b t1 s1 hh
    split_ifs at hh
    · rw [Renderer.travDetermineMeta_priority E t0 t1 s0 s1 b hh, h0]
    · simp only [Except.ok.injEq, Prod.mk.injEq] at hh
      rw [← hh.2.1, h0]
  rcases hms : (if t0.meta.isNone = true then Renderer.travDetermineMeta E t0 s0
      else Except.ok (true, t0, s0)) with e | ⟨b, t1, s1⟩
  · rw [hms] at h
    cases h
  · rw [hms] at h
    have h1 := hmeta b t1 s1 hms
    cases b with
    | false =>
      simp only [Except.ok.injEq, Prod.mk.injEq] at h
      rw [← h.1, h1]
    | true =>
      simp only at h
      rcases hm1 : t1.meta with _ | m1
      · rw [hm1] at h
        cases h
      · rw [hm1] at h
        simp only at h
        have hdraws : ∀ b t2 s2, (if (m1.surface.isSome && t1.draws.isEmpty) = true then
            Renderer.travDetermineDraws E t1 s1 else Except.ok (true, t1, s1))
              = Except.ok (b, t2, s2) → t2.priority = trav.priority := by
          intro b t2 s2 hh
          split_ifs at hh
          · rw [Renderer.travDetermineDraws_priority E t1 t2 s1 s2 b hh, h1]
          · simp only [Except.ok.injEq, Prod.mk.injEq] at hh
            rw [← hh.2.1, h1]
        rcases hds : (if (m1.surface.isSome && t1.draws.isEmpty) = true then
            Renderer.travDetermineDraws E t1 s1 else Except.ok (true, t1, s1))
          with e | ⟨b2, t2, s2⟩
        · rw [hds] at h
          cases h
        · rw [hds] at h
          have h2 := hdraws b2 t2 s2 hds
          simp only at h
          repeat' first
            | simp only [reduceCtorEq] at h
            | (simp only [Except.ok.injEq, Prod.mk.injEq] at h
               obtain ⟨ht, _⟩ := h
               subst ht
               exact h2)
            | split at h

theorem Traversal.updateNodePriority_root (E : Traversal.Env) (d : Traversal.NodeData) :
    (d.meta = none → (Traversal.updateNodePriority E none d).priority = 0) ∧
    (d.meta.isSome = true → (Traversal.updateNodePriority E none d).priority
      = if ((d.hash + E.tickIndex) % 2 ^ 32) % 4 = 0 then
          ((1000000 / (Traversal.travDistance E d E.focusPosPhys + 1) : ℚ) : WithTop ℚ)
        else d.priority) := by
  unfold Traversal.updateNodePriority
  constructor
  · intro hm
    simp [hm]
  · intro hm
    simp only [hm, if_true]
    split_ifs <;> rfl

theorem Traversal.updateNodePriority_root_finite (E : Traversal.Env) (d : Traversal.NodeData)
    (h : d.meta = none ∨ d.priority ≠ ⊤) :
    (Traversal.updateNodePriority E none d).priority ≠ ⊤ := by
  cases hm : d.meta with
  | none =>
    rw [(Traversal.updateNodePriority_root E d).1 hm]
    exact WithTop.zero_ne_top
  | some v =>
    rw [(Traversal.updateNodePriority_root E d).2 (by rw [hm]; rfl)]
    split_ifs
    · exact WithTop.coe_ne_top
    · rcases h with h | h
      · rw [hm] at h
        cases h
      · exact h

theorem Traversal.travDetermineMetaImpl_priority (E : Traversal.Env)
    (d d1 : Traversal.NodeData) (h : Traversal.travDetermineMetaImpl E d = Except.ok d1) :
    d1.priority = d.priority := by
  unfold Traversal.travDetermineMetaImpl at h
  split at h
  · cases h
  · simp only [Except.ok.injEq] at h
    subst h
    split_ifs <;> rfl

theorem Traversal.travInit_root_priority (E : Traversal.Env) (trav t' : Traversal.TraverseNode)
    (s s' : Traversal.Frame) (b : Bool) (hmono : E.layer.freeLayerMonolithicGeodata = false)
    (hm : trav.data.meta = none)
    (h : Traversal.travInit E none trav s = Except.ok (b, t', s')) :
    t'.data.priority ≠ ⊤ := by
  have hinit : (Traversal.initData E none trav.data).priority ≠ ⊤ :=
    Traversal.updateNodePriority_root_finite E _ (Or.inl hm)
  have hmi : (Traversal.initData E none trav.data).meta = none := by
    rw [Traversal.initData_meta, hm]
  unfold Traversal.travInit at h
  dsimp only at h
  split_ifs at h with hc
  · cases b with
    | false =>
      obtain ⟨ht, _⟩ := Traversal.travDetermineMeta_false E none _ t' _ s' hmono h
      rw [ht]
      exact hinit
    | true =>
      obtain ⟨metaTiles, req, a, node, d1, _, _, _, himpl, hdata, _, _, _⟩ :=
        Traversal.travDetermineMeta_true E none _ t' _ s' hmono h
      rw [hdata]
      refine Traversal.updateNodePriority_root_finite E _ (Or.inr ?_)
      have hp : d1.priority = (Traversal.initData E none trav.data).priority := by
        have := Traversal.travDetermineMetaImpl_priority E _ d1 himpl
        exact this
      cases a.topmost with
      | none => simp only; rw [hp]; exact hinit
      | some tm => simp only; rw [hp]; exact hinit
  · exfalso
    apply hc
    show (Traversal.initData E none trav.data).meta.isNone = true
    rw [hmi]
    rfl

/-- C15 (counterexample): `travInit` on a fresh root of rendererTraversal.cpp whose priority is
`+infinity` leaves it with priority 0; `updateNodePriority` alone does the same. -/
theorem travInit_resets_root_priority :
    sampleTopRoot.data.priority = ⊤ ∧
    Traversal.succeeded (Traversal.travInit sampleTEnv none sampleTopRoot sampleTFrame) = true ∧
    sampleTopRootInit.1.data.priority = 0 ∧
    (Traversal.updateNodePriority sampleTEnv none sampleTopRoot.data).priority = 0 := by
  refine ⟨rfl, by decide, ?_, rfl⟩
  rfl

theorem Renderer.prerequisitesReady_outcome (X : Renderer.MapEnv) (mc : Renderer.MapConfig)
    (m m2 : Renderer.MapImpl) (b : Bool)
    (h : Renderer.prerequisitesReady X mc m = Except.ok (b, m2))
    (hi : m.initialized = false) (hr : m.traverseRoot = none) :
    (b = false → m2.initialized = false ∧ m2.traverseRoot = none) ∧
    (b = true → m2.initialized = true ∧
      ∃ c, m2.traverseRoot = some (Renderer.newTraverseRoot X c)) := by
  unfold Renderer.prerequisitesReady at h
  dsimp only at h
  repeat' first
    | simp only [reduceCtorEq] at h
    | (simp only [Except.ok.injEq, Prod.mk.injEq] at h
       obtain ⟨hb, hm⟩ := h
       subst hb
       subst hm
       first
         | (refine ⟨fun _ => ⟨?_, ?_⟩, fun hh => by cases hh⟩ <;> first | rfl | exact hi | exact hr)
         | exact ⟨(fun hh => by cases hh), (fun _ => ⟨rfl, _, rfl⟩)⟩)
    | split at h

theorem Renderer.prerequisitesCheck_outcome (X : Renderer.MapEnv)
    (m m2 : Renderer.MapImpl) (b : Bool)
    (h : Renderer.prerequisitesCheck X m = Except.ok (b, m2))
    (hi : m.initialized = false) (hr : m.traverseRoot = none) :
    (b = false → m2.initialized = false ∧ m2.traverseRoot = none) ∧
    (b = true → m2.initialized = true ∧
      ∃ c, m2.traverseRoot = some (Renderer.newTraverseRoot X c)) := by
  unfold Renderer.prerequisitesCheck at h
  dsimp only at h
  simp only [hi, Bool.false_eq_true, if_false] at h
  split_ifs at h with hpath hauth
  · simp only [Except.ok.injEq, Prod.mk.injEq] at h
    obtain ⟨hb, hm⟩ := h
    subst hb
    subst hm
    exact ⟨fun _ => ⟨rfl, hr⟩, fun hh => by cases hh⟩
  · rcases hta : testAndThrow (X.getAuthConfig m.authPath).state "Authentication failure."
      with e | b1
    · rw [hta] at h
      simp only [reduceCtorEq] at h
    · rw [hta] at h
      cases b1 with
      | false =>
        simp only [Except.ok.injEq, Prod.mk.injEq] at h
        obtain ⟨hb, hm⟩ := h
        subst hb
        subst hm
        exact ⟨fun _ => ⟨rfl, hr⟩, fun hh => by cases hh⟩
      | true =>
        simp only at h
        split at h
        · simp only [reduceCtorEq] at h
        · simp only [Except.ok.injEq, Prod.mk.injEq] at h
          obtain ⟨hb, hm⟩ := h
          subst hb
          subst hm
          exact ⟨fun _ => ⟨rfl, hr⟩, fun hh => by cases hh⟩
        · exact Renderer.prerequisitesReady_outcome X _ _ m2 b h rfl hr
  · simp only at h
    split at h
    · simp only [reduceCtorEq] at h
    · simp only [Except.ok.injEq, Prod.mk.injEq] at h
      obtain ⟨hb, hm⟩ := h
      subst hb
      subst hm
      exact ⟨fun _ => ⟨rfl, hr⟩, fun hh => by cases hh⟩
    · exact Renderer.prerequisitesReady_outcome X _ _ m2 b h rfl hr

theorem Renderer.purgeMapConfig_fields (X : Renderer.MapEnv) (m : Renderer.MapImpl) :
    (Renderer.purgeMapConfig X m).traverseRoot = none ∧
    (Renderer.purgeMapConfig X m).tilesetMapping = none ∧
    (Renderer.purgeMapConfig X m).mapConfig = none ∧
    (Renderer.purgeMapConfig X m).auth = none ∧
    (Renderer.purgeMapConfig X m).frame.draws = [] ∧
    (Renderer.purgeMapConfig X m).credits = [] ∧
    (Renderer.purgeMapConfig X m).searchTasks = [] ∧
    (Renderer.purgeMapConfig X m).mapConfigView = "" ∧
    (Renderer.purgeMapConfig X m).initialized = false :=
  ⟨rfl, rfl, rfl, rfl, rfl, rfl, rfl, rfl, rfl⟩

theorem Renderer.renderTickRender_idle (X : Renderer.MapEnv) (m : Renderer.MapImpl)
    (hi : m.initialized = false) (w h : Nat) : Renderer.renderTickRender X w h m = m := by
  unfold Renderer.renderTickRender
  simp [hi]

theorem Renderer.renderTickRender_iterate (X : Renderer.MapEnv) (m : Renderer.MapImpl)
    (hi : m.initialized = false) (sizes : List (Nat × Nat)) :
    sizes.foldl (fun st wh => Renderer.renderTickRender X wh.1 wh.2 st) m = m := by
  induction sizes with
  | nil => rfl
  | cons wh rest ih =>
    rw [List.foldl_cons, Renderer.renderTickRender_idle X m hi]
    exact ih

/-- C19: after `purgeMapConfig`, and so after every `setMapConfigPath`, `traverseRoot`,
`tilesetMapping`, `mapConfig` and `auth` are null, the draws and the credits are empty and
`initialized` is false; every following `renderTickRender` returns the map as it is (no
traversal, no draw task), for any number of frames; and a following `prerequisitesCheck`
either returns false, leaving `initialized` false and the root null, or returns true with
`initialized` set and a new root. -/
theorem purgeMapConfig_unreachable (X : Renderer.MapEnv) (m : Renderer.MapImpl) :
    ((Renderer.purgeMapConfig X m).traverseRoot = none ∧
      (Renderer.purgeMapConfig X m).tilesetMapping = none ∧
      (Renderer.purgeMapConfig X m).mapConfig = none ∧
      (Renderer.purgeMapConfig X m).auth = none ∧
      (Renderer.purgeMapConfig X m).frame.draws = [] ∧
      (Renderer.purgeMapConfig X m).credits = [] ∧
      (Renderer.purgeMapConfig X m).initialized = false) ∧
    (∀ path auth sri : String,
      (Renderer.setMapConfigPath X path auth sri m).traverseRoot = none ∧
      (Renderer.setMapConfigPath X path auth sri m).tilesetMapping = none ∧
      (Renderer.setMapConfigPath X path auth sri m).mapConfig = none ∧
      (Renderer.setMapConfigPath X path auth sri m).auth = none ∧
      (Renderer.setMapConfigPath X path auth sri m).frame.draws = [] ∧
      (Renderer.setMapConfigPath X path auth sri m).credits = [] ∧
      (Renderer.setMapConfigPath X path auth sri m).initialized = false ∧
      (Renderer.setMapConfigPath X path auth sri m).mapConfigPath = path) ∧
    (∀ w h : Nat, Renderer.renderTickRender X w h (Renderer.purgeMapConfig X m)
      = Renderer.purgeMapConfig X m) ∧
    (∀ sizes : List (Nat × Nat),
      sizes.foldl (fun st wh => Renderer.renderTickRender X wh.1 wh.2 st)
        (Renderer.purgeMapConfig X m) = Renderer.purgeMapConfig X m) ∧
    (∀ (b : Bool) (m2 : Renderer.MapImpl),
      Renderer.prerequisitesCheck X (Renderer.purgeMapConfig X m) = Except.ok (b, m2) →
      (b = false → m2.initialized = false ∧ m2.traverseRoot = none ∧
        ∀ w h : Nat, Renderer.renderTickRender X w h m2 = m2) ∧
      (b = true → m2.initialized = true ∧ ∃ root, m2.traverseRoot = some root)) := by
  refine ⟨⟨rfl, rfl, rfl, rfl, rfl, rfl, rfl⟩,
    fun path auth sri => ⟨rfl, rfl, rfl, rfl, rfl, rfl, rfl, rfl⟩,
    fun w h => Renderer.renderTickRender_idle X _ rfl w h,
    fun sizes => Renderer.renderTickRender_iterate X _ rfl sizes, fun b m2 h => ?_⟩
  obtain ⟨h1, h2⟩ := Renderer.prerequisitesCheck_outcome X _ m2 b h rfl rfl
  refine ⟨fun hb => ?_, fun hb => ?_⟩
  · obtain ⟨hi, hr⟩ := h1 hb
    exact ⟨hi, hr, fun w h => Renderer.renderTickRender_idle X m2 hi w h⟩
  · obtain ⟨hi, c, hr⟩ := h2 hb
    exact ⟨hi, _, hr⟩

theorem purgeMapConfig_unreachable_witness :
    sampleMap.initialized = true ∧
    Renderer.renderTickRender sampleMapEnv 800 600
        (Renderer.purgeMapConfig sampleMapEnv sampleMap)
      = Renderer.purgeMapConfig sampleMapEnv sampleMap ∧
    Renderer.prerequisitesCheck sampleMapEnv (Renderer.purgeMapConfig sampleMapEnv sampleMap)
      = Except.ok (true, sampleMapReady) ∧
    sampleMapReady.initialized = true ∧ (∃ root, sampleMapReady.traverseRoot = some root) :=
  have h : Renderer.prerequisitesCheck sampleMapEnv
      (Renderer.purgeMapConfig sampleMapEnv sampleMap) = Except.ok (true, sampleMapReady) := rfl
  ⟨rfl, (purgeMapConfig_unreachable sampleMapEnv sampleMap).2.2.1 800 600, h,
   ((purgeMapConfig_unreachable sampleMapEnv sampleMap).2.2.2.2 true sampleMapReady h).2 rfl⟩

/-- The sample map in use renders a frame, the purged one does not. -/
theorem purgeMapConfig_sample :
    (Renderer.renderTickRender sampleMapEnv 800 600 sampleMap).frame.meshesRenderedTotal = 1 ∧
    (Renderer.renderTickRender sampleMapEnv 800 600
      (Renderer.purgeMapConfig sampleMapEnv sampleMap)).frame.meshesRenderedTotal = 0 ∧
    (Renderer.purgeMapConfig sampleMapEnv sampleMap).finalizing = ["auth", "config"] ∧
    sampleMap.frame.draws.length = 1 ∧
    (Renderer.purgeMapConfig sampleMapEnv sampleMap).frame.draws.length = 0 := by
  decide

/-- C15 (amended): in renderer.cpp the root is created by `prerequisitesCheck` with priority
`+infinity`, and `traverse` never changes the priority of the node it runs on (it sets those
of the children).  In rendererTraversal.cpp `updateNodePriority` on the root (no parent) sets
the priority to 0 while the meta is unset, and with meta set to `1e6 / (distance + 1)` on the
ticks with `(hash + tickIndex) % 4 = 0`, leaving it as it is on the others: after `travInit` on
a root without meta the priority is finite. -/
theorem root_priority :
    (∀ (X : Renderer.MapEnv) (m m' : Renderer.MapImpl),
      m.initialized = false → m.traverseRoot = none →
      Renderer.prerequisitesCheck X m = Except.ok (true, m') →
      ∃ root, m'.traverseRoot = some root ∧ root.priority = ⊤) ∧
    (∀ (E : Renderer.Env) (trav trav' : Renderer.TraverseNode) (loadOnly : Bool)
        (s s' : Renderer.Frame) (q : List (Renderer.TraverseNode × Bool)),
      Renderer.traverse E trav loadOnly s = Except.ok (trav', s', q) →
      trav'.priority = trav.priority) ∧
    (∀ (E : Traversal.Env) (d : Traversal.NodeData), d.meta = none →
      (Traversal.updateNodePriority E none d).priority = 0) ∧
    (∀ (E : Traversal.Env) (d : Traversal.NodeData), d.meta.isSome = true →
      (Traversal.updateNodePriority E none d).priority
        = if ((d.hash + E.tickIndex) % 2 ^ 32) % 4 = 0 then
            ((1000000 / (Traversal.travDistance E d E.focusPosPhys + 1) : ℚ) : WithTop ℚ)
          else d.priority) ∧
    (∀ (E : Traversal.Env) (trav t' : Traversal.TraverseNode) (s s' : Traversal.Frame)
        (b : Bool), E.layer.freeLayerMonolithicGeodata = false → trav.data.meta = none →
      Traversal.travInit E none trav s = Except.ok (b, t', s') → t'.data.priority ≠ ⊤) := by
  refine ⟨fun X m m' hi hr h => ?_,
    fun E trav trav' loadOnly s s' q h => Renderer.traverse_priority E trav trav' loadOnly s s' q h,
    fun E d hm => (Traversal.updateNodePriority_root E d).1 hm,
    fun E d hm => (Traversal.updateNodePriority_root E d).2 hm,
    fun E trav t' s s' b hmono hm h =>
      Traversal.travInit_root_priority E trav t' s s' b hmono hm h⟩
  obtain ⟨_, c, hroot⟩ := (Renderer.prerequisitesCheck_outcome X m m' true h hi hr).2 rfl
  exact ⟨_, hroot, rfl⟩

theorem root_priority_witness :
    Renderer.prerequisitesCheck sampleMapEnv (Renderer.purgeMapConfig sampleMapEnv sampleMap)
      = Except.ok (true, sampleMapReady) ∧
    (∃ root, sampleMapReady.traverseRoot = some root ∧ root.priority = ⊤) ∧
    Traversal.travInit sampleTEnv none sampleTopRoot sampleTFrame
      = Except.ok (true, sampleTopRootInit.1, sampleTopRootInit.2) ∧
    sampleTopRootInit.1.data.priority ≠ ⊤ :=
  have h : Renderer.prerequisitesCheck sampleMapEnv
      (Renderer.purgeMapConfig sampleMapEnv sampleMap) = Except.ok (true, sampleMapReady) := rfl
  have h2 : Traversal.travInit sampleTEnv none sampleTopRoot sampleTFrame
      = Except.ok (true, sampleTopRootInit.1, sampleTopRootInit.2) :=
    Traversal.eq_of_succeeded _ sampleTopRoot sampleTFrame (by decide)
  ⟨h, root_priority.1 sampleMapEnv _ sampleMapReady rfl rfl h, h2,
   root_priority.2.2.2.2 sampleTEnv sampleTopRoot sampleTopRootInit.1 sampleTFrame
     sampleTopRootInit.2 true rfl rfl h2⟩


/-! ### The coarseness test with `applyDisplaySize` -/

theorem Renderer.foldl_and_false {α : Type} (p : α → Bool) (l : List α) :
    l.foldl (fun res c => res && p c) false = false := by
  induction l with
  | nil => rfl
  | cons a l ih => simpa using ih

theorem Renderer.foldl_and_true {α : Type} (p : α → Bool) (l : List α) :
    l.foldl (fun res c => res && p c) true = true ↔ ∀ c ∈ l, p c = true := by
  induction l with
  | nil => simp
  | cons a l ih =>
    rw [List.foldl_cons, Bool.true_and]
    cases hp : p a with
    | false =>
      rw [Renderer.foldl_and_false]
      simp [hp]
    | true =>
      rw [ih]
      simp [hp]

theorem Renderer.coarsenessTest_iff (E : Renderer.Env) (m : Renderer.MetaInfo) :
    Renderer.coarsenessTest E m = true ↔
      m.node.flags &&& E.flag.applyTexelSize ≠ 0 ∧ m.node.flags &&& E.flag.applyDisplaySize = 0 ∧
        Renderer.TexelAccepts E m := by
  unfold Renderer.coarsenessTest Renderer.TexelAccepts
  by_cases ht : m.node.flags &&& E.flag.applyTexelSize = 0
  · by_cases hd : m.node.flags &&& E.flag.applyDisplaySize = 0
    · simp [ht, hd]
    · simp [ht, hd]
  · by_cases hd : m.node.flags &&& E.flag.applyDisplaySize = 0
    · simp only [ne_eq, ht, not_false_eq_true, decide_True, hd, not_true_eq_false, decide_False,
        Bool.not_true, Bool.not_false, Bool.and_true, Bool.false_eq_true, if_false, if_true,
        true_and]
      rw [Renderer.foldl_and_true]
      simp only [List.mem_ofFn, decide_eq_true_eq]
      constructor
      · intro h i
        exact h _ ⟨i, rfl⟩
      · rintro h c ⟨i, rfl⟩
        exact h i
    · simp [ht, hd]

/-- C22, as the code has it: `applyDisplaySize` always rejects.  For every meta whose node
has the flag `applyDisplaySize` set, `coarsenessTest` returns false, whether `applyTexelSize`
is set or clear and whatever the texel-size criterion says; `coarsenessTest` accepts exactly
when `applyTexelSize` is set, `applyDisplaySize` is clear and the texel-size criterion accepts
at all eight corners. -/
theorem coarsenessTest_displaySize_rejects :
    (∀ (E : Renderer.Env) (m : Renderer.MetaInfo),
      m.node.flags &&& E.flag.applyDisplaySize ≠ 0 → Renderer.coarsenessTest E m = false) ∧
    (∀ (E : Renderer.Env) (m : Renderer.MetaInfo),
      Renderer.coarsenessTest E m = true ↔
        m.node.flags &&& E.flag.applyTexelSize ≠ 0 ∧
        m.node.flags &&& E.flag.applyDisplaySize = 0 ∧ Renderer.TexelAccepts E m) := by
  refine ⟨fun E m hd => ?_, Renderer.coarsenessTest_iff⟩
  rw [← Bool.not_eq_true, Renderer.coarsenessTest_iff]
  exact fun h => hd h.2.1

/-- The theorem `coarsenessTest_displaySize_rejects` at the sample meta with both flags,
where the texel-size criterion accepts. -/
theorem coarsenessTest_displaySize_rejects_witness :
    sampleMetaBoth.node.flags &&& sampleEnv.flag.applyDisplaySize ≠ 0 ∧
    Renderer.coarsenessTest sampleEnv sampleMetaBoth = false :=
  ⟨by decide, coarsenessTest_displaySize_rejects.1 sampleEnv sampleMetaBoth (by decide)⟩

/-- C22 as stated fails: with `applyDisplaySize` set and `applyTexelSize` clear the test
returns false, not true; and with both flags set, where the texel-size criterion alone
accepts (the same node with only `applyTexelSize` is accepted), the test returns false, so
the flag turns an accepted tile into a rejected one. -/
theorem coarsenessTest_displaySize_counterexample :
    sampleMetaDisplay.node.flags &&& sampleEnv.flag.applyDisplaySize ≠ 0 ∧
    sampleMetaDisplay.node.flags &&& sampleEnv.flag.applyTexelSize = 0 ∧
    Renderer.coarsenessTest sampleEnv sampleMetaDisplay = false ∧
    sampleMetaBoth.node.flags &&& sampleEnv.flag.applyDisplaySize ≠ 0 ∧
    sampleMetaBoth.node.flags &&& sampleEnv.flag.applyTexelSize ≠ 0 ∧
    Renderer.TexelAccepts sampleEnv sampleMetaBoth ∧
    Renderer.coarsenessTest sampleEnv sampleMetaTexel = true ∧
    Renderer.coarsenessTest sampleEnv sampleMetaBoth = false := by
  have hacc : ∀ m, Renderer.TexelAccepts sampleEnv m := by
    intro m i
    show (0 : ℚ) < 1
    norm_num
  refine ⟨by decide, by decide, ?_, by decide, by decide, hacc _, ?_, ?_⟩
  · rw [← Bool.not_eq_true, Renderer.coarsenessTest_iff]
    exact fun h => absurd h.1 (by decide)
  · rw [Renderer.coarsenessTest_iff]
    exact ⟨by decide, by decide, hacc _⟩
  · rw [← Bool.not_eq_true, Renderer.coarsenessTest_iff]
    exact fun h => absurd h.2.1 (by decide)

/-! ### The priority offered to meta-tiles -/

theorem Renderer.checkMetaNodeAt_priority (F : MetaFlag) (E : Renderer.MetaEnv)
    (surface : SurfaceInfo) (priority : Priority) (lod x y : Nat) (node : Option MetaNode) :
    ∀ r ∈ (Renderer.checkMetaNodeAt F E surface priority lod x y node).2,
      r.priority = priority := by
  induction lod generalizing x y node with
  | zero =>
    intro r hr
    simp only [Renderer.checkMetaNodeAt, Renderer.returnValidMetaNode, List.mem_singleton] at hr
    rw [hr]
  | succ lod ih =>
    intro r hr
    rw [Renderer.checkMetaNodeAt] at hr
    have ih' := ih (parent ⟨lod + 1, x, y⟩).x (parent ⟨lod + 1, x, y⟩).y none
    revert hr
    generalize Renderer.checkMetaNodeAt F E surface priority lod
      (parent ⟨lod + 1, x, y⟩).x (parent ⟨lod + 1, x, y⟩).y none = res at ih'
    obtain ⟨o, log⟩ := res
    intro hr
    simp only at ih'
    rcases o with _ | ⟨v, pn⟩
    · exact ih' r hr
    · cases v with
      | Invalid => exact ih' r hr
      | Indeterminate => exact ih' r hr
      | Valid =>
        cases pn with
        | none => exact ih' r hr
        | some pn =>
          simp only at hr
          split_ifs at hr
          · simp only [Renderer.returnValidMetaNode, List.mem_append, List.mem_singleton] at hr
            rcases hr with hr | hr
            · exact ih' r hr
            · rw [hr]
          · exact ih' r hr

theorem Renderer.findTopmost_priority (E : Renderer.Env) (nodeId : TileId) (priority : Priority)
    (l : List Renderer.SurfaceStackItem) (a a' : Renderer.MetaSearch)
    (h : Renderer.findTopmost E nodeId priority l a = Except.ok a') :
    ∀ r ∈ a'.requests, r ∈ a.requests ∨ r.priority = priority := by
  induction l generalizing a with
  | nil =>
    rw [Renderer.findTopmost] at h
    cases h
    exact fun r hr => Or.inl hr
  | cons it rest ih =>
    rw [Renderer.findTopmost] at h
    have hp := Renderer.checkMetaNodeAt_priority E.flag E.meta it.surface priority
      nodeId.lod nodeId.x nodeId.y none
    change ∀ r ∈ (Renderer.checkMetaNode E.flag E.meta it.surface nodeId none priority).2,
      r.priority = priority at hp
    revert h
    generalize Renderer.checkMetaNode E.flag E.meta it.surface nodeId none priority = res at hp
    obtain ⟨o, log⟩ := res
    simp only at hp
    intro h
    have key : ∀ b : Renderer.MetaSearch, b.requests = a.requests ++ log →
        Renderer.findTopmost E nodeId priority rest b = Except.ok a' →
        ∀ r ∈ a'.requests, r ∈ a.requests ∨ r.priority = priority := by
      intro b hb hrun r hr
      rcases ih b hrun r hr with h1 | h1
      · rw [hb, List.mem_append] at h1
        rcases h1 with h1 | h1
        · exact Or.inl h1
        · exact Or.inr (hp r h1)
      · exact Or.inr h1
    rcases o with _ | ⟨v, n⟩
    · cases h
    · cases v with
      | Invalid => exact key _ rfl h
      | Indeterminate => exact key _ rfl h
      | Valid =>
        cases n with
        | none => cases h
        | some n =>
          simp only at h
          repeat' first
            | simp only [reduceCtorEq] at h
            | exact key _ rfl h
            | split at h

/-- C23, as the code has it: `checkMetaNode` of renderer.cpp offers the priority it is given,
not twice that.  For a lod-0 tile the one request is for the meta-tile of the rounded tile
with priority `p`; every request of `checkMetaNode` and of the loop in `travDetermineMeta`
(which passes `trav->priority`) carries the node's priority `p`; the doubling is in
rendererTraversal.cpp only, where the node's own meta-tile is fetched with `priority * 2`. -/
theorem checkMetaNode_offers_given_priority :
    (∀ (F : MetaFlag) (E : Renderer.MetaEnv) (surface : SurfaceInfo) (p : Priority)
      (t : TileId) (node : Option MetaNode), t.lod = 0 →
        (Renderer.checkMetaNode F E surface t node p).2
          = [⟨surface.urlMeta (roundId E.metaBinaryOrder t), p⟩]) ∧
    (∀ (F : MetaFlag) (E : Renderer.MetaEnv) (surface : SurfaceInfo) (p : Priority)
      (t : TileId) (node : Option MetaNode),
        ∀ r ∈ (Renderer.checkMetaNode F E surface t node p).2, r.priority = p) ∧
    (∀ (E : Renderer.Env) (trav t' : Renderer.TraverseNode) (s s' : Renderer.Frame) (b : Bool),
      Renderer.travDetermineMeta E trav s = Except.ok (b, t', s') →
        ∀ r ∈ s'.requests, r ∈ s.requests ∨ r.priority = trav.priority) ∧
    (∀ (E : Traversal.Env) (d : Traversal.NodeData) (i : Nat) (surface : SurfaceInfo)
      (m : Option MetaTile) (det : Bool) (req : List MetaRequest),
      Traversal.findMetaTile E none d i surface = Except.ok (m, det, req) →
        req = [⟨surface.urlMeta (roundId E.metaBinaryOrder d.nodeInfo.nodeId),
          d.priority * 2⟩]) := by
  refine ⟨?_, ?_, ?_, ?_⟩
  · intro F E surface p t node h0
    obtain ⟨lod, x, y⟩ := t
    simp only at h0
    subst h0
    rfl
  · intro F E surface p t node
    exact Renderer.checkMetaNodeAt_priority F E surface p t.lod t.x t.y node
  · intro E trav t' s s' b h
    unfold Renderer.travDetermineMeta at h
    dsimp only at h
    rcases hft : Renderer.findTopmost E trav.nodeInfo.nodeId trav.priority E.surfaceStack
      ⟨none, none, fun _ => false, true, []⟩ with e | a
    · rw [hft] at h
      repeat' first
        | simp only [reduceCtorEq] at h
        | (simp only [Except.ok.injEq, Prod.mk.injEq] at h
           obtain ⟨_, _, hs⟩ := h
           subst hs
           exact fun r hr => Or.inl hr)
        | split at h
    · rw [hft] at h
      have hreq := Renderer.findTopmost_priority E _ _ _ _ a hft
      have key : ∀ r ∈ s.requests ++ a.requests,
          r ∈ s.requests ∨ r.priority = trav.priority := by
        intro r hr
        rw [List.mem_append] at hr
        rcases hr with hr | hr
        · exact Or.inl hr
        · rcases hreq r hr with h5 | h5
          · cases h5
          · exact Or.inr h5
      repeat' first
        | simp only [reduceCtorEq] at h
        | (simp only [Except.ok.injEq, Prod.mk.injEq] at h
           obtain ⟨_, _, hs⟩ := h
           subst hs
           first
             | exact key
             | exact fun r hr => Or.inl hr)
        | split at h
  · intro E d i surface m det req h
    simp only [Traversal.findMetaTile] at h
    repeat' first
      | simp only [reduceCtorEq] at h
      | (simp only [Except.ok.injEq, Prod.mk.injEq] at h
         exact h.2.2.symm)
      | split at h

/-- The theorem `checkMetaNode_offers_given_priority` at the fresh sample root with
priority 1: the frame after `travDetermineMeta` holds requests of priority 1 only. -/
theorem checkMetaNode_offers_given_priority_witness :
    (⟨0, 0, 0⟩ : TileId).lod = 0 ∧
    (Renderer.checkMetaNode sampleFlag sampleMetaEnv sampleSurface ⟨0, 0, 0⟩ none 1).2
      = [⟨sampleSurface.urlMeta (roundId sampleMetaEnv.metaBinaryOrder ⟨0, 0, 0⟩), 1⟩] :=
  ⟨rfl, checkMetaNode_offers_given_priority.1 sampleFlag sampleMetaEnv sampleSurface 1
    ⟨0, 0, 0⟩ none rfl⟩

/-- C23 as stated fails: for the lod-0 root with priority 1, `checkMetaNode` and
`travDetermineMeta` of renderer.cpp request the meta-tile with priority 1, which is not
`2 * 1`. -/
theorem checkMetaNode_priority_counterexample :
    sampleOldRootOne.priority = 1 ∧ sampleOldRootOne.nodeInfo.nodeId.lod = 0 ∧
    (Renderer.checkMetaNode sampleEnv.flag sampleEnv.meta sampleSurface
      sampleOldRootOne.nodeInfo.nodeId none sampleOldRootOne.priority).2.map MetaRequest.priority
        = [1] ∧
    (Renderer.outcome (Renderer.travDetermineMeta sampleEnv sampleOldRootOne sampleFrame)
      sampleOldRootOne sampleFrame).2.requests.map MetaRequest.priority = [1] ∧
    Renderer.succeeded (Renderer.travDetermineMeta sampleEnv sampleOldRootOne sampleFrame)
      = true ∧
    (1 : Priority) ≠ 2 * 1 := by
  refine ⟨rfl, rfl, by decide, by decide, by decide, by norm_num⟩

/-! ### Frustum planes -/

theorem clipCoords_eq (M : Mat4) (p : Vec3) :
    clipCoords M p =
      ⟨M 0 0 * p.x + M 0 1 * p.y + M 0 2 * p.z + M 0 3,
       M 1 0 * p.x + M 1 1 * p.y + M 1 2 * p.z + M 1 3,
       M 2 0 * p.x + M 2 1 * p.y + M 2 2 * p.z + M 2 3,
       M 3 0 * p.x + M 3 1 * p.y + M 3 2 * p.z + M 3 3⟩ := by
  simp [clipCoords, Matrix.mulVec, Matrix.dotProduct, Fin.sum_univ_four, add_assoc]

theorem visibilityTest_point (planes : Fin 6 → Vec4) (p : Vec3) :
    Renderer.visibilityTest planes ⟨p, p⟩ = true ↔
      ∀ i : Fin 6, 0 ≤ signedDistance (planes i) p := by
  have hpv : ∀ q : Vec4, pVertex q ⟨p, p⟩ = p := by
    intro q
    simp [pVertex]
  rw [← Bool.not_eq_false, visibilityTest_eq_false_iff]
  push_neg
  simp only [hpv]

/-- C28: the six frustum planes `updateCamera` extracts from the view-projection matrix `M`
take at a point `p` the values `cw + cx`, `cw - cx`, `cw + cy`, `cw - cy`, `cw + cz`,
`cw - cz`, with `(cx, cy, cz, cw) = M * (p, 1)`; hence `p` lies in the clip volume
`-cw <= cx, cy, cz <= cw` exactly when all six plane values are non-negative, which is
exactly when `visibilityTest` accepts the box that consists of `p` alone. -/
theorem frustumPlanes_clip_volume (M : Mat4) (p : Vec3) :
    (∀ (viewProj : Mat4) (planes : Fin 6 → Vec4),
      Renderer.updateCameraFrustum false M viewProj planes = (M, Renderer.frustumPlanesOf M)) ∧
    signedDistance (Renderer.frustumPlanesOf M 0) p = (clipCoords M p).w + (clipCoords M p).x ∧
    signedDistance (Renderer.frustumPlanesOf M 1) p = (clipCoords M p).w - (clipCoords M p).x ∧
    signedDistance (Renderer.frustumPlanesOf M 2) p = (clipCoords M p).w + (clipCoords M p).y ∧
    signedDistance (Renderer.frustumPlanesOf M 3) p = (clipCoords M p).w - (clipCoords M p).y ∧
    signedDistance (Renderer.frustumPlanesOf M 4) p = (clipCoords M p).w + (clipCoords M p).z ∧
    signedDistance (Renderer.frustumPlanesOf M 5) p = (clipCoords M p).w - (clipCoords M p).z ∧
    (InClipVolume (clipCoords M p) ↔
      ∀ i : Fin 6, 0 ≤ signedDistance (Renderer.frustumPlanesOf M i) p) ∧
    (InClipVolume (clipCoords M p) ↔
      Renderer.visibilityTest (Renderer.frustumPlanesOf M) ⟨p, p⟩ = true) := by
  have h0 : signedDistance (Renderer.frustumPlanesOf M 0) p
      = (clipCoords M p).w + (clipCoords M p).x := by
    rw [clipCoords_eq]
    simp only [signedDistance, dot, vec4to3, Renderer.frustumPlanesOf, Renderer.column,
      Vec4.add, Matrix.cons_val_zero]
    ring
  have h1 : signedDistance (Renderer.frustumPlanesOf M 1) p
      = (clipCoords M p).w - (clipCoords M p).x := by
    rw [clipCoords_eq]
    simp only [signedDistance, dot, vec4to3, Renderer.frustumPlanesOf, Renderer.column,
      Vec4.add, Vec4.sub, Matrix.cons_val_one, Matrix.head_cons]
    ring
  have h2 : signedDistance (Renderer.frustumPlanesOf M 2) p
      = (clipCoords M p).w + (clipCoords M p).y := by
    rw [clipCoords_eq]
    show signedDistance ((Renderer.column M 3).add (Renderer.column M 1)) p = _
    simp only [signedDistance, dot, vec4to3, Renderer.column, Vec4.add]
    ring
  have h3 : signedDistance (Renderer.frustumPlanesOf M 3) p
      = (clipCoords M p).w - (clipCoords M p).y := by
    rw [clipCoords_eq]
    show signedDistance ((Renderer.column M 3).sub (Renderer.column M 1)) p = _
    simp only [signedDistance, dot, vec4to3, Renderer.column, Vec4.sub]
    ring
  have h4 : signedDistance (Renderer.frustumPlanesOf M 4) p
      = (clipCoords M p).w + (clipCoords M p).z := by
    rw [clipCoords_eq]
    show signedDistance ((Renderer.column M 3).add (Renderer.column M 2)) p = _
    simp only [signedDistance, dot, vec4to3, Renderer.column, Vec4.add]
    ring
  have h5 : signedDistance (Renderer.frustumPlanesOf M 5) p
      = (clipCoords M p).w - (clipCoords M p).z := by
    rw [clipCoords_eq]
    show signedDistance ((Renderer.column M 3).sub (Renderer.column M 2)) p = _
    simp only [signedDistance, dot, vec4to3, Renderer.column, Vec4.sub]
    ring
  have hall : InClipVolume (clipCoords M p) ↔
      ∀ i : Fin 6, 0 ≤ signedDistance (Renderer.frustumPlanesOf M i) p := by
    constructor
    · rintro ⟨a1, a2, a3, a4, a5, a6⟩ i
      fin_cases i
      · show 0 ≤ signedDistance (Renderer.frustumPlanesOf M 0) p
        rw [h0]; linarith
      · show 0 ≤ signedDistance (Renderer.frustumPlanesOf M 1) p
        rw [h1]; linarith
      · show 0 ≤ signedDistance (Renderer.frustumPlanesOf M 2) p
        rw [h2]; linarith
      · show 0 ≤ signedDistance (Renderer.frustumPlanesOf M 3) p
        rw [h3]; linarith
      · show 0 ≤ signedDistance (Renderer.frustumPlanesOf M 4) p
        rw [h4]; linarith
      · show 0 ≤ signedDistance (Renderer.frustumPlanesOf M 5) p
        rw [h5]; linarith
    · intro h
      have g0 := h 0
      have g1 := h 1
      have g2 := h 2
      have g3 := h 3
      have g4 := h 4
      have g5 := h 5
      rw [h0] at g0
      rw [h1] at g1
      rw [h2] at g2
      rw [h3] at g3
      rw [h4] at g4
      rw [h5] at g5
      exact ⟨by linarith, by linarith, by linarith, by linarith, by linarith, by linarith⟩
  exact ⟨fun _ _ => rfl, h0, h1, h2, h3, h4, h5, hall, by rw [visibilityTest_point]; exact hall⟩

/-! ### Sampled clearing at lod 3 -/

/-- C25: at lod 3 `traverseClearing` of renderer.cpp goes on to examine the node at frame `f`
exactly when `(y * 8 + x) mod 64 = f mod 64` (otherwise it returns at once and the node stays
as it is; when it does examine, a stale node is cleared and a fresh one has the pass run on
its children); for `x, y < 8` distinct tiles have distinct slots; and in any 64 consecutive
frames, also across the wrap of the 32 bit frame counter, a lod-3 node is examined in exactly
one. -/
theorem traverseClearing_lod3_slots :
    (∀ (F : Nat) (t : Renderer.TraverseNode), t.nodeInfo.nodeId.lod = 3 →
      (Renderer.skipped F t = false ↔
        (t.nodeInfo.nodeId.y * 8 + t.nodeInfo.nodeId.x) % 64 = F % 64)) ∧
    (∀ (F : Nat) (t : Renderer.TraverseNode), t.nodeInfo.nodeId.lod = 3 →
      (t.nodeInfo.nodeId.y * 8 + t.nodeInfo.nodeId.x) % 64 ≠ F % 64 →
        Renderer.traverseClearing F t = t) ∧
    (∀ (F : Nat) (t : Renderer.TraverseNode), t.nodeInfo.nodeId.lod = 3 →
      (t.nodeInfo.nodeId.y * 8 + t.nodeInfo.nodeId.x) % 64 = F % 64 →
        Renderer.traverseClearing F t =
          if t.lastAccessTime + 5 < F then t.clear
          else .mk t.nodeInfo t.meta t.draws (t.childs.map (Renderer.traverseClearing F))
            t.priority t.lastAccessTime) ∧
    (∀ x y x' y' : Nat, x < 8 → y < 8 → x' < 8 → y' < 8 →
      (y * 8 + x) % 64 = (y' * 8 + x') % 64 → x = x' ∧ y = y') ∧
    (∀ (F0 : Nat) (t : Renderer.TraverseNode), t.nodeInfo.nodeId.lod = 3 →
      ∃! k, k < 64 ∧ Renderer.skipped (F0 + k) t = false) ∧
    (∀ (F0 : Nat) (t : Renderer.TraverseNode), t.nodeInfo.nodeId.lod = 3 →
      ∃! k, k < 64 ∧ Renderer.skipped ((F0 + k) % 2 ^ 32) t = false) := by
  have hiff : ∀ (F : Nat) (t : Renderer.TraverseNode), t.nodeInfo.nodeId.lod = 3 →
      (Renderer.skipped F t = false ↔
        (t.nodeInfo.nodeId.y * 8 + t.nodeInfo.nodeId.x) % 64 = F % 64) := by
    intro F t h3
    simp only [Renderer.skipped, h3, beq_self_eq_true, Bool.true_and, bne_eq_false_iff_eq]
    omega
  refine ⟨hiff, ?_, ?_, ?_, ?_, ?_⟩
  · intro F t h3 hne
    apply Renderer.traverseClearing_skipped
    rw [← Bool.not_eq_false, hiff F t h3]
    exact hne
  · intro F t h3 heq
    have hk := (hiff F t h3).2 heq
    by_cases hs : t.lastAccessTime + 5 < F
    · rw [if_pos hs]
      exact Renderer.traverseClearing_old F t hk (by simpa [Renderer.stale] using hs)
    · rw [if_neg hs]
      exact Renderer.traverseClearing_recent F t hk (by simpa [Renderer.stale] using hs)
  · intro x y x' y' hx hy hx' hy' h
    omega
  · intro F0 t h3
    refine ⟨((t.nodeInfo.nodeId.y * 8 + t.nodeInfo.nodeId.x) % 64 + 64 - F0 % 64) % 64,
      ⟨by omega, ?_⟩, ?_⟩
    · rw [hiff _ t h3]
      omega
    · rintro k ⟨hk, hs⟩
      rw [hiff _ t h3] at hs
      omega
  · intro F0 t h3
    refine ⟨((t.nodeInfo.nodeId.y * 8 + t.nodeInfo.nodeId.x) % 64 + 64 - F0 % 64) % 64,
      ⟨by omega, ?_⟩, ?_⟩
    · rw [hiff _ t h3]
      omega
    · rintro k ⟨hk, hs⟩
      rw [hiff _ t h3] at hs
      omega

/-- The theorem `traverseClearing_lod3_slots` at the sample node `(3, 1, 0)` and frame 100:
its slot is 1, the frame's is 36, and the pass leaves the node as it is. -/
theorem traverseClearing_lod3_slots_witness :
    sampleLod3.nodeInfo.nodeId.lod = 3 ∧
    (sampleLod3.nodeInfo.nodeId.y * 8 + sampleLod3.nodeInfo.nodeId.x) % 64 ≠ 100 % 64 ∧
    Renderer.traverseClearing 100 sampleLod3 = sampleLod3 :=
  ⟨rfl, by decide, traverseClearing_lod3_slots.2.1 100 sampleLod3 rfl (by decide)⟩

/-! ### The priority refresh -/

theorem Traversal.updateNodePriority_eq (E : Traversal.Env)
    (parent : Option Traversal.NodeData) (d : Traversal.NodeData) (h : d.meta.isSome = true) :
    Traversal.updateNodePriority E parent d =
      if (d.hash + E.tickIndex) % 4 = 0 then { d with priority := Traversal.freshPriority E d }
      else d := by
  unfold Traversal.updateNodePriority
  rw [if_pos h]
  have : ((d.hash + E.tickIndex) % 2 ^ 32) % 4 = (d.hash + E.tickIndex) % 4 := by omega
  rw [this]
  rfl

/-- C26: on a node with meta `updateNodePriority` changes nothing unless
`(hash + tickIndex) mod 4 = 0`, and then sets the priority to `1e6 / (d + 1)`, `d` being the
distance of the box `aabbPhys` to the focus; among any four consecutive values of the 32 bit
tick counter (wrap included) there is exactly one at which the priority is refreshed whatever
it was before; a node without meta takes the priority of its parent, and 0 without a
parent. -/
theorem updateNodePriority_refresh :
    (∀ (E : Traversal.Env) (parent : Option Traversal.NodeData) (d : Traversal.NodeData),
      d.meta.isSome = true →
        Traversal.updateNodePriority E parent d =
          if (d.hash + E.tickIndex) % 4 = 0 then
            { d with priority :=
              ((1000000 / (E.aabbPointDist E.focusPosPhys d.aabbPhys + 1) : ℚ) : WithTop ℚ) }
          else d) ∧
    (∀ (E : Traversal.Env) (parent : Option Traversal.NodeData) (d : Traversal.NodeData)
      (t0 : Nat), d.meta.isSome = true →
        ∃! k, k < 4 ∧ ∀ p : Priority,
          (Traversal.updateNodePriority { E with tickIndex := (t0 + k) % 2 ^ 32 } parent
            { d with priority := p }).priority = Traversal.freshPriority E d) ∧
    (∀ (E : Traversal.Env) (p d : Traversal.NodeData), d.meta = none →
      Traversal.updateNodePriority E (some p) d = { d with priority := p.priority }) ∧
    (∀ (E : Traversal.Env) (d : Traversal.NodeData), d.meta = none →
      Traversal.updateNodePriority E none d = { d with priority := 0 }) := by
  refine ⟨fun E parent d h => Traversal.updateNodePriority_eq E parent d h, ?_, ?_, ?_⟩
  · intro E parent d t0 h
    have hval : ∀ (k : Nat) (p : Priority),
        (Traversal.updateNodePriority { E with tickIndex := (t0 + k) % 2 ^ 32 } parent
          { d with priority := p }).priority
          = if (d.hash + (t0 + k) % 2 ^ 32) % 4 = 0 then Traversal.freshPriority E d else p := by
      intro k p
      rw [Traversal.updateNodePriority_eq { E with tickIndex := (t0 + k) % 2 ^ 32 } parent
        { d with priority := p } h]
      split_ifs <;> rfl
    refine ⟨(4 - (d.hash + t0) % 4) % 4, ⟨by omega, fun p => ?_⟩, ?_⟩
    · rw [hval, if_pos (by omega)]
    · rintro k ⟨hk, hp⟩
      have h1 := hp ⊤
      rw [hval] at h1
      split_ifs at h1 with hc
      · omega
      · exact absurd h1 (by simp [Traversal.freshPriority])
  · intro E p d h
    unfold Traversal.updateNodePriority
    rw [h]
    rfl
  · intro E d h
    unfold Traversal.updateNodePriority
    rw [h]
    rfl

/-- The theorem `updateNodePriority_refresh` at the resolved sample root (hash 0) in tick 8:
the priority becomes `1e6 / (0 + 1)`. -/
theorem updateNodePriority_refresh_witness :
    sampleMetaOut.1.data.meta.isSome = true ∧
    Traversal.updateNodePriority { sampleTEnv with tickIndex := 8 } none sampleMetaOut.1.data
      = { sampleMetaOut.1.data with priority := ((1000000 / (0 + 1) : ℚ) : WithTop ℚ) } :=
  ⟨by decide, by
    rw [updateNodePriority_refresh.1 { sampleTEnv with tickIndex := 8 } none
      sampleMetaOut.1.data (by decide)]
    rfl⟩

/-! ### The assertion `assert(node)` of renderer.cpp -/

theorem Renderer.findTopmost_all_invalid (E : Renderer.Env) (nodeId : TileId)
    (priority : Priority) (l : List Renderer.SurfaceStackItem) (a : Renderer.MetaSearch)
    (h : ∀ it ∈ l, Renderer.ResolvesInvalid E nodeId priority it) :
    ∃ a', Renderer.findTopmost E nodeId priority l a = Except.ok a' ∧ a'.node = a.node ∧
      a'.determined = a.determined ∧ a'.topmost = a.topmost := by
  induction l generalizing a with
  | nil => exact ⟨a, by rw [Renderer.findTopmost], rfl, rfl, rfl⟩
  | cons it rest ih =>
    obtain ⟨n, log, hc⟩ := h it (List.mem_cons_self _ _)
    rw [Renderer.findTopmost, hc]
    exact ih _ (fun it' hit => h it' (List.mem_cons_of_mem _ hit))

theorem Renderer.findTopmost_node_valid (E : Renderer.Env) (nodeId : TileId)
    (priority : Priority) (l : List Renderer.SurfaceStackItem) (a a' : Renderer.MetaSearch)
    (h : Renderer.findTopmost E nodeId priority l a = Except.ok a') :
    a'.node = a.node ∨
      ∃ it ∈ l, ∃ n, a'.node = some n ∧ Renderer.ResolvesValid E nodeId priority it n := by
  induction l generalizing a with
  | nil =>
    rw [Renderer.findTopmost] at h
    cases h
    exact Or.inl rfl
  | cons it rest ih =>
    rw [Renderer.findTopmost] at h
    rcases hc : Renderer.checkMetaNode E.flag E.meta it.surface nodeId none priority
      with ⟨o, log⟩
    rw [hc] at h
    have lift : ∀ b : Renderer.MetaSearch,
        Renderer.findTopmost E nodeId priority rest b = Except.ok a' →
        (b.node = a.node ∨ ∃ n, b.node = some n ∧ Renderer.ResolvesValid E nodeId priority it n) →
        a'.node = a.node ∨ ∃ it' ∈ it :: rest, ∃ n, a'.node = some n ∧
          Renderer.ResolvesValid E nodeId priority it' n := by
      intro b hb hnode
      rcases ih b hb with h1 | ⟨it', hit', n, hn, hv⟩
      · rcases hnode with h2 | ⟨n, hn, hv⟩
        · exact Or.inl (h1.trans h2)
        · exact Or.inr ⟨it, List.mem_cons_self _ _, n, h1.trans hn, hv⟩
      · exact Or.inr ⟨it', List.mem_cons_of_mem _ hit', n, hn, hv⟩
    rcases o with _ | ⟨v, n⟩
    · cases h
    · cases v with
      | Invalid => exact lift _ h (Or.inl rfl)
      | Indeterminate => exact lift _ h (Or.inl rfl)
      | Valid =>
        cases n with
        | none => cases h
        | some n =>
          have hv : Renderer.ResolvesValid E nodeId priority it n := ⟨log, hc⟩
          simp only at h
          repeat' first
            | simp only [reduceCtorEq] at h
            | exact lift _ h (Or.inl rfl)
            | exact lift _ h (Or.inr ⟨n, rfl, hv⟩)
            | (refine lift _ h ?_
               show (if a.node.isNone = true then some n else a.node) = a.node ∨ _
               cases hn : a.node with
               | none => exact Or.inr ⟨n, rfl, hv⟩
               | some n0 => exact Or.inl rfl)
            | split at h

theorem Traversal.findMetaTiles_all_invalid (E : Traversal.Env) (d : Traversal.NodeData)
    (i : Nat) (l : List SurfaceInfo)
    (h : ∀ surface ∈ l, getResourceValidity
      (E.getMetaTile (surface.urlMeta (roundId E.metaBinaryOrder d.nodeInfo.nodeId))).resource
        = Validity.Invalid) :
    ∃ req, Traversal.findMetaTiles E none d i l
      = Except.ok (List.replicate l.length none, true, req) := by
  induction l generalizing i with
  | nil => exact ⟨[], by rw [Traversal.findMetaTiles]; rfl⟩
  | cons surface rest ih =>
    obtain ⟨req, hreq⟩ := ih (i + 1) (fun s hs => h s (List.mem_cons_of_mem _ hs))
    have h1 := h surface (List.mem_cons_self _ _)
    refine ⟨[⟨surface.urlMeta (roundId E.metaBinaryOrder d.nodeInfo.nodeId), d.priority * 2⟩]
      ++ req, ?_⟩
    rw [Traversal.findMetaTiles]
    simp only [Traversal.findMetaTile, h1, hreq, Bool.and_self, List.length_cons,
      List.replicate_succ]

theorem Traversal.findTopmost_all_none (E : Traversal.Env) (nodeId : TileId)
    (l : List SurfaceInfo) (a : Traversal.SurfaceSearch) :
    Traversal.findTopmost E nodeId ((List.replicate l.length none).zip l) a = Except.ok a := by
  induction l with
  | nil => simp [Traversal.findTopmost]
  | cons s rest ih =>
    rw [List.length_cons, List.replicate_succ, List.zip_cons_cons, Traversal.findTopmost]
    exact ih

/-- C29, where the code fails its own assertion: when the resolver `checkMetaNode` returns
`Invalid` for every surface of the stack (none is `Indeterminate`, the cap is not hit),
`travDetermineMeta` of renderer.cpp reaches `assert(node)` with no meta-node selected and
stops there.  Whenever it does return true, the node's meta is built from the meta-node that
the resolver returned as `Valid` for some surface of the stack.  On a root whose meta-tiles
are all `Invalid`, `travDetermineMeta` of rendererTraversal.cpp returns false and leaves the
node as it is. -/
theorem travDetermineMeta_assert_node :
    (∀ (E : Renderer.Env) (trav : Renderer.TraverseNode) (s : Renderer.Frame),
      trav.meta = none → trav.draws = [] → trav.childs = [] →
      s.currentNodeUpdates < E.options.maxNodeUpdatesPerTick →
      (∀ it ∈ E.surfaceStack,
        Renderer.ResolvesInvalid E trav.nodeInfo.nodeId trav.priority it) →
      Renderer.travDetermineMeta E trav s = Except.error Renderer.Failure.assertNode) ∧
    (∀ (E : Renderer.Env) (trav trav' : Renderer.TraverseNode) (s s' : Renderer.Frame),
      Renderer.travDetermineMeta E trav s = Except.ok (true, trav', s') →
      ∃ m it, trav'.meta = some m ∧ it ∈ E.surfaceStack ∧
        Renderer.ResolvesValid E trav.nodeInfo.nodeId trav.priority it m.node) ∧
    (∀ (E : Traversal.Env) (trav : Traversal.TraverseNode) (s : Traversal.Frame),
      trav.data.meta = none → trav.childs = [] → trav.data.rendersEmpty = true →
      E.layer.freeLayerMonolithicGeodata = false →
      (∀ surface ∈ E.layer.surfaces, getResourceValidity
        (E.getMetaTile (surface.urlMeta
          (roundId E.metaBinaryOrder trav.data.nodeInfo.nodeId))).resource = Validity.Invalid) →
      ∃ s', Traversal.travDetermineMeta E none trav s = Except.ok (false, trav, s')) := by
  refine ⟨?_, ?_, ?_⟩
  · intro E trav s hm hd hc hcap hall
    obtain ⟨a', ha, hnode, hdet, _⟩ := Renderer.findTopmost_all_invalid E trav.nodeInfo.nodeId
      trav.priority E.surfaceStack ⟨none, none, fun _ => false, true, []⟩ hall
    unfold Renderer.travDetermineMeta
    simp only [hm, hd, hc, ha, hdet, hnode, Option.isSome_none, Bool.false_eq_true, if_false,
      List.isEmpty_nil, Bool.not_true, ge_iff_le, Nat.not_le.mpr hcap]
  · intro E trav trav' s s' h
    obtain ⟨a, node, m', hft, _, hnode, hmeta, hmn, _⟩ :=
      Renderer.travDetermineMeta_resolved E trav trav' s s' h
    rcases Renderer.findTopmost_node_valid E _ _ _ _ a hft with h1 | ⟨it, hit, n, hn, hv⟩
    · rw [hnode] at h1
      cases h1
    · rw [hnode] at hn
      cases hn
      exact ⟨m', it, hmeta, hit, by rw [hmn]; exact hv⟩
  · intro E trav s hm hc hr hmono hall
    obtain ⟨req, hreq⟩ := Traversal.findMetaTiles_all_invalid E trav.data 0 E.layer.surfaces hall
    refine ⟨{ s with currentNodeMetaUpdates := s.currentNodeMetaUpdates + 1
                     requests := s.requests ++ req }, ?_⟩
    unfold Traversal.travDetermineMeta
    simp only [hm, hc, hr, hmono, hreq, Traversal.findTopmost_all_none, Option.isSome_none,
      Bool.false_eq_true, if_false, List.isEmpty_nil, Bool.not_true, Bool.not_false]

/-- The theorem `travDetermineMeta_assert_node` at the fresh root over a store whose
meta-tiles all failed for good: the run of renderer.cpp stops at `assert(node)`. -/
theorem travDetermineMeta_assert_node_witness :
    sampleOldRoot.meta = none ∧ sampleOldRoot.draws = [] ∧ sampleOldRoot.childs = [] ∧
    sampleFrame.currentNodeUpdates < sampleEnvFatal.options.maxNodeUpdatesPerTick ∧
    (Renderer.checkMetaNode sampleEnvFatal.flag sampleEnvFatal.meta sampleSurface
      sampleOldRoot.nodeInfo.nodeId none sampleOldRoot.priority).1
        = some (Validity.Invalid, none) ∧
    Renderer.travDetermineMeta sampleEnvFatal sampleOldRoot sampleFrame
      = Except.error Renderer.Failure.assertNode :=
  ⟨rfl, rfl, rfl, by decide, by decide,
    travDetermineMeta_assert_node.1 sampleEnvFatal sampleOldRoot sampleFrame rfl rfl rfl
      (by decide) (by
        intro it hit
        simp only [sampleEnvFatal, sampleEnv, List.mem_singleton] at hit
        subst hit
        exact ⟨none, _, rfl⟩)⟩

/-! ### The lookup by `sourceReference` -/

/-- C30, where the asserted condition does not bound the lookup: with a tileset mapping, a
geometry meta-node whose `sourceReference` equals the size of the mapping's surface list
passes `assert(sourceReference > 0 && sourceReference <= size)`, and the lookup
`surfaces[sourceReference]` is then one past the end, in renderer.cpp and in
rendererTraversal.cpp alike; for `sourceReference < size` the lookup yields that entry. -/
theorem findTopmost_sourceReference_bound :
    (∀ (E : Renderer.Env) (nodeId : TileId) (priority : Priority)
      (it : Renderer.SurfaceStackItem) (rest stack : List Renderer.SurfaceStackItem)
      (a : Renderer.MetaSearch) (n : MetaNode),
      Renderer.ResolvesValid E nodeId priority it n → a.topmost = none →
      n.alien = it.alien → n.geometry = true → E.tilesetMapping = some stack →
      0 < n.sourceReference → n.sourceReference = stack.length →
      Renderer.findTopmost E nodeId priority (it :: rest) a
        = Except.error Renderer.Failure.indexOutOfRange) ∧
    (∀ (E : Traversal.Env) (nodeId : TileId) (mt : MetaTile) (surface : SurfaceInfo)
      (rest : List (Option MetaTile × SurfaceInfo)) (stack : List SurfaceInfo)
      (a : Traversal.SurfaceSearch) (n : MetaNode),
      mt.get nodeId = some n → a.topmost = none →
      n.alien = surface.alien → n.geometry = true → E.layer.tilesetStack = some stack →
      0 < n.sourceReference → n.sourceReference = stack.length →
      Traversal.findTopmost E nodeId ((some mt, surface) :: rest) a
        = Except.error Traversal.Failure.indexOutOfRange) ∧
    (∀ (E : Traversal.Env) (nodeId : TileId) (mt : MetaTile) (surface : SurfaceInfo)
      (rest : List (Option MetaTile × SurfaceInfo)) (stack : List SurfaceInfo)
      (a : Traversal.SurfaceSearch) (n : MetaNode),
      mt.get nodeId = some n → a.topmost = none →
      n.alien = surface.alien → n.geometry = true → E.layer.tilesetStack = some stack →
      0 < n.sourceReference → n.sourceReference < stack.length →
      ∃ tm, stack[n.sourceReference]? = some tm ∧
        Traversal.findTopmost E nodeId ((some mt, surface) :: rest) a
          = Traversal.findTopmost E nodeId rest
              { a with
                childsAvailable := fun i => a.childsAvailable i ||
                  decide (n.childFlags &&& (E.flag.ulChild <<< i) ≠ 0)
                node := some n
                topmost := some tm }) ∧
    (∀ (E : Renderer.Env) (nodeId : TileId) (priority : Priority)
      (it : Renderer.SurfaceStackItem) (rest stack : List Renderer.SurfaceStackItem)
      (a : Renderer.MetaSearch) (n : MetaNode) (log : List MetaRequest),
      Renderer.checkMetaNode E.flag E.meta it.surface nodeId none priority
        = (some (Validity.Valid, some n), log) → a.topmost = none →
      n.alien = it.alien → n.geometry = true → E.tilesetMapping = some stack →
      0 < n.sourceReference → n.sourceReference < stack.length →
      ∃ tm, stack[n.sourceReference]? = some tm ∧
        Renderer.findTopmost E nodeId priority (it :: rest) a
          = Renderer.findTopmost E nodeId priority rest
              { a with
                requests := a.requests ++ log
                childsAvailable := fun i => a.childsAvailable i ||
                  decide (n.childFlags &&& (E.flag.ulChild <<< i) ≠ 0)
                node := some n
                topmost := some tm }) := by
  refine ⟨?_, ?_, ?_, ?_⟩
  · intro E nodeId priority it rest stack a n hv ht hal hg hts hpos heq
    obtain ⟨log, hc⟩ := hv
    have hnone : stack[stack.length]? = none := List.getElem?_eq_none (le_refl _)
    rw [Renderer.findTopmost, hc]
    simp only [ht, hal, hg, hts, heq, hnone, Option.isSome_none, bne_self_eq_false,
      Bool.or_self, Bool.false_eq_true, if_false, if_true, le_refl, decide_True,
      Bool.and_true, Bool.not_eq_true', decide_eq_false_iff_not, not_lt]
    rw [if_neg (by omega)]
  · intro E nodeId mt surface rest stack a n hget ht hal hg hts hpos heq
    have hnone : stack[stack.length]? = none := List.getElem?_eq_none (le_refl _)
    rw [Traversal.findTopmost, hget]
    simp only [ht, hal, hg, hts, heq, hnone, Option.isSome_none, bne_self_eq_false,
      Bool.or_self, Bool.false_eq_true, if_false, if_true, le_refl, decide_True,
      Bool.and_true, Bool.not_eq_true', decide_eq_false_iff_not, not_lt]
    rw [if_neg (by omega)]
  · intro E nodeId mt surface rest stack a n hget ht hal hg hts hpos hlt
    refine ⟨stack[n.sourceReference], List.getElem?_eq_getElem hlt, ?_⟩
    rw [Traversal.findTopmost, hget]
    simp only [ht, hal, hg, hts, List.getElem?_eq_getElem hlt, Option.isSome_none,
      bne_self_eq_false, Bool.or_self, Bool.false_eq_true, if_false, if_true,
      Bool.not_eq_true', Bool.and_eq_false_imp, decide_eq_true_eq, decide_eq_false_iff_not]
    rw [if_neg (by omega)]

  · intro E nodeId priority it rest stack a n log hc ht hal hg hts hpos hlt
    refine ⟨stack[n.sourceReference], List.getElem?_eq_getElem hlt, ?_⟩
    rw [Renderer.findTopmost, hc]
    simp only [ht, hal, hg, hts, List.getElem?_eq_getElem hlt, Option.isSome_none,
      bne_self_eq_false, Bool.or_self, Bool.false_eq_true, if_false, if_true,
      Bool.not_eq_true', Bool.and_eq_false_imp, decide_eq_true_eq, decide_eq_false_iff_not]
    rw [if_neg (by omega)]

/-- The theorem `findTopmost_sourceReference_bound` at a tileset stack of one surface and a
meta-node with `sourceReference = 1`: the assertion passes and the lookup is out of range, and
so is the whole of `travDetermineMeta` on the fresh root, in both generations of the code. -/
theorem findTopmost_sourceReference_bound_witness :
    (0 < sampleMappedNode.sourceReference ∧
      sampleMappedNode.sourceReference ≤ [sampleSurfaceLow].length) ∧
    Traversal.findTopmost sampleTEnvMapped ⟨0, 0, 0⟩
        [(some (sampleStoreMapped "m"), sampleSurface)] ⟨none, none, fun _ => false⟩
      = Except.error Traversal.Failure.indexOutOfRange ∧
    Traversal.travDetermineMeta sampleTEnvMapped none sampleRoot sampleTFrame
      = Except.error Traversal.Failure.indexOutOfRange ∧
    Renderer.travDetermineMeta sampleEnvMapped sampleOldRoot sampleFrame
      = Except.error Renderer.Failure.indexOutOfRange :=
  ⟨by decide,
    findTopmost_sourceReference_bound.2.1 sampleTEnvMapped ⟨0, 0, 0⟩ (sampleStoreMapped "m")
      sampleSurface [] [sampleSurfaceLow] ⟨none, none, fun _ => false⟩ sampleMappedNode
      rfl rfl rfl rfl rfl (by decide) rfl,
    rfl, rfl⟩

/-! ### A mesh aggregate that is `Invalid` -/

theorem Traversal.travDetermineDraws_invalid (E : Traversal.Env)
    (parent : Option Traversal.NodeData) (trav : Traversal.TraverseNode) (s : Traversal.Frame)
    (meta : MetaNode) (surface : SurfaceInfo)
    (hm : trav.data.meta = some meta) (hs : trav.data.surface = some surface)
    (hr : trav.data.rendersEmpty = true) (hg : E.layer.isGeodata = false)
    (hv : getResourceValidity
      (E.getMeshAggregate (surface.urlMesh trav.data.nodeInfo.nodeId)).resource
        = Validity.Invalid) :
    ∃ s', Traversal.travDetermineDraws E parent trav s
        = Except.ok (false,
            trav.setData { Traversal.updateNodePriority E parent trav.data with surface := none },
            s') ∧
      s'.rendered = s.rendered := by
  obtain ⟨d, cs⟩ := trav
  simp only [Traversal.TraverseNode.data] at hm hs hr hv
  obtain ⟨h1, _, h3, h4, _, h6, h7, h8, _, _⟩ := Traversal.updateNodePriority_keeps E parent d
  have hr' : (Traversal.updateNodePriority E parent d).rendersEmpty = true := by
    simp only [Traversal.NodeData.rendersEmpty, h6, h7, h8] at hr ⊢
    exact hr
  unfold Traversal.travDetermineDraws
  simp only [Traversal.TraverseNode.data, hm, hs, hr, hg, Option.isNone_some,
    Bool.false_eq_true, if_false, Bool.not_true, Traversal.TraverseNode.setData]
  unfold Traversal.travDetermineDrawsSurface
  simp only [Traversal.TraverseNode.data, Traversal.TraverseNode.childs, h3, h1, h4, hm, hs, hv,
    Traversal.TraverseNode.setData]
  exact ⟨_, rfl, rfl⟩

theorem Traversal.ensureDraws_no_surface (E : Traversal.Env)
    (parent : Option Traversal.NodeData) (trav : Traversal.TraverseNode) (s : Traversal.Frame)
    (hs : trav.data.surface = none) :
    Traversal.ensureDraws E parent trav s = Except.ok (trav, s) := by
  unfold Traversal.ensureDraws
  rw [hs]
  rfl

theorem Traversal.travInit_no_surface (E : Traversal.Env)
    (parent : Option Traversal.NodeData) (trav : Traversal.TraverseNode) (s : Traversal.Frame)
    (hm : trav.data.meta.isSome = true) (hs : trav.data.surface = none) :
    ∃ t' s', Traversal.travInit E parent trav s = Except.ok (true, t', s') ∧
      t'.data.surface = none ∧ t'.data.meta = trav.data.meta ∧
      t'.data.rendersEmpty = trav.data.rendersEmpty ∧ s'.rendered = s.rendered ∧
      s'.requests = s.requests := by
  obtain ⟨d, cs⟩ := trav
  simp only [Traversal.TraverseNode.data] at hm hs
  obtain ⟨h1, _, h3, _, _, h6, h7, h8, _, _⟩ :=
    Traversal.updateNodePriority_keeps E parent { d with lastAccessTime := E.tickIndex }
  simp only at h1 h3 h6 h7 h8
  unfold Traversal.travInit
  simp only [Traversal.TraverseNode.setData, Traversal.TraverseNode.data, Traversal.initData, h3,
    Option.isNone_iff_eq_none]
  rw [if_neg (by
    intro hn
    rw [hn] at hm
    cases hm)]
  exact ⟨_, _, rfl, by rw [h1]; exact hs, h3, by
    simp only [Traversal.NodeData.rendersEmpty, h6, h7, h8], rfl, rfl⟩

theorem Renderer.travDetermineDraws_invalid_agg (E : Renderer.Env) (trav : Renderer.TraverseNode)
    (s : Renderer.Frame) (m : Renderer.MetaInfo) (item : Renderer.SurfaceStackItem)
    (hm : trav.meta = some m) (hs : m.surface = some item) (hd : trav.draws = [])
    (hcap : s.currentNodeUpdates < E.options.maxNodeUpdatesPerTick)
    (hv : getResourceValidity
      (E.getMeshAggregate (item.surface.urlMesh trav.nodeInfo.nodeId)).resource
        = Validity.Invalid) :
    ∃ s', Renderer.travDetermineDraws E trav s
        = Except.ok (false, trav.setMeta (some { m with surface := none }), s') ∧
      s'.draws = s.draws ∧ s'.rendered = s.rendered := by
  unfold Renderer.travDetermineDraws
  simp only [hm, hs, hd, hv, List.isEmpty_nil, Bool.not_true, Bool.false_eq_true, if_false,
    ge_iff_le, Nat.not_le.mpr hcap]
  exact ⟨_, rfl, rfl, rfl⟩

theorem Renderer.traverse_no_surface (E : Renderer.Env) (trav trav' : Renderer.TraverseNode)
    (loadOnly : Bool) (s s' : Renderer.Frame) (q : List (Renderer.TraverseNode × Bool))
    (m : Renderer.MetaInfo) (hm : trav.meta = some m) (hs : m.surface = none)
    (h : Renderer.traverse E trav loadOnly s = Except.ok (trav', s', q)) :
    trav'.meta = some m ∧ trav'.draws = trav.draws := by
  obtain ⟨ni, m0, draws, childs, prio, time⟩ := trav
  simp only [Renderer.TraverseNode.meta] at hm
  subst hm
  unfold Renderer.traverse at h
  simp only [Renderer.touchResources, Renderer.TraverseNode.setLastAccessTime,
    Renderer.TraverseNode.meta, Renderer.TraverseNode.draws, Renderer.TraverseNode.nodeInfo,
    Renderer.TraverseNode.childs, Renderer.TraverseNode.priority,
    Renderer.TraverseNode.lastAccessTime, Option.isNone_some, Bool.false_eq_true, if_false, hs,
    Option.isSome_none, Bool.false_and] at h
  repeat' first
    | simp only [reduceCtorEq] at h
    | (simp only [Except.ok.injEq, Prod.mk.injEq] at h
       obtain ⟨ht, _, _⟩ := h
       subst ht
       exact ⟨rfl, rfl⟩)
    | split at h

/-- C21, as the code has it: when the mesh aggregate of the node's surface is `Invalid`,
`travDetermineDraws` returns false, sets the node's surface to none and commits no draws (in
rendererTraversal.cpp every other member is as `updateNodePriority` left it, in renderer.cpp
the node is otherwise unchanged); no other surface of the stack is considered afterwards:
a node without surface passes `travInit` and the draws step unchanged, without a surface and
without draws, and `traverse` of renderer.cpp keeps its meta without surface and its
draws. -/
theorem travDetermineDraws_invalid_mesh :
    (∀ (E : Traversal.Env) (parent : Option Traversal.NodeData) (trav : Traversal.TraverseNode)
      (s : Traversal.Frame) (meta : MetaNode) (surface : SurfaceInfo),
      trav.data.meta = some meta → trav.data.surface = some surface →
      trav.data.rendersEmpty = true → E.layer.isGeodata = false →
      getResourceValidity
        (E.getMeshAggregate (surface.urlMesh trav.data.nodeInfo.nodeId)).resource
          = Validity.Invalid →
      ∃ t' s', Traversal.travDetermineDraws E parent trav s = Except.ok (false, t', s') ∧
        t' = trav.setData
          { Traversal.updateNodePriority E parent trav.data with surface := none } ∧
        t'.data.surface = none ∧ t'.data.rendersEmpty = true ∧ s'.rendered = s.rendered) ∧
    (∀ (E : Traversal.Env) (parent : Option Traversal.NodeData) (trav : Traversal.TraverseNode)
      (s : Traversal.Frame), trav.data.meta.isSome = true → trav.data.surface = none →
      Traversal.ensureDraws E parent trav s = Except.ok (trav, s) ∧
      ∃ t' s', Traversal.travInit E parent trav s = Except.ok (true, t', s') ∧
        t'.data.surface = none ∧ t'.data.rendersEmpty = trav.data.rendersEmpty ∧
        s'.requests = s.requests) ∧
    (∀ (E : Renderer.Env) (trav : Renderer.TraverseNode) (s : Renderer.Frame)
      (m : Renderer.MetaInfo) (item : Renderer.SurfaceStackItem),
      trav.meta = some m → m.surface = some item → trav.draws = [] →
      s.currentNodeUpdates < E.options.maxNodeUpdatesPerTick →
      getResourceValidity
        (E.getMeshAggregate (item.surface.urlMesh trav.nodeInfo.nodeId)).resource
          = Validity.Invalid →
      ∃ s', Renderer.travDetermineDraws E trav s
          = Except.ok (false, trav.setMeta (some { m with surface := none }), s') ∧
        (trav.setMeta (some { m with surface := none })).draws = [] ∧ s'.draws = s.draws) ∧
    (∀ (E : Renderer.Env) (trav trav' : Renderer.TraverseNode) (loadOnly : Bool)
      (s s' : Renderer.Frame) (q : List (Renderer.TraverseNode × Bool)) (m : Renderer.MetaInfo),
      trav.meta = some m → m.surface = none →
      Renderer.traverse E trav loadOnly s = Except.ok (trav', s', q) →
      trav'.meta = some m ∧ trav'.draws = trav.draws) := by
  refine ⟨?_, ?_, ?_, ?_⟩
  · intro E parent trav s meta surface hm hs hr hg hv
    obtain ⟨s', h, hrend⟩ :=
      Traversal.travDetermineDraws_invalid E parent trav s meta surface hm hs hr hg hv
    obtain ⟨_, _, _, _, _, h6, h7, h8, _, _⟩ :=
      Traversal.updateNodePriority_keeps E parent trav.data
    refine ⟨_, s', h, rfl, rfl, ?_, hrend⟩
    obtain ⟨d, cs⟩ := trav
    simp only [Traversal.TraverseNode.data] at hr h6 h7 h8
    simp only [Traversal.TraverseNode.setData, Traversal.TraverseNode.data,
      Traversal.NodeData.rendersEmpty, h6, h7, h8] at hr ⊢
    exact hr
  · intro E parent trav s hm hs
    refine ⟨Traversal.ensureDraws_no_surface E parent trav s hs, ?_⟩
    obtain ⟨t', s', h, h1, _, h3, _, h5⟩ := Traversal.travInit_no_surface E parent trav s hm hs
    exact ⟨t', s', h, h1, h3, h5⟩
  · intro E trav s m item hm hs hd hcap hv
    obtain ⟨s', h, h1, _⟩ := Renderer.travDetermineDraws_invalid_agg E trav s m item hm hs hd hcap hv
    refine ⟨s', h, ?_, h1⟩
    obtain ⟨ni, m0, draws, childs, prio, time⟩ := trav
    exact hd
  · intro E trav trav' loadOnly s s' q m hm hs h
    exact Renderer.traverse_no_surface E trav trav' loadOnly s s' q m hm hs h

/-- The theorem `travDetermineDraws_invalid_mesh` at the root resolved over the stack "top",
"low", where the mesh aggregate of "top" failed for good. -/
theorem travDetermineDraws_invalid_mesh_witness :
    sampleBrokenMeta.1.data.meta = some sampleChildlessNode ∧
    sampleBrokenMeta.1.data.surface = some sampleSurfaceTopMesh ∧
    sampleBrokenMeta.1.data.rendersEmpty = true ∧
    sampleTEnvBroken.layer.isGeodata = false ∧
    getResourceValidity (sampleTEnvBroken.getMeshAggregate
      (sampleSurfaceTopMesh.urlMesh sampleBrokenMeta.1.data.nodeInfo.nodeId)).resource
        = Validity.Invalid ∧
    ∃ t' s', Traversal.travDetermineDraws sampleTEnvBroken none sampleBrokenMeta.1 sampleTFrame
        = Except.ok (false, t', s') ∧
      t' = sampleBrokenMeta.1.setData
        { Traversal.updateNodePriority sampleTEnvBroken none sampleBrokenMeta.1.data with
          surface := none } ∧
      t'.data.surface = none ∧ t'.data.rendersEmpty = true ∧
      s'.rendered = sampleTFrame.rendered :=
  ⟨rfl, rfl, by decide, rfl, by decide,
    travDetermineDraws_invalid_mesh.1 sampleTEnvBroken none sampleBrokenMeta.1 sampleTFrame
      sampleChildlessNode sampleSurfaceTopMesh rfl rfl (by decide) rfl (by decide)⟩

/-- C21 as stated fails: over the stack "top", "low", both with geometry at the root, the
root takes the surface "top"; its mesh aggregate is `Invalid`, so the first frame leaves the
root without surface, not with "low", and the second frame leaves it so again: no mesh of
"low" is ever requested and nothing is rendered, in rendererTraversal.cpp and in
renderer.cpp. -/
theorem travDetermineDraws_no_lower_surface :
    sampleBrokenMeta.1.data.surface.map (fun su => su.name) = some ["top"] ∧
    Traversal.finished (Traversal.travModeFlat sampleTEnvBroken 2 none sampleRoot sampleTFrame)
      = true ∧
    sampleBrokenFirst.1.data.meta.isSome = true ∧
    sampleBrokenFirst.1.data.surface.isNone = true ∧
    sampleBrokenFirst.2.requests.map (fun r => r.name) = ["top", "low", "tex", "top-mesh"] ∧
    sampleBrokenFirst.2.rendered = [] ∧
    Traversal.finished
      (Traversal.travModeFlat sampleTEnvBroken 2 none sampleBrokenFirst.1 sampleTFrame) = true ∧
    sampleBrokenSecond.1.data.surface.isNone = true ∧
    sampleBrokenSecond.2.requests = [] ∧
    sampleBrokenSecond.2.rendered = [] ∧
    (sampleMeshStoreBroken "low-mesh").resource.state = ResourceState.ready ∧
    (sampleOldBroken.1.meta.bind (fun m => m.surface)).isNone = true ∧
    sampleOldBroken.1.draws = [] ∧
    sampleOldBroken.2.requests.map (fun r => r.name) = ["top-mesh"] := by
  decide

/-! ### The order of the opaque list -/

theorem Traversal.boundLayersLoop_opaque (E : Traversal.Env) (part : Renderer.MeshPart)
    (bls : List BoundParamInfo) (acc : Traversal.DrawsAcc) (at0 : Bool) :
    (Traversal.boundLayersLoop E part bls acc at0).1.newOpaque
      = acc.newOpaque ++ (bls.filter (fun b =>
          !(b.transparent || (Traversal.boundLayerTask E part b).textureMask.isSome))).map
            (Traversal.boundLayerTask E part) := by
  induction bls generalizing acc at0 with
  | nil => simp [Traversal.boundLayersLoop]
  | cons b rest ih =>
    unfold Traversal.boundLayersLoop
    dsimp only
    by_cases hb : (b.transparent || (Traversal.boundLayerTask E part b).textureMask.isSome) = true
    · rw [if_pos hb, ih, List.filter_cons]
      simp only [hb, Bool.not_true, Bool.false_eq_true, if_false]
    · rw [if_neg hb, ih, List.filter_cons]
      simp only [Bool.not_eq_true] at hb
      simp only [hb, Bool.not_false, if_true, List.map_cons, List.append_assoc,
        List.singleton_append]

theorem Traversal.internalTextureStep_opaque (E : Traversal.Env) (d : Traversal.NodeData)
    (surface : SurfaceInfo) (i : Nat) (part : Renderer.MeshPart) (acc : Traversal.DrawsAcc) :
    (Traversal.internalTextureStep E d surface i part acc).newOpaque
      = (if part.internalUv &&
            decide (getResourceValidity (E.getTexture (surface.urlIntTex d.nodeInfo.nodeId i))
              = Validity.Valid) then [Traversal.internalTask E d surface i part] else [])
          ++ acc.newOpaque := by
  unfold Traversal.internalTextureStep Traversal.travInternalTexture
  dsimp only
  by_cases hi : part.internalUv = true
  · rw [if_pos hi]
    cases hv : getResourceValidity (E.getTexture (surface.urlIntTex d.nodeInfo.nodeId i)) <;>
      simp [hi, Traversal.internalTask]
  · rw [if_neg hi]
    simp [hi]

theorem Traversal.subMeshStep_opaque (E : Traversal.Env) (d : Traversal.NodeData)
    (surface : SurfaceInfo) (i : Nat) (part : Renderer.MeshPart) (acc : Traversal.DrawsAcc) :
    (Traversal.subMeshStep E d surface i part acc).newOpaque
      = (if Traversal.emitsInternal E d surface i part then
          [Traversal.internalTask E d surface i part] else [])
        ++ acc.newOpaque ++ Traversal.opaqueBoundTasks E d surface i part := by
  unfold Traversal.subMeshStep Traversal.emitsInternal Traversal.opaqueBoundTasks
  by_cases hext : part.externalUv = true
  · simp only [hext, if_true, Bool.not_true, Bool.false_or]
    rcases hr : reorderBoundLayers E.prepare d.nodeInfo i
      (Traversal.subMeshBoundList E surface part) d.priority with ⟨v, bls⟩
    cases v with
    | Indeterminate => simp
    | Invalid => simp
    | Valid =>
      simp only
      have h2 := (Traversal.boundLayersLoop_spec E part bls acc true).2
      have h3 := Traversal.boundLayersLoop_opaque E part bls acc true
      by_cases hall : bls.all (fun b => b.transparent) = true
      · simp only [h2, hall, Bool.and_true, Bool.not_true, Bool.false_eq_true, if_false]
        rw [Traversal.internalTextureStep_opaque, h3]
        simp only [List.append_assoc]
      · simp only [Bool.not_eq_true] at hall
        simp only [h2, hall, Bool.and_false, Bool.not_false, if_true, Bool.false_eq_true,
          if_false, List.nil_append]
        rw [h3]
  · simp only [hext, Bool.false_eq_true, if_false, Bool.not_false, Bool.true_or, Bool.and_true,
      List.append_nil]
    rw [Traversal.internalTextureStep_opaque]

theorem Traversal.subMeshLoop_opaque (E : Traversal.Env) (d : Traversal.NodeData)
    (surface : SurfaceInfo) (i : Nat) (parts : List Renderer.MeshPart)
    (acc : Traversal.DrawsAcc) :
    (Traversal.subMeshLoop E d surface i parts acc).newOpaque
      = (Traversal.internalTasks E d surface i parts).reverse ++ acc.newOpaque
        ++ Traversal.boundTasks E d surface i parts := by
  induction parts generalizing i acc with
  | nil => simp [Traversal.subMeshLoop, Traversal.internalTasks, Traversal.boundTasks]
  | cons part rest ih =>
    rw [Traversal.subMeshLoop, ih, Traversal.subMeshStep_opaque, Traversal.internalTasks,
      Traversal.boundTasks]
    split_ifs <;> simp

theorem Traversal.internalTasks_internal (E : Traversal.Env) (d : Traversal.NodeData)
    (surface : SurfaceInfo) (i : Nat) (parts : List Renderer.MeshPart) :
    ∀ t ∈ Traversal.internalTasks E d surface i parts, t.externalUv = false := by
  induction parts generalizing i with
  | nil => intro t ht; cases ht
  | cons part rest ih =>
    intro t ht
    rw [Traversal.internalTasks, List.mem_append] at ht
    rcases ht with ht | ht
    · split_ifs at ht
      · rw [List.mem_singleton] at ht
        rw [ht]
        rfl
      · cases ht
    · exact ih _ t ht

theorem Traversal.boundTasks_external (E : Traversal.Env) (d : Traversal.NodeData)
    (surface : SurfaceInfo) (i : Nat) (parts : List Renderer.MeshPart) :
    ∀ t ∈ Traversal.boundTasks E d surface i parts, t.externalUv = true := by
  induction parts generalizing i with
  | nil => intro t ht; cases ht
  | cons part rest ih =>
    intro t ht
    rw [Traversal.boundTasks, List.mem_append] at ht
    rcases ht with ht | ht
    · unfold Traversal.opaqueBoundTasks at ht
      split_ifs at ht
      · split at ht
        · rw [List.mem_map] at ht
          obtain ⟨b, _, hb⟩ := ht
          rw [← hb]
          rfl
        · cases ht
      · cases ht
    · exact ih _ t ht

theorem Traversal.travDetermineDrawsSurface_opaque (E : Traversal.Env)
    (trav t' : Traversal.TraverseNode) (s s' : Traversal.Frame) (meta : MetaNode)
    (surface : SurfaceInfo) (hm : trav.data.meta = some meta)
    (hs : trav.data.surface = some surface)
    (h : Traversal.travDetermineDrawsSurface E trav s = Except.ok (true, t', s')) :
    t'.data.opaqueTasks
      = (Traversal.internalTasks E trav.data surface 0
          (E.getMeshAggregate (surface.urlMesh trav.data.nodeInfo.nodeId)).submeshes).reverse
        ++ Traversal.boundTasks E trav.data surface 0
          (E.getMeshAggregate (surface.urlMesh trav.data.nodeInfo.nodeId)).submeshes := by
  unfold Traversal.travDetermineDrawsSurface at h
  simp only [hm, hs] at h
  have hop := Traversal.subMeshLoop_opaque E trav.data surface 0
    (E.getMeshAggregate (surface.urlMesh trav.data.nodeInfo.nodeId)).submeshes
    ⟨true, [], [], [], [], []⟩
  simp only [List.append_nil] at hop
  repeat' first
    | simp only [reduceCtorEq] at h
    | (simp only [Except.ok.injEq, Prod.mk.injEq, Bool.false_eq_true, false_and] at h; done)
    | (simp only [Except.ok.injEq, Prod.mk.injEq, true_and] at h
       obtain ⟨ht, _⟩ := h
       subst ht
       obtain ⟨d, cs⟩ := trav
       simp only [Traversal.TraverseNode.setData, Traversal.TraverseNode.data] at hop ⊢
       first
         | exact hop
         | (split_ifs <;> exact hop))
    | split at h

/-- C24, as the code has it: after `travDetermineDrawsSurface` commits, the node's opaque
list is the internal-texture tasks (in reverse submesh order) followed by the opaque
bound-layer tasks (in submesh order), so no task with `externalUv = true` stands before one
with `externalUv = false`, for any list of submeshes.  A submesh contributes its
internal-texture task exactly when it has internal UV, its internal texture is `Valid` and the
block is reached: always without external UV, and with external UV only when its bound layers
resolved `Valid` and are all transparent; with a bound layer that is not transparent it
contributes none. -/
theorem travDetermineDrawsSurface_opaque_order :
    (∀ (E : Traversal.Env) (trav t' : Traversal.TraverseNode) (s s' : Traversal.Frame)
      (meta : MetaNode) (surface : SurfaceInfo),
      trav.data.meta = some meta → trav.data.surface = some surface →
      Traversal.travDetermineDrawsSurface E trav s = Except.ok (true, t', s') →
      t'.data.opaqueTasks
        = (Traversal.internalTasks E trav.data surface 0
            (E.getMeshAggregate (surface.urlMesh trav.data.nodeInfo.nodeId)).submeshes).reverse
          ++ Traversal.boundTasks E trav.data surface 0
            (E.getMeshAggregate (surface.urlMesh trav.data.nodeInfo.nodeId)).submeshes ∧
      (∀ (i j : Nat) (ti tj : RenderTask), t'.data.opaqueTasks[i]? = some ti →
        t'.data.opaqueTasks[j]? = some tj → ti.externalUv = false → tj.externalUv = true →
        i < j)) ∧
    (∀ (E : Traversal.Env) (d : Traversal.NodeData) (surface : SurfaceInfo) (i : Nat)
      (parts : List Renderer.MeshPart),
      (∀ t ∈ Traversal.internalTasks E d surface i parts, t.externalUv = false) ∧
      (∀ t ∈ Traversal.boundTasks E d surface i parts, t.externalUv = true)) ∧
    (∀ (E : Traversal.Env) (d : Traversal.NodeData) (surface : SurfaceInfo) (i : Nat)
      (part : Renderer.MeshPart) (rest : List Renderer.MeshPart),
      Traversal.internalTasks E d surface i (part :: rest)
        = (if Traversal.emitsInternal E d surface i part then
            [Traversal.internalTask E d surface i part] else [])
          ++ Traversal.internalTasks E d surface (i + 1) rest) ∧
    (∀ (E : Traversal.Env) (d : Traversal.NodeData) (surface : SurfaceInfo) (i : Nat)
      (part : Renderer.MeshPart), part.internalUv = true → part.externalUv = false →
      getResourceValidity (E.getTexture (surface.urlIntTex d.nodeInfo.nodeId i))
        = Validity.Valid →
      Traversal.emitsInternal E d surface i part = true) ∧
    (∀ (E : Traversal.Env) (d : Traversal.NodeData) (surface : SurfaceInfo) (i : Nat)
      (part : Renderer.MeshPart) (b : BoundParamInfo), part.externalUv = true →
      b ∈ (reorderBoundLayers E.prepare d.nodeInfo i (Traversal.subMeshBoundList E surface part)
        d.priority).2 → b.transparent = false →
      Traversal.emitsInternal E d surface i part = false) := by
  refine ⟨?_, ?_, ?_, ?_, ?_⟩
  · intro E trav t' s s' meta surface hm hs h
    have hop := Traversal.travDetermineDrawsSurface_opaque E trav t' s s' meta surface hm hs h
    refine ⟨hop, ?_⟩
    intro i j ti tj hi hj hti htj
    rw [hop] at hi hj
    have hI := Traversal.internalTasks_internal E trav.data surface 0
      (E.getMeshAggregate (surface.urlMesh trav.data.nodeInfo.nodeId)).submeshes
    have hB := Traversal.boundTasks_external E trav.data surface 0
      (E.getMeshAggregate (surface.urlMesh trav.data.nodeInfo.nodeId)).submeshes
    generalize (Traversal.internalTasks E trav.data surface 0
      (E.getMeshAggregate (surface.urlMesh trav.data.nodeInfo.nodeId)).submeshes) = I at hi hj hI
    generalize (Traversal.boundTasks E trav.data surface 0
      (E.getMeshAggregate (surface.urlMesh trav.data.nodeInfo.nodeId)).submeshes) = B at hi hj hB
    have hi' : i < I.reverse.length := by
      by_contra hge
      rw [List.getElem?_append_right (not_lt.mp hge)] at hi
      have := hB ti (List.getElem?_mem hi)
      rw [hti] at this
      cases this
    have hj' : I.reverse.length ≤ j := by
      by_contra hlt
      rw [List.getElem?_append_left (not_le.mp hlt)] at hj
      have := hI tj (List.mem_reverse.mp (List.getElem?_mem hj))
      rw [htj] at this
      cases this
    omega
  · intro E d surface i parts
    exact ⟨Traversal.internalTasks_internal E d surface i parts,
      Traversal.boundTasks_external E d surface i parts⟩
  · intro E d surface i part rest
    rw [Traversal.internalTasks]
  · intro E d surface i part hi he hv
    simp [Traversal.emitsInternal, hi, he, hv]
  · intro E d surface i part b he hb ht
    unfold Traversal.emitsInternal
    rcases hr : reorderBoundLayers E.prepare d.nodeInfo i
      (Traversal.subMeshBoundList E surface part) d.priority with ⟨v, bls⟩
    rw [hr] at hb
    cases v with
    | Indeterminate => simp [he]
    | Invalid => simp [he]
    | Valid =>
      have : bls.all (fun b => b.transparent) = false := by
        rw [List.all_eq_false]
        exact ⟨b, hb, by simp [ht]⟩
      simp [he, this]

/-- The theorem `travDetermineDrawsSurface_opaque_order` at the resolved sample root, whose
single submesh has internal UV only and a ready texture: the opaque list is its
internal-texture task. -/
theorem travDetermineDrawsSurface_opaque_order_witness :
    (∃ t' s', Traversal.travDetermineDrawsSurface sampleTEnv sampleResolvedRoot sampleTFrame
        = Except.ok (true, t', s') ∧
      t'.data.opaqueTasks = [Traversal.internalTask sampleTEnv sampleResolvedRoot.data
        sampleSurface 0 ⟨⟨"mesh0", ResourceState.ready⟩, 1, true, false, 0, 1⟩]) := by
  have hrun := Traversal.eq_of_succeeded
    (Traversal.travDetermineDrawsSurface sampleTEnv sampleResolvedRoot sampleTFrame)
    sampleResolvedRoot sampleTFrame (by decide)
  refine ⟨_, _, hrun, ?_⟩
  rw [(travDetermineDrawsSurface_opaque_order.1 sampleTEnv sampleResolvedRoot _ sampleTFrame _
    sampleMetaNode sampleSurface rfl rfl hrun).1]
  rfl

/-- C24 as stated fails in its second part.  The single submesh has internal UV and a `Valid`
internal texture, and also external UV.  With one bound layer that is masked and not
transparent the draws are committed with an empty opaque list and one transparent task: the
submesh has no task in the opaque list.  With an opaque layer below such a masked layer the
draws are committed with the opaque list holding the one bound-layer task and the transparent
list the other: two tasks, none of them the internal-texture task. -/
theorem travDetermineDrawsSurface_skips_internal_task :
    samplePartBoth.internalUv = true ∧
    (sampleTEnvMasked.getMeshAggregate
      (sampleSurface.urlMesh sampleResolvedRoot.data.nodeInfo.nodeId)).submeshes
        = [samplePartBoth] ∧
    getResourceValidity (sampleTEnvMasked.getTexture
      (sampleSurface.urlIntTex sampleResolvedRoot.data.nodeInfo.nodeId 0)) = Validity.Valid ∧
    Traversal.succeeded (Traversal.travDetermineDrawsSurface sampleTEnvMasked
      sampleResolvedRoot sampleTFrame) = true ∧
    (Traversal.outcome (Traversal.travDetermineDrawsSurface sampleTEnvMasked
      sampleResolvedRoot sampleTFrame) sampleResolvedRoot sampleTFrame).1.data.opaqueTasks
        = [] ∧
    (Traversal.outcome (Traversal.travDetermineDrawsSurface sampleTEnvMasked
      sampleResolvedRoot sampleTFrame) sampleResolvedRoot sampleTFrame).1.data.transparent.map
        (fun t => t.externalUv) = [true] ∧
    (sampleTEnvTwoLayers.getMeshAggregate
      (sampleSurface.urlMesh sampleResolvedRoot.data.nodeInfo.nodeId)).submeshes
        = [samplePartBoth] ∧
    getResourceValidity (sampleTEnvTwoLayers.getTexture
      (sampleSurface.urlIntTex sampleResolvedRoot.data.nodeInfo.nodeId 0)) = Validity.Valid ∧
    Traversal.succeeded (Traversal.travDetermineDrawsSurface sampleTEnvTwoLayers
      sampleResolvedRoot sampleTFrame) = true ∧
    (Traversal.outcome (Traversal.travDetermineDrawsSurface sampleTEnvTwoLayers
      sampleResolvedRoot sampleTFrame) sampleResolvedRoot sampleTFrame).1.data.opaqueTasks.map
        (fun t => t.externalUv) = [true] ∧
    (Traversal.outcome (Traversal.travDetermineDrawsSurface sampleTEnvTwoLayers
      sampleResolvedRoot sampleTFrame) sampleResolvedRoot sampleTFrame).1.data.transparent.map
        (fun t => t.externalUv) = [true] := by
  refine ⟨rfl, rfl, by decide, by decide, by decide, by decide, rfl, by decide, by decide,
    by decide, by decide⟩

/-! ### The rendered nodes form an antichain -/

theorem Traversal.renderedAntichain_nil (t : Traversal.TraverseNode) :
    Traversal.RenderedAntichain t [] :=
  ⟨[], rfl, List.Pairwise.nil, fun a ha => by cases ha⟩

theorem Traversal.renderedAntichain_self (t : Traversal.TraverseNode)
    (h : t.data.rendersEmpty = false) :
    Traversal.RenderedAntichain t [t.data.nodeInfo.nodeId] := by
  refine ⟨[([], t.data.nodeInfo.nodeId)], rfl, List.pairwise_singleton _ _, ?_⟩
  intro a ha
  rw [List.mem_singleton] at ha
  subst ha
  exact ⟨t, by rw [Traversal.nodeAt], rfl, h⟩

theorem Traversal.forestAntichain_tree (d : Traversal.NodeData)
    (cs : List Traversal.TraverseNode) (ids : List TileId)
    (h : Traversal.ForestAntichain cs ids) :
    Traversal.RenderedAntichain (.mk d cs) ids := by
  obtain ⟨Q, hids, hpw, hall⟩ := h
  refine ⟨Q.map (fun a => (a.1.1 :: a.1.2, a.2)), ?_, ?_, ?_⟩
  · rw [List.map_map, ← hids]
    rfl
  · rw [List.pairwise_map]
    exact hpw
  · intro a ha
    rw [List.mem_map] at ha
    obtain ⟨b, hb, rfl⟩ := ha
    obtain ⟨c, n, hc, hn, hid, hre⟩ := hall b hb
    refine ⟨n, ?_, hid, hre⟩
    rw [Traversal.nodeAt]
    simp only [Traversal.TraverseNode.childs, hc]
    exact hn

theorem Traversal.forestAntichain_cons (c : Traversal.TraverseNode)
    (cs : List Traversal.TraverseNode) (ids1 ids2 : List TileId)
    (h1 : Traversal.RenderedAntichain c ids1) (h2 : Traversal.ForestAntichain cs ids2) :
    Traversal.ForestAntichain (c :: cs) (ids1 ++ ids2) := by
  obtain ⟨Q1, hids1, hpw1, hall1⟩ := h1
  obtain ⟨Q2, hids2, hpw2, hall2⟩ := h2
  refine ⟨Q1.map (fun a => ((0, a.1), a.2)) ++ Q2.map (fun a => ((a.1.1 + 1, a.1.2), a.2)),
    ?_, ?_, ?_⟩
  · rw [List.map_append, List.map_map, List.map_map, ← hids1, ← hids2]
    rfl
  · rw [List.pairwise_append]
    refine ⟨?_, ?_, ?_⟩
    · rw [List.pairwise_map]
      refine hpw1.imp ?_
      intro a b hab
      refine ⟨fun hp => hab.1 ?_, fun hp => hab.2 ?_⟩
      · exact (List.cons_prefix_cons.1 hp).2
      · exact (List.cons_prefix_cons.1 hp).2
    · rw [List.pairwise_map]
      refine hpw2.imp ?_
      intro a b hab
      refine ⟨fun hp => hab.1 ?_, fun hp => hab.2 ?_⟩
      · obtain ⟨h3, h4⟩ := List.cons_prefix_cons.1 hp
        exact List.cons_prefix_cons.2 ⟨by simpa using h3, h4⟩
      · obtain ⟨h3, h4⟩ := List.cons_prefix_cons.1 hp
        exact List.cons_prefix_cons.2 ⟨by simpa using h3, h4⟩
    · intro a ha b hb
      rw [List.mem_map] at ha hb
      obtain ⟨a0, _, rfl⟩ := ha
      obtain ⟨b0, _, rfl⟩ := hb
      refine ⟨fun hp => ?_, fun hp => ?_⟩
      · have := (List.cons_prefix_cons.1 hp).1
        simp at this
      · have := (List.cons_prefix_cons.1 hp).1
        simp at this
  · intro a ha
    rw [List.mem_append, List.mem_map, List.mem_map] at ha
    rcases ha with ⟨a0, ha0, rfl⟩ | ⟨a0, ha0, rfl⟩
    · obtain ⟨n, hn, hid, hre⟩ := hall1 a0 ha0
      exact ⟨c, n, by simp, hn, hid, hre⟩
    · obtain ⟨c0, n, hc0, hn, hid, hre⟩ := hall2 a0 ha0
      exact ⟨c0, n, by simpa using hc0, hn, hid, hre⟩

theorem Traversal.forChilds_antichain
    (f : Traversal.TraverseNode → Traversal.Frame →
      Option (Except Traversal.Failure (Traversal.TraverseNode × Traversal.Frame)))
    (hf : ∀ t s t' s', f t s = some (Except.ok (t', s')) →
      ∃ ids, s'.rendered = s.rendered ++ ids ∧ Traversal.RenderedAntichain t' ids)
    (l l' : List Traversal.TraverseNode) (s s' : Traversal.Frame)
    (h : Traversal.forChilds f l s = some (Except.ok (l', s'))) :
    ∃ ids, s'.rendered = s.rendered ++ ids ∧ Traversal.ForestAntichain l' ids := by
  induction l generalizing s l' with
  | nil =>
    simp only [Traversal.forChilds, Option.some.injEq, Except.ok.injEq, Prod.mk.injEq] at h
    obtain ⟨hl, hs⟩ := h
    subst hl
    subst hs
    exact ⟨[], by simp, [], rfl, List.Pairwise.nil, fun a ha => by cases ha⟩
  | cons t rest ih =>
    rw [Traversal.forChilds] at h
    rcases hft : f t s with _ | (e | ⟨t1, s1⟩)
    · rw [hft] at h; cases h
    · rw [hft] at h; cases h
    · rw [hft] at h
      simp only at h
      rcases hrest : Traversal.forChilds f rest s1 with _ | (e | ⟨r1, s2⟩)
      · rw [hrest] at h; cases h
      · rw [hrest] at h; cases h
      · rw [hrest] at h
        simp only [Option.some.injEq, Except.ok.injEq, Prod.mk.injEq] at h
        obtain ⟨hl, hs⟩ := h
        subst hl
        subst hs
        obtain ⟨ids1, hr1, hp1⟩ := hf t s t1 s1 hft
        obtain ⟨ids2, hr2, hp2⟩ := ih r1 s1 hrest
        exact ⟨ids1 ++ ids2, by rw [hr2, hr1, List.append_assoc],
          Traversal.forestAntichain_cons t1 r1 ids1 ids2 hp1 hp2⟩

theorem Traversal.forChilds_same_rendered
    (f : Traversal.TraverseNode → Traversal.Frame →
      Option (Except Traversal.Failure (Traversal.TraverseNode × Traversal.Frame)))
    (hf : ∀ t s t' s', f t s = some (Except.ok (t', s')) → s'.rendered = s.rendered)
    (l l' : List Traversal.TraverseNode) (s s' : Traversal.Frame)
    (h : Traversal.forChilds f l s = some (Except.ok (l', s'))) :
    s'.rendered = s.rendered := by
  induction l generalizing s l' with
  | nil =>
    simp only [Traversal.forChilds, Option.some.injEq, Except.ok.injEq, Prod.mk.injEq] at h
    rw [← h.2]
  | cons t rest ih =>
    rw [Traversal.forChilds] at h
    rcases hft : f t s with _ | (e | ⟨t1, s1⟩)
    · rw [hft] at h; cases h
    · rw [hft] at h; cases h
    · rw [hft] at h
      simp only at h
      rcases hrest : Traversal.forChilds f rest s1 with _ | (e | ⟨r1, s2⟩)
      · rw [hrest] at h; cases h
      · rw [hrest] at h; cases h
      · rw [hrest] at h
        simp only [Option.some.injEq, Except.ok.injEq, Prod.mk.injEq] at h
        obtain ⟨hl, hs⟩ := h
        subst hl
        subst hs
        rw [ih r1 s1 hrest, hf t s t1 s1 hft]

theorem Traversal.renderStep_antichain (t : Traversal.TraverseNode) (s0 s : Traversal.Frame)
    (hs : s.rendered = s0.rendered) :
    ∃ ids, (if (!t.data.rendersEmpty) = true then Traversal.renderNode t s else s).rendered
        = s0.rendered ++ ids ∧ Traversal.RenderedAntichain t ids := by
  by_cases hre : t.data.rendersEmpty = true
  · simp only [hre, Bool.not_true, Bool.false_eq_true, if_false]
    exact ⟨[], by rw [hs]; simp, Traversal.renderedAntichain_nil t⟩
  · have hre' : t.data.rendersEmpty = false := by simpa using hre
    simp only [hre', Bool.not_false, if_true]
    exact ⟨[t.data.nodeInfo.nodeId], by rw [← hs]; rfl,
      Traversal.renderedAntichain_self t hre'⟩

theorem Traversal.travModeFlat_antichain (E : Traversal.Env) (fuel : Nat)
    (parent : Option Traversal.NodeData) (trav trav' : Traversal.TraverseNode)
    (s s' : Traversal.Frame)
    (h : Traversal.travModeFlat E fuel parent trav s = some (Except.ok (trav', s'))) :
    ∃ ids, s'.rendered = s.rendered ++ ids ∧ Traversal.RenderedAntichain trav' ids := by
  induction fuel generalizing parent trav trav' s s' with
  | zero => simp [Traversal.travModeFlat] at h
  | succ fuel ih =>
    rw [Traversal.travModeFlat] at h
    rcases hinit : Traversal.travInit E parent trav s with e | ⟨b, t1, s1⟩
    · rw [hinit] at h; cases h
    · rw [hinit] at h
      have hr1 := (Traversal.travInit_frame E parent trav t1 s s1 b hinit).1
      cases b with
      | false =>
        simp only [Option.some.injEq, Except.ok.injEq, Prod.mk.injEq] at h
        exact ⟨[], by rw [← h.2, hr1]; simp, Traversal.renderedAntichain_nil _⟩
      | true =>
        simp only at h
        split_ifs at h with hvis hcoarse
        · simp only [Option.some.injEq, Except.ok.injEq, Prod.mk.injEq] at h
          exact ⟨[], by rw [← h.2, hr1]; simp, Traversal.renderedAntichain_nil _⟩
        · rcases hens : Traversal.ensureDraws E parent t1 (Traversal.touchDraws E t1.data s1)
            with e | ⟨t2, s2⟩
          · rw [hens] at h; cases h
          · rw [hens] at h
            have hr2 := Traversal.ensureDraws_frame E parent t1 t2 _ s2 hens
            simp only [Option.some.injEq, Except.ok.injEq, Prod.mk.injEq] at h
            obtain ⟨ht, hs⟩ := h
            subst ht
            subst hs
            exact Traversal.renderStep_antichain t2 s s2 (by rw [hr2]; exact hr1)
        · rcases hfc : Traversal.forChilds
            (fun t s => Traversal.travModeFlat E fuel (some t1.data) t s) t1.childs s1
            with _ | (e | ⟨cs, s2⟩)
          · rw [hfc] at h; cases h
          · rw [hfc] at h; cases h
          · rw [hfc] at h
            simp only [Option.some.injEq, Except.ok.injEq, Prod.mk.injEq] at h
            obtain ⟨ht, hs⟩ := h
            subst ht
            subst hs
            obtain ⟨ids, hr, hfa⟩ := Traversal.forChilds_antichain _
              (fun t s t' s' hh => ih (some t1.data) t t' s s' hh) t1.childs cs s1 s2 hfc
            exact ⟨ids, by rw [hr, hr1], Traversal.forestAntichain_tree _ cs ids hfa⟩

theorem Traversal.travModeFixed_antichain (E : Traversal.Env) (fuel : Nat)
    (parent : Option Traversal.NodeData) (trav trav' : Traversal.TraverseNode)
    (s s' : Traversal.Frame)
    (h : Traversal.travModeFixed E fuel parent trav s = some (Except.ok (trav', s'))) :
    ∃ ids, s'.rendered = s.rendered ++ ids ∧ Traversal.RenderedAntichain trav' ids := by
  induction fuel generalizing parent trav trav' s s' with
  | zero => simp [Traversal.travModeFixed] at h
  | succ fuel ih =>
    rw [Traversal.travModeFixed] at h
    rcases hinit : Traversal.travInit E parent trav s with e | ⟨b, t1, s1⟩
    · rw [hinit] at h; cases h
    · rw [hinit] at h
      have hr1 := (Traversal.travInit_frame E parent trav t1 s s1 b hinit).1
      cases b with
      | false =>
        simp only [Option.some.injEq, Except.ok.injEq, Prod.mk.injEq] at h
        exact ⟨[], by rw [← h.2, hr1]; simp, Traversal.renderedAntichain_nil _⟩
      | true =>
        simp only at h
        split_ifs at h with hdist hlod
        · simp only [Option.some.injEq, Except.ok.injEq, Prod.mk.injEq] at h
          exact ⟨[], by rw [← h.2, hr1]; simp, Traversal.renderedAntichain_nil _⟩
        · rcases hens : Traversal.ensureDraws E parent t1 (Traversal.touchDraws E t1.data s1)
            with e | ⟨t2, s2⟩
          · rw [hens] at h; cases h
          · rw [hens] at h
            have hr2 := Traversal.ensureDraws_frame E parent t1 t2 _ s2 hens
            simp only [Option.some.injEq, Except.ok.injEq, Prod.mk.injEq] at h
            obtain ⟨ht, hs⟩ := h
            subst ht
            subst hs
            exact Traversal.renderStep_antichain t2 s s2 (by rw [hr2]; exact hr1)
        · rcases hfc : Traversal.forChilds
            (fun t s => Traversal.travModeFixed E fuel (some t1.data) t s) t1.childs s1
            with _ | (e | ⟨cs, s2⟩)
          · rw [hfc] at h; cases h
          · rw [hfc] at h; cases h
          · rw [hfc] at h
            simp only [Option.some.injEq, Except.ok.injEq, Prod.mk.injEq] at h
            obtain ⟨ht, hs⟩ := h
            subst ht
            subst hs
            obtain ⟨ids, hr, hfa⟩ := Traversal.forChilds_antichain _
              (fun t s t' s' hh => ih (some t1.data) t t' s s' hh) t1.childs cs s1 s2 hfc
            exact ⟨ids, by rw [hr, hr1], Traversal.forestAntichain_tree _ cs ids hfa⟩

theorem Traversal.travModeHierarchical_quiet (E : Traversal.Env) (fuel : Nat)
    (parent : Option Traversal.NodeData) (t t' : Traversal.TraverseNode)
    (s s' : Traversal.Frame)
    (h : Traversal.travModeHierarchical E fuel parent t true s = some (Except.ok (t', s'))) :
    s'.rendered = s.rendered := by
  cases fuel with
  | zero => simp [Traversal.travModeHierarchical] at h
  | succ fuel => exact (Traversal.travModeHierarchical_loadOnly E fuel parent t s).2 t' s' h

theorem Traversal.travModeHierarchical_antichain (E : Traversal.Env) (fuel : Nat)
    (parent : Option Traversal.NodeData) (trav trav' : Traversal.TraverseNode)
    (loadOnly : Bool) (s s' : Traversal.Frame)
    (h : Traversal.travModeHierarchical E fuel parent trav loadOnly s
      = some (Except.ok (trav', s'))) :
    ∃ ids, s'.rendered = s.rendered ++ ids ∧ Traversal.RenderedAntichain trav' ids := by
  induction fuel generalizing parent trav trav' loadOnly s s' with
  | zero => simp [Traversal.travModeHierarchical] at h
  | succ fuel ih =>
    rw [Traversal.travModeHierarchical] at h
    rcases hinit : Traversal.travInit E parent trav s with e | ⟨b, t1, s1⟩
    · rw [hinit] at h; cases h
    · rw [hinit] at h
      have hr1 := (Traversal.travInit_frame E parent trav t1 s s1 b hinit).1
      cases b with
      | false =>
        simp only [Option.some.injEq, Except.ok.injEq, Prod.mk.injEq] at h
        exact ⟨[], by rw [← h.2, hr1]; simp, Traversal.renderedAntichain_nil _⟩
      | true =>
        simp only at h
        rcases hens : Traversal.ensureDraws E parent t1 (Traversal.touchDraws E t1.data s1)
          with e | ⟨t2, s2⟩
        · rw [hens] at h; cases h
        · rw [hens] at h
          have hr2 : s2.rendered = s.rendered := by
            rw [Traversal.ensureDraws_frame E parent t1 t2 _ s2 hens]
            exact hr1
          simp only at h
          by_cases hload : loadOnly = true
          · rw [if_pos hload] at h
            simp only [Option.some.injEq, Except.ok.injEq, Prod.mk.injEq] at h
            exact ⟨[], by rw [← h.2, hr2]; simp, Traversal.renderedAntichain_nil _⟩
          rw [if_neg hload] at h
          by_cases hvis : (!E.visibilityTest t2.data) = true
          · rw [if_pos hvis] at h
            simp only [Option.some.injEq, Except.ok.injEq, Prod.mk.injEq] at h
            exact ⟨[], by rw [← h.2, hr2]; simp, Traversal.renderedAntichain_nil _⟩
          rw [if_neg hvis] at h
          by_cases hcoarse : (E.coarsenessTest t2.data || t2.childs.isEmpty) = true
          · rw [if_pos hcoarse] at h
            simp only [Option.some.injEq, Except.ok.injEq, Prod.mk.injEq] at h
            obtain ⟨ht, hs⟩ := h
            subst ht
            subst hs
            exact Traversal.renderStep_antichain t2 s s2 hr2
          rw [if_neg hcoarse] at h
          rcases hfc : Traversal.forChilds
            (fun t s => Traversal.travModeHierarchical E fuel (some t2.data) t
              (!Traversal.childsOk t2.childs true) s) t2.childs s2
            with _ | (e | ⟨cs, s3⟩)
          · rw [hfc] at h; cases h
          · rw [hfc] at h; cases h
          · rw [hfc] at h
            simp only [Option.some.injEq, Except.ok.injEq, Prod.mk.injEq] at h
            obtain ⟨ht, hs⟩ := h
            subst ht
            cases hok : Traversal.childsOk t2.childs true with
            | true =>
              rw [hok] at hs
              simp only [Bool.not_true, Bool.false_and, Bool.false_eq_true, if_false] at hs
              subst hs
              obtain ⟨ids, hr, hfa⟩ := Traversal.forChilds_antichain _
                (fun t s t' s' hh => ih (some t2.data) t t' _ s s' hh) t2.childs cs s2 s3 hfc
              exact ⟨ids, by rw [hr, hr2], Traversal.forestAntichain_tree _ cs ids hfa⟩
            | false =>
              rw [hok] at hs hfc
              simp only [Bool.not_false, Bool.true_and] at hs
              have hr3 : s3.rendered = s.rendered := by
                rw [Traversal.forChilds_same_rendered _
                  (fun t s t' s' hh =>
                    Traversal.travModeHierarchical_quiet E fuel (some t2.data) t t' s s' hh)
                  t2.childs cs s2 s3 hfc]
                exact hr2
              subst hs
              exact Traversal.renderStep_antichain (.mk t2.data cs) s s3 hr3

/-- C27: in one run of `travModeHierarchical`, `travModeFlat` or `travModeFixed` the calls of
`renderNode` are on nodes of the tree that form an antichain (no two on the same node, none
on a node and one of its descendants), and each of these nodes has draws: the tiles appended
to the frame's list of rendered tiles are those of nodes at pairwise incomparable paths of
the resulting tree, each with `rendersEmpty` false. -/
theorem traversal_renders_antichain :
    (∀ (E : Traversal.Env) (fuel : Nat) (parent : Option Traversal.NodeData)
      (trav trav' : Traversal.TraverseNode) (loadOnly : Bool) (s s' : Traversal.Frame),
      Traversal.travModeHierarchical E fuel parent trav loadOnly s
        = some (Except.ok (trav', s')) →
      ∃ ids, s'.rendered = s.rendered ++ ids ∧ Traversal.RenderedAntichain trav' ids) ∧
    (∀ (E : Traversal.Env) (fuel : Nat) (parent : Option Traversal.NodeData)
      (trav trav' : Traversal.TraverseNode) (s s' : Traversal.Frame),
      Traversal.travModeFlat E fuel parent trav s = some (Except.ok (trav', s')) →
      ∃ ids, s'.rendered = s.rendered ++ ids ∧ Traversal.RenderedAntichain trav' ids) ∧
    (∀ (E : Traversal.Env) (fuel : Nat) (parent : Option Traversal.NodeData)
      (trav trav' : Traversal.TraverseNode) (s s' : Traversal.Frame),
      Traversal.travModeFixed E fuel parent trav s = some (Except.ok (trav', s')) →
      ∃ ids, s'.rendered = s.rendered ++ ids ∧ Traversal.RenderedAntichain trav' ids) :=
  ⟨Traversal.travModeHierarchical_antichain, Traversal.travModeFlat_antichain,
    Traversal.travModeFixed_antichain⟩

/-- The theorem `traversal_renders_antichain` at the sample parent, whose child has no meta
yet: the hierarchical run renders the parent alone. -/
theorem traversal_renders_antichain_witness :
    Traversal.finished
      (Traversal.travModeHierarchical sampleTEnv 2 none sampleParentNode false sampleTFrame)
        = true ∧
    (Traversal.result
      (Traversal.travModeHierarchical sampleTEnv 2 none sampleParentNode false sampleTFrame)
      sampleParentNode sampleTFrame).2.rendered = [⟨0, 0, 0⟩] ∧
    ∃ ids,
      (Traversal.result
        (Traversal.travModeHierarchical sampleTEnv 2 none sampleParentNode false sampleTFrame)
        sampleParentNode sampleTFrame).2.rendered = sampleTFrame.rendered ++ ids ∧
      Traversal.RenderedAntichain
        (Traversal.result
          (Traversal.travModeHierarchical sampleTEnv 2 none sampleParentNode false sampleTFrame)
          sampleParentNode sampleTFrame).1 ids :=
  ⟨by decide, by decide,
    traversal_renders_antichain.1 sampleTEnv 2 none sampleParentNode _ false sampleTFrame _
      (Traversal.eq_of_finished _ sampleParentNode sampleTFrame (by decide))⟩

end Vts
